import Mathlib

/-! # Lowering of the GPU IR to nGEN instructions (codegen.cpp)

A shallow embedding of `src/gpu/intel/jit/codegen/codegen.cpp`: the code
generator `ir_to_ngen_t` and the expression evaluator `expr_evaluator_t`.
The generator calls an instruction host (`host_->emov`, `host_->eadd`, ...);
here every such call appends one `Instr` to the emitted sequence.
-/

namespace Codegen

/-! ## Operands and instructions -/

/-- Condition modifiers, `ngen::ConditionModifier` as used by `cmp_op_to_ngen`. -/
inductive CondMod where
  | eq | ne | ge | gt | le | lt
  deriving DecidableEq, Repr

/-- Modelled from the spec: `ngen::InstructionModifier` is declared in ngen.hpp,
outside src/. It carries the execution size, the flag register or-ed into it
(`getPredCtrl()` is `PredCtrl::None` exactly when `flag` is `none`, otherwise
`getFlagReg()` is the register held; a compare writes this register), the
predicate inversion `~`, the condition modifier and the saturation flag. -/
structure Mod where
  execSize : Nat := 0
  flag : Option Nat := none
  predInv : Bool := false
  cmod : Option CondMod := none
  sat : Bool := false
  deriving DecidableEq, Repr

/-- Modelled from the spec: `ngen::DataType` (ngen.hpp, outside src/), the
register data types codegen.cpp names, with the packed vector immediates
`uv` and `v` (eight 4-bit fields, unsigned and signed). -/
inductive DataType where
  | invalid | ub | b | uw | w | ud | d | uq | q | hf | bf | f | df | uv | v
  deriving DecidableEq, Repr

/-- Modelled from the spec: `ngen::getBytes` (ngen.hpp, outside src/), the size
in bytes of one element of a data type. -/
def getBytes : DataType → Int
  | .invalid => 0
  | .ub | .b => 1
  | .uw | .w | .hf | .bf => 2
  | .ud | .d | .f | .uv | .v => 4
  | .uq | .q | .df => 8

/-- The value range of a register data type: the result of integer arithmetic
is wrapped to the width of the destination type (two's complement). -/
def wrapTo (t : DataType) (x : Int) : Int :=
  match t with
  | .b => (x + 2 ^ 7) % 2 ^ 8 - 2 ^ 7
  | .ub => x % 2 ^ 8
  | .w => (x + 2 ^ 15) % 2 ^ 16 - 2 ^ 15
  | .uw => x % 2 ^ 16
  | .d => (x + 2 ^ 31) % 2 ^ 32 - 2 ^ 31
  | .ud => x % 2 ^ 32
  | .q => (x + 2 ^ 63) % 2 ^ 64 - 2 ^ 63
  | .uq => x % 2 ^ 64
  | _ => x

/-- Modelled from the spec: `ngen::RegData` (ngen.hpp, outside src/), a register
region: base register, byte offset inside it, element type and the region
`<vs; width, hs>`, with the negation flag `-op` sets. -/
structure RegData where
  base : Int
  byteOffset : Int
  type : DataType
  vs : Int := 0
  width : Int := 1
  hs : Int := 0
  neg : Bool := false
  deriving DecidableEq, Repr

/-- Modelled from the spec: `ngen_operand_t` (declared outside src/), the tagged
operand of the Operand Model: invalid, an immediate, a register region or a
flag register; each carries an instruction modifier. -/
inductive OperandKind where
  | invalid
  | immediate (value : Int) (type : DataType)
  | reg_buf_data (rd : RegData)
  | flag_register (index : Nat) (neg : Bool)
  deriving DecidableEq, Repr

/-- An operand: its kind and its instruction modifier (`ngen_operand_t::mod()`). -/
structure Operand where
  kind : OperandKind := OperandKind.invalid
  mod : Mod := {}
  deriving DecidableEq, Repr

namespace Operand

def is_invalid (op : Operand) : Bool :=
  match op.kind with
  | .invalid => true
  | _ => false

def is_immediate (op : Operand) : Bool :=
  match op.kind with
  | .immediate _ _ => true
  | _ => false

def is_reg_buf_data (op : Operand) : Bool :=
  match op.kind with
  | .reg_buf_data _ => true
  | _ => false

def is_reg_data (op : Operand) : Bool := op.is_reg_buf_data

def is_flag_register (op : Operand) : Bool :=
  match op.kind with
  | .flag_register _ _ => true
  | _ => false

def is_negated (op : Operand) : Bool :=
  match op.kind with
  | .reg_buf_data rd => rd.neg
  | .flag_register _ n => n
  | _ => false

/-- The data type of the operand, `ngen_operand_t::type()`. -/
def type (op : Operand) : DataType :=
  match op.kind with
  | .immediate _ t => t
  | .reg_buf_data rd => rd.type
  | _ => DataType.invalid

/-- The flag register of a flag operand, `ngen_operand_t::flag_register()`. -/
def flag_register (op : Operand) : Option Nat :=
  match op.kind with
  | .flag_register i _ => some i
  | _ => none

/-- The register region of a register operand, `reg_buf_data()` / `reg_data()`. -/
def reg_data (op : Operand) : Option RegData :=
  match op.kind with
  | .reg_buf_data rd => some rd
  | _ => none

/-- The value of an immediate operand, `to_cpp<int>(op.immediate())`. -/
def immediate (op : Operand) : Option Int :=
  match op.kind with
  | .immediate v _ => some v
  | _ => none

/-- The negated operand, `-op`: an immediate changes sign, a register region
or flag toggles its negation flag. -/
def neg (op : Operand) : Operand :=
  match op.kind with
  | .invalid => op
  | .immediate v t => { op with kind := OperandKind.immediate (-v) t }
  | .reg_buf_data rd => { op with kind := OperandKind.reg_buf_data { rd with neg := !rd.neg } }
  | .flag_register i n => { op with kind := OperandKind.flag_register i (!n) }

/-- Modelled from the spec: `ngen_operand_t::reinterpret(type)` (declared
outside src/): the same register region read with another element type; `none`
when the operand is no register region. -/
def reinterpret (op : Operand) (t : DataType) : Option Operand :=
  match op.kind with
  | .reg_buf_data rd => some { op with kind := OperandKind.reg_buf_data { rd with type := t } }
  | _ => none

end Operand

/-- Jump labels, `ngen::Label`; labels are told apart by the order of creation. -/
abbrev Label := Nat

/-- One call of the instruction host. Only the calls the modelled code paths
make are listed; `comment` calls emit no instruction and are left out. `send`
is a memory message (`send_impl_t::emit`, its operation numbered by `op`), and
`other` stands for an instruction of a specialized lowerer that the model does
not look into. -/
inductive Instr where
  | emov (mod : Mod) (dst src : Operand)
  | eadd (mod : Mod) (dst src0 src1 : Operand)
  | emul (mod : Mod) (dst src0 src1 : Operand)
  | ediv (mod : Mod) (dst src0 src1 : Operand)
  | emod (mod : Mod) (dst src0 src1 : Operand)
  | eshl (mod : Mod) (dst src0 src1 : Operand)
  | eshr (mod : Mod) (dst src0 src1 : Operand)
  | emin (mod : Mod) (dst src0 src1 : Operand)
  | emax (mod : Mod) (dst src0 src1 : Operand)
  | and_ (mod : Mod) (dst src0 src1 : Operand)
  | ecmp (mod : Mod) (src0 src1 : Operand)
  | sel (mod : Mod) (dst src0 : Operand)
  | jmpi (mod : Mod) (target : Label)
  | mark (label : Label)
  | if_ (mod : Mod) (jip uip : Label)
  | else_ (mod : Mod) (jip uip : Label)
  | endif (mod : Mod)
  | send (mod : Mod) (op : Nat) (mem_off payload : Operand)
  | add (mod : Mod) (dst src0 src1 : Operand)
  | cmp (mod : Mod) (src0 src1 : Operand)
  | while_ (mod : Mod) (target : Label)
  | other (mnemonic : Nat) (mod : Mod) (dst : Operand) (srcs : List Operand)
  deriving DecidableEq, Repr

/-- Fatal errors (`gpu_assert`, `gpu_error_not_expected`): lowering halts.
`undefined` marks C++ undefined behaviour (division by zero, an index out of
range), which the model never lets pass as a value. -/
inductive Fatal where
  | assertion (line : Nat)
  | undefined (line : Nat)
  deriving DecidableEq, Repr

/-- An immediate operand holding `v`, `ngen::Immediate(v)` of type `t`. -/
def imm (v : Int) (t : DataType) : Operand :=
  { kind := OperandKind.immediate v t }

/-- The modifier made from an execution size alone (`InstructionModifier mod = n`). -/
def execMod (n : Nat) : Mod := { execSize := n }

/-- Modelled from the spec: `mod1 | mod2` on instruction modifiers (ngen.hpp,
outside src/): the fields set in either modifier. -/
def Mod.or (a b : Mod) : Mod :=
  { execSize := max a.execSize b.execSize
    flag := match b.flag with
      | some f => some f
      | none => a.flag
    predInv := a.predInv || b.predInv
    cmod := match b.cmod with
      | some c => some c
      | none => a.cmod
    sat := a.sat || b.sat }

/-- The modifier `mod | flag` for a flag register. -/
def Mod.withFlag (m : Mod) (f : Nat) : Mod := { m with flag := some f }

/-- The predicate modifier of a flag operand, `flag_register_mod()`: the flag
register, inverted when the operand is negated. -/
def Operand.flag_register_mod (op : Operand) : Option Mod :=
  match op.kind with
  | .flag_register i n => some { flag := some i, predInv := n }
  | _ => none


/-- Modelled from the spec: `reg_buf_data_t::format(off, width, hs, type)`
(declared outside src/): the region of `width` elements of `type` with
horizontal stride `hs` that starts `off` elements after the start of `rd`; an
invalid `type` keeps the type of `rd`. The byte offset is folded into the
descriptor (base register and offset inside it), for registers of `grf_size`
bytes. -/
def RegData.format (grf_size : Int) (rd : RegData) (off width hs : Int)
    (type : DataType) : RegData :=
  let ty := if type = DataType.invalid then rd.type else type
  let bytes := rd.byteOffset + off * getBytes ty
  { base := rd.base + bytes / grf_size
    byteOffset := bytes % grf_size
    type := ty
    vs := width * hs
    width := width
    hs := hs
    neg := rd.neg }

/-- A register operand with the modifier `mod`, `ngen_operand_t(rd, mod)`. -/
def regOp (rd : RegData) (mod : Mod := {}) : Operand :=
  { kind := OperandKind.reg_buf_data rd, mod := mod }

/-- The `int` result of 32-bit signed arithmetic (two's complement wrap). -/
def wrap32 (x : Int) : Int := (x + 2 ^ 31) % 2 ^ 32 - 2 ^ 31

/-- The conversion of an `int` to `int8_t`. -/
def wrap8 (x : Int) : Int := (x + 128) % 256 - 128

/-- C++ `a / b` on `int`: truncating, undefined for a zero divisor. -/
def cdiv (a b : Int) : Option Int :=
  if b = 0 then none else some (wrap32 (Int.tdiv a b))

/-- C++ `a / b` on quantities that cannot leave the `int` range (register
numbers, byte offsets inside registers): truncating, undefined for a zero
divisor. -/
def idiv (a b : Int) : Option Int :=
  if b = 0 then none else some (Int.tdiv a b)

/-- C++ `a % b` on `int`: sign of the dividend, undefined for a zero divisor. -/
def cmod (a b : Int) : Option Int :=
  if b = 0 then none else some (Int.tmod a b)

/-! ## Constant boolean shuffle (codegen.cpp:1116-1141) -/

/-- A constant boolean shuffle: the constants `vec` and the index vector `idx`. -/
structure BoolShuffle where
  vec : List Bool
  idx : List Nat
  deriving DecidableEq, Repr

namespace BoolShuffle

/-- Number of elements, `obj.elems()`. -/
def elems (s : BoolShuffle) : Nat := s.idx.length

/-- Element `i` of the shuffle read as a C++ bool, `to_cpp<bool>(e_shuffle[i])`,
which is the constant `vec[idx[i]]`. -/
def elem (s : BoolShuffle) (i : Nat) : Bool :=
  s.vec.getD (s.idx.getD i 0) false

end BoolShuffle

/-- One iteration of the loop body at codegen.cpp:1128-1129 on a `uint32_t`:
`flag_mask <<= 1; flag_mask |= (bit ? 1 : 0)`. -/
def flagMaskStep (flag_mask : Nat) (bit : Bool) : Nat :=
  ((flag_mask <<< 1) % 2 ^ 32 ||| (if bit then 1 else 0)) % 2 ^ 32

/-- The loop `for (int i = elems - 1; i >= 0; i--)` at codegen.cpp:1127, with
`k` iterations left (the next index visited is `k - 1`). -/
def flagMaskLoop (elem : Nat → Bool) : Nat → Nat → Nat
  | 0, flag_mask => flag_mask
  | k + 1, flag_mask => flagMaskLoop elem k (flagMaskStep flag_mask (elem k))

/-- The value of `flag_mask` after the loop (it starts at 0). -/
def flagMask (s : BoolShuffle) : Nat :=
  flagMaskLoop s.elem s.elems 0

/-- The constant-boolean branch of `_visit(const shuffle_t &)`, after
`alloc_dst_op` returned `dst_op`: the two assertions, then either a move of the
immediate mask or an `and` of it into the destination flag. -/
def visit_shuffle_bool_const (dst_op : Operand) (s : BoolShuffle) :
    Except Fatal (List Instr) :=
  if !(dst_op.is_flag_register || dst_op.type == DataType.uw
        || dst_op.type == DataType.ud) then
    Except.error (Fatal.assertion 1121)
  else if dst_op.is_negated then
    Except.error (Fatal.assertion 1125)
  else
    match dst_op.mod.flag with
    | none =>
      Except.ok [Instr.emov (execMod 1) dst_op (imm (flagMask s) DataType.ud)]
    | some f =>
      match dst_op.flag_register with
      | some g =>
        if f = g then
          let flag : Operand := { kind := OperandKind.flag_register g false }
          Except.ok [Instr.and_ (execMod 1) flag flag (imm (flagMask s) DataType.ud)]
        else Except.error (Fatal.assertion 1134)
      | none => Except.error (Fatal.assertion 1134)

/-- The mask the claim describes: the bitwise OR over `i < n` of `b_i <<< i`. -/
def orMask (elem : Nat → Bool) : Nat → Nat
  | 0 => 0
  | n + 1 => orMask elem n ||| ((if elem n then 1 else 0) <<< n)

/-- The immediate operands an instruction carries as a source. -/
def Instr.immediates : Instr → List Int
  | .emov _ _ src => if let .immediate v _ := src.kind then [v] else []
  | .and_ _ _ _ src1 => if let .immediate v _ := src1.kind then [v] else []
  | _ => []

/-! ## Packed-integer peephole (codegen.cpp:1496-1605) -/

/-- A shuffle as `try_packed_int_peephole` reads it: whether its type is a
32-bit integer type (`obj.type.is_x32()`), for each element of `obj.vec` the
value `to_cpp<int64_t>` gives when it is a constant (`none` when `is_const`
fails), and the index vector `obj.idx`. -/
structure IntShuffle where
  x32 : Bool
  vec : List (Option Int)
  idx : List Nat
  deriving DecidableEq, Repr

namespace IntShuffle

/-- Number of elements, `obj.elems()`. -/
def elems (s : IntShuffle) : Nat := s.idx.length

end IntShuffle

/-- The loop at codegen.cpp:1504-1509: every element must be a constant that
fits `int`; the result is the vector `vec` of `int` values. -/
def constVec : List (Option Int) → Option (List Int)
  | [] => some []
  | none :: _ => none
  | some value :: rest =>
    if value < -(2 ^ 31) || value > 2 ^ 31 - 1 then none
    else (constVec rest).map (fun vs => value :: vs)

/-- The lambda `half_same` (codegen.cpp:1513): `std::equal` of
`idx[off+1 .. off+esize)` with `idx[off ..)`, for `esize = 8`. -/
def half_same (idx : List Nat) (off : Nat) : Bool :=
  (List.range 7).all (fun k => idx.getD (off + 1 + k) 0 == idx.getD (off + k) 0)

/-- `*std::min_element(vec.begin(), vec.end())`. -/
def vecMin : List Int → Option Int
  | [] => none
  | v :: rest => some (rest.foldl min v)

/-- `*std::max_element(vec.begin(), vec.end())`. -/
def vecMax : List Int → Option Int
  | [] => none
  | v :: rest => some (rest.foldl max v)

/-- The loop at codegen.cpp:1524-1525:
`factor = math::gcd(vec[i] - vec_min, factor)` for every `i`. The function
`math::gcd` is declared outside src/ and is taken as the parameter `gcd`. -/
def gcdLoop (gcd : Int → Int → Int) (vec_min : Int) : List Int → Int → Int
  | [], factor => factor
  | v :: rest, factor => gcdLoop gcd vec_min rest (gcd (wrap32 (v - vec_min)) factor)

/-- The lambda `check_range(f, m, a, b)` (codegen.cpp:1533): every quotient
`(vec[i] - m) / f` lies in `[a, b]`; `none` when a division by zero is made. -/
def check_range (vec : List Int) (f m a b : Int) : Option Bool :=
  match vec with
  | [] => some true
  | v :: rest =>
    match cdiv (wrap32 (v - m)) f with
    | none => none
    | some d => if d < a || d > b then some false else check_range rest f m a b

/-- The loop `for (int f : {1, factor, -factor})` (codegen.cpp:1542-1549) over
the candidates still to try: the first candidate that passes a range check
becomes the factor; the result is `(use_uv, use_v, factor)`. -/
def selectFactor (vec : List Int) (vec_min factor : Int) :
    List Int → Option (Bool × Bool × Int)
  | [] => some (false, false, factor)
  | f :: fs =>
    match check_range vec f vec_min 0 15, check_range vec f vec_min (-8) 7 with
    | some use_uv, some use_v =>
      if use_uv || use_v then some (use_uv, use_v, f)
      else selectFactor vec vec_min factor fs
    | _, _ => none

/-- The bits of an `int` as an unsigned 32-bit word. -/
def toU32 (x : Int) : Nat := (x % 2 ^ 32).toNat

/-- The lambda `set_packed(packed, value, idx)` (codegen.cpp:1561); `value` is
an `int8_t`, already converted. -/
def set_packed (packed : Nat) (value : Int) (idx : Nat) : Nat :=
  let v : Nat := if value ≥ 0 then toU32 value else ((toU32 value &&& 0x7) ||| 0x8)
  packed ||| ((v <<< (idx * 4)) % 2 ^ 32)

/-- The inner loop at codegen.cpp:1575-1576 for the group starting at element
`i`, from `j` on with `n` iterations left. -/
def packLoop (vec : List Int) (idx : List Nat) (vec_min factor : Int) (i : Nat) :
    Nat → Nat → Nat → Option Nat
  | 0, _, packed => some packed
  | n + 1, j, packed =>
    match idx[i + j]? with
    | none => none
    | some k =>
      match vec[k]? with
      | none => none
      | some v =>
        match cdiv (wrap32 (v - vec_min)) factor with
        | none => none
        | some q => packLoop vec idx vec_min factor i n (j + 1) (set_packed packed (wrap8 q) j)

/-- The packed immediate of the group starting at element `i`. -/
def packGroup (vec : List Int) (idx : List Nat) (vec_min factor : Int) (i : Nat) :
    Option Nat :=
  packLoop vec idx vec_min factor i 8 0 0

/-- The outer loop `for (int i = 0; i < obj.elems(); i += esize)`: the packed
immediates of the groups number `g`, `g+1`, ..., `n` groups in all. -/
def packGroups (vec : List Int) (idx : List Nat) (vec_min factor : Int) :
    Nat → Nat → Option (List Nat)
  | 0, _ => some []
  | n + 1, g =>
    match packGroup vec idx vec_min factor (8 * g),
          packGroups vec idx vec_min factor n (g + 1) with
    | some p, some ps => some (p :: ps)
    | _, _ => none

/-- What an accepted packed-integer peephole emits: the form chosen, the final
`factor` and `vec_min`, the packed immediates (one for each group of eight
elements) and the instructions. -/
structure Packed where
  use_uv : Bool
  factor : Int
  vec_min : Int
  packed : List Nat
  code : List Instr
  deriving DecidableEq, Repr

/-- The instructions of codegen.cpp:1573-1602: one move of a packed immediate
for each group into the temporary `tmp`, then the multiply by `factor` unless
it is 1, then the add of `vec_min` when `factor` is 1 or `vec_min` is not 0. -/
def packedCode (grf_size : Int) (dst tmp : RegData) (elems : Nat) (use_uv : Bool)
    (factor vec_min : Int) (packed : List Nat) : List Instr :=
  let w_type := if use_uv then DataType.uw else DataType.w
  let movs := packed.enum.map (fun (g, p) =>
    Instr.emov (execMod 8) (regOp (tmp.format grf_size (8 * g) 8 1 w_type))
      (imm p (if use_uv then DataType.uv else DataType.v)))
  let d := regOp (dst.format grf_size 0 elems dst.hs DataType.invalid)
  let t := regOp (tmp.format grf_size 0 elems 1 w_type)
  movs
    ++ (if factor ≠ 1 then [Instr.emul (execMod elems) d t (imm factor DataType.d)] else [])
    ++ (if factor = 1 ∨ vec_min ≠ 0 then
          [Instr.eadd (execMod elems) d (if factor = 1 then t else d)
            (imm vec_min DataType.d)]
        else [])

/-- The function `try_packed_int_peephole` (codegen.cpp:1496-1605), from its
entry to the instructions emitted; `dst` is the region `alloc_dst_op` returns
and `tmp` the register `alloc_reg_buf_data(1)` returns. `Except.ok none` is
`return false`, `Except.ok (some r)` is `return true` after emitting `r.code`. -/
def try_packed_int_peephole (gcd : Int → Int → Int) (grf_size : Int)
    (dst tmp : RegData) (obj : IntShuffle) : Except Fatal (Option Packed) :=
  if !obj.x32 then Except.ok none
  else if !(obj.elems == 8 || obj.elems == 16) then Except.ok none
  else
    match constVec obj.vec with
    | none => Except.ok none
    | some vec =>
      if half_same obj.idx 0 && half_same obj.idx (8 % obj.elems) then Except.ok none
      else
        match vecMin vec, vecMax vec with
        | some vec_min, some vec_max =>
          let factor := gcdLoop gcd vec_min vec (wrap32 (vec_max - vec_min))
          if factor < -(2 ^ 15) || factor > 2 ^ 15 - 1 then Except.ok none
          else
            match selectFactor vec vec_min factor [1, factor, wrap32 (-factor)] with
            | none => Except.error (Fatal.undefined 1535)
            | some (use_uv, use_v, factor) =>
              if !use_uv && !use_v then Except.ok none
              else
                match cmod vec_min factor with
                | none => Except.error (Fatal.undefined 1551)
                | some r =>
                  let retry : Option (Option (Bool × Bool)) :=
                    if r = 0 then
                      match check_range vec factor 0 0 15,
                            check_range vec factor 0 (-8) 7 with
                      | some new_use_uv, some new_use_v =>
                        some (if new_use_uv || new_use_v
                              then some (new_use_uv, new_use_v) else none)
                      | _, _ => none
                    else some none
                  match retry with
                  | none => Except.error (Fatal.undefined 1535)
                  | some upd =>
                    let vec_min := if upd.isSome then 0 else vec_min
                    let use_uv := match upd with
                      | some (u, _) => u
                      | none => use_uv
                    match packGroups vec obj.idx vec_min factor (obj.elems / 8) 0 with
                    | none => Except.error (Fatal.undefined 1576)
                    | some packed =>
                      Except.ok (some
                        { use_uv := use_uv
                          factor := factor
                          vec_min := vec_min
                          packed := packed
                          code := packedCode grf_size dst tmp obj.elems use_uv
                                    factor vec_min packed })
        | _, _ => Except.error (Fatal.undefined 1520)

/-- Modelled from the spec: `math::gcd` is declared outside src/; the greatest
common divisor of two integers, computed on their absolute values. -/
def math_gcd (a b : Int) : Int := (Int.gcd a b : Nat)

/-- The 4-bit field number `j` of a packed immediate. -/
def nibble (packed : Nat) (j : Nat) : Nat := (packed >>> (4 * j)) % 16

/-- How the hardware reads a 4-bit field: unsigned for `:uv`, 4-bit two's
complement for `:v`. -/
def decodeNibble (use_uv : Bool) (n : Nat) : Int :=
  if use_uv then n else if n ≥ 8 then (n : Int) - 16 else n

/-- A destination region used in examples: eight dwords of register 10. -/
def exampleDst : RegData :=
  { base := 10, byteOffset := 0, type := DataType.d, vs := 8, width := 8, hs := 1 }

/-- A temporary register used in examples: register 20. -/
def exampleTmp : RegData := { base := 20, byteOffset := 0, type := DataType.ud }

/-- The shuffle of the constants 100, 103, ..., 121 in identity order. -/
def progressionShuffle : IntShuffle :=
  ⟨true, [some 100, some 103, some 106, some 109, some 112, some 115, some 118, some 121],
    [0, 1, 2, 3, 4, 5, 6, 7]⟩

/-! ## Region peephole (codegen.cpp:1420-1494) -/

/-- An element of `obj.vec` as `try_region_peephole` sees it: whether it is a
`load_t`, and the operand `eval(obj.vec[i])` returns for it. -/
structure ShuffleElem where
  is_load : Bool
  op : Operand
  deriving DecidableEq, Repr

/-- The two patterns the region peephole recognises. -/
inductive RegionPattern where
  | xxyy
  | xyxy
  deriving DecidableEq, Repr

/-- The loop at codegen.cpp:1426-1436: every element is a load that evaluates
to a register region, and all regions have one data type. `Except.ok none` is
`return false`; otherwise the regions and the common type. -/
def evalLoads : List ShuffleElem → DataType → Except Fatal (Option (List RegData × DataType))
  | [], data_type => Except.ok (some ([], data_type))
  | e :: rest, data_type =>
    if !e.is_load then Except.ok none
    else
      match e.op.kind with
      | OperandKind.reg_buf_data rbd =>
        if data_type = DataType.invalid then
          match evalLoads rest rbd.type with
          | Except.ok (some (vec, t)) => Except.ok (some (rbd :: vec, t))
          | other => other
        else if data_type ≠ rbd.type then Except.ok none
        else
          match evalLoads rest data_type with
          | Except.ok (some (vec, t)) => Except.ok (some (rbd :: vec, t))
          | other => other
      | _ => Except.error (Fatal.assertion 1429)

/-- The byte location of a register region: `getBase() * grf_size +
getByteOffset()`, as the lambda `diff_bytes` computes it. Register numbers and
offsets are small bit-fields, so this `int` arithmetic does not wrap. -/
def byteLoc (grf_size : Int) (rd : RegData) : Int :=
  rd.base * grf_size + rd.byteOffset

/-- The lambda `diff_bytes(a, b)` (codegen.cpp:1439). -/
def diff_bytes (grf_size : Int) (a b : RegData) : Int :=
  byteLoc grf_size b - byteLoc grf_size a

/-- `utils::div_up(a, b)`, that is `(a + b - 1) / b`. -/
def div_up (a b : Int) : Option Int := idiv (a + b - 1) b

/-- The lambda `is_xxyy` (codegen.cpp:1453). -/
def is_xxyy (allow_vert_stride_region : Bool) (idx : List Nat) : Bool :=
  if !allow_vert_stride_region then false
  else (List.range (idx.length / 2)).all (fun i =>
    !(idx.getD i 0 != 0) && !(idx.getD (i + idx.length / 2) 0 != 1))

/-- The loop of the lambda `is_xyxy` (codegen.cpp:1473), for `i`, `i+1`, ...
with `n` iterations left; `none` when `vec` is read out of range. -/
def is_xyxy_loop (grf_size : Int) (vec : List RegData) (idx : List Nat)
    (stride_bytes : Int) : Nat → Nat → Option Bool
  | 0, _ => some true
  | n + 1, i =>
    if idx.getD i 0 != i then some false
    else if idx.getD i 0 != idx.getD (i + idx.length / 2) 0 then some false
    else if i > 0 then
      match vec[i - 1]?, vec[i]? with
      | some a, some b =>
        if diff_bytes grf_size a b != stride_bytes then some false
        else is_xyxy_loop grf_size vec idx stride_bytes n (i + 1)
      | _, _ => none
    else is_xyxy_loop grf_size vec idx stride_bytes n (i + 1)

/-- The lambda `is_xyxy` (codegen.cpp:1473). -/
def is_xyxy (grf_size : Int) (vec : List RegData) (idx : List Nat)
    (stride_bytes : Int) : Option Bool :=
  is_xyxy_loop grf_size vec idx stride_bytes (idx.length / 2) 0

/-- `rd.setRegion(vs, width, hs)`. -/
def RegData.setRegion (rd : RegData) (vs width hs : Int) : RegData :=
  { rd with vs := vs, width := width, hs := hs }

/-- The function `try_region_peephole` (codegen.cpp:1420-1494) for a shuffle
with elements `objVec` and index vector `idx` (`obj.elems()` is the length of
`idx`). All `int` quantities are byte distances between register operands and
products of them with element counts, far inside the `int` range, so the
arithmetic is exact. `Except.ok none` is `return false`; `Except.ok (some (p, rd))` is
`return true` after `bind(obj, reg_buf_data_t(rb, rd))` through pattern `p`. -/
def try_region_peephole (grf_size : Int) (allow_vert_stride_region : Bool)
    (objVec : List ShuffleElem) (idx : List Nat) :
    Except Fatal (Option (RegionPattern × RegData)) :=
  let elems := idx.length
  if elems % 2 != 0 then Except.ok none
  else
    match evalLoads objVec DataType.invalid with
    | Except.error e => Except.error e
    | Except.ok none => Except.ok none
    | Except.ok (some (vec, data_type)) =>
      match vec[0]?, vec[1]? with
      | some vec0, some vec1 =>
        let type_size := getBytes data_type
        let stride_bytes := diff_bytes grf_size vec0 vec1
        match cmod stride_bytes type_size, idiv stride_bytes type_size with
        | some r, some q =>
          if stride_bytes < 0 || r != 0 then Except.ok none
          else if is_xxyy allow_vert_stride_region idx then
            match div_up (stride_bytes * 2) grf_size with
            | none => Except.error (Fatal.undefined 1464)
            | some regs =>
              if regs > 2 then Except.ok none
              else Except.ok (some (RegionPattern.xxyy, vec0.setRegion q (elems / 2 : Nat) 0))
          else
            match is_xyxy grf_size vec idx stride_bytes with
            | none => Except.error (Fatal.undefined 1477)
            | some false => Except.ok none
            | some true =>
              match div_up (Int.tdiv (stride_bytes * elems) 2) grf_size with
              | none => Except.error (Fatal.undefined 1485)
              | some regs =>
                if regs > 2 then Except.ok none
                else Except.ok (some (RegionPattern.xyxy, vec0.setRegion 0 (elems / 2 : Nat) q))
        | _, _ =>
          if stride_bytes < 0 then Except.ok none else Except.error (Fatal.undefined 1450)
      | _, _ => Except.error (Fatal.undefined 1449)

/-- The byte a register region addresses for element `i` of an instruction:
row `i / width` and column `i % width`, at
`byteOffset + (column * hs + row * vs) * type_size` (the region arithmetic of
the lambda `shift`, codegen.cpp:397-403), from the start of the region. -/
def regionElemLoc (grf_size : Int) (rd : RegData) (i : Nat) : Int :=
  let type_size := getBytes rd.type
  let w := Int.tmod i rd.width
  let h := Int.tdiv i rd.width
  rd.base * grf_size + (rd.byteOffset + (w * rd.hs + h * rd.vs) * type_size)

/-- A scalar load operand at `base.byteOffset` of type `t`. -/
def loadElem (base byteOffset : Int) (t : DataType) : ShuffleElem :=
  { is_load := true
    op := regOp { base := base, byteOffset := byteOffset, type := t } }

/-! ## IR expressions and the binding table -/

/-- Scalar kinds of the IR type `type_t` (declared outside src/). -/
inductive TypeKind where
  | bool | s8 | u8 | s16 | u16 | s32 | u32 | s64 | u64 | bf16 | f16 | f32 | f64 | byte_ptr
  deriving DecidableEq, Repr

/-- Modelled from the spec: the IR type `type_t` (declared outside src/), a
scalar kind and a number of elements (1 for a scalar). -/
structure IrType where
  kind : TypeKind
  elems : Nat := 1
  deriving DecidableEq, Repr

/-- Size in bytes of one element of a scalar kind. -/
def TypeKind.size : TypeKind → Int
  | .bool | .s8 | .u8 => 1
  | .s16 | .u16 | .bf16 | .f16 => 2
  | .s32 | .u32 | .f32 => 4
  | .s64 | .u64 | .f64 | .byte_ptr => 8

/-- The nGEN data type of a scalar kind, `to_ngen(type)`. -/
def to_ngen : TypeKind → DataType
  | .bool => DataType.invalid
  | .s8 => DataType.b
  | .u8 => DataType.ub
  | .s16 => DataType.w
  | .u16 => DataType.uw
  | .s32 => DataType.d
  | .u32 => DataType.ud
  | .s64 => DataType.q
  | .u64 | .byte_ptr => DataType.uq
  | .bf16 => DataType.bf
  | .f16 => DataType.hf
  | .f32 => DataType.f
  | .f64 => DataType.df

namespace IrType

def is_bool (t : IrType) : Bool := t.kind == TypeKind.bool

def is_scalar (t : IrType) : Bool := t.elems == 1

/-- Size in bytes of the scalar type, `type.scalar().size()`. -/
def scalar_size (t : IrType) : Int := t.kind.size

/-- Size in bits of the whole type, `type.bitsize()`. -/
def bitsize (t : IrType) : Int := t.kind.size * 8 * t.elems

/-- Size in bytes of the whole type, `type.size()`. -/
def size (t : IrType) : Int := t.kind.size * t.elems

/-- Whether the scalar kind is an integer kind, `type.is_int()`. -/
def is_int (t : IrType) : Bool :=
  match t.kind with
  | .s8 | .u8 | .s16 | .u16 | .s32 | .u32 | .s64 | .u64 => true
  | _ => false

end IrType

/-- Binary operators that `ebinary` lowers to one instruction (the boolean
`and` and `prelu` cases are not part of this model). -/
inductive OpKind where
  | add | sub | mul | div | mod | shl | shr | min | max
  | eq | ne | ge | gt | le | lt
  deriving DecidableEq, Repr

def is_cmp_op : OpKind → Bool
  | .eq | .ne | .ge | .gt | .le | .lt => true
  | _ => false

/-- The function `cmp_op_to_ngen` (codegen.cpp:39-51); `none` is the fatal
`default:` case. -/
def cmp_op_to_ngen : OpKind → Option CondMod
  | .eq => some CondMod.eq
  | .ne => some CondMod.ne
  | .ge => some CondMod.ge
  | .gt => some CondMod.gt
  | .le => some CondMod.le
  | .lt => some CondMod.lt
  | _ => none

/-- IR expressions (`expr_t`), the kinds this model lowers. Every node carries
the identity `id` of its object: the binding table is keyed by object, so two
nodes are the same key exactly when they are the same object, and a node that
several parents reference appears under each parent with the same `id`.
`empty` is the empty expression `expr_t()`; a load with `stride = none` has
the default stride; `cast` converts `expr` to `type`. -/
inductive Expr where
  | empty
  | bool_imm (id : Nat) (value : Bool)
  | int_imm (id : Nat) (value : Int) (type : IrType)
  | var (id : Nat) (type : IrType)
  | load (id : Nat) (type : IrType) (buf off : Expr) (stride : Option Int)
  | ptr (id : Nat) (base off : Expr)
  | unary_op (id : Nat) (type : IrType) (a : Expr)
  | binary_op (id : Nat) (op_kind : OpKind) (type : IrType) (a b : Expr)
  | cast (id : Nat) (type : IrType) (saturate : Bool) (expr : Expr)
  deriving DecidableEq, Repr

namespace Expr

def is_empty : Expr → Bool
  | .empty => true
  | _ => false

/-- The type of an expression, `e.type()`. -/
def type : Expr → IrType
  | .empty => { kind := TypeKind.s32, elems := 0 }
  | .bool_imm _ _ => { kind := TypeKind.bool }
  | .int_imm _ _ t => t
  | .var _ t => t
  | .load _ t _ _ _ => t
  | .ptr _ _ _ => { kind := TypeKind.byte_ptr }
  | .unary_op _ t _ => t
  | .binary_op _ _ t _ _ => t
  | .cast _ t _ _ => t

/-- The check `is_const(e)`. -/
def is_const : Expr → Bool
  | .bool_imm _ _ => true
  | .int_imm _ _ _ => true
  | _ => false

/-- The value `to_cpp<int>(e)` of a constant; `none` when `e` is no constant. -/
def to_cpp_int : Expr → Option Int
  | .int_imm _ v _ => some v
  | .bool_imm _ b => some (if b then 1 else 0)
  | _ => none

/-- The value `to_cpp<bool>(e)` of a constant; `none` when `e` is no constant. -/
def to_cpp_bool : Expr → Option Bool
  | .bool_imm _ b => some b
  | .int_imm _ v _ => some (v != 0)
  | _ => none

end Expr

/-- Modelled from the spec: `to_ngen(expr, type)` for a constant (declared
outside src/): the immediate of the nGEN type of `type` that holds the value of
the integer constant converted to `type`. For an integer `type` the value wraps
to its width; for a floating-point `type` it is kept as it is (rounding is not
modelled). Fatal for an expression that is no integer constant. -/
def to_ngen_imm (e : Expr) (type : IrType) : Except Fatal Operand :=
  match e with
  | .int_imm _ v _ => Except.ok (imm (wrapTo (to_ngen type.kind) v) (to_ngen type.kind))
  | _ => Except.error (Fatal.assertion 0)

/-- Modelled from the spec: the Expression Binding Table `expr_binding_t`
(declared outside src/). An expression is bound to its final operand
(`expr2operand`) or destination-bound to reserved storage (`expr2dst`). -/
structure ExprBinding where
  expr2operand : List (Expr × Operand) := []
  expr2dst : List (Expr × Operand) := []
  deriving DecidableEq, Repr

namespace ExprBinding

def is_bound (t : ExprBinding) (e : Expr) : Bool := (t.expr2operand.lookup e).isSome

def is_dst_bound (t : ExprBinding) (e : Expr) : Bool := (t.expr2dst.lookup e).isSome

/-- The operand of `e`, `get(e, allow_empty)`: invalid for the empty
expression; for an unbound one invalid when `allow_empty`, fatal otherwise. -/
def get (t : ExprBinding) (e : Expr) (allow_empty : Bool := false) : Except Fatal Operand :=
  if e.is_empty then Except.ok {}
  else
    match t.expr2operand.lookup e with
    | some op => Except.ok op
    | none => if allow_empty then Except.ok {} else Except.error (Fatal.assertion 0)

/-- The reserved destination of `e`, `get_dst(e)`; fatal when there is none. -/
def get_dst (t : ExprBinding) (e : Expr) : Except Fatal Operand :=
  match t.expr2dst.lookup e with
  | some op => Except.ok op
  | none => Except.error (Fatal.assertion 0)

/-- The call `bind(e, op)`: binding an already-bound expression is fatal; the
entry leaves the destination-bound state. -/
def bind (t : ExprBinding) (e : Expr) (op : Operand) : Except Fatal ExprBinding :=
  if t.is_bound e then Except.error (Fatal.assertion 0)
  else Except.ok
    { expr2operand := (e, op) :: t.expr2operand
      expr2dst := t.expr2dst.filter (fun p => p.1 != e) }

/-- The call `bind_dst(e, op)`: reserves `op` as the destination of `e`; fatal
when `e` already has a destination. -/
def bind_dst (t : ExprBinding) (e : Expr) (op : Operand) : Except Fatal ExprBinding :=
  if t.is_dst_bound e then Except.error (Fatal.assertion 0)
  else Except.ok { t with expr2dst := (e, op) :: t.expr2dst }

/-- The call `unbind(e)`: removes the binding of `e`; fatal when `e` is not bound. -/
def unbind (t : ExprBinding) (e : Expr) : Except Fatal ExprBinding :=
  if !t.is_bound e then Except.error (Fatal.assertion 0)
  else Except.ok { t with expr2operand := t.expr2operand.filter (fun p => p.1 != e) }

end ExprBinding

/-- Modelled from the spec: the Scoped Register/Flag Allocator (declared
outside src/), reduced to what the lowering needs from it: every allocation
returns storage that no earlier allocation returned. `next_grf` is the first
register never handed out and `next_flag` the first such flag register. -/
structure RegAlloc where
  next_grf : Int := 0
  next_flag : Nat := 0
  deriving DecidableEq, Repr

namespace RegAlloc

/-- The call `alloc_reg_data(type, stride)`: a fresh register region for a
value of `type`, its elements `stride` apart. -/
def alloc_reg_data (grf_size : Int) (ra : RegAlloc) (type : IrType) (stride : Int := 1) :
    RegData × RegAlloc :=
  let bytes := type.scalar_size * type.elems * stride
  let regs := max 1 ((bytes + grf_size - 1) / grf_size)
  ({ base := ra.next_grf, byteOffset := 0, type := to_ngen type.kind
     vs := type.elems * stride, width := type.elems, hs := stride },
   { ra with next_grf := ra.next_grf + regs })

/-- The call `alloc_range(regs)`: `regs` fresh consecutive registers; the
result is the number of the first. -/
def alloc_range (ra : RegAlloc) (regs : Int) : Int × RegAlloc :=
  (ra.next_grf, { ra with next_grf := ra.next_grf + max regs 0 })

/-- The call `alloc_flag(elems)`: a fresh flag register. -/
def alloc_flag (ra : RegAlloc) : Nat × RegAlloc :=
  (ra.next_flag, { ra with next_flag := ra.next_flag + 1 })

end RegAlloc

/-! ## The expression evaluator `expr_evaluator_t` (codegen.cpp:859-1613) -/

/-- What the evaluator takes from its instruction host and from helpers that are
declared outside src/: the register size `ngen::GRF::bytes(hw())`, the SIMD
size `host_->getSIMD()`, the helper `align_src_dst_offset` (it may emit
instructions, replace the two sources and allocate) and `negate_cmp_op`. -/
structure Host where
  grf_size : Int
  simd : Nat
  align_src_dst_offset :
    RegAlloc → Mod → Operand → Operand → Operand → List Instr × Operand × Operand × RegAlloc
  negate_cmp_op : OpKind → OpKind

/-- The state of one `expr_evaluator_t`: its own binding table `expr_binding_`,
the instructions emitted through `host_` so far (oldest first), the allocator
behind `scope_`, and the members `allow_vert_stride_region_` and
`int_up_converts_`. -/
structure EvalState where
  expr_binding : ExprBinding := {}
  code : List Instr := []
  ra : RegAlloc := {}
  allow_vert_stride_region : Bool := true
  int_up_converts : List (Expr × IrType) := []
  deriving DecidableEq, Repr

/-- The call `int_up_converts_.emplace(e, type)` (codegen.cpp:1065): the pair
is recorded unless `e` already has an entry. -/
def EvalState.emplace_int_up_convert (s : EvalState) (e : Expr) (type : IrType) : EvalState :=
  if (s.int_up_converts.lookup e).isSome then s
  else { s with int_up_converts := (e, type) :: s.int_up_converts }

/-- The member `is_int_up_convert(e, type)` (codegen.cpp:868-873): `some type`
stands for the result `true` with the out-parameter set to `type`, `none` for
`false`. -/
def EvalState.is_int_up_convert (s : EvalState) (e : Expr) : Option IrType :=
  s.int_up_converts.lookup e

/-- One call of the instruction host. -/
def EvalState.emit (s : EvalState) (i : Instr) : EvalState :=
  { s with code := s.code ++ [i] }

/-- The member `bind(e, op)` of the evaluator (codegen.cpp:1286-1301). -/
def evalBind (e : Expr) (op : Operand) (s : EvalState) : Except Fatal EvalState :=
  if !s.expr_binding.is_dst_bound e then
    match s.expr_binding.bind e op with
    | Except.ok t => Except.ok { s with expr_binding := t }
    | Except.error f => Except.error f
  else
    match s.expr_binding.get_dst e with
    | Except.error f => Except.error f
    | Except.ok dst_op =>
      if dst_op = op then
        match s.expr_binding.bind e op with
        | Except.ok t => Except.ok { s with expr_binding := t }
        | Except.error f => Except.error f
      else
        let s1 := s.emit (Instr.emov dst_op.mod dst_op op)
        match s1.expr_binding.bind e dst_op with
        | Except.ok t => Except.ok { s1 with expr_binding := t }
        | Except.error f => Except.error f

/-- The member `alloc_dst_op(e)` (codegen.cpp:1249-1265). -/
def alloc_dst_op (host : Host) (e : Expr) (s : EvalState) : Except Fatal (Operand × EvalState) :=
  if s.expr_binding.is_bound e then Except.error (Fatal.assertion 1250)
  else if s.expr_binding.is_dst_bound e then
    match s.expr_binding.get_dst e with
    | Except.ok op => Except.ok (op, s)
    | Except.error f => Except.error f
  else
    let (op, ra) : Operand × RegAlloc :=
      if e.type.is_bool then
        let elems := max e.type.elems (max 16 host.simd)
        let (f, ra) := s.ra.alloc_flag
        ({ kind := OperandKind.flag_register f false, mod := execMod elems }, ra)
      else
        let (rd, ra) := s.ra.alloc_reg_data host.grf_size e.type
        (regOp rd (execMod e.type.elems), ra)
    match s.expr_binding.bind_dst e op with
    | Except.ok t => Except.ok (op, { s with expr_binding := t, ra := ra })
    | Except.error f => Except.error f

/-- The member `maybe_alloc_strided_op(res_type, e, scope)`
(codegen.cpp:1268-1284); the model has no shuffle, so the broadcast test does
not apply. -/
def maybe_alloc_strided_op (host : Host) (res_type : IrType) (e : Expr) (s : EvalState) :
    Operand × EvalState :=
  if e.type.is_scalar then ({}, s)
  else if !(res_type.kind == TypeKind.s64 || res_type.kind == TypeKind.u64) then ({}, s)
  else if e.type.kind == TypeKind.s64 || e.type.kind == TypeKind.u64 then ({}, s)
  else
    let stride := Int.tdiv res_type.bitsize e.type.bitsize
    let (rd, ra) := s.ra.alloc_reg_data host.grf_size e.type stride
    (regOp rd (execMod e.type.elems), { s with ra := ra })

/-- The member `ebinary` (codegen.cpp:1303-1367) for the operators of the model.
In the comparison cases `cmp_mod |= cmp_op_to_ngen(...)` is fatal when the
operator is no comparison (codegen.cpp:40) and `cmp_mod |= dst.flag_register()`
when the destination is no flag register. -/
def ebinary (host : Host) (op_kind : OpKind) (mod : Mod) (dst _src0 _src1 : Operand)
    (s : EvalState) : Except Fatal EvalState :=
  let (acode, src0, src1, ra) := host.align_src_dst_offset s.ra mod dst _src0 _src1
  let s := { s with code := s.code ++ acode, ra := ra }
  match op_kind with
  | .add => Except.ok (s.emit (Instr.eadd mod dst src0 src1))
  | .sub => Except.ok (s.emit (Instr.eadd mod dst src0 src1.neg))
  | .mul => Except.ok (s.emit (Instr.emul mod dst src0 src1))
  | .div => Except.ok (s.emit (Instr.ediv mod dst src0 src1))
  | .mod => Except.ok (s.emit (Instr.emod mod dst src0 src1))
  | .shl => Except.ok (s.emit (Instr.eshl mod dst src0 src1))
  | .shr => Except.ok (s.emit (Instr.eshr mod dst src0 src1))
  | .min => Except.ok (s.emit (Instr.emin mod dst src0 src1))
  | .max => Except.ok (s.emit (Instr.emax mod dst src0 src1))
  | .ge | .gt | .le | .lt | .eq | .ne =>
    if dst.is_negated then Except.error (Fatal.assertion 1326)
    else if !src0.is_reg_data then
      match cmp_op_to_ngen (host.negate_cmp_op op_kind) with
      | none => Except.error (Fatal.assertion 40)
      | some c =>
        match dst.flag_register with
        | none => Except.error (Fatal.assertion 1331)
        | some flag =>
          Except.ok (s.emit (Instr.ecmp { mod with cmod := some c, flag := some flag } src1 src0))
    else
      match cmp_op_to_ngen op_kind with
      | none => Except.error (Fatal.assertion 40)
      | some c =>
        match dst.flag_register with
        | none => Except.error (Fatal.assertion 1335)
        | some flag =>
          Except.ok (s.emit (Instr.ecmp { mod with cmod := some c, flag := some flag } src0 src1))

/-- The member `eval(e, dst_operand, fill_mask0)` (codegen.cpp:877-910); the
dispatch `visit(e)` is passed as `visitE`. -/
def evalCore (visitE : EvalState → Except Fatal EvalState) (e : Expr) (dst_operand : Operand)
    (fill_mask0 : Bool) (s : EvalState) : Except Fatal (Operand × EvalState) :=
  if !dst_operand.is_invalid && dst_operand.mod.execSize == 0 then
    Except.error (Fatal.assertion 881)
  else if s.expr_binding.is_bound e then
    if !dst_operand.is_invalid then
      match s.expr_binding.get e with
      | Except.error f => Except.error f
      | Except.ok bind =>
        if fill_mask0 then
          if bind.is_immediate then Except.error (Fatal.assertion 887)
          else if !(dst_operand.is_reg_data && bind.is_reg_data) then
            Except.error (Fatal.assertion 888)
          else Except.ok (dst_operand, s.emit (Instr.sel dst_operand.mod dst_operand bind))
        else Except.ok (dst_operand, s.emit (Instr.emov dst_operand.mod dst_operand bind))
    else
      match s.expr_binding.get e true with
      | Except.error f => Except.error f
      | Except.ok op => Except.ok (op, s)
  else
    let visited : Except Fatal EvalState :=
      if dst_operand.is_invalid then visitE s
      else if !fill_mask0 then
        match s.expr_binding.bind_dst e dst_operand with
        | Except.error f => Except.error f
        | Except.ok t => visitE { s with expr_binding := t }
      else
        match visitE s with
        | Except.error f => Except.error f
        | Except.ok s1 =>
          match s1.expr_binding.get e true with
          | Except.error f => Except.error f
          | Except.ok op =>
            if op.is_immediate then Except.error (Fatal.assertion 903)
            else if !(dst_operand.is_reg_data && op.is_reg_data) then
              Except.error (Fatal.assertion 904)
            else Except.ok (s1.emit (Instr.sel dst_operand.mod dst_operand op))
    match visited with
    | Except.error f => Except.error f
    | Except.ok s1 =>
      match s1.expr_binding.get e true with
      | Except.error f => Except.error f
      | Except.ok op => Except.ok (op, s1)

/-- The dispatch `visit(e)` to the `_visit` member of the node's kind
(codegen.cpp:921-1236). -/
def visit (host : Host) : Expr → EvalState → Except Fatal EvalState
  | .empty, s => Except.ok s
  | .bool_imm _ _, _ => Except.error (Fatal.assertion 1016)
  | .int_imm id value type, s =>
    evalBind (.int_imm id value type) (imm value (to_ngen type.kind)) s
  | .var id type, s =>
    if s.expr_binding.is_bound (.var id type) then Except.ok s
    else Except.error (Fatal.assertion 1234)
  | .load id type buf off stride, s =>
    match evalCore (visit host buf) buf {} false s with
    | Except.error f => Except.error f
    | Except.ok (buf_op, s1) =>
      match evalCore (visit host off) off {} false s1 with
      | Except.error f => Except.error f
      | Except.ok (off_op, s2) =>
        let strideElems : Except Fatal Int :=
          match stride with
          | none => Except.ok 1
          | some st =>
            if Int.tmod st type.scalar_size != 0 then Except.error (Fatal.assertion 1093)
            else Except.ok (Int.tdiv st type.scalar_size)
        match strideElems, off_op.immediate, buf_op.reg_data with
        | Except.error f, _, _ => Except.error f
        | Except.ok st, some off_val, some rbd =>
          evalBind (.load id type buf off stride)
            (regOp (rbd.format host.grf_size (Int.tdiv off_val type.scalar_size) type.elems st
              (to_ngen type.kind))) s2
        | Except.ok _, _, _ => Except.error (Fatal.assertion 1096)
  | .ptr id base off, s =>
    match evalCore (visit host base) base {} false s with
    | Except.error f => Except.error f
    | Except.ok (base_op, s1) =>
      match off.to_cpp_int with
      | some 0 => evalBind (.ptr id base off) base_op s1
      | some o =>
        match base_op.reg_data with
        | none => Except.error (Fatal.assertion 1110)
        | some rbd =>
          evalBind (.ptr id base off) (regOp (rbd.format host.grf_size o 1 1 DataType.ub)) s1
      | none => Except.error (Fatal.assertion 1112)
  | .unary_op id type a, s =>
    match evalCore (visit host a) a {} false s with
    | Except.error f => Except.error f
    | Except.ok (a_op, s1) => evalBind (.unary_op id type a) a_op.neg s1
  | .binary_op id op_kind type a b, s =>
    match alloc_dst_op host (.binary_op id op_kind type a b) s with
    | Except.error f => Except.error f
    | Except.ok (dst_op, s1) =>
      let (a_out_op, s2) := maybe_alloc_strided_op host type a s1
      let (b_out_op, s3) := maybe_alloc_strided_op host type b s2
      let old := s3.allow_vert_stride_region
      let s4 := { s3 with allow_vert_stride_region := !(op_kind == OpKind.mul) }
      match evalCore (visit host a) a a_out_op false s4 with
      | Except.error f => Except.error f
      | Except.ok (src0_op, s5) =>
        match evalCore (visit host b) b b_out_op false s5 with
        | Except.error f => Except.error f
        | Except.ok (src1_op, s6) =>
          let strided (op : Operand) : Bool :=
            match op.reg_data with
            | some rd => rd.hs != 0
            | none => false
          let mod : Mod :=
            if strided src0_op || strided src1_op then
              { dst_op.mod with execSize := type.elems }
            else dst_op.mod
          match ebinary host op_kind mod dst_op src0_op src1_op s6 with
          | Except.error f => Except.error f
          | Except.ok s7 =>
            evalBind (.binary_op id op_kind type a b) dst_op
              { s7 with allow_vert_stride_region := old }

  | .cast id type saturate a, s =>
    let from_type := a.type
    let to_type := type
    if from_type == to_type then Except.error (Fatal.assertion 1023)
    else if a.is_const && !to_type.is_bool then
      let folded : Except Fatal Operand :=
        if a.type.is_bool then
          match a.to_cpp_bool with
          | some b =>
            to_ngen_imm (.int_imm 0 (if b then 1 else 0) { kind := TypeKind.s32 }) to_type
          | none => Except.error (Fatal.assertion 1028)
        else to_ngen_imm a to_type
      match folded with
      | Except.error f => Except.error f
      | Except.ok op => evalBind (.cast id type saturate a) op s
    else
      match alloc_dst_op host (.cast id type saturate a) s with
      | Except.error f => Except.error f
      | Except.ok (dst_op, s1) =>
        let is_u64_or_ptr (t : IrType) : Bool :=
          t == { kind := TypeKind.u64 } || t == { kind := TypeKind.byte_ptr }
        if is_u64_or_ptr type && is_u64_or_ptr a.type then
          match evalCore (visit host a) a dst_op false s1 with
          | Except.error f => Except.error f
          | Except.ok (_, s2) => evalBind (.cast id type saturate a) dst_op s2
        else
          let is_int_convert :=
            from_type.is_scalar && to_type.is_scalar && from_type.is_int && to_type.is_int
          let is_int_down_convert := is_int_convert && decide (from_type.size ≥ to_type.size)
          let is_int_up_convert := is_int_convert && decide (from_type.size < to_type.size)
          if is_int_down_convert then
            match dst_op.reinterpret (to_ngen from_type.kind) with
            | none => Except.error (Fatal.assertion 1054)
            | some dst_from =>
              match evalCore (visit host a) a dst_from false s1 with
              | Except.error f => Except.error f
              | Except.ok (_, s2) => evalBind (.cast id type saturate a) dst_op s2
          else
            match evalCore (visit host a) a {} false s1 with
            | Except.error f => Except.error f
            | Except.ok (expr_op, s2) =>
              let mod : Mod := if saturate then { dst_op.mod with sat := true } else dst_op.mod
              let s3 := s2.emit (Instr.emov mod dst_op expr_op)
              let s4 := if is_int_up_convert then s3.emplace_int_up_convert
                (.cast id type saturate a) from_type else s3
              evalBind (.cast id type saturate a) dst_op s4

/-- The evaluator entry point `expr_evaluator_t::eval(e, dst_operand, fill_mask0)`. -/
def eval (host : Host) (e : Expr) (dst_operand : Operand := {}) (fill_mask0 : Bool := false)
    (s : EvalState) : Except Fatal (Operand × EvalState) :=
  evalCore (visit host e) e dst_operand fill_mask0 s

/-! ## Buffer fill and memory messages (codegen.cpp:586-754) -/

/-- Hardware generations, `ngen::HW`, in increasing order. -/
inductive HW where
  | Gen9 | Gen11 | XeLP | XeHP | XeHPG | XeHPC | Xe2 | Xe3
  deriving DecidableEq, Repr

def HW.rank : HW → Nat
  | .Gen9 => 0 | .Gen11 => 1 | .XeLP => 2 | .XeHP => 3
  | .XeHPG => 4 | .XeHPC => 5 | .Xe2 => 6 | .Xe3 => 7

/-- What the lowering reads from a `send_t` (declared outside src/): the
operation tests, `payload_size()`, `nmasks()`, `fill_buf`, the slot mask,
`slots`, whether the message type is a qword, and a number naming the message. -/
structure SendFunc where
  is_load : Bool := false
  is_load_2d : Bool := false
  is_store : Bool := false
  is_store_2d : Bool := false
  is_atomic : Bool := false
  is_prefetch : Bool := false
  is_prefetch_2d : Bool := false
  is_dword : Bool := true
  is_qword : Bool := false
  payload_size : Int := 0
  nmasks : Nat := 1
  fill_buf : Bool := true
  has_default_slot_mask : Bool := true
  slot_mask : Int := 0
  slots : Nat := 1
  op : Nat := 0
  deriving DecidableEq, Repr

/-- One iteration after another of the loop of `fill_buf` (codegen.cpp:593-606),
from element `i` with the current `step`; `fuel` bounds the number of
iterations. The helper `utils::rnd_down_pow2` is declared outside src/ and is
the parameter `rnd_down_pow2`. -/
def fill_buf_loop (rnd_down_pow2 : Int → Int) (grf_size : Int) (rd : RegData)
    (type : DataType) (pattern : Operand) (elems : Int) :
    Nat → Int → Int → Except Fatal (List Instr)
  | 0, _, _ => Except.error (Fatal.undefined 593)
  | fuel + 1, i, step =>
    if i < elems then
      let step := min step (elems - i)
      let step := rnd_down_pow2 step
      let sub_rd_mov := regOp (rd.format grf_size i step 1 type)
      let src : Except Fatal Operand :=
        if pattern.is_invalid then Except.ok (imm 0 DataType.d)
        else if pattern.is_immediate then Except.ok { kind := pattern.kind }
        else if pattern.is_reg_data then Except.ok { kind := pattern.kind }
        else Except.error (Fatal.assertion 604)
      match src with
      | Except.error f => Except.error f
      | Except.ok src =>
        match fill_buf_loop rnd_down_pow2 grf_size rd type pattern elems fuel (i + step) step with
        | Except.error f => Except.error f
        | Except.ok rest => Except.ok (Instr.emov (execMod step.toNat) sub_rd_mov src :: rest)
    else Except.ok []

/-- The member `fill_buf(buf_op, size, pattern)` (codegen.cpp:586-607): the
moves it emits. The element type is `f32` without a pattern and `u32` with
one, 4 bytes either way; the source of a move is `Immediate(0)`,
`pattern.immediate()` or `pattern.reg_data()`, an operand without a modifier. -/
def fill_buf (rnd_down_pow2 : Int → Int) (grf_size : Int) (buf_op : Operand) (size : Int)
    (pattern : Operand) (fuel : Nat) : Except Fatal (List Instr) :=
  match buf_op.reg_data with
  | none => Except.error (Fatal.assertion 588)
  | some rd =>
    let type := if pattern.is_invalid then DataType.f else DataType.ud
    match idiv (2 * grf_size) (getBytes type), idiv size (getBytes type) with
    | some step, some elems =>
      fill_buf_loop rnd_down_pow2 grf_size rd type pattern elems fuel 0 step
    | _, _ => Except.error (Fatal.undefined 591)

/-- The bytes an instruction writes through a register destination, as absolute
byte locations in the register file: the elements `0 .. execSize-1` of the
destination region, each `getBytes type` wide. -/
def Instr.writesByte (grf_size : Int) (ins : Instr) (loc : Int) : Prop :=
  match ins with
  | .emov mod dst _ =>
    match dst.reg_data with
    | some rd => ∃ k : Nat, k < mod.execSize ∧
        regionElemLoc grf_size rd k ≤ loc ∧ loc < regionElemLoc grf_size rd k + getBytes rd.type
    | none => False
  | _ => False

/-- The source of the moves of `fill_buf` for a pattern operand: zero when no
pattern is given (codegen.cpp:597), else the pattern. -/
def fillSrc (pattern : Operand) : Operand :=
  if pattern.is_invalid then imm 0 DataType.d else { kind := pattern.kind }

/-- The source operand of a move. -/
def Instr.movSrc : Instr → Option Operand
  | .emov _ _ src => some src
  | _ => none

/-- Whether an instruction is one of the moves, arithmetic instructions,
compares and selects the expression evaluator emits through its host. -/
def Instr.isAlu : Instr → Bool
  | .emov _ _ _ | .eadd _ _ _ _ | .emul _ _ _ _ | .ediv _ _ _ _ | .emod _ _ _ _
  | .eshl _ _ _ _ | .eshr _ _ _ _ | .emin _ _ _ _ | .emax _ _ _ _ | .ecmp _ _ _
  | .sel _ _ _ => true
  | _ => false

/-- The labels an instruction marks or refers to. -/
def Instr.labels : Instr → List Label
  | .jmpi _ l => [l]
  | .mark l => [l]
  | .if_ _ jip uip => [jip, uip]
  | .else_ _ jip uip => [jip, uip]
  | .while_ _ l => [l]
  | _ => []

/-- Whether an instruction is a memory message. -/
def Instr.isSend : Instr → Bool
  | .send _ _ _ _ => true
  | _ => false

/-! ## Statement lowering `ir_to_ngen_t` (codegen.cpp:55-856) -/

/-- What the statement lowering takes from collaborators declared outside src/,
on top of what the evaluator takes: the hardware generation, `all_of(e, value)`
on a mask expression, `reg_buf_data_t::is_dense(size)`, `utils::rnd_down_pow2`,
whether the hardware has native fp64 atomics, the lowering of the calls other
than memory messages (dpas, mad, reorder, reduce, eltwise, barriers), and a
bound on the iterations of `fill_buf`. -/
structure GenHost extends Host where
  hw : HW
  all_of : Expr → Bool → Bool
  is_dense : RegData → Int → Bool
  rnd_down_pow2 : Int → Int
  with_atomic_fp64 : Bool
  lower_call : Nat → List Operand → Option Mod → Except Fatal (List Instr)
  fuel : Nat

/-- A `bind` or `unbind` call on the statement-level binding table. -/
inductive BindEvent where
  | bind (e : Expr)
  | unbind (e : Expr)
  deriving DecidableEq, Repr

/-- The state of `ir_to_ngen_t`: the statement-level binding table
`expr_binding_`, the instructions emitted so far, the allocator `host_->ra()`,
the number of labels created, and a log of the `bind` / `unbind` calls made on
the table (kept only to state properties of the traversal). -/
structure GenState where
  expr_binding : ExprBinding := {}
  code : List Instr := []
  ra : RegAlloc := {}
  next_label : Label := 0
  log : List BindEvent := []
  deriving DecidableEq, Repr

namespace GenState

def emit (g : GenState) (i : Instr) : GenState := { g with code := g.code ++ [i] }

/-- The call `expr_binding_.bind(e, op)` of a statement. -/
def bind (g : GenState) (e : Expr) (op : Operand) : Except Fatal GenState :=
  match g.expr_binding.bind e op with
  | Except.error f => Except.error f
  | Except.ok t => Except.ok { g with expr_binding := t, log := g.log ++ [BindEvent.bind e] }

/-- The call `expr_binding_.unbind(e)` of a statement. -/
def unbind (g : GenState) (e : Expr) : Except Fatal GenState :=
  match g.expr_binding.unbind e with
  | Except.error f => Except.error f
  | Except.ok t => Except.ok { g with expr_binding := t, log := g.log ++ [BindEvent.unbind e] }

/-- A fresh `ngen::Label`. -/
def new_label (g : GenState) : Label × GenState :=
  (g.next_label, { g with next_label := g.next_label + 1 })

end GenState

/-- The member `ir_to_ngen_t::eval(e, scope, dst_operand, fill_mask0)`
(codegen.cpp:826-832): a new evaluator is built on a copy of the binding
table; its instructions and allocations stay, its table is dropped. -/
def stmtEval (host : Host) (e : Expr) (dst_operand : Operand) (fill_mask0 : Bool)
    (g : GenState) : Except Fatal (Operand × GenState) :=
  match eval host e dst_operand fill_mask0
      { expr_binding := g.expr_binding, code := g.code, ra := g.ra } with
  | Except.error f => Except.error f
  | Except.ok (op, s) => Except.ok (op, { g with code := s.code, ra := s.ra })

/-- The member `expr_evaluator_t::eval(exprs)` (codegen.cpp:912-919). -/
def evalList (host : Host) : List Expr → EvalState → Except Fatal (List Operand × EvalState)
  | [], s => Except.ok ([], s)
  | e :: es, s =>
    match (if !s.expr_binding.is_bound e then visit host e s else Except.ok s) with
    | Except.error f => Except.error f
    | Except.ok s1 =>
      match s1.expr_binding.get e with
      | Except.error f => Except.error f
      | Except.ok op =>
        match evalList host es s1 with
        | Except.error f => Except.error f
        | Except.ok (ops, s2) => Except.ok (op :: ops, s2)

/-- The member `ir_to_ngen_t::eval(exprs, scope)` (codegen.cpp:834-839). -/
def stmtEvalList (host : Host) (exprs : List Expr) (g : GenState) :
    Except Fatal (List Operand × GenState) :=
  match evalList host exprs { expr_binding := g.expr_binding, code := g.code, ra := g.ra } with
  | Except.error f => Except.error f
  | Except.ok (ops, s) => Except.ok (ops, { g with code := s.code, ra := s.ra })

/-- The arguments of a send call, in the order of the argument vector; the
accessors `send_t::arg_mem_off`, `arg_reg_buf`, `arg_mask` and
`arg_fill_pattern` (declared outside src/) are the fields. -/
structure SendArgs where
  mem_buf : Expr
  mem_off : Expr
  reg_buf : Expr
  mask : Expr
  fill_pattern : Expr
  deriving DecidableEq, Repr

def SendArgs.toList (a : SendArgs) : List Expr :=
  [a.mem_buf, a.mem_off, a.reg_buf, a.mask, a.fill_pattern]

/-- `math::is_pow2(n)`. -/
def is_pow2 (n : Nat) : Bool := n != 0 && (n &&& (n - 1)) == 0

/-- The loop of `send_maybe_make_dense_payload` (codegen.cpp:637-646) from
register `i` on. -/
def dense_payload_loop (host : GenHost) (buf : RegData) (tmp : Int) (regs : Int) :
    Nat → Int → List Instr
  | 0, _ => []
  | fuel + 1, i =>
    if i < regs then
      let grf_elems := Int.tdiv host.grf_size (getBytes buf.type)
      let dwords := Int.tdiv host.grf_size 4
      let sub_buf := buf.format host.grf_size (i * grf_elems) 1 1 DataType.invalid
      let step := min 2 (regs - i)
      let step := if step > 1 && !host.is_dense sub_buf (step * host.grf_size) then 1 else step
      let esize := step * dwords
      let src := regOp { sub_buf with type := DataType.ud, vs := 1, width := 1, hs := 0 }
      let dst := regOp { base := tmp + i, byteOffset := 0, type := DataType.ud,
                         vs := 1, width := 1, hs := 0 }
      Instr.emov (execMod esize.toNat) dst src
        :: dense_payload_loop host buf tmp regs fuel (i + step)
    else []

/-- The member `send_maybe_make_dense_payload` (codegen.cpp:609-648): the
payload register and the moves that pack the buffer into it. -/
def send_maybe_make_dense_payload (host : GenHost) (send_func : SendFunc) (op_buf : Operand)
    (ra : RegAlloc) : Except Fatal (Operand × List Instr × RegAlloc) :=
  if send_func.is_prefetch || send_func.is_prefetch_2d then Except.ok ({}, [], ra)
  else
    match op_buf.reg_data with
    | none => Except.error (Fatal.assertion 614)
    | some buf =>
      let size := send_func.payload_size
      if host.is_dense buf size then
        Except.ok (regOp { base := buf.base, byteOffset := 0, type := DataType.ud }, [], ra)
      else if send_func.is_load || send_func.is_load_2d then
        Except.error (Fatal.assertion 620)
      else if !(send_func.is_store || send_func.is_store_2d || send_func.is_atomic) then
        Except.error (Fatal.assertion 625)
      else
        match div_up size host.grf_size with
        | none => Except.error (Fatal.undefined 631)
        | some regs =>
          let (tmp, ra) := ra.alloc_range regs
          Except.ok (regOp { base := tmp, byteOffset := 0, type := DataType.ud },
            dense_payload_loop host buf tmp regs regs.toNat 0, ra)

/-- The member `send_atomic_add_emu` (codegen.cpp:650-708): the instructions of
the compare-and-swap retry loop. -/
def send_atomic_add_emu (host : GenHost) (send_func : SendFunc) (mask_op : Operand)
    (mod : Mod) (mem_off_op rd : Operand) (ra : RegAlloc) (next_label : Label) :
    Except Fatal (List Instr × RegAlloc × Label) :=
  let size := send_func.payload_size
  if !((send_func.is_dword || send_func.is_qword) && (size == 32 || size == 64)) then
    Except.error (Fatal.assertion 655)
  else
    let is_df := send_func.is_qword
    match div_up size host.grf_size with
    | none => Except.error (Fatal.undefined 672)
    | some regs =>
      let (new_val, ra) := ra.alloc_range (2 * regs)
      let (old_save, ra) := ra.alloc_range regs
      let (flag, ra) := ra.alloc_flag
      let atomic_label := next_label
      let ty := if is_df then DataType.df else DataType.f
      let w : Int := if is_df then 4 else 8
      let flagOp : Operand := { kind := OperandKind.flag_register flag false }
      let rd := match rd.reg_data with
        | some r => regOp { r with type := ty, vs := 4, width := 4, hs := 1 }
        | none => rd
      let region := regOp { base := new_val + (if is_df then 2 else 1), byteOffset := 0,
                            type := ty, vs := w, width := w, hs := 1 }
      let old_region := regOp { base := new_val, byteOffset := 0, type := ty,
                                vs := w, width := w, hs := 1 }
      let old_save_region := regOp { base := old_save, byteOffset := 0, type := ty,
                                     vs := w, width := w, hs := 1 }
      let esize : Nat := if is_df && size < 64 then 4 else 8
      let init : Instr :=
        if mask_op.is_invalid then Instr.emov (execMod 1) flagOp (imm 255 DataType.uw)
        else Instr.and_ (execMod 1) flagOp
          { kind := OperandKind.flag_register (mod.flag.getD 0) false } (imm 255 DataType.uw)
      let ne_mod : Mod := { execSize := esize, flag := some flag, cmod := some CondMod.ne }
      let eq_mod : Mod := { execSize := esize, flag := some flag, cmod := some CondMod.eq }
      Except.ok
        ([ Instr.send mod 1 mem_off_op
             (regOp { base := new_val, byteOffset := 0, type := ty }),
           init,
           Instr.mark atomic_label,
           Instr.emov (execMod esize) old_save_region old_region,
           Instr.add (execMod esize) region old_region rd,
           Instr.send (mod.withFlag flag) 2 mem_off_op old_region,
           Instr.cmp ne_mod old_save_region old_region,
           Instr.cmp eq_mod old_region old_region,
           Instr.while_ ((execMod esize).withFlag flag) atomic_label ],
         ra, next_label + 1)

/-- What `send` emits, in order: the fill of the destination (codegen.cpp:725-729),
the moves that make the payload dense, the slot-mask instruction, and the
message or its emulation; `mod` is the modifier passed to the message. -/
structure SendLowering where
  fill : List Instr
  payload : List Instr
  slot_mask : List Instr
  mod : Mod
  message : List Instr
  deriving DecidableEq, Repr

def SendLowering.code (l : SendLowering) : List Instr :=
  l.fill ++ l.payload ++ l.slot_mask ++ l.message

/-- The member `send` (codegen.cpp:710-754). -/
def send (host : GenHost) (send_func : SendFunc)
    (mem_off_op reg_buf_op mask_op fill_pattern : Operand) (attr : Option Mod)
    (ra : RegAlloc) (next_label : Label) : Except Fatal (SendLowering × RegAlloc × Label) :=
  let mod := execMod send_func.nmasks
  if !is_pow2 mod.execSize then Except.error (Fatal.assertion 720)
  else
    let mod := match attr with
      | some a => mod.or a
      | none => mod
    let modE : Except Fatal Mod :=
      if !mask_op.is_invalid then
        match mask_op.flag_register_mod with
        | some m => Except.ok (mod.or m)
        | none => Except.error (Fatal.assertion 722)
      else Except.ok mod
    match modE with
    | Except.error f => Except.error f
    | Except.ok mod =>
      let fillE : Except Fatal (List Instr) :=
        if send_func.fill_buf && (send_func.is_load || send_func.is_load_2d)
            && mod.flag.isSome then
          fill_buf host.rnd_down_pow2 host.grf_size reg_buf_op send_func.payload_size
            fill_pattern host.fuel
        else Except.ok []
      match fillE with
      | Except.error f => Except.error f
      | Except.ok fill =>
        match send_maybe_make_dense_payload host send_func reg_buf_op ra with
        | Except.error f => Except.error f
        | Except.ok (rd, payload, ra) =>
          let (slot, mod, ra) : List Instr × Mod × RegAlloc :=
            if !send_func.has_default_slot_mask then
              match mod.flag with
              | some fl =>
                let flag := if send_func.slots > 16 then fl >>> 1 else fl
                let flagOp : Operand := { kind := OperandKind.flag_register flag false }
                ([Instr.and_ (execMod 1) flagOp flagOp (imm send_func.slot_mask DataType.ud)],
                  mod, ra)
              | none =>
                let (flag, ra) := ra.alloc_flag
                let flagOp : Operand := { kind := OperandKind.flag_register flag false }
                ([Instr.emov (execMod 1) flagOp (imm send_func.slot_mask DataType.ud)],
                  mod.withFlag flag, ra)
            else ([], mod, ra)
          if (host.hw.rank ≤ HW.XeLP.rank && send_func.is_atomic)
              || (host.hw == HW.XeHPG && send_func.is_atomic && send_func.is_qword
                  && !host.with_atomic_fp64) then
            match send_atomic_add_emu host send_func mask_op mod mem_off_op rd ra next_label with
            | Except.error f => Except.error f
            | Except.ok (msg, ra, next_label) =>
              Except.ok ({ fill := fill, payload := payload, slot_mask := slot, mod := mod,
                           message := msg }, ra, next_label)
          else
            Except.ok ({ fill := fill, payload := payload, slot_mask := slot, mod := mod,
                         message := [Instr.send mod send_func.op mem_off_op rd] },
                       ra, next_label)

/-- The send branch of `_visit(const func_call_t &)` (codegen.cpp:164-181). -/
def visit_send_call (host : GenHost) (send_func : SendFunc) (args : SendArgs)
    (attr : Option Mod) (g : GenState) : Except Fatal GenState :=
  if host.all_of args.mask false then
    if send_func.is_load || send_func.is_load_2d then
      match stmtEval host.toHost args.reg_buf {} false g with
      | Except.error f => Except.error f
      | Except.ok (reg_buf_op, g1) =>
        match stmtEval host.toHost args.fill_pattern {} false g1 with
        | Except.error f => Except.error f
        | Except.ok (pattern_op, g2) =>
          match fill_buf host.rnd_down_pow2 host.grf_size reg_buf_op send_func.payload_size
              pattern_op host.fuel with
          | Except.error f => Except.error f
          | Except.ok fill => Except.ok { g2 with code := g2.code ++ fill }
    else Except.ok g
  else
    let args := if host.all_of args.mask true then { args with mask := Expr.empty } else args
    match stmtEvalList host.toHost args.toList g with
    | Except.ok ([_, mem_off_op, reg_buf_op, mask_op, fill_pattern], g1) =>
      match send host send_func mem_off_op reg_buf_op mask_op fill_pattern attr g1.ra
          g1.next_label with
      | Except.error f => Except.error f
      | Except.ok (l, ra, next_label) =>
        Except.ok { g1 with code := g1.code ++ l.code, ra := ra, next_label := next_label }
    | Except.ok _ => Except.error (Fatal.undefined 180)
    | Except.error f => Except.error f

/-! ## The statement tree and its traversal -/

/-- Allocation kinds, `alloc_kind_t`. -/
inductive AllocKind where
  | grf | slm | global
  deriving DecidableEq, Repr

/-- IR statements (`stmt_t`). `seq` is the statement sequence the base visitor
walks in order and `nop` the empty statement; `let_` with `value = Expr.empty`
declares an external variable; `if_` without an else branch has the empty
statement as `else_body`; `call` is a call to a function other than a memory
message, named by `func`. -/
inductive Stmt where
  | nop
  | seq (head tail : Stmt)
  | alloc (kind : AllocKind) (buf : Expr) (size : Int) (bank_conflict_attr : Option Nat)
      (is_header : Bool) (body : Stmt)
  | for_ (var init bound step : Expr) (body : Stmt)
  | send_call (func : SendFunc) (args : SendArgs) (attr : Option Mod)
  | call (func : Nat) (args : List Expr) (attr : Option Mod)
  | if_ (cond : Expr) (body else_body : Stmt)
  | let_ (var value : Expr) (body : Stmt)
  | store (buf : Expr) (off : Expr) (value : Expr) (stride : Option Int) (mask : Expr)
      (fill_mask0 : Bool)
  | while_ (cond : Expr) (body : Stmt)
  deriving DecidableEq, Repr

/-- Whether a statement is the empty statement; `bool(stmt)` is its negation. -/
def Stmt.is_empty : Stmt → Bool
  | .nop => true
  | _ => false

/-- The modifier `1 | host_->f0[0]`. -/
def f0Mod : Mod := { execSize := 1, flag := some 0 }

/-- The register chosen for the buffer of an `alloc_t` of kind `grf`
(codegen.cpp:81-97), by strategy: the bank-conflict allocation when the buffer
has that attribute, else a partial register when `size * 8 <= 64`, else a
range of `div_up(size, grf_size)` registers (for a header through
`alloc_header`). Which registers the three allocators return is not modelled:
each returns fresh ones. -/
def alloc_buf (host : GenHost) (size : Int) (bank_conflict_attr : Option Nat)
    (_is_header : Bool) (ra : RegAlloc) : Except Fatal (RegData × RegAlloc) :=
  match bank_conflict_attr with
  | some _ =>
    let (base, ra) := ra.alloc_range ((size + host.grf_size - 1) / host.grf_size)
    Except.ok ({ base := base, byteOffset := 0, type := DataType.ud }, ra)
  | none =>
    if size * 8 ≤ 64 then
      let (base, ra) := ra.alloc_range 1
      Except.ok ({ base := base, byteOffset := 0,
                   type := if size * 8 ≤ 8 then DataType.ub else if size * 8 ≤ 16 then DataType.uw
                           else if size * 8 ≤ 32 then DataType.ud else DataType.uq }, ra)
    else
      match div_up size host.grf_size with
      | none => Except.error (Fatal.undefined 91)
      | some regs =>
        let (base, ra) := ra.alloc_range regs
        Except.ok ({ base := base, byteOffset := 0, type := DataType.ud }, ra)

/-- The member `_visit(const store_t &)` (codegen.cpp:292-316). -/
def visit_store (host : GenHost) (buf off value : Expr) (stride : Option Int) (mask : Expr)
    (fill_mask0 : Bool) (g : GenState) : Except Fatal GenState :=
  match stmtEval host.toHost buf {} false g with
  | Except.error f => Except.error f
  | Except.ok (buf_op, g1) =>
    match off.to_cpp_int with
    | none => Except.error (Fatal.assertion 296)
    | some off =>
      match stmtEval host.toHost mask {} false g1 with
      | Except.error f => Except.error f
      | Except.ok (mask_op, g2) =>
        let type := value.type
        let strideE : Except Fatal Int :=
          match stride with
          | none => Except.ok 1
          | some st =>
            if Int.tmod st type.scalar_size != 0 then Except.error (Fatal.assertion 306)
            else Except.ok (Int.tdiv st type.scalar_size)
        let modE : Except Fatal Mod :=
          if !mask_op.is_invalid then
            match mask_op.flag_register_mod with
            | some m => Except.ok ((execMod type.elems).or m)
            | none => Except.error (Fatal.assertion 311)
          else Except.ok (execMod type.elems)
        match strideE, modE, buf_op.reg_data with
        | Except.error f, _, _ => Except.error f
        | _, Except.error f, _ => Except.error f
        | _, _, none => Except.error (Fatal.assertion 312)
        | Except.ok st, Except.ok mod, some rbd =>
          let dst_rbd := rbd.format host.grf_size (Int.tdiv off type.scalar_size) type.elems st
            (to_ngen type.kind)
          match stmtEval host.toHost value (regOp dst_rbd mod)
              (fill_mask0 && !mask_op.is_invalid) g2 with
          | Except.error f => Except.error f
          | Except.ok (_, g3) => Except.ok g3

/-- The traversal `visit(stmt)` of `ir_to_ngen_t`: the dispatch to the `_visit`
member of the statement's kind (codegen.cpp:77-332). The IR of the model has no
shuffle node, so the test `is_shuffle_const(value)` of `_visit(let_t)` is false
throughout. The register scopes of the members are not part of the state, the
allocator only hands out fresh storage; the scopes of a let are followed by
`visit_let_scopes`. -/
def Stmt.visit (host : GenHost) : Stmt → GenState → Except Fatal GenState
  | .nop, g => Except.ok g
  | .seq head tail, g =>
    match Stmt.visit host head g with
    | Except.error f => Except.error f
    | Except.ok g1 => Stmt.visit host tail g1
  | .alloc kind buf size bank_conflict_attr is_header body, g =>
    let do_alloc := kind == AllocKind.grf
    let bound : Except Fatal GenState :=
      if do_alloc then
        match alloc_buf host size bank_conflict_attr is_header g.ra with
        | Except.error f => Except.error f
        | Except.ok (rbd, ra) => ({ g with ra := ra } : GenState).bind buf (regOp rbd)
      else Except.ok g
    match bound with
    | Except.error f => Except.error f
    | Except.ok g1 =>
      match g1.expr_binding.get buf with
      | Except.error f => Except.error f
      | Except.ok _ =>
        match Stmt.visit host body g1 with
        | Except.error f => Except.error f
        | Except.ok g2 => if do_alloc then g2.unbind buf else Except.ok g2
  | .for_ var init bound step body, g =>
    let (var_rd, ra) := g.ra.alloc_reg_data host.grf_size var.type
    let var_op := regOp var_rd
    let dynamic_loop := !init.is_const || !bound.is_const
    match stmtEval host.toHost init {} false { g with ra := ra } with
    | Except.error f => Except.error f
    | Except.ok (init_op, g1) =>
      match stmtEval host.toHost bound {} false g1 with
      | Except.error f => Except.error f
      | Except.ok (bound_op, g2) =>
        match stmtEval host.toHost step {} false g2 with
        | Except.error f => Except.error f
        | Except.ok (step_op, g3) =>
          match g3.bind var var_op with
          | Except.error f => Except.error f
          | Except.ok g4 =>
            let g5 := g4.emit (Instr.emov (execMod 1) var_op init_op)
            if dynamic_loop then
              let (loop_end_label, g6) := g5.new_label
              let (loop_begin_label, g7) := g6.new_label
              let g8 := (g7.emit (Instr.mark loop_begin_label)).emit
                (Instr.ecmp { f0Mod with cmod := some CondMod.ge } var_op bound_op)
              let g9 := g8.emit (Instr.jmpi f0Mod loop_end_label)
              match Stmt.visit host body g9 with
              | Except.error f => Except.error f
              | Except.ok g10 =>
                let g11 := (g10.emit (Instr.eadd (execMod 1) var_op var_op step_op)).emit
                  (Instr.jmpi (execMod 1) loop_begin_label)
                (g11.emit (Instr.mark loop_end_label)).unbind var
            else
              let (loop_label, g6) := g5.new_label
              let g7 := g6.emit (Instr.mark loop_label)
              match Stmt.visit host body g7 with
              | Except.error f => Except.error f
              | Except.ok g8 =>
                let g9 := (g8.emit (Instr.eadd (execMod 1) var_op var_op step_op)).emit
                  (Instr.ecmp { f0Mod with cmod := some CondMod.lt } var_op bound_op)
                (g9.emit (Instr.jmpi f0Mod loop_label)).unbind var
  | .send_call func args attr, g => visit_send_call host func args attr g
  | .call func args attr, g =>
    match stmtEvalList host.toHost args g with
    | Except.error f => Except.error f
    | Except.ok (arg_ops, g1) =>
      match host.lower_call func arg_ops attr with
      | Except.error f => Except.error f
      | Except.ok code => Except.ok { g1 with code := g1.code ++ code }
  | .if_ cond body else_body, g =>
    if cond.type.elems != host.simd then Except.error (Fatal.assertion 211)
    else
      match stmtEval host.toHost cond {} false g with
      | Except.error f => Except.error f
      | Except.ok (cond_op, g1) =>
        match cond_op.flag_register with
        | none => Except.error (Fatal.assertion 220)
        | some flag =>
          let (l_else, g2) := g1.new_label
          let (l_endif, g3) := g2.new_label
          let simd := execMod host.simd
          let has_else := !else_body.is_empty
          let g4 := g3.emit
            (Instr.if_ (simd.withFlag flag) (if has_else then l_else else l_endif) l_endif)
          match Stmt.visit host body g4 with
          | Except.error f => Except.error f
          | Except.ok g5 =>
            if has_else then
              let g6 := (g5.emit (Instr.else_ simd l_endif l_endif)).emit (Instr.mark l_else)
              match Stmt.visit host else_body g6 with
              | Except.error f => Except.error f
              | Except.ok g7 => Except.ok ((g7.emit (Instr.mark l_endif)).emit (Instr.endif simd))
            else Except.ok ((g5.emit (Instr.mark l_endif)).emit (Instr.endif simd))
  | .let_ var value body, g =>
    if value.is_empty then
      match g.expr_binding.get var with
      | Except.error f => Except.error f
      | Except.ok _ =>
        if !g.expr_binding.is_bound var then Except.error (Fatal.assertion 239)
        else Stmt.visit host body g
    else
      let bound : Except Fatal GenState :=
        if value.is_const || var.type != value.type then
          let var_type := var.type
          let (var_op, ra) : Operand × RegAlloc :=
            if var_type.is_bool then
              let (f, ra) := g.ra.alloc_flag
              ({ kind := OperandKind.flag_register f false }, ra)
            else
              let (rd, ra) := g.ra.alloc_reg_data host.grf_size var_type
              (regOp rd, ra)
          match stmtEval host.toHost value { var_op with mod := execMod var_type.elems } false
              { g with ra := ra } with
          | Except.error f => Except.error f
          | Except.ok (_, g1) => g1.bind var var_op
        else
          match stmtEval host.toHost value {} false g with
          | Except.error f => Except.error f
          | Except.ok (value_op, g1) => g1.bind var value_op
      match bound with
      | Except.error f => Except.error f
      | Except.ok g2 =>
        match g2.expr_binding.get var with
        | Except.error f => Except.error f
        | Except.ok _ =>
          match Stmt.visit host body g2 with
          | Except.error f => Except.error f
          | Except.ok g3 => g3.unbind var
  | .store buf off value stride mask fill_mask0, g =>
    visit_store host buf off value stride mask fill_mask0 g
  | .while_ cond body, g =>
    let (loop_end_label, g1) := g.new_label
    let (loop_begin_label, g2) := g1.new_label
    let g3 := g2.emit (Instr.mark loop_begin_label)
    match stmtEval host.toHost cond {} false g3 with
    | Except.error f => Except.error f
    | Except.ok (cond_op, g4) =>
      match cond_op.flag_register_mod with
      | none => Except.error (Fatal.assertion 327)
      | some m =>
        let g5 := g4.emit (Instr.jmpi ((execMod 1).or { m with predInv := !m.predInv })
          loop_end_label)
        match Stmt.visit host body g5 with
        | Except.error f => Except.error f
        | Except.ok g6 =>
          Except.ok ((g6.emit (Instr.jmpi (execMod 1) loop_begin_label)).emit
            (Instr.mark loop_end_label))

/-- The check that a log of `bind` / `unbind` calls is well nested from the
stack `open_` of binds still awaiting their unbind: every `unbind e` closes the
most recent open `bind e`, and at the end nothing is left open. -/
def balancedFrom : List BindEvent → List Expr → Bool
  | [], open_ => open_.isEmpty
  | BindEvent.bind e :: rest, open_ => balancedFrom rest (e :: open_)
  | BindEvent.unbind e :: rest, open_ =>
    match open_ with
    | top :: below => top == e && balancedFrom rest below
    | [] => false

/-- A log in which every bind is followed by exactly one matching unbind. -/
def balanced (log : List BindEvent) : Bool := balancedFrom log []

/-! ## Example hosts and programs -/

/-- Modelled from the spec: `negate_cmp_op` (declared outside src/), the
comparison that holds for swapped operands. -/
def negate_cmp_op : OpKind → OpKind
  | .ge => .le
  | .gt => .lt
  | .le => .ge
  | .lt => .gt
  | op => op

/-- An evaluator host with 32-byte registers and SIMD 16 whose operands are
always aligned: `align_src_dst_offset` emits nothing and changes nothing. -/
def exampleHost : Host :=
  { grf_size := 32
    simd := 16
    align_src_dst_offset := fun ra _ _ src0 src1 => ([], src0, src1, ra)
    negate_cmp_op := negate_cmp_op }

/-- The largest power of two not above `x` (0 for `x < 1`). -/
def rnd_down_pow2 (x : Int) : Int := if x < 1 then 0 else 2 ^ (Nat.log2 x.toNat)

/-- A statement host on XeHPG: dense buffers, no call lowering, 64 iterations
of fuel for `fill_buf`. -/
def exampleGenHost : GenHost :=
  { exampleHost with
    hw := HW.XeHPG
    all_of := fun e value =>
      match e with
      | .bool_imm _ b => b == value
      | _ => false
    is_dense := fun _ _ => true
    rnd_down_pow2 := rnd_down_pow2
    with_atomic_fp64 := true
    lower_call := fun _ _ _ => Except.ok []
    fuel := 64 }

/-- The region of a scalar load of kind `t` at byte offset `off` of a buffer
bound to `rbd` (codegen.cpp:1097): the offset is folded into the descriptor. -/
def loadRegion (grf_size : Int) (rbd : RegData) (t : TypeKind) (off : Int) : RegData :=
  rbd.format grf_size (Int.tdiv off t.size) 1 1 (to_ngen t)

/-- The buffer variable number `id`. -/
def bufVar (id : Nat) : Expr := Expr.var id { kind := TypeKind.byte_ptr }

/-- A state in which the buffers 0, 1 and 2 are bound to the registers 10, 20
and 30, with nothing emitted. -/
def exampleGenState : GenState :=
  { expr_binding :=
      { expr2operand :=
          [ (bufVar 0, regOp { base := 10, byteOffset := 0, type := DataType.ud }),
            (bufVar 1, regOp { base := 20, byteOffset := 0, type := DataType.ud }),
            (bufVar 2, regOp { base := 30, byteOffset := 0, type := DataType.ud }) ] }
    ra := { next_grf := 40 } }

/-- The statement `store(buf0, 0, a + b)` with `a = load(buf1, 8)` and
`b = load(buf2, 4)`, scalar `f32` loads. -/
def exampleStoreAdd : Stmt :=
  Stmt.store (bufVar 0) (Expr.int_imm 100 0 { kind := TypeKind.s32 })
    (Expr.binary_op 101 OpKind.add { kind := TypeKind.f32 }
      (Expr.load 102 { kind := TypeKind.f32 } (bufVar 1)
        (Expr.int_imm 103 8 { kind := TypeKind.s32 }) none)
      (Expr.load 104 { kind := TypeKind.f32 } (bufVar 2)
        (Expr.int_imm 105 4 { kind := TypeKind.s32 }) none))
    none Expr.empty false

/-- Whether an instruction is an add. -/
def Instr.isAdd : Instr → Bool
  | .eadd _ _ _ _ => true
  | .add _ _ _ _ => true
  | _ => false


/-- The loop variable of the example loop, a scalar `s32` variable. -/
def exampleLoopVar : Expr := Expr.var 7 { kind := TypeKind.s32 }

/-- The statement `for (v = 0; v < 3; v += 1) store(buf0, 0, a + b)`. -/
def exampleFor : Stmt :=
  Stmt.for_ exampleLoopVar (Expr.int_imm 200 0 { kind := TypeKind.s32 })
    (Expr.int_imm 201 ((3 : Nat) : Int) { kind := TypeKind.s32 })
    (Expr.int_imm 202 1 { kind := TypeKind.s32 }) exampleStoreAdd

/-- The state after lowering `exampleFor` from `exampleGenState`. -/
def exampleForResult : GenState :=
  match Stmt.visit exampleGenHost exampleFor exampleGenState with
  | Except.ok g => g
  | Except.error _ => exampleGenState

/-- The statement `alloc buf3[64] (grf) { let x = 5 { exampleFor } }`: an
alloc, a let with a value and a for-loop nested in each other. -/
def exampleNested : Stmt :=
  Stmt.alloc AllocKind.grf (bufVar 3) 64 none false
    (Stmt.let_ (Expr.var 8 { kind := TypeKind.s32 })
      (Expr.int_imm 300 5 { kind := TypeKind.s32 }) exampleFor)

/-- The state after lowering `exampleNested` from `exampleGenState`. -/
def exampleNestedResult : GenState :=
  match Stmt.visit exampleGenHost exampleNested exampleGenState with
  | Except.ok g => g
  | Except.error _ => exampleGenState

/-- A load message with a payload of 64 bytes (two registers). -/
def exampleLoad : SendFunc := { is_load := true, payload_size := 64 }

/-- The arguments of a load from buffer 1, header in buffer 2, into buffer 0 with
the constant mask `mask` and no fill pattern. -/
def exampleLoadArgs (mask : Bool) : SendArgs :=
  { mem_buf := bufVar 1
    mem_off := bufVar 2
    reg_buf := bufVar 0
    mask := Expr.bool_imm 401 mask
    fill_pattern := Expr.empty }

/-- An evaluator state with the table of `exampleGenState`. -/
def exampleEvalState : EvalState :=
  { expr_binding := exampleGenState.expr_binding, ra := exampleGenState.ra }

/-- A scalar `f32` load node at offset 8 of buffer 1. -/
def exampleSharedLoad : Expr :=
  Expr.load 102 { kind := TypeKind.f32 } (bufVar 1)
    (Expr.int_imm 103 8 { kind := TypeKind.s32 }) none

/-- The constant node `5 : s32`. -/
def exampleConst : Expr := Expr.int_imm 500 5 { kind := TypeKind.s32 }

/-- A scalar `d` register operand in register 50 with execution size 1. -/
def exampleDstOp : Operand :=
  regOp { base := 50, byteOffset := 0, type := DataType.d, vs := 1, width := 1, hs := 1 }
    (execMod 1)

/-- An evaluator state in which `exampleConst` has the reserved destination
`exampleDstOp` and nothing is bound. -/
def exampleDstState : EvalState :=
  { expr_binding := { expr2dst := [(exampleConst, exampleDstOp)] }, ra := { next_grf := 51 } }

/-- The flag register `f0` as a destination operand of 16 channels. -/
def exampleFlagOp : Operand :=
  { kind := OperandKind.flag_register 0 false, mod := execMod 16 }

/-- The cast of the constant `1 : s32` to a scalar boolean. -/
def exampleCastToBool : Expr :=
  Expr.cast 600 { kind := TypeKind.bool } false (Expr.int_imm 601 1 { kind := TypeKind.s32 })

/-- The cast of the constant `5 : s32` to `s32`, its own type. -/
def exampleCastSameType : Expr :=
  Expr.cast 602 { kind := TypeKind.s32 } false exampleConst

/-- The cast of the constant `300 : s32` to `u8`. -/
def exampleCastConst : Expr :=
  Expr.cast 603 { kind := TypeKind.u8 } false (Expr.int_imm 604 300 { kind := TypeKind.s32 })

/-- A scalar `s16` variable. -/
def exampleShortVar : Expr := Expr.var 9 { kind := TypeKind.s16 }

/-- An evaluator state that binds `exampleShortVar` to register 60. -/
def exampleShortState : EvalState :=
  { expr_binding :=
      { expr2operand :=
          [(exampleShortVar,
            regOp { base := 60, byteOffset := 0, type := DataType.w, vs := 1, width := 1, hs := 1 })] }
    ra := { next_grf := 61 } }

/-- The widening cast of `exampleShortVar` to `s32`. -/
def exampleWidening : Expr := Expr.cast 605 { kind := TypeKind.s32 } false exampleShortVar

/-- A boolean variable of 16 elements, the SIMD size of the example host. -/
def exampleCondVar : Expr := Expr.var 10 { kind := TypeKind.bool, elems := 16 }

/-- A boolean variable of 8 elements. -/
def exampleNarrowCondVar : Expr := Expr.var 11 { kind := TypeKind.bool, elems := 8 }

/-- The example state with `exampleCondVar` bound to the flag register `f1`. -/
def exampleCondState : GenState :=
  { exampleGenState with
    expr_binding :=
      { expr2operand :=
          (exampleCondVar, { kind := OperandKind.flag_register 1 false })
            :: exampleGenState.expr_binding.expr2operand } }

/-- The statement `if (c) store(buf0, 0, a + b)`, without an else branch. -/
def exampleIf : Stmt := Stmt.if_ exampleCondVar exampleStoreAdd Stmt.nop

/-- The statement `if (c) store(buf0, 0, a + b) else store(buf0, 0, a + b)`. -/
def exampleIfElse : Stmt := Stmt.if_ exampleCondVar exampleStoreAdd exampleStoreAdd

/-- An `s32` variable `n`, the bound of a loop known only at run time. -/
def exampleBoundVar : Expr := Expr.var 12 { kind := TypeKind.s32 }

/-- The state of `exampleGenState` with `n` bound to the first element of
register 35. -/
def exampleDynState : GenState :=
  { exampleGenState with
    expr_binding :=
      { expr2operand :=
          (exampleBoundVar,
            regOp { base := 35, byteOffset := 0, type := DataType.d, vs := 1, width := 1, hs := 1 })
            :: exampleGenState.expr_binding.expr2operand } }

/-- The statement `for (v = 0; v < n; v += 1) store(buf0, 0, a + b)`. -/
def exampleDynFor : Stmt :=
  Stmt.for_ exampleLoopVar (Expr.int_imm 200 0 { kind := TypeKind.s32 }) exampleBoundVar
    (Expr.int_imm 202 1 { kind := TypeKind.s32 }) exampleStoreAdd

/-- The statement `for (v = 0; v < 0; v += 1) store(buf0, 0, a + b)`: constant
init and bound, and no value of `v` is below the bound. -/
def exampleEmptyFor : Stmt :=
  Stmt.for_ exampleLoopVar (Expr.int_imm 200 0 { kind := TypeKind.s32 })
    (Expr.int_imm 201 0 { kind := TypeKind.s32 })
    (Expr.int_imm 202 1 { kind := TypeKind.s32 }) exampleStoreAdd

/-- The state after lowering `exampleEmptyFor` from `exampleGenState`. -/
def exampleEmptyForResult : GenState :=
  match Stmt.visit exampleGenHost exampleEmptyFor exampleGenState with
  | Except.ok g => g
  | Except.error _ => exampleGenState

/-- The statement `let x : s32 = 5 { }`: a constant value of the type of the
variable. -/
def exampleConstLet : Stmt :=
  Stmt.let_ (Expr.var 8 { kind := TypeKind.s32 }) (Expr.int_imm 300 5 { kind := TypeKind.s32 })
    Stmt.nop

/-- The statement `let y : s32 = n { }`: the value is the variable `n`, of the
type of `y`. -/
def exampleAliasLet : Stmt :=
  Stmt.let_ (Expr.var 9 { kind := TypeKind.s32 }) exampleBoundVar Stmt.nop
/-! ## Running an emitted instruction sequence (scalar control flow) -/

/-- Whether a condition modifier holds for two values. -/
def CondMod.holds : CondMod → Int → Int → Bool
  | .eq, a, b => a == b
  | .ne, a, b => a != b
  | .ge, a, b => decide (b ≤ a)
  | .gt, a, b => decide (b < a)
  | .le, a, b => decide (a ≤ b)
  | .lt, a, b => decide (a < b)

/-- The state of a machine that runs an emitted sequence one scalar channel
wide: the index `pc` of the next instruction, the value of every scalar
register location (base register, byte offset), the flag registers, and for
every instruction index how often it has been executed. -/
structure Machine where
  pc : Nat
  regs : Int → Int → Int
  flags : Nat → Bool
  visits : Nat → Nat

namespace Machine

/-- The value of a source operand. -/
def value (m : Machine) (op : Operand) : Int :=
  match op.kind with
  | .immediate v _ => v
  | .reg_buf_data rd => if rd.neg then -(m.regs rd.base rd.byteOffset) else m.regs rd.base rd.byteOffset
  | .flag_register i _ => if m.flags i then 1 else 0
  | .invalid => 0

/-- Writing `v` to a destination operand: a register location or a flag. -/
def write (m : Machine) (dst : Operand) (v : Int) : Machine :=
  match dst.kind with
  | .reg_buf_data rd =>
    { m with regs := fun b o =>
        if b = rd.base ∧ o = rd.byteOffset then wrapTo rd.type v else m.regs b o }
  | .flag_register i _ => { m with flags := fun j => if j = i then decide (v ≠ 0) else m.flags j }
  | _ => m

/-- Setting the flag register named by a modifier. -/
def setFlag (m : Machine) (mod : Mod) (b : Bool) : Machine :=
  match mod.flag with
  | some f => { m with flags := fun j => if j = f then b else m.flags j }
  | none => m

/-- Whether the predicate of a modifier lets the instruction execute. -/
def enabled (m : Machine) (mod : Mod) : Bool :=
  match mod.flag with
  | some f => m.flags f != mod.predInv
  | none => true

end Machine

/-- The index of the instruction `mark l` in a sequence (its length when the
label is not marked). -/
def labelIndex (code : List Instr) (l : Label) : Nat :=
  code.indexOf (Instr.mark l)

/-- Modelled from the spec: what the instructions of the host (nGEN, outside
src/) do when the emitted sequence runs, one scalar channel wide. Moves and
adds compute their value; every other instruction with a destination writes
the value `alu` gives for it (what these compute is not modelled); compares
set the flag of their modifier; `jmpi` jumps to its label when its predicate
lets it; everything else falls through. -/
def exec (alu : Instr → Machine → Int) (code : List Instr) (ins : Instr) (m : Machine) :
    Machine :=
  let next := { m with pc := m.pc + 1 }
  match ins with
  | .emov _ dst src => next.write dst (m.value src)
  | .eadd _ dst src0 src1 => next.write dst (m.value src0 + m.value src1)
  | .ecmp mod src0 src1 =>
    match mod.cmod with
    | some c => next.setFlag mod (c.holds (m.value src0) (m.value src1))
    | none => next
  | .jmpi mod target =>
    if m.enabled mod then { m with pc := labelIndex code target } else next
  | .mark _ => next
  | .emul _ dst _ _ | .ediv _ dst _ _ | .emod _ dst _ _ | .eshl _ dst _ _ | .eshr _ dst _ _
  | .emin _ dst _ _ | .emax _ dst _ _ | .and_ _ dst _ _ | .sel _ dst _ | .add _ dst _ _
  | .other _ _ dst _ => next.write dst (alu ins m)
  | .send _ _ _ payload => next.write payload (alu ins m)
  | .cmp mod _ _ => next.setFlag mod (alu ins m != 0)
  | .if_ _ _ _ | .else_ _ _ _ | .endif _ | .while_ _ _ => next

/-- One step: the instruction at `pc` is counted and executed; past the end of
the sequence the machine has halted and stays as it is. -/
def step (alu : Instr → Machine → Int) (code : List Instr) (m : Machine) : Machine :=
  match code[m.pc]? with
  | none => m
  | some ins =>
    exec alu code ins
      { m with visits := fun j => if j = m.pc then m.visits j + 1 else m.visits j }

/-- Running `n` steps. -/
def runSteps (alu : Instr → Machine → Int) (code : List Instr) : Nat → Machine → Machine
  | 0, m => m
  | n + 1, m => runSteps alu code n (step alu code m)

/-- A machine about to execute instruction `pc`, all registers zero. -/
def Machine.init (pc : Nat) : Machine :=
  { pc := pc, regs := fun _ _ => 0, flags := fun _ => false, visits := fun _ => 0 }

/-- The sequence of the do-while loop format (codegen.cpp:124 and 139-147)
after the instructions `P`: the move of `init` to the loop variable, the loop
label, the body `B`, the add of `step`, the compare with `bound` into `f0[0]`
and the jump back predicated on `f0[0]`. -/
def doWhileCode (P B : List Instr) (var : RegData) (L : Label) (init bound step : Operand) :
    List Instr :=
  P ++ [Instr.emov (execMod 1) (regOp var) init, Instr.mark L] ++ B
    ++ [Instr.eadd (execMod 1) (regOp var) (regOp var) step,
        Instr.ecmp { f0Mod with cmod := some CondMod.lt } (regOp var) bound,
        Instr.jmpi f0Mod L]

/-- What one run of the body does to a machine at the body's first instruction
`bstart`: after some steps the machine is at `bend`, the instruction after the
body, the loop variable is unchanged and no instruction outside the body has
been executed. -/
def BodyRuns (alu : Instr → Machine → Int) (code : List Instr) (var : RegData)
    (bstart bend : Nat) : Prop :=
  ∀ m : Machine, m.pc = bstart →
    ∃ k, (runSteps alu code k m).pc = bend ∧
      (runSteps alu code k m).regs var.base var.byteOffset = m.regs var.base var.byteOffset ∧
      ∀ j, (j < bstart ∨ bend ≤ j) → (runSteps alu code k m).visits j = m.visits j

/-- The sequence of the head-tested loop format (codegen.cpp:124 and 129-138)
after the instructions `P`: the move of `init` to the loop variable, the label
`Lb` of the loop head, the compare `var >= bound` into `f0[0]`, the jump to the
end label `Le` predicated on `f0[0]`, the body `B`, the add of `step`, the
unconditional jump back to `Lb`, and the end label `Le`. -/
def headTestedCode (P B : List Instr) (var : RegData) (Lb Le : Label)
    (init bound step : Operand) : List Instr :=
  P ++ [Instr.emov (execMod 1) (regOp var) init, Instr.mark Lb,
        Instr.ecmp { f0Mod with cmod := some CondMod.ge } (regOp var) bound,
        Instr.jmpi f0Mod Le]
    ++ B
    ++ [Instr.eadd (execMod 1) (regOp var) (regOp var) step,
        Instr.jmpi (execMod 1) Lb, Instr.mark Le]

/-! ## Relations between generator states -/

/-- Emission only appends: the second sequence is the first one followed by
more instructions. -/
def Extends (c c1 : List Instr) : Prop := ∃ B, c1 = c ++ B

/-- Emission only appends instructions that satisfy `P`. -/
def Emits (P : Instr → Prop) (c c1 : List Instr) : Prop :=
  ∃ B, c1 = c ++ B ∧ ∀ i ∈ B, P i

/-- Every instruction the helper `align_src_dst_offset` of the host emits
satisfies `P`. -/
def AlignEmits (host : Host) (P : Instr → Prop) : Prop :=
  ∀ ra mod dst a b, ∀ i ∈ (host.align_src_dst_offset ra mod dst a b).1, P i

/-- The statement-level table and log are the same in both states. -/
def SameTable (g g1 : GenState) : Prop :=
  g1.expr_binding = g.expr_binding ∧ g1.log = g.log

/-- The bound expressions are the same in both states, and the log grew by a
well-nested sequence of binds and unbinds. -/
def Balances (g g1 : GenState) : Prop :=
  g1.expr_binding.expr2operand = g.expr_binding.expr2operand ∧
  ∃ tr, g1.log = g.log ++ tr ∧ balanced tr = true

/-- Every recorded integer up-conversion is a cast node together with the type
of its operand: what `int_up_converts_` holds at any time, since the only
insertion is `emplace(obj, from_type)` in `_visit(cast_t)`. -/
def UpConvInv (s : EvalState) : Prop :=
  ∀ p ∈ s.int_up_converts, ∃ id t sat a, p.1 = Expr.cast id t sat a ∧ p.2 = a.type

/-- Every label that the instructions of `B` mark or refer to lies in
`lo .. hi - 1`. -/
def LabelsIn (lo hi : Label) (B : List Instr) : Prop :=
  ∀ i ∈ B, ∀ l ∈ i.labels, lo ≤ l ∧ l < hi

/-- The labels of a step of the generator are fresh: the step appends
instructions whose labels are among those the step created, the labels
`g.next_label .. g1.next_label - 1`. -/
def Fresh (g g1 : GenState) : Prop :=
  g.next_label ≤ g1.next_label ∧
    ∃ B, g1.code = g.code ++ B ∧ LabelsIn g.next_label g1.next_label B

/-- The lowerers of calls (`host.lower_call`, the members `dpas`, `mad`,
`reorder`, ... that the model takes as a parameter) emit no instruction that
marks or refers to a label. -/
def CallsLabelFree (host : GenHost) : Prop :=
  ∀ func ops attr code, host.lower_call func ops attr = Except.ok code →
    ∀ i ∈ code, i.labels = []

/-- A step of the generator appends instructions whose labels lie in
`lo .. g1.next_label - 1`: labels created since the label counter was `lo`. -/
def Within (lo : Label) (g g1 : GenState) : Prop :=
  g.next_label ≤ g1.next_label ∧
    ∃ B, g1.code = g.code ++ B ∧ LabelsIn lo g1.next_label B


/-! ## The register scopes of a let statement -/

/-- Modelled from the spec: what a register scope holds (`ngen_register_scope_t`,
declared outside src/; the Scoped Allocator of the spec): register ranges (first
register, number of registers), sub-registers (register, byte offset) and flag
registers. Storage held by a live scope is not available to other
allocations. -/
structure RegisterScope where
  grf_ranges : List (Int × Int) := []
  subregisters : List (Int × Int) := []
  flags : List Nat := []
  deriving DecidableEq, Repr

namespace RegisterScope

/-- Modelled from the spec: `find_grf_range(base, byte_offset)`, the range of
the scope that starts at register `base`; `none`, the invalid range, when the
scope has no such range or the byte offset is not 0. -/
def find_grf_range (s : RegisterScope) (base byte_offset : Int) : Option (Int × Int) :=
  if byte_offset != 0 then none else s.grf_ranges.find? (fun r => r.1 == base)

/-- Modelled from the spec: `find_sub(base, byte_offset)`, the sub-register of
the scope at that register and byte offset; `none`, the invalid sub-register,
when the scope has none. -/
def find_sub (s : RegisterScope) (base byte_offset : Int) : Option (Int × Int) :=
  s.subregisters.find? (fun r => r.1 == base && r.2 == byte_offset)

/-- Modelled from the spec: `clear()`, "clear all allocations in the current
scope": everything the scope holds is released. -/
def clear (_s : RegisterScope) : RegisterScope := {}

/-- Modelled from the spec: `claim(range)`, "claim a pre-existing range into
the current scope". -/
def claim_range (s : RegisterScope) (r : Int × Int) : RegisterScope :=
  { s with grf_ranges := r :: s.grf_ranges }

/-- Modelled from the spec: `claim(sub)`, "claim a pre-existing subregister
into the current scope". -/
def claim_sub (s : RegisterScope) (r : Int × Int) : RegisterScope :=
  { s with subregisters := r :: s.subregisters }

/-- What `scope.alloc_flag` adds to the scope. -/
def add_flag (s : RegisterScope) (f : Nat) : RegisterScope := { s with flags := s.flags ++ [f] }

/-- What `scope.alloc_reg_data` adds to the scope: the registers the allocator
handed out, as one range. -/
def add_range (s : RegisterScope) (ra ra1 : RegAlloc) : RegisterScope :=
  { s with grf_ranges := s.grf_ranges ++ [(ra.next_grf, ra1.next_grf - ra.next_grf)] }

/-- What an evaluation that moved the allocator from `ra` to `ra1` adds to the
scope. Which ranges its allocations form is not modelled: every register it took
is recorded as a range of its own, and every flag register it took as a flag. -/
def add_temps (s : RegisterScope) (ra ra1 : RegAlloc) : RegisterScope :=
  { s with
    grf_ranges := s.grf_ranges
      ++ (List.range (ra1.next_grf - ra.next_grf).toNat).map
          (fun i => (ra.next_grf + (i : Int), (1 : Int)))
    flags := s.flags ++ List.range' ra.next_flag (ra1.next_flag - ra.next_flag) }

/-- Whether the scope holds the flag register `f`. -/
def holds_flag (s : RegisterScope) (f : Nat) : Bool := s.flags.contains f

/-- Whether the scope holds register `base`, in a range or as a sub-register. -/
def holds_grf (s : RegisterScope) (base : Int) : Bool :=
  s.grf_ranges.any (fun r => decide (r.1 ≤ base) && decide (base < r.1 + r.2))
    || s.subregisters.any (fun r => r.1 == base)

end RegisterScope

/-- Lines 263-286 of `_visit(let_t)`: from the operand `var_op` the variable is
bound to and the scope of the statement, the scope after `scope.clear()` and
the new scope `var_scope` after its claim. The range and the sub-register of
the variable are queried only when `var_op.is_reg_data()` (line 270); otherwise
both stay invalid and nothing is claimed. -/
def let_reclaim (var_op : Operand) (scope : RegisterScope) : RegisterScope × RegisterScope :=
  let (var_grf_range, var_sub) : Option (Int × Int) × Option (Int × Int) :=
    if var_op.is_reg_data then
      match var_op.reg_data with
      | some var_rd =>
        (scope.find_grf_range var_rd.base var_rd.byteOffset,
          scope.find_sub var_rd.base var_rd.byteOffset)
      | none => (none, none)
    else (none, none)
  let scope := scope.clear
  let var_scope : RegisterScope := {}
  let var_scope :=
    match var_grf_range with
    | some r => var_scope.claim_range r
    | none =>
      match var_sub with
      | some r => var_scope.claim_sub r
      | none => var_scope
  (scope, var_scope)

/-- The member `_visit(const let_t &)` (codegen.cpp:234-287) followed through
its register scopes, up to the lowering of the body: the result is the scope of
the statement after `scope.clear()` (line 278) and `var_scope` after its claim
(lines 281-286), the scope that lives while the body is lowered. Bindings,
instructions and allocations are those of the let case of `Stmt.visit`; the
scope records what line 249 or 250 allocates for the variable and what the
evaluation of the value allocates. A let without a value opens no scope. -/
def visit_let_scopes (host : GenHost) (var value : Expr) (g : GenState) :
    Except Fatal (RegisterScope × RegisterScope) :=
  if value.is_empty then
    match g.expr_binding.get var with
    | Except.error f => Except.error f
    | Except.ok _ =>
      if !g.expr_binding.is_bound var then Except.error (Fatal.assertion 239)
      else Except.ok ({}, {})
  else
    let scope : RegisterScope := {}
    let bound : Except Fatal (RegisterScope × GenState) :=
      if value.is_const || var.type != value.type then
        let var_type := var.type
        let (var_op, ra, scope) : Operand × RegAlloc × RegisterScope :=
          if var_type.is_bool then
            let (f, ra) := g.ra.alloc_flag
            ({ kind := OperandKind.flag_register f false }, ra, scope.add_flag f)
          else
            let (rd, ra) := g.ra.alloc_reg_data host.grf_size var_type
            (regOp rd, ra, scope.add_range g.ra ra)
        match stmtEval host.toHost value { var_op with mod := execMod var_type.elems } false
            { g with ra := ra } with
        | Except.error f => Except.error f
        | Except.ok (_, g1) =>
          match g1.bind var var_op with
          | Except.error f => Except.error f
          | Except.ok g2 => Except.ok (scope.add_temps ra g1.ra, g2)
      else
        match stmtEval host.toHost value {} false g with
        | Except.error f => Except.error f
        | Except.ok (value_op, g1) =>
          match g1.bind var value_op with
          | Except.error f => Except.error f
          | Except.ok g2 => Except.ok (scope.add_temps g.ra g1.ra, g2)
    match bound with
    | Except.error f => Except.error f
    | Except.ok (scope, g2) =>
      match g2.expr_binding.get var with
      | Except.error f => Except.error f
      | Except.ok var_op => Except.ok (let_reclaim var_op scope)

/-- A boolean variable of 16 elements, a mask. -/
def exampleMaskVar : Expr := Expr.var 13 { kind := TypeKind.bool, elems := 16 }

/-- The statement `let m : bool x 16 = 0xFFFF { if (m) store(buf0, 0, a + b) }`:
a boolean variable with a constant value, used as the condition of the body. -/
def exampleBoolLet : Stmt :=
  Stmt.let_ exampleMaskVar (Expr.int_imm 700 65535 { kind := TypeKind.u16 })
    (Stmt.if_ exampleMaskVar exampleStoreAdd Stmt.nop)

/-! ## Statements that bind in the statement-level table -/

/-- Whether a statement has a part whose `_visit` member calls
`expr_binding_.bind` / `unbind` on the table of `ir_to_ngen_t`: an alloc of kind
`grf` (codegen.cpp:102, 107), a let with a value (lines 254, 257, 289) or a
for-loop (lines 121, 149). -/
def Stmt.binds : Stmt → Bool
  | .nop => false
  | .seq head tail => head.binds || tail.binds
  | .alloc kind _ _ _ _ body => kind == AllocKind.grf || body.binds
  | .for_ _ _ _ _ _ => true
  | .send_call _ _ _ => false
  | .call _ _ _ => false
  | .if_ _ body else_body => body.binds || else_body.binds
  | .let_ _ value body => !value.is_empty || body.binds
  | .store _ _ _ _ _ _ => false
  | .while_ _ body => body.binds

/-- The expression `load(buf1, 8) + load(buf2, 4)` on scalar `f32`. -/
def exampleSum : Expr :=
  Expr.binary_op 101 OpKind.add { kind := TypeKind.f32 }
    (Expr.load 102 { kind := TypeKind.f32 } (bufVar 1)
      (Expr.int_imm 103 8 { kind := TypeKind.s32 }) none)
    (Expr.load 104 { kind := TypeKind.f32 } (bufVar 2)
      (Expr.int_imm 105 4 { kind := TypeKind.s32 }) none)

/-! ## The lowering of a fused multiply-add call (codegen.cpp:535-584) -/

/-- What `mad` reads from a `mad_t` (declared outside src/). -/
structure MadFunc where
  exec_size : Nat
  dst_type : IrType
  src1_type : IrType
  src2_type : IrType
  src1_stride : Int
  src2_stride : Int
  deriving DecidableEq, Repr

/-- The number that names `host_->mul` among the instructions `Instr.other`. -/
def mnemonic_mul : Nat := 1

/-- The number that names `host_->mad` among the instructions `Instr.other`. -/
def mnemonic_mad : Nat := 2

/-- Whether an instruction is a `mad`. -/
def Instr.isMad : Instr → Bool
  | .other m _ _ _ => m == mnemonic_mad
  | _ => false

/-- Whether an instruction is a plain `mul`. -/
def Instr.isMul : Instr → Bool
  | .other m _ _ _ => m == mnemonic_mul
  | _ => false

/-- The member `ir_to_ngen_t::mad` (codegen.cpp:535-584); the four operands are
`mad_t::arg_dst`, `arg_src0`, `arg_src1` and `arg_src2` of the argument vector.
The accessor `reg_buf_data()` of an operand that is no register is fatal
(lines 538-540, 545); the null register `host_->null` is `none`.
`check_bank_conflicts` counts conflicts in development builds only and emits
nothing. -/
def mad (host : GenHost) (mad_func : MadFunc) (dst_op src0_op src1_op src2_op : Operand)
    (attr : Option Mod) (ra : RegAlloc) : Except Fatal (List Instr × RegAlloc) :=
  match dst_op.reg_data with
  | none => Except.error (Fatal.assertion 538)
  | some dst =>
    match src1_op.reg_data with
    | none => Except.error (Fatal.assertion 539)
    | some src1 =>
      match src2_op.reg_data with
      | none => Except.error (Fatal.assertion 540)
      | some src2 =>
        let src0E : Except Fatal (Option RegData) :=
          if !src0_op.is_immediate then
            match src0_op.reg_data with
            | some r =>
              Except.ok (some (r.format host.grf_size 0 mad_func.exec_size 1
                (to_ngen mad_func.dst_type.kind)))
            | none => Except.error (Fatal.assertion 545)
          else
            match src0_op.immediate with
            | some v => if v == 0 then Except.ok none else Except.error (Fatal.assertion 551)
            | none => Except.error (Fatal.assertion 550)
        match src0E with
        | Except.error f => Except.error f
        | Except.ok src0 =>
          let dst := dst.format host.grf_size 0 mad_func.exec_size 1 (to_ngen mad_func.dst_type.kind)
          let src1_width : Int := if mad_func.src1_stride == 0 then 1 else mad_func.exec_size
          let src2_width : Int := if mad_func.src2_stride == 0 then 1 else mad_func.exec_size
          let src1 := src1.format host.grf_size 0 src1_width mad_func.src1_stride
            (to_ngen mad_func.src1_type.kind)
          let src2 := src2.format host.grf_size 0 src2_width mad_func.src2_stride
            (to_ngen mad_func.src2_type.kind)
          let mod := execMod mad_func.exec_size
          let mod := match attr with
            | some a => mod.or a
            | none => mod
          match src0 with
          | none =>
            Except.ok ([Instr.other mnemonic_mul mod (regOp dst) [regOp src1, regOp src2]], ra)
          | some src0 =>
            if dst.byteOffset != src0.byteOffset then Except.error (Fatal.assertion 570)
            else
              let (code, src1, src2, ra) :=
                host.align_src_dst_offset ra mod (regOp dst) (regOp src1) (regOp src2)
              let broadcast_src1 :=
                match src1.reg_data with
                | some r => r.hs == 0 && r.vs == 0
                | none => false
              if mad_func.dst_type == { kind := TypeKind.f64 } && broadcast_src1 then
                Except.ok (code ++ [Instr.other mnemonic_mad mod (regOp dst)
                  [regOp src0, src2, src1]], ra)
              else
                Except.ok (code ++ [Instr.other mnemonic_mad mod (regOp dst)
                  [regOp src0, src1, src2]], ra)

/-- A multiply-add on eight `f32` elements with unit strides. -/
def exampleMad : MadFunc :=
  { exec_size := 8, dst_type := { kind := TypeKind.f32 }, src1_type := { kind := TypeKind.f32 },
    src2_type := { kind := TypeKind.f32 }, src1_stride := 1, src2_stride := 1 }

/-! ## The allocation strategy of an alloc statement (codegen.cpp:81-102) -/

/-- The four ways `_visit(alloc_t)` gets the register buffer of a buffer of kind
`grf`: `create_bank_conflict_allocation`, `scope.alloc_reg_data(type_t::u(bits))`,
`alloc_header(scope, regs)` and `scope.alloc_reg_buf(regs)`. -/
inductive AllocStrategy where
  | bank_conflict (attr : Nat)
  | partial_register (bits : Int)
  | header (regs : Int)
  | range (regs : Int)
  deriving DecidableEq, Repr

/-- The branch taken at codegen.cpp:84-97, in the order of the source: the
bank-conflict attribute is tested first, then `size * 8 <= 64`, then
`is_header(buf)`. -/
def alloc_strategy (grf_size size : Int) (bank_conflict_attr : Option Nat) (is_header : Bool) :
    Except Fatal AllocStrategy :=
  match bank_conflict_attr with
  | some attr => Except.ok (AllocStrategy.bank_conflict attr)
  | none =>
    if size * 8 ≤ 64 then Except.ok (AllocStrategy.partial_register (size * 8))
    else
      match div_up size grf_size with
      | none => Except.error (Fatal.undefined 91)
      | some regs =>
        if is_header then Except.ok (AllocStrategy.header regs)
        else Except.ok (AllocStrategy.range regs)

/-! ## The fallback path of a shuffle (codegen.cpp:1158-1195) -/

/-- A chunk `<offset, length, idx>` of the fallback path. -/
structure Chunk where
  off : Nat
  length : Nat
  idx : Nat
  deriving DecidableEq, Repr

/-- The loop at codegen.cpp:1160-1167 from element `i` on, over the rest of
`obj.idx`: a new chunk is started when there is none yet or the last one has
another source index, otherwise the last chunk grows by one. The vector
`chunks` is kept newest first while it is built, so `chunks.back()` is the head
of `acc`. -/
def shuffle_chunks_loop : List Nat → Nat → List Chunk → List Chunk
  | [], _, acc => acc
  | idx :: rest, i, acc =>
    match acc with
    | [] => shuffle_chunks_loop rest (i + 1) [{ off := i, length := 1, idx := idx }]
    | back :: below =>
      if back.idx != idx then
        shuffle_chunks_loop rest (i + 1) ({ off := i, length := 1, idx := idx } :: acc)
      else shuffle_chunks_loop rest (i + 1) ({ back with length := back.length + 1 } :: below)

/-- The vector `chunks` after the loop, oldest first. -/
def shuffle_chunks (idx : List Nat) : List Chunk := (shuffle_chunks_loop idx 0 []).reverse

/-- Modelled from the spec: `math::ilog2q(n)` (declared outside src/), the
exponent of the largest power of two that is not above `n`. -/
def ilog2q (n : Nat) : Nat := Nat.log2 n

/-- A sub-write of the fallback path: `exec_size` elements from element `off`
of the destination, evaluated from `obj.vec[idx]`. -/
structure SubWrite where
  off : Nat
  exec_size : Nat
  idx : Nat
  deriving DecidableEq, Repr

/-- The loop `while (length > 0)` at codegen.cpp:1176-1192 for one chunk: the
sub-writes it makes, `none` when `fuel` iterations do not end it. For a boolean
shuffle the offset of every sub-write must be a multiple of 8 (line 1179). -/
def split_chunk (is_bool : Bool) (idx : Nat) :
    Nat → Nat → Nat → Option (Except Fatal (List SubWrite))
  | _, _, 0 => some (Except.ok [])
  | 0, _, _ + 1 => none
  | fuel + 1, off, length + 1 =>
    let exec_size := 1 <<< ilog2q (length + 1)
    if is_bool && off % 8 != 0 then some (Except.error (Fatal.assertion 1179))
    else
      match split_chunk is_bool idx fuel (off + exec_size) (length + 1 - exec_size) with
      | none => none
      | some (Except.error f) => some (Except.error f)
      | some (Except.ok rest) =>
        some (Except.ok ({ off := off, exec_size := exec_size, idx := idx } :: rest))

/-- The loop over the chunks at codegen.cpp:1171-1193: the sub-writes of all
chunks in order. Every chunk gets as many iterations as it has elements. -/
def shuffle_fallback_loop (is_bool : Bool) : List Chunk → Option (Except Fatal (List SubWrite))
  | [] => some (Except.ok [])
  | c :: rest =>
    match split_chunk is_bool c.idx c.length c.off c.length with
    | none => none
    | some (Except.error f) => some (Except.error f)
    | some (Except.ok ws) =>
      match shuffle_fallback_loop is_bool rest with
      | none => none
      | some (Except.error f) => some (Except.error f)
      | some (Except.ok more) => some (Except.ok (ws ++ more))

/-- The sub-writes of the fallback path of a shuffle with index vector `idx`. -/
def shuffle_fallback_writes (is_bool : Bool) (idx : List Nat) :
    Option (Except Fatal (List SubWrite)) :=
  shuffle_fallback_loop is_bool (shuffle_chunks idx)

/-- What the loop building the chunks keeps true, for the chunks so far (newest
first) when `i` elements have been read: every chunk has a positive length and
starts where the chunk before it ends, the first at 0 and the newest ending at
`i`, and neighbours have different source indices. -/
def ChunksInv : Nat → List Chunk → Prop
  | i, [] => i = 0
  | i, c :: below =>
    0 < c.length ∧ c.off + c.length = i ∧ ChunksInv c.off below ∧
      ∀ b ∈ below.head?, b.idx ≠ c.idx

/-- The elements a list of chunks stands for: `length` times `idx` for each. -/
def Chunk.decode (cs : List Chunk) : List Nat :=
  cs.flatMap (fun c => List.replicate c.length c.idx)

/-- What the sub-writes `ws` of one chunk have to be, for the `length` elements
still to write from element `off` on: none when nothing is left; otherwise the
first starts at `off`, reads source `idx`, has a size that is a power of two and
at most `length`, the one after it is not larger, and the rest does the same
for what is left after it. -/
def SubWritesOk (idx : Nat) : Nat → Nat → List SubWrite → Prop
  | _, length, [] => length = 0
  | off, length, w :: rest =>
    w.off = off ∧ w.idx = idx ∧ (∃ k, w.exec_size = 2 ^ k) ∧ w.exec_size ≤ length ∧
      (∀ b ∈ rest.head?, b.exec_size ≤ w.exec_size) ∧
      SubWritesOk idx (off + w.exec_size) (length - w.exec_size) rest

/-! ## The allocation of headers (codegen.cpp:339-385) -/

/-- A register range `ngen::GRFRange`: first register and number of registers;
the invalid range is `none` where a range is optional. -/
structure GRFRange where
  base : Int
  len : Int
  deriving DecidableEq, Repr

/-- The registers of a range, `getBase() .. getBase() + getLen() - 1`. -/
def GRFRange.regs (r : GRFRange) : List Int :=
  (List.range r.len.toNat).map (fun k => r.base + (k : Int))

/-- Modelled from the spec: the Scoped Allocator behind `scope` (declared
outside src/), as far as `alloc_header` uses it: the registers of the register
file that are free, and the policy `pick` by which the allocator chooses the
first register of a range of `regs` registers (`none` when it finds none). -/
structure RegFile where
  free : List Int
  pick : List Int → Int → Option Int

namespace RegFile

/-- Modelled from the spec: `try_alloc_range(regs)`, "allocate/try-allocate a
contiguous register range": the range the policy picks when all its registers
are free, which are then taken; the invalid range otherwise. -/
def try_alloc_range (rf : RegFile) (regs : Int) : Option GRFRange × RegFile :=
  match rf.pick rf.free regs with
  | none => (none, rf)
  | some base =>
    let r : GRFRange := { base := base, len := regs }
    if r.regs.all (fun i => rf.free.contains i) then
      (some r, { rf with free := rf.free.filter (fun i => !r.regs.contains i) })
    else (none, rf)

/-- Modelled from the spec: `safeRelease(range)`, "release one allocation": the
registers of a valid range are free again; the invalid range is ignored. -/
def safeRelease (rf : RegFile) (r : Option GRFRange) : RegFile :=
  match r with
  | none => rf
  | some r => { rf with free := rf.free ++ r.regs }

/-- Modelled from the spec: `alloc_range(regs)`, as `try_alloc_range` but fatal
when no range is available ("allocation may fail"). -/
def alloc_range (rf : RegFile) (regs : Int) : Except Fatal (GRFRange × RegFile) :=
  match rf.try_alloc_range regs with
  | (some r, rf1) => Except.ok (r, rf1)
  | (none, _) => Except.error (Fatal.assertion 380)

end RegFile

/-- The members `max_tracked_header_regs` (codegen.cpp:854). -/
def max_tracked_header_regs : Nat := 8

/-- The lambda `is_used_recently` (codegen.cpp:340-348). -/
def is_used_recently (last_used_header_regs : List Int) (range : Option GRFRange) : Bool :=
  match range with
  | none => false
  | some r => r.regs.any (fun i => last_used_header_regs.any (fun u => i == u))

/-- The lambda `record` (codegen.cpp:349-360): the registers of the range are
appended and the oldest entries beyond `max_tracked_header_regs` are erased. -/
def record (last_used_header_regs : List Int) (range : GRFRange) : List Int :=
  let l := last_used_header_regs ++ range.regs
  let cur_size := l.length
  if cur_size > max_tracked_header_regs then l.drop (cur_size - max_tracked_header_regs) else l

/-- The search loop of `alloc_header` (codegen.cpp:368-372) with `found` ranges
found so far; `ranges` holds the ranges obtained, newest first; `none` when
`fuel` iterations do not end it. -/
def alloc_header_loop (last_used_header_regs : List Int) (regs : Int) :
    Nat → Nat → RegFile → List (Option GRFRange) → Option (List (Option GRFRange) × RegFile)
  | fuel, found, rf, ranges =>
    if found < 2 then
      match fuel with
      | 0 => none
      | fuel + 1 =>
        let (r, rf) := rf.try_alloc_range regs
        let found := if !is_used_recently last_used_header_regs r then found + 1 else found
        alloc_header_loop last_used_header_regs regs fuel found rf (r :: ranges)
    else some (ranges, rf)

/-- What a call of `alloc_header` leaves: the range returned, whether it is the
fall-back allocation of line 380, the ranges the search loop obtained (newest
first), the register file and the member `last_used_header_regs_`. -/
structure HeaderAlloc where
  range : GRFRange
  fallback : Bool
  obtained : List (Option GRFRange)
  rf : RegFile
  last_used_header_regs : List Int

/-- The member `alloc_header(scope, regs)` (codegen.cpp:339-385); `none` when
the search loop does not end within `fuel` iterations. -/
def alloc_header (last_used_header_regs : List Int) (rf : RegFile) (regs : Int) (fuel : Nat) :
    Option (Except Fatal HeaderAlloc) :=
  match alloc_header_loop last_used_header_regs regs fuel 0 rf [] with
  | none => none
  | some ([], _) => some (Except.error (Fatal.undefined 373))
  | some (range :: ranges, rf) =>
    let rf := ranges.foldl (fun rf r => rf.safeRelease r) rf
    match range with
    | some range =>
      some (Except.ok
        { range := range, fallback := false, obtained := some range :: ranges, rf := rf
          last_used_header_regs := record last_used_header_regs range })
    | none =>
      match rf.alloc_range regs with
      | Except.error f => some (Except.error f)
      | Except.ok (range, rf) =>
        some (Except.ok
          { range := range, fallback := true, obtained := none :: ranges, rf := rf
            last_used_header_regs := record last_used_header_regs range })

/-- A policy that picks the lowest free register that starts a free range. -/
def firstFit (free : List Int) (regs : Int) : Option Int :=
  free.find? (fun b => (List.range regs.toNat).all (fun k => free.contains (b + (k : Int))))

/-- A register file with the registers 40 .. 47 free. -/
def exampleRegFile : RegFile := { free := [40, 41, 42, 43, 44, 45, 46, 47], pick := firstFit }

/-! ## Bank-conflict allocations (codegen.cpp:435-455) -/

/-- Modelled from the spec: a bank-conflict allocation
(`bank_conflict_allocation_t`, declared outside src/), "reference-counted;
shared by all buffers requesting that attribute": the first register of its
registers and its reference count, which is 1 when the allocation is created,
goes up by one with `retain()` and down by one with `release(buf)`. -/
structure BcAllocation where
  base : Int
  refs : Int
  deriving DecidableEq, Repr

/-- Modelled from the spec: the register buffer `get_reg_buf(buf)` hands out
for a buffer: the allocation it comes from and the buffer. -/
structure BcRegBuf where
  base : Int
  buf : Expr
  deriving DecidableEq, Repr

def BcAllocation.get_reg_buf (a : BcAllocation) (buf : Expr) : BcRegBuf :=
  { base := a.base, buf := buf }

/-- The member `bc_allocations_` (an entry for an attribute is a pair in the
list) and the allocator `host_->ra()`. -/
structure BcState where
  bc_allocations : List (Nat × BcAllocation) := []
  ra : RegAlloc := {}
  deriving DecidableEq, Repr

/-- The entry `bc_allocations_.find(attr)`. -/
def BcState.find (st : BcState) (attr : Nat) : Option BcAllocation :=
  st.bc_allocations.lookup attr

/-- An entry of the map with `f` applied to it when its key is `attr`. -/
def bc_update_entry (attr : Nat) (f : BcAllocation → BcAllocation) (p : Nat × BcAllocation) :
    Nat × BcAllocation :=
  if p.1 == attr then (p.1, f p.2) else p

/-- The entry of `attr` changed in place, as through the iterator `it->second`. -/
def BcState.update (st : BcState) (attr : Nat) (f : BcAllocation → BcAllocation) : BcState :=
  { st with bc_allocations := st.bc_allocations.map (bc_update_entry attr f) }

/-- The map after `bc_allocations_.erase(attr)`. -/
def BcState.erase (st : BcState) (attr : Nat) : BcState :=
  { st with bc_allocations := st.bc_allocations.filter (fun p => p.1 != attr) }

/-- The member `create_bank_conflict_allocation` (codegen.cpp:435-446) for the
attribute `attr` of an alloc of buffer `buf`. The factory
`bank_conflict_allocation_t::create` is declared outside src/ and is the
parameter `create`: the first register of the new allocation, or `none` for an
empty one. The result is the register buffer returned, `none` for `{}`. -/
def create_bank_conflict_allocation (create : Nat → RegAlloc → Option Int × RegAlloc)
    (attr : Nat) (buf : Expr) (st : BcState) : Option BcRegBuf × BcState :=
  match st.find attr with
  | some _ =>
    let st1 := st.update attr (fun a => { a with refs := a.refs + 1 })
    (match st1.find attr with
      | some a => some (a.get_reg_buf buf)
      | none => none, st1)
  | none =>
    match create attr st.ra with
    | (none, ra) => (none, { st with ra := ra })
    | (some base, ra) =>
      let bca : BcAllocation := { base := base, refs := 1 }
      (some (bca.get_reg_buf buf),
        { bc_allocations := (attr, bca) :: st.bc_allocations, ra := ra })

/-- The member `release_bank_conflict_allocation` (codegen.cpp:448-455). -/
def release_bank_conflict_allocation (attr : Nat) (_buf : Expr) (st : BcState) :
    Except Fatal BcState :=
  match st.find attr with
  | none => Except.error (Fatal.assertion 451)
  | some _ =>
    let st1 := st.update attr (fun a => { a with refs := a.refs - 1 })
    match st1.find attr with
    | none => Except.error (Fatal.undefined 453)
    | some a =>
      if a.refs == 0 then
        Except.ok (st1.erase attr)
      else Except.ok st1

/-- A call of one of the two members. -/
inductive BcCall where
  | create (attr : Nat) (buf : Expr)
  | release (attr : Nat) (buf : Expr)
  deriving DecidableEq, Repr

/-- The calls of `create_bank_conflict_allocation` (codegen.cpp:85) and
`release_bank_conflict_allocation` (line 108) that the traversal of a statement
makes, in order: an alloc of kind `grf` with a bank-conflict attribute creates
before its body and releases after it. -/
def Stmt.bc_calls : Stmt → List BcCall
  | .nop => []
  | .seq head tail => head.bc_calls ++ tail.bc_calls
  | .alloc kind buf _ bank_conflict_attr _ body =>
    match kind == AllocKind.grf, bank_conflict_attr with
    | true, some attr =>
      BcCall.create attr buf :: (body.bc_calls ++ [BcCall.release attr buf])
    | _, _ => body.bc_calls
  | .for_ _ _ _ _ body => body.bc_calls
  | .send_call _ _ _ => []
  | .call _ _ _ => []
  | .if_ _ body else_body => body.bc_calls ++ else_body.bc_calls
  | .let_ _ _ body => body.bc_calls
  | .store _ _ _ _ _ _ => []
  | .while_ _ body => body.bc_calls

/-- One call: the state after it and, for a create, the register buffer it
returned. -/
def bc_step (create : Nat → RegAlloc → Option Int × RegAlloc) (c : BcCall) (st : BcState) :
    Except Fatal (BcState × Option (Option BcRegBuf)) :=
  match c with
  | .create attr buf =>
    let (r, st1) := create_bank_conflict_allocation create attr buf st
    Except.ok (st1, some r)
  | .release attr buf =>
    match release_bank_conflict_allocation attr buf st with
    | Except.error f => Except.error f
    | Except.ok st1 => Except.ok (st1, none)

/-- A sequence of calls, one after the other. -/
def run_bc_calls (create : Nat → RegAlloc → Option Int × RegAlloc) :
    List BcCall → BcState → Except Fatal BcState
  | [], st => Except.ok st
  | c :: rest, st =>
    match bc_step create c st with
    | Except.error f => Except.error f
    | Except.ok (st1, _) => run_bc_calls create rest st1

/-- The number of creates for `attr` minus the number of releases for it. -/
def bc_depth (attr : Nat) : List BcCall → Int
  | [] => 0
  | .create a _ :: rest => (if a = attr then 1 else 0) + bc_depth attr rest
  | .release a _ :: rest => (if a = attr then -1 else 0) + bc_depth attr rest

/-- The reference count of the entry of `attr`, 0 when there is none. -/
def BcState.refs (st : BcState) (attr : Nat) : Int :=
  match st.find attr with
  | some a => a.refs
  | none => 0

/-- The map has at most one entry for `attr`, and its reference count is
positive. -/
def BcState.Wf (st : BcState) (attr : Nat) : Prop :=
  (st.bc_allocations.filter (fun p => p.1 == attr)).length ≤ 1 ∧
  ∀ a, st.find attr = some a → 1 ≤ a.refs

/-- A factory that makes the allocation of attribute `attr` at register
`100 + attr`. -/
def exampleBcCreate (attr : Nat) (ra : RegAlloc) : Option Int × RegAlloc :=
  (some (100 + (attr : Int)), ra)

/-- Two nested allocs of kind `grf` with bank-conflict attribute 5, the inner
one followed by a third. -/
def exampleBcNest : Stmt :=
  Stmt.alloc AllocKind.grf (bufVar 3) 64 (some 5) false
    (Stmt.seq (Stmt.alloc AllocKind.grf (bufVar 4) 64 (some 5) false Stmt.nop)
      (Stmt.alloc AllocKind.grf (bufVar 5) 64 (some 5) false Stmt.nop))

/-! ## The registers of the atomic-add emulation (codegen.cpp:650-708) -/

/-- The registers that `bytes` bytes from the start of a register operand
cover, for registers of `grf_size` bytes. -/
def covered_regs (grf_size : Int) (op : Operand) (bytes : Int) : List Int :=
  match op.reg_data with
  | some rd =>
    (List.range ((rd.byteOffset + bytes + grf_size - 1) / grf_size).toNat).map
      (fun k => rd.base + (k : Int))
  | none => []

/-- The registers that `esize` elements of a packed region cover. -/
def region_regs (grf_size : Int) (op : Operand) (esize : Nat) : List Int :=
  match op.reg_data with
  | some rd => covered_regs grf_size op (esize * getBytes rd.type)
  | none => []

/-- An atomic message on four qwords, 32 bytes (`qword x 4`). -/
def exampleAtomicQword4 : SendFunc :=
  { is_atomic := true, is_dword := false, is_qword := true, payload_size := 32, slots := 4 }

/-- An atomic message on sixteen dwords, 64 bytes. -/
def exampleAtomicDword16 : SendFunc :=
  { is_atomic := true, is_dword := true, is_qword := false, payload_size := 64, slots := 16 }

/-- An atomic message on eight dwords, 32 bytes (`dword x 8`). -/
def exampleAtomicDword8 : SendFunc :=
  { is_atomic := true, is_dword := true, is_qword := false, payload_size := 32, slots := 8 }

/-- An atomic message on eight qwords, 64 bytes (`qword x 8`). -/
def exampleAtomicQword8 : SendFunc :=
  { is_atomic := true, is_dword := false, is_qword := true, payload_size := 64, slots := 8 }

/-- The operands of the emulation, read from the instructions it emits: the
destination of the initial load (`new_val[0]`), `old_save_region`, `old_region`
and the candidate region `region` that the add writes. -/
structure AtomicEmuRegions where
  load_dst : Operand
  old_save_region : Operand
  old_region : Operand
  region : Operand
  esize : Nat
  deriving DecidableEq, Repr

/-- The regions of an emitted emulation: the payload of the first message, the
operands of the move after the label and the destination of the add. -/
def atomic_emu_regions : List Instr → Option AtomicEmuRegions
  | Instr.send _ _ _ load_dst :: _ :: Instr.mark _ :: Instr.emov mod old_save_region old_region
      :: Instr.add _ region _ _ :: _ =>
    some { load_dst := load_dst, old_save_region := old_save_region, old_region := old_region,
           region := region, esize := mod.execSize }
  | _ => none

/-- The emulation of an atomic add for the message `send_func`, from an
allocator whose next free register is 40, on the example host (registers of 32
bytes): the ranges `new_val` and `old_save` it allocates, as lists of
registers, and the regions it uses. -/
def exampleAtomicEmu (send_func : SendFunc) :
    Option (List Int × List Int × AtomicEmuRegions) :=
  match div_up send_func.payload_size exampleGenHost.grf_size with
  | none => none
  | some regs =>
    let ra : RegAlloc := { next_grf := 40 }
    let (new_val, ra1) := ra.alloc_range (2 * regs)
    let (old_save, _) := ra1.alloc_range regs
    match send_atomic_add_emu exampleGenHost send_func {} (execMod 8)
        (regOp { base := 30, byteOffset := 0, type := DataType.ud })
        (regOp { base := 10, byteOffset := 0, type := DataType.ud }) ra 0 with
    | Except.error _ => none
    | Except.ok (code, _, _) =>
      match atomic_emu_regions code with
      | none => none
      | some r =>
        some ((List.range (2 * regs).toNat).map (fun k => new_val + (k : Int)),
              (List.range regs.toNat).map (fun k => old_save + (k : Int)), r)

/-! ## Shuffles of an arithmetic progression -/

/-- The constants `a, a + s, a + 2 s, ...`, `n` of them. -/
def progression (n : Nat) (a s : Int) : List Int :=
  (List.range n).map (fun (i : Nat) => a + (i : Int) * s)

/-- The shuffle of 32-bit integer type whose elements are the constants of the
progression in identity index order. -/
def progressionOf (n : Nat) (a s : Int) : IntShuffle :=
  { x32 := true, vec := (progression n a s).map some, idx := List.range n }
/-! # Theorems -/

/-! ## C1: the constant boolean shuffle mask -/

theorem orMask_lt (elem : Nat → Bool) (n : Nat) : orMask elem n < 2 ^ n := by
  induction n with
  | zero => simp [orMask]
  | succ n ih =>
    simp only [orMask]
    apply Nat.or_lt_two_pow
    · exact lt_of_lt_of_le ih (Nat.pow_le_pow_right (by decide) (Nat.le_succ n))
    · rw [Nat.shiftLeft_eq]
      have h2 : 0 < 2 ^ n := Nat.pow_pos (by decide)
      split
      · rw [Nat.pow_succ]; omega
      · rw [Nat.pow_succ]; omega

theorem flagMaskStep_eq (acc : Nat) (bit : Bool) (h : acc < 2 ^ 31) :
    flagMaskStep acc bit = (acc <<< 1 ||| (if bit then 1 else 0)) := by
  unfold flagMaskStep
  have h1 : acc <<< 1 < 2 ^ 32 := by rw [Nat.shiftLeft_eq]; omega
  have h2 : (if bit then 1 else 0) < 2 ^ 32 := by split <;> decide
  rw [Nat.mod_eq_of_lt h1, Nat.mod_eq_of_lt (Nat.or_lt_two_pow h1 h2)]

theorem shift_or_bit (acc k : Nat) (bit : Nat) (hb : bit < 2) (m : Nat) :
    ((acc <<< 1 ||| bit) <<< k ||| m) = (acc <<< (k + 1) ||| (m ||| (bit <<< k))) := by
  apply Nat.eq_of_testBit_eq
  intro j
  have hbit : ∀ i, 1 ≤ i → bit.testBit i = false := by
    intro i hi
    apply Nat.testBit_lt_two_pow
    calc bit < 2 := hb
      _ = 2 ^ 1 := by norm_num
      _ ≤ 2 ^ i := Nat.pow_le_pow_right (by decide) hi
  simp only [Nat.testBit_or, Nat.testBit_shiftLeft]
  by_cases h1 : j ≥ k + 1
  · have h2 : j ≥ k := by omega
    have h3 : j - k ≥ 1 := by omega
    have h4 : j - k - 1 = j - (k + 1) := by omega
    simp [h1, h2, h3, h4, hbit (j - k) h3]
  · by_cases h2 : j ≥ k
    · have h3 : ¬ (j - k ≥ 1) := by omega
      simp [h1, h2, h3]
      cases (bit.testBit (j - k)) <;> cases (m.testBit j) <;> rfl
    · simp [h1, h2]

theorem flagMaskLoop_eq (elem : Nat → Bool) (k : Nat) :
    ∀ acc, k ≤ 32 → acc < 2 ^ (32 - k) →
      flagMaskLoop elem k acc = (acc <<< k ||| orMask elem k) := by
  induction k with
  | zero => intro acc _ _; simp [flagMaskLoop, orMask]
  | succ k ih =>
    intro acc hk hacc
    have h31 : acc < 2 ^ 31 :=
      lt_of_lt_of_le hacc (Nat.pow_le_pow_right (by decide) (by omega))
    have hpow : 2 ^ (32 - k) = 2 * 2 ^ (32 - (k + 1)) := by
      rw [show 32 - k = (32 - (k + 1)) + 1 by omega, Nat.pow_succ]; omega
    have hbit : (if elem k then 1 else 0) < 2 := by split <;> decide
    have hnew : (acc <<< 1 ||| (if elem k then 1 else 0)) < 2 ^ (32 - k) := by
      apply Nat.or_lt_two_pow
      · rw [Nat.shiftLeft_eq, hpow]; omega
      · have : 0 < 2 ^ (32 - (k + 1)) := Nat.pow_pos (by decide)
        rw [hpow]; omega
    simp only [flagMaskLoop, orMask]
    rw [flagMaskStep_eq acc (elem k) h31, ih _ (by omega) hnew]
    exact shift_or_bit acc k _ hbit _

/-- C1. For a constant boolean shuffle of at most 32 elements the mask computed
by the loop of `_visit(shuffle_t)` is the bitwise OR over all `i < n` of
`b_i <<< i`; and whenever an instruction is emitted (the assertions on the
destination hold) it is the single move, or the single `and` into the
destination flag, of exactly that immediate. -/
theorem bool_shuffle_mask_is_or (s : BoolShuffle) (dst_op : Operand)
    (hn : s.elems ≤ 32) :
    flagMask s = orMask s.elem s.elems ∧
    (∀ code, visit_shuffle_bool_const dst_op s = Except.ok code →
        ∃ ins, code = [ins] ∧ ins.immediates = [(orMask s.elem s.elems : Int)]) ∧
    ((dst_op.is_flag_register || dst_op.type == DataType.uw
        || dst_op.type == DataType.ud) = true → dst_op.is_negated = false →
      (dst_op.mod.flag = none →
        visit_shuffle_bool_const dst_op s = Except.ok
          [Instr.emov (execMod 1) dst_op
            (imm (orMask s.elem s.elems) DataType.ud)]) ∧
      (∀ g, dst_op.mod.flag = some g → dst_op.flag_register = some g →
        visit_shuffle_bool_const dst_op s = Except.ok
          [Instr.and_ (execMod 1) { kind := OperandKind.flag_register g false }
            { kind := OperandKind.flag_register g false }
            (imm (orMask s.elem s.elems) DataType.ud)])) := by
  have hmask : flagMask s = orMask s.elem s.elems := by
    unfold flagMask
    rw [flagMaskLoop_eq s.elem s.elems 0 hn (Nat.pow_pos (by decide))]
    simp
  refine ⟨hmask, ?_, ?_⟩
  · intro code hcode
    unfold visit_shuffle_bool_const at hcode
    split at hcode
    · cases hcode
    · split at hcode
      · cases hcode
      · split at hcode
        · cases hcode
          exact ⟨_, rfl, by simp [Instr.immediates, imm, hmask]⟩
        · split at hcode
          · split at hcode
            · cases hcode
              exact ⟨_, rfl, by simp [Instr.immediates, imm, hmask]⟩
            · cases hcode
          · cases hcode
  · intro h1 h2
    constructor
    · intro hp
      unfold visit_shuffle_bool_const
      simp only [h1, h2, hp, hmask]
      simp
    · intro g hp hf
      unfold visit_shuffle_bool_const
      simp only [h1, h2, hp, hf, hmask]
      simp

/-- C1 witness: the 4-element shuffle (true, false, true, true) gives mask 13. -/
theorem bool_shuffle_mask_is_or_witness :
    flagMask ⟨[true, false], [0, 1, 0, 0]⟩ = 13 ∧
    visit_shuffle_bool_const { kind := OperandKind.flag_register 0 false }
        ⟨[true, false], [0, 1, 0, 0]⟩
      = Except.ok [Instr.emov (execMod 1) { kind := OperandKind.flag_register 0 false }
          (imm 13 DataType.ud)] := by
  have h := bool_shuffle_mask_is_or ⟨[true, false], [0, 1, 0, 0]⟩
    { kind := OperandKind.flag_register 0 false } (by decide)
  refine ⟨?_, ?_⟩
  · rw [h.1]; decide
  · rw [(h.2.2 (by decide) (by decide)).1 (by decide)]; rfl

/-! ## C2: the packed-integer peephole reconstructs every element -/

theorem nibble_or (p q j : Nat) : nibble (p ||| q) j = (nibble p j ||| nibble q j) := by
  unfold nibble
  apply Nat.eq_of_testBit_eq
  intro i
  rw [show (16 : Nat) = 2 ^ 4 by norm_num]
  simp only [Nat.testBit_mod_two_pow, Nat.testBit_or, Nat.testBit_shiftRight]
  cases decide (i < 4) <;> simp

theorem nibble_shift_same (v j : Nat) (hv : v < 16) : nibble (v <<< (j * 4)) j = v := by
  unfold nibble
  rw [Nat.mul_comm j 4, Nat.shiftLeft_shiftRight]
  exact Nat.mod_eq_of_lt hv

theorem nibble_shift_other (v j k : Nat) (hv : v < 16) (hjk : k ≠ j) :
    nibble (v <<< (j * 4)) k = 0 := by
  unfold nibble
  apply Nat.eq_of_testBit_eq
  intro i
  rw [show (16 : Nat) = 2 ^ 4 by norm_num]
  simp only [Nat.testBit_mod_two_pow, Nat.testBit_shiftRight, Nat.testBit_shiftLeft,
    Nat.zero_testBit]
  by_cases hi : i < 4
  · by_cases hge : 4 * k + i ≥ j * 4
    · have hbig : 4 * k + i - j * 4 ≥ 4 := by omega
      have : v.testBit (4 * k + i - j * 4) = false := by
        apply Nat.testBit_lt_two_pow
        calc v < 16 := hv
          _ = 2 ^ 4 := by norm_num
          _ ≤ 2 ^ (4 * k + i - j * 4) := Nat.pow_le_pow_right (by decide) hbig
      simp [this]
    · simp [hge]
  · simp [hi]

theorem shift_nibble_lt (v j : Nat) (hv : v < 16) (hj : j < 8) :
    v <<< (j * 4) < 2 ^ 32 := by
  rw [Nat.shiftLeft_eq]
  calc v * 2 ^ (j * 4) < 16 * 2 ^ (j * 4) :=
        Nat.mul_lt_mul_of_pos_right hv (Nat.pow_pos (by decide))
    _ = 2 ^ (4 + j * 4) := by rw [Nat.pow_add]
    _ ≤ 2 ^ 32 := Nat.pow_le_pow_right (by decide) (by omega)

/-- The 4-bit field `set_packed` writes for the `int8_t` value `value`. -/
theorem set_packed_nibble (packed : Nat) (value : Int) (j k : Nat) (hj : j < 8)
    (hlo : -8 ≤ value) (hhi : value ≤ 15) :
    ∃ v : Nat, v < 16 ∧
      (∀ u : Bool, (if u then 0 ≤ value else value ≤ 7) → decodeNibble u v = value) ∧
      nibble (set_packed packed value j) k
        = if k = j then (nibble packed k ||| v) else nibble packed k := by
  have key : ∃ v : Nat, v < 16 ∧
      (∀ u : Bool, (if u then 0 ≤ value else value ≤ 7) → decodeNibble u v = value) ∧
      (if value ≥ 0 then toU32 value else ((toU32 value &&& 0x7) ||| 0x8)) = v := by
    interval_cases value <;> exact ⟨_, by decide, by decide, rfl⟩
  obtain ⟨v, hv, hdec, hv_eq⟩ := key
  refine ⟨v, hv, hdec, ?_⟩
  unfold set_packed
  simp only [hv_eq]
  rw [Nat.mod_eq_of_lt (shift_nibble_lt v j hv hj), nibble_or]
  by_cases hk : k = j
  · subst hk; simp [nibble_shift_same v k hv]
  · simp [hk, nibble_shift_other v j k hv hk]

theorem wrap32_eq (x : Int) (h1 : -(2 ^ 31) ≤ x) (h2 : x < 2 ^ 31) : wrap32 x = x := by
  unfold wrap32
  omega

theorem wrap8_eq (x : Int) (h1 : -128 ≤ x) (h2 : x < 128) : wrap8 x = x := by
  unfold wrap8
  omega

theorem foldl_min_spec : ∀ (l : List Int) (a : Int),
    l.foldl min a ∈ a :: l ∧ ∀ v ∈ a :: l, l.foldl min a ≤ v := by
  intro l
  induction l with
  | nil => intro a; simp
  | cons b l ih =>
    intro a
    obtain ⟨hmem, hle⟩ := ih (min a b)
    simp only [List.foldl_cons]
    constructor
    · rcases List.mem_cons.1 hmem with h | h
      · rw [h]
        rcases min_choice a b with h' | h' <;> rw [h'] <;> simp
      · exact List.mem_cons_of_mem _ (List.mem_cons_of_mem _ h)
    · intro v hv
      have hm := hle (min a b) (List.mem_cons_self _ _)
      rcases List.mem_cons.1 hv with h | h
      · rw [h]; exact le_trans hm (min_le_left a b)
      · rcases List.mem_cons.1 h with h | h
        · rw [h]; exact le_trans hm (min_le_right a b)
        · exact hle v (List.mem_cons_of_mem _ h)

theorem foldl_max_mem : ∀ (l : List Int) (a : Int), l.foldl max a ∈ a :: l := by
  intro l
  induction l with
  | nil => intro a; simp
  | cons b l ih =>
    intro a
    simp only [List.foldl_cons]
    rcases List.mem_cons.1 (ih (max a b)) with h | h
    · rw [h]
      rcases max_choice a b with h' | h' <;> rw [h'] <;> simp
    · exact List.mem_cons_of_mem _ (List.mem_cons_of_mem _ h)

theorem vecMin_spec (vec : List Int) (m : Int) (h : vecMin vec = some m) :
    m ∈ vec ∧ ∀ v ∈ vec, m ≤ v := by
  cases vec with
  | nil => simp [vecMin] at h
  | cons a l =>
    simp only [vecMin, Option.some.injEq] at h
    rw [← h]
    exact foldl_min_spec l a

theorem vecMax_mem (vec : List Int) (m : Int) (h : vecMax vec = some m) : m ∈ vec := by
  cases vec with
  | nil => simp [vecMax] at h
  | cons a l =>
    simp only [vecMax, Option.some.injEq] at h
    rw [← h]
    exact foldl_max_mem l a

theorem constVec_range : ∀ (l : List (Option Int)) (vec : List Int),
    constVec l = some vec → ∀ v ∈ vec, -(2 ^ 31) ≤ v ∧ v ≤ 2 ^ 31 - 1 := by
  intro l
  induction l with
  | nil =>
    intro vec h v hv
    simp [constVec] at h
    subst h
    simp at hv
  | cons a l ih =>
    intro vec h v hv
    cases a with
    | none => simp [constVec] at h
    | some value =>
      simp only [constVec] at h
      split at h
      · simp at h
      · rename_i hr
        cases hrest : constVec l with
        | none => simp [hrest] at h
        | some vs =>
          simp [hrest] at h
          subst h
          rcases List.mem_cons.1 hv with h' | h'
          · subst h'
            simp at hr
            omega
          · exact ih vs hrest v h'

theorem gcdLoop_spec (gcd : Int → Int → Int)
    (hgcd : ∀ a b : Int, 0 ≤ a → 0 ≤ b → 0 ≤ gcd a b ∧ gcd a b ∣ a ∧ gcd a b ∣ b)
    (m : Int) : ∀ (l : List Int) (factor : Int), 0 ≤ factor →
      (∀ v ∈ l, 0 ≤ wrap32 (v - m)) →
      0 ≤ gcdLoop gcd m l factor ∧ gcdLoop gcd m l factor ∣ factor ∧
        ∀ v ∈ l, gcdLoop gcd m l factor ∣ wrap32 (v - m) := by
  intro l
  induction l with
  | nil => intro factor h0 _; simp [gcdLoop, h0]
  | cons a l ih =>
    intro factor h0 hl
    have ha := hl a (List.mem_cons_self _ _)
    obtain ⟨g0, ga, gf⟩ := hgcd (wrap32 (a - m)) factor ha h0
    obtain ⟨r0, rf, rl⟩ := ih (gcd (wrap32 (a - m)) factor) g0
      (fun v hv => hl v (List.mem_cons_of_mem _ hv))
    simp only [gcdLoop]
    refine ⟨r0, dvd_trans rf gf, ?_⟩
    intro v hv
    rcases List.mem_cons.1 hv with h | h
    · rw [h]; exact dvd_trans rf ga
    · exact rl v h

theorem check_range_true (f m a b : Int) : ∀ (vec : List Int),
    check_range vec f m a b = some true →
      ∀ v ∈ vec, ∃ d, cdiv (wrap32 (v - m)) f = some d ∧ a ≤ d ∧ d ≤ b := by
  intro vec
  induction vec with
  | nil => intro _ v hv; simp at hv
  | cons x rest ih =>
    intro h v hv
    simp only [check_range] at h
    cases hd : cdiv (wrap32 (x - m)) f with
    | none => simp [hd] at h
    | some d =>
      simp only [hd] at h
      split at h
      · simp at h
      · rename_i hr
        simp at hr
        rcases List.mem_cons.1 hv with h' | h'
        · subst h'
          exact ⟨d, hd, hr.1, hr.2⟩
        · exact ih h v h'

theorem check_range_divisor (f m a b x : Int) (rest : List Int) (res : Bool)
    (h : check_range (x :: rest) f m a b = some res) : f ≠ 0 := by
  intro hf
  simp [check_range, cdiv, hf] at h

theorem selectFactor_spec (vec : List Int) (m factor : Int) :
    ∀ (cands : List Int) (uu vv : Bool) (f : Int),
      selectFactor vec m factor cands = some (uu, vv, f) → (uu || vv) = true →
        f ∈ cands ∧ check_range vec f m 0 15 = some uu ∧
          check_range vec f m (-8) 7 = some vv := by
  intro cands
  induction cands with
  | nil =>
    intro uu vv f h huv
    simp [selectFactor] at h
    obtain ⟨h1, h2, _⟩ := h
    subst h1; subst h2
    simp at huv
  | cons c cs ih =>
    intro uu vv f h huv
    simp only [selectFactor] at h
    split at h
    · rename_i use_uv use_v h1 h2
      split at h
      · simp at h
        obtain ⟨e1, e2, e3⟩ := h
        subst e1; subst e2; subst e3
        exact ⟨List.mem_cons_self _ _, h1, h2⟩
      · obtain ⟨hm, hr⟩ := ih uu vv f h huv
        exact ⟨List.mem_cons_of_mem _ hm, hr⟩
    · simp at h

/-- An exact quotient that passes the range check is the true quotient. -/
theorem cdiv_exact (x f q : Int) (hx1 : -(2 ^ 31) ≤ x) (hx2 : x < 2 ^ 31)
    (hdvd : f ∣ x) (hq : cdiv x f = some q) (hlo : -8 ≤ q) (hhi : q ≤ 15) :
    q * f = x := by
  unfold cdiv at hq
  split at hq
  · simp at hq
  · rename_i hf
    simp only [Option.some.injEq] at hq
    have hmul : Int.tdiv x f * f = x := Int.tdiv_mul_cancel hdvd
    have habs : (Int.tdiv x f).natAbs ≤ x.natAbs := by
      have h1 : x.natAbs = (Int.tdiv x f).natAbs * f.natAbs := by
        rw [← Int.natAbs_mul, hmul]
      have h2 : 1 ≤ f.natAbs := Int.natAbs_pos.2 hf
      calc (Int.tdiv x f).natAbs = (Int.tdiv x f).natAbs * 1 := by ring
        _ ≤ (Int.tdiv x f).natAbs * f.natAbs := Nat.mul_le_mul_left _ h2
        _ = x.natAbs := h1.symm
    have ht : Int.tdiv x f = q := by
      unfold wrap32 at hq
      omega
    rw [← ht]
    exact hmul

theorem packLoop_spec (vec : List Int) (idx : List Nat) (m f : Int) (i : Nat) (U : Bool)
    (hq : ∀ v ∈ vec, ∀ q, cdiv (wrap32 (v - m)) f = some q →
      -8 ≤ q ∧ q ≤ 15 ∧ (if U then 0 ≤ q else q ≤ 7)) :
    ∀ (n j packed p : Nat), j + n ≤ 8 → (∀ k, j ≤ k → nibble packed k = 0) →
      packLoop vec idx m f i n j packed = some p →
        (∀ k, k < j → nibble p k = nibble packed k) ∧
        (∀ t, j ≤ t → t < j + n → ∃ k v q, idx[i + t]? = some k ∧
          vec[k]? = some v ∧ cdiv (wrap32 (v - m)) f = some q ∧
          decodeNibble U (nibble p t) = q) := by
  intro n
  induction n with
  | zero =>
    intro j packed p _ _ h
    simp only [packLoop, Option.some.injEq] at h
    subst h
    exact ⟨fun _ _ => rfl, fun t h1 h2 => absurd h2 (by omega)⟩
  | succ n ih =>
    intro j packed p hj hz h
    simp only [packLoop] at h
    cases hk : idx[i + j]? with
    | none => simp [hk] at h
    | some k =>
      cases hv : vec[k]? with
      | none => simp [hk, hv] at h
      | some v =>
        cases hd : cdiv (wrap32 (v - m)) f with
        | none => simp [hk, hv, hd] at h
        | some q =>
          simp only [hk, hv, hd] at h
          obtain ⟨q1, q2, q3⟩ := hq v (List.getElem?_mem hv) q hd
          have hw : wrap8 q = q := wrap8_eq q (by omega) (by omega)
          rw [hw] at h
          have hnib := fun k' => set_packed_nibble packed q j k' (by omega) q1 q2
          obtain ⟨w, _, hdec, _⟩ := hnib j
          have hz' : ∀ k', j + 1 ≤ k' → nibble (set_packed packed q j) k' = 0 := by
            intro k' hk'
            obtain ⟨_, _, _, e⟩ := hnib k'
            rw [e, if_neg (by omega)]
            exact hz k' (by omega)
          obtain ⟨ih1, ih2⟩ := ih (j + 1) _ p (by omega) hz' h
          constructor
          · intro k' hk'
            rw [ih1 k' (by omega)]
            obtain ⟨_, _, _, e⟩ := hnib k'
            rw [e, if_neg (by omega)]
          · intro t ht1 ht2
            by_cases htj : t = j
            · subst htj
              refine ⟨k, v, q, hk, hv, hd, ?_⟩
              rw [ih1 t (by omega)]
              obtain ⟨w', _, hdec', e⟩ := hnib t
              rw [e, if_pos rfl, hz t (le_refl _), Nat.zero_or]
              exact hdec' U q3
            · exact ih2 t (by omega) (by omega)

theorem packGroups_spec (vec : List Int) (idx : List Nat) (m f : Int) (U : Bool)
    (hq : ∀ v ∈ vec, ∀ q, cdiv (wrap32 (v - m)) f = some q →
      -8 ≤ q ∧ q ≤ 15 ∧ (if U then 0 ≤ q else q ≤ 7)) :
    ∀ (n g : Nat) (ps : List Nat), packGroups vec idx m f n g = some ps →
      ∀ c, c < n → ∃ p, ps[c]? = some p ∧
        ∀ t, t < 8 → ∃ k v q, idx[8 * (g + c) + t]? = some k ∧
          vec[k]? = some v ∧ cdiv (wrap32 (v - m)) f = some q ∧
          decodeNibble U (nibble p t) = q := by
  intro n
  induction n with
  | zero => intro g ps _ c hc; omega
  | succ n ih =>
    intro g ps h c hc
    simp only [packGroups] at h
    cases hp : packGroup vec idx m f (8 * g) with
    | none => simp [hp] at h
    | some p =>
      cases hrest : packGroups vec idx m f n (g + 1) with
      | none => simp [hp, hrest] at h
      | some rest =>
        simp only [hp, hrest, Option.some.injEq] at h
        subst h
        cases c with
        | zero =>
          refine ⟨p, by simp, ?_⟩
          intro t ht
          have hz : ∀ k, 0 ≤ k → nibble 0 k = 0 := by
            intro k _; simp [nibble]
          exact (packLoop_spec vec idx m f (8 * g) U hq 8 0 0 p (by omega) hz hp).2 t
            (by omega) (by omega)
        | succ c =>
          obtain ⟨p', hp', hspec⟩ := ih (g + 1) rest hrest c (by omega)
          refine ⟨p', by simpa using hp', ?_⟩
          intro t ht
          have := hspec t ht
          rwa [show 8 * (g + 1 + c) + t = 8 * (g + (c + 1)) + t by ring] at this

/-- C2. Whenever `try_packed_int_peephole` accepts a shuffle and the
differences `vec[i] - vec_min` do not overflow `int`, every element position
`i` satisfies `decode(nibble_i) * factor + vec_min = vec[idx[i]]`: `nibble_i` is
field `i mod 8` of the packed immediate of group `i div 8`, read unsigned for
`:uv` and as 4-bit two's complement for `:v`, and `factor`, `vec_min` are the
final scale and offset of the emitted multiply and add. The helper `math::gcd`
is a parameter that returns a non-negative common divisor of non-negative
arguments. -/
theorem packed_int_peephole_reconstructs (gcd : Int → Int → Int)
    (hgcd : ∀ a b : Int, 0 ≤ a → 0 ≤ b → 0 ≤ gcd a b ∧ gcd a b ∣ a ∧ gcd a b ∣ b)
    (grf_size : Int) (dst tmp : RegData) (obj : IntShuffle) (vec : List Int)
    (vec_min : Int) (r : Packed)
    (hvec : constVec obj.vec = some vec) (hmin : vecMin vec = some vec_min)
    (hno : ∀ v ∈ vec, v - vec_min < 2 ^ 31)
    (hacc : try_packed_int_peephole gcd grf_size dst tmp obj = Except.ok (some r)) :
    r.code = packedCode grf_size dst tmp obj.elems r.use_uv r.factor r.vec_min r.packed ∧
    ∀ i, i < obj.elems → ∃ k v p, obj.idx[i]? = some k ∧ vec[k]? = some v ∧
      r.packed[i / 8]? = some p ∧
      decodeNibble r.use_uv (nibble p (i % 8)) * r.factor + r.vec_min = v := by
  obtain ⟨hmin_mem, hmin_le⟩ := vecMin_spec vec vec_min hmin
  have hrange := constVec_range obj.vec vec hvec
  have hdiff : ∀ v ∈ vec, wrap32 (v - vec_min) = v - vec_min := fun v hv =>
    wrap32_eq _ (by have := hmin_le v hv; omega) (hno v hv)
  have hne : vec ≠ [] := List.ne_nil_of_mem hmin_mem
  obtain ⟨x0, xs, hcons⟩ := List.exists_cons_of_ne_nil hne
  unfold try_packed_int_peephole at hacc
  split at hacc
  · simp at hacc
  split at hacc
  · simp at hacc
  rename_i helems
  simp only [hvec, hmin] at hacc
  split at hacc
  · simp at hacc
  cases hmax : vecMax vec with
  | none => simp [hmax] at hacc
  | some vec_max =>
  simp only [hmax] at hacc
  split at hacc
  · simp at hacc
  rename_i hs16
  have hmax_mem := vecMax_mem vec vec_max hmax
  have hf0 : 0 ≤ wrap32 (vec_max - vec_min) := by
    rw [hdiff vec_max hmax_mem]; have := hmin_le vec_max hmax_mem; omega
  obtain ⟨g0, _, gdvd⟩ := gcdLoop_spec gcd hgcd vec_min vec _ hf0
    (fun v hv => by rw [hdiff v hv]; have := hmin_le v hv; omega)
  generalize hfac : gcdLoop gcd vec_min vec (wrap32 (vec_max - vec_min)) = factor0
    at hacc g0 gdvd hs16
  split at hacc
  · simp at hacc
  rename_i uu vv f hsel
  split at hacc
  · simp at hacc
  rename_i huv
  have huv' : (uu || vv) = true := by
    cases uu <;> cases vv <;> simp_all
  obtain ⟨hfmem, hcu, hcv⟩ := selectFactor_spec vec vec_min factor0 _ uu vv f hsel huv'
  have hfne : f ≠ 0 := by
    rw [hcons] at hcu
    exact check_range_divisor f vec_min 0 15 x0 xs uu hcu
  have hfd : ∀ v ∈ vec, f ∣ v - vec_min := by
    intro v hv
    have hd := gdvd v hv
    rw [hdiff v hv] at hd
    simp only [List.mem_cons, List.mem_singleton, List.not_mem_nil, or_false] at hfmem
    rcases hfmem with h | h | h
    · rw [h]; exact one_dvd _
    · rw [h]; exact hd
    · have hw : wrap32 (-factor0) = -factor0 := by
        simp only [Bool.or_eq_true, decide_eq_true_eq, not_or, not_lt] at hs16
        apply wrap32_eq <;> omega
      rw [h, hw]; exact (Int.neg_dvd).2 hd
  -- the common final step, for the final offset `m` and form `U`
  have final : ∀ (m : Int) (U : Bool) (ps : List Nat),
      (∀ v ∈ vec, f ∣ v - m) →
      (∀ v ∈ vec, -(2 ^ 31) ≤ v - m ∧ v - m < 2 ^ 31) →
      (∀ v ∈ vec, ∀ q, cdiv (wrap32 (v - m)) f = some q →
        -8 ≤ q ∧ q ≤ 15 ∧ (if U then 0 ≤ q else q ≤ 7)) →
      packGroups vec obj.idx m f (obj.elems / 8) 0 = some ps →
      ∀ i, i < obj.elems → ∃ k v p, obj.idx[i]? = some k ∧ vec[k]? = some v ∧
        ps[i / 8]? = some p ∧ decodeNibble U (nibble p (i % 8)) * f + m = v := by
    intro m U ps hdv hrg hq hps i hi
    have hlt : i / 8 < obj.elems / 8 := by
      simp only [Bool.not_eq_true', Bool.or_eq_false_iff, beq_eq_false_iff_ne, ne_eq,
        not_and, Bool.not_eq_false, Bool.or_eq_true, beq_iff_eq, Decidable.not_not] at helems
      by_cases h8 : obj.elems = 8
      · rw [h8] at hi ⊢; omega
      · have h16 : obj.elems = 16 := by tauto
        rw [h16] at hi ⊢; omega
    obtain ⟨p, hp, hspec⟩ := packGroups_spec vec obj.idx m f U hq _ 0 ps hps (i / 8) hlt
    obtain ⟨k, v, q, hk, hv, hd, hdec⟩ := hspec (i % 8) (Nat.mod_lt _ (by decide))
    rw [show 8 * (0 + i / 8) + i % 8 = i by omega] at hk
    refine ⟨k, v, p, hk, hv, hp, ?_⟩
    have hvm := List.getElem?_mem hv
    obtain ⟨q1, q2, _⟩ := hq v hvm q hd
    have hw := wrap32_eq (v - m) (hrg v hvm).1 (hrg v hvm).2
    rw [hw] at hd
    have := cdiv_exact (v - m) f q (hrg v hvm).1 (hrg v hvm).2 (hdv v hvm) hd q1 q2
    rw [hdec]
    omega
  -- range facts from a passed check
  have ranges : ∀ (m : Int) (a b : Bool),
      check_range vec f m 0 15 = some a → check_range vec f m (-8) 7 = some b →
      (a || b) = true →
      ∀ v ∈ vec, ∀ q, cdiv (wrap32 (v - m)) f = some q →
        -8 ≤ q ∧ q ≤ 15 ∧ (if a then 0 ≤ q else q ≤ 7) := by
    intro m a b ha hb hab v hv q hq
    cases a with
    | true =>
      obtain ⟨d, hd, d1, d2⟩ := check_range_true f m 0 15 vec ha v hv
      rw [hq] at hd
      cases hd
      exact ⟨by omega, d2, d1⟩
    | false =>
      have hb' : b = true := by simpa using hab
      subst hb'
      obtain ⟨d, hd, d1, d2⟩ := check_range_true f m (-8) 7 vec hb v hv
      rw [hq] at hd
      cases hd
      exact ⟨d1, by omega, d2⟩
  cases hr : cmod vec_min f with
  | none => simp [hr] at hacc
  | some rem =>
  simp only [hr] at hacc
  split at hacc
  · simp at hacc
  rename_i upd hretry
  split at hacc
  · simp at hacc
  rename_i packed hpacked
  simp only [Except.ok.injEq, Option.some.injEq] at hacc
  subst hacc
  refine ⟨rfl, ?_⟩
  simp only
  cases upd with
  | none =>
    simp only [Option.isSome_none, Bool.false_eq_true, if_false] at hpacked ⊢
    exact final vec_min uu packed hfd
      (fun v hv => ⟨by have := hmin_le v hv; omega, hno v hv⟩)
      (ranges vec_min uu vv hcu hcv huv') hpacked
  | some nu =>
    obtain ⟨nuu, nvv⟩ := nu
    simp only [Option.isSome_some, if_true] at hpacked ⊢
    split at hretry
    · rename_i hrem
      split at hretry
      · rename_i new_uv new_v hn1 hn2
        simp only [Option.some.injEq] at hretry
        split at hretry
        · rename_i hnew
          simp only [Option.some.injEq, Prod.mk.injEq] at hretry
          obtain ⟨e1, e2⟩ := hretry
          subst e1; subst e2
          have hdm : f ∣ vec_min := by
            unfold cmod at hr
            rw [if_neg hfne] at hr
            simp only [Option.some.injEq] at hr
            rw [← hr] at hrem
            exact Int.dvd_of_tmod_eq_zero hrem
          have hdv0 : ∀ v ∈ vec, f ∣ v - 0 := by
            intro v hv
            rw [show v - 0 = vec_min + (v - vec_min) by ring]
            exact (Int.dvd_add_right hdm).2 (hfd v hv)
          exact final 0 new_uv packed hdv0
            (fun v hv => by have := hrange v hv; constructor <;> omega)
            (ranges 0 new_uv new_v hn1 hn2 hnew) hpacked
        · simp at hretry
      · simp at hretry
    · simp at hretry

theorem math_gcd_spec (a b : Int) (_ : 0 ≤ a) (_ : 0 ≤ b) :
    0 ≤ math_gcd a b ∧ math_gcd a b ∣ a ∧ math_gcd a b ∣ b :=
  ⟨Int.ofNat_nonneg _, Int.gcd_dvd_left, Int.gcd_dvd_right⟩

/-- C2 witness: the progression 100, 103, ..., 121 in identity order is accepted
in the `:uv` form with factor 3 and offset 100, and element 5 is reconstructed
from field 5 of the packed immediate. -/
theorem packed_int_peephole_reconstructs_witness :
    try_packed_int_peephole math_gcd 32 exampleDst exampleTmp progressionShuffle
      = Except.ok (some
          { use_uv := true, factor := 3, vec_min := 100, packed := [0x76543210],
            code := packedCode 32 exampleDst exampleTmp 8 true 3 100 [0x76543210] }) ∧
    decodeNibble true (nibble 0x76543210 5) * 3 + 100 = 115 := by
  have hacc : try_packed_int_peephole math_gcd 32 exampleDst exampleTmp progressionShuffle
      = Except.ok (some
          { use_uv := true, factor := 3, vec_min := 100, packed := [0x76543210],
            code := packedCode 32 exampleDst exampleTmp 8 true 3 100 [0x76543210] }) := by
    rfl
  refine ⟨hacc, ?_⟩
  obtain ⟨k, v, p, hk, hv, hp, h⟩ :=
    (packed_int_peephole_reconstructs math_gcd math_gcd_spec 32 exampleDst exampleTmp
      progressionShuffle [100, 103, 106, 109, 112, 115, 118, 121] 100 _ rfl rfl
      (by decide) hacc).2 5 (by decide)
  simp [progressionShuffle] at hk hp
  subst hk; subst hp
  simp at hv
  subst hv
  exact h

/-! ## C3, C4: the region peephole addresses the loads it replaces -/

theorem evalLoads_spec (t : DataType) : ∀ (objVec : List ShuffleElem) (dt : DataType)
    (vec : List RegData) (t' : DataType),
    (∀ e ∈ objVec, e.op.type = t) → (dt = DataType.invalid ∨ dt = t) →
    evalLoads objVec dt = Except.ok (some (vec, t')) →
      (t' = dt ∨ t' = t) ∧ (objVec ≠ [] → t' = t) ∧
      ∀ (k : Nat) (v : RegData), vec[k]? = some v →
        ∃ e : ShuffleElem, objVec[k]? = some e ∧ e.op.kind = OperandKind.reg_buf_data v := by
  intro objVec
  induction objVec with
  | nil =>
    intro dt vec t' _ _ h
    simp only [evalLoads, Except.ok.injEq, Option.some.injEq, Prod.mk.injEq] at h
    obtain ⟨h1, h2⟩ := h
    subst h1; subst h2
    exact ⟨Or.inl rfl, fun h => absurd rfl h, fun k v hv => by simp at hv⟩
  | cons e rest ih =>
    intro dt vec t' hty hdt h
    have hte := hty e (List.mem_cons_self _ _)
    have hrest : ∀ e' ∈ rest, e'.op.type = t := fun e' he' =>
      hty e' (List.mem_cons_of_mem _ he')
    simp only [evalLoads] at h
    split at h
    · simp at h
    cases hk : e.op.kind with
    | reg_buf_data rbd =>
      simp only [hk] at h
      have hrt : rbd.type = t := by
        simpa [Operand.type, hk] using hte
      have step : ∀ dt', dt' = t →
          (match evalLoads rest dt' with
            | Except.ok (some (vec, t)) => Except.ok (some (rbd :: vec, t))
            | other => other) = Except.ok (some (vec, t')) →
          (t' = dt ∨ t' = t) ∧ (e :: rest ≠ [] → t' = t) ∧
          ∀ (k : Nat) (v : RegData), vec[k]? = some v →
            ∃ e' : ShuffleElem, (e :: rest)[k]? = some e' ∧
              e'.op.kind = OperandKind.reg_buf_data v := by
        intro dt' hdt' h'
        split at h'
        · rename_i vec1 t1 hev
          simp only [Except.ok.injEq, Option.some.injEq, Prod.mk.injEq] at h'
          obtain ⟨e1, e2⟩ := h'
          subst e1; subst e2
          obtain ⟨i0, _, i2⟩ := ih dt' vec1 t1 hrest (Or.inr hdt') hev
          have ht1 : t1 = t := by rcases i0 with h0 | h0 <;> simp [h0, hdt']
          refine ⟨Or.inr ht1, fun _ => ht1, ?_⟩
          intro k v hv
          cases k with
          | zero =>
            simp at hv
            subst hv
            exact ⟨e, by simp, hk⟩
          | succ k =>
            simp at hv
            obtain ⟨e', he', hke'⟩ := i2 k v hv
            exact ⟨e', by simpa using he', hke'⟩
        · rename_i hne
          exact absurd h' (by
            intro hh
            exact hne vec t' hh)
      split at h
      · exact step rbd.type hrt h
      · split at h
        · simp at h
        · rename_i hinv _
          exact step dt (by tauto) h
    | invalid => simp [hk] at h
    | immediate _ _ => simp [hk] at h
    | flag_register _ _ => simp [hk] at h

theorem idiv_mul_of_mod (a b r q : Int) (hr : cmod a b = some r) (hq : idiv a b = some q)
    (h0 : r = 0) : q * b = a := by
  unfold cmod at hr
  unfold idiv at hq
  split at hr
  · simp at hr
  · rename_i hb
    rw [if_neg hb] at hq
    simp only [Option.some.injEq] at hr hq
    rw [← hq]
    exact Int.tdiv_mul_cancel (Int.dvd_of_tmod_eq_zero (by rw [hr, h0]))

theorem is_xxyy_spec (allow : Bool) (idx : List Nat) (h : is_xxyy allow idx = true) :
    allow = true ∧ ∀ i, i < idx.length / 2 →
      idx[i]? = some 0 ∧ idx[i + idx.length / 2]? = some 1 := by
  unfold is_xxyy at h
  split at h
  · simp at h
  · rename_i ha
    refine ⟨by simpa using ha, ?_⟩
    intro i hi
    rw [List.all_eq_true] at h
    have := h i (List.mem_range.2 hi)
    simp only [bne_iff_ne, ne_eq, Bool.and_eq_true, Bool.not_eq_true', decide_eq_false_iff_not,
      Decidable.not_not, Bool.not_eq_eq_eq_not, Bool.not_true, bne_eq_false_iff_eq] at this
    have h1 : i < idx.length := by omega
    have h2 : i + idx.length / 2 < idx.length := by omega
    rw [List.getD_eq_getElem _ _ h1, List.getD_eq_getElem _ _ h2] at this
    rw [List.getElem?_eq_getElem h1, List.getElem?_eq_getElem h2]
    simp [this.1, this.2]

theorem regionElemLoc_eq (grf_size : Int) (rd : RegData) (i w : Nat) (hw : rd.width = w) :
    regionElemLoc grf_size rd i
      = rd.base * grf_size + (rd.byteOffset
          + (((i % w : Nat) : Int) * rd.hs + ((i / w : Nat) : Int) * rd.vs) * getBytes rd.type) := by
  unfold regionElemLoc
  simp only [hw]
  rw [Int.tdiv_eq_ediv (Int.ofNat_nonneg _) (Int.ofNat_nonneg _),
    Int.tmod_eq_emod (Int.ofNat_nonneg _) (Int.ofNat_nonneg _)]
  norm_cast

theorem region_accept_unpack (grf_size : Int) (allow : Bool) (objVec : List ShuffleElem)
    (idx : List Nat) (p : RegionPattern) (rd : RegData)
    (hacc : try_region_peephole grf_size allow objVec idx = Except.ok (some (p, rd))) :
    ∃ (vec : List RegData) (data_type : DataType) (vec0 vec1 : RegData) (q : Int),
      evalLoads objVec DataType.invalid = Except.ok (some (vec, data_type)) ∧
      vec[0]? = some vec0 ∧ vec[1]? = some vec1 ∧
      cmod (diff_bytes grf_size vec0 vec1) (getBytes data_type) = some 0 ∧
      idiv (diff_bytes grf_size vec0 vec1) (getBytes data_type) = some q ∧
      idx.length = 2 * (idx.length / 2) ∧
      ((p = RegionPattern.xxyy ∧ is_xxyy allow idx = true ∧
          rd = vec0.setRegion q (idx.length / 2 : Nat) 0) ∨
       (p = RegionPattern.xyxy ∧
          is_xyxy grf_size vec idx (diff_bytes grf_size vec0 vec1) = some true ∧
          rd = vec0.setRegion 0 (idx.length / 2 : Nat) q)) := by
  unfold try_region_peephole at hacc
  simp only at hacc
  split at hacc
  · simp at hacc
  rename_i heven
  have hlen : idx.length = 2 * (idx.length / 2) := by
    simp only [bne_iff_ne, ne_eq, Decidable.not_not] at heven
    omega
  cases hev : evalLoads objVec DataType.invalid with
  | error e => simp [hev] at hacc
  | ok res =>
    cases res with
    | none => simp [hev] at hacc
    | some pr =>
      obtain ⟨vec, data_type⟩ := pr
      simp only [hev] at hacc
      cases hv0 : vec[0]? with
      | none => simp [hv0] at hacc
      | some vec0 =>
        cases hv1 : vec[1]? with
        | none => simp [hv0, hv1] at hacc
        | some vec1 =>
          simp only [hv0, hv1] at hacc
          cases hr : cmod (diff_bytes grf_size vec0 vec1) (getBytes data_type) with
          | none =>
            simp only [hr] at hacc
            split at hacc <;> simp at hacc
          | some r =>
            cases hq : idiv (diff_bytes grf_size vec0 vec1) (getBytes data_type) with
            | none =>
              simp only [hr, hq] at hacc
              split at hacc <;> simp at hacc
            | some q =>
              simp only [hr, hq] at hacc
              split at hacc
              · simp at hacc
              rename_i hguard
              have hr0 : r = 0 := by
                simp only [Bool.or_eq_true, decide_eq_true_eq, bne_iff_ne, ne_eq, not_or,
                  Decidable.not_not] at hguard
                exact hguard.2
              subst hr0
              refine ⟨vec, data_type, vec0, vec1, q, rfl, hv0, hv1, hr, hq, hlen, ?_⟩
              split at hacc
              · rename_i hxx
                split at hacc
                · simp at hacc
                split at hacc
                · simp at hacc
                simp only [Except.ok.injEq, Option.some.injEq, Prod.mk.injEq] at hacc
                exact Or.inl ⟨hacc.1.symm, hxx, hacc.2.symm⟩
              · cases hxy : is_xyxy grf_size vec idx (diff_bytes grf_size vec0 vec1) with
                | none => simp [hxy] at hacc
                | some b =>
                  cases b with
                  | false => simp [hxy] at hacc
                  | true =>
                    simp only [hxy] at hacc
                    split at hacc
                    · simp at hacc
                    split at hacc
                    · simp at hacc
                    simp only [Except.ok.injEq, Option.some.injEq, Prod.mk.injEq] at hacc
                    exact Or.inr ⟨hacc.1.symm, rfl, hacc.2.symm⟩

/-- The regions `evalLoads` returns are those of the loads, in order, and the
common type is the type of the loads. -/
theorem region_accept_loads (grf_size : Int) (allow : Bool) (objVec : List ShuffleElem)
    (idx : List Nat) (t : DataType) (p : RegionPattern) (rd : RegData)
    (hty : ∀ e ∈ objVec, e.op.type = t)
    (hacc : try_region_peephole grf_size allow objVec idx = Except.ok (some (p, rd))) :
    ∃ (vec : List RegData) (vec0 vec1 : RegData) (q : Int),
      (∀ (k : Nat) (v : RegData), vec[k]? = some v →
        ∃ e : ShuffleElem, objVec[k]? = some e ∧ e.op.kind = OperandKind.reg_buf_data v ∧
          v.type = t) ∧
      vec[0]? = some vec0 ∧ vec[1]? = some vec1 ∧
      q * getBytes t = diff_bytes grf_size vec0 vec1 ∧
      idiv (diff_bytes grf_size vec0 vec1) (getBytes t) = some q ∧
      idx.length = 2 * (idx.length / 2) ∧
      ((p = RegionPattern.xxyy ∧ is_xxyy allow idx = true ∧
          rd = vec0.setRegion q (idx.length / 2 : Nat) 0) ∨
       (p = RegionPattern.xyxy ∧
          is_xyxy grf_size vec idx (diff_bytes grf_size vec0 vec1) = some true ∧
          rd = vec0.setRegion 0 (idx.length / 2 : Nat) q)) := by
  obtain ⟨vec, data_type, vec0, vec1, q, hev, hv0, hv1, hr, hq, hlen, hpat⟩ :=
    region_accept_unpack grf_size allow objVec idx p rd hacc
  have hne : objVec ≠ [] := by
    intro h
    rw [h] at hev
    simp only [evalLoads, Except.ok.injEq, Option.some.injEq, Prod.mk.injEq] at hev
    rw [← hev.1] at hv0
    simp at hv0
  obtain ⟨_, hdt, hvec⟩ := evalLoads_spec t objVec DataType.invalid vec data_type hty
    (Or.inl rfl) hev
  have hdt' := hdt hne
  subst hdt'
  refine ⟨vec, vec0, vec1, q, ?_, hv0, hv1, idiv_mul_of_mod _ _ 0 q hr hq rfl, hq, hlen, hpat⟩
  intro k v hv
  obtain ⟨e, he, hk⟩ := hvec k v hv
  refine ⟨e, he, hk, ?_⟩
  have := hty e (List.getElem?_mem he)
  simpa [Operand.type, hk] using this

/-- C3. When `try_region_peephole` accepts a shuffle of `n` loads of one data
type through the repeat-block pattern, the pattern is `idx[i] = 0` for
`i < n/2` and `idx[i] = 1` for `i >= n/2`, the region bound is the location of
`vec[0]` with region `<stride_bytes / type_size; n/2, 0>`, and for every element
position `i < n` it addresses exactly the byte location of the load
`vec[idx[i]]`. -/
theorem region_peephole_xxyy (grf_size : Int) (allow : Bool) (objVec : List ShuffleElem)
    (idx : List Nat) (t : DataType) (rd : RegData)
    (hty : ∀ e ∈ objVec, e.op.type = t)
    (hacc : try_region_peephole grf_size allow objVec idx
      = Except.ok (some (RegionPattern.xxyy, rd))) :
    ∃ (e0 e1 : ShuffleElem) (vec0 vec1 : RegData) (vs : Int),
      objVec[0]? = some e0 ∧ e0.op.kind = OperandKind.reg_buf_data vec0 ∧
      objVec[1]? = some e1 ∧ e1.op.kind = OperandKind.reg_buf_data vec1 ∧
      idiv (diff_bytes grf_size vec0 vec1) (getBytes t) = some vs ∧
      rd = vec0.setRegion vs (idx.length / 2 : Nat) 0 ∧
      ∀ i, i < idx.length →
        idx[i]? = some (if i < idx.length / 2 then 0 else 1) ∧
        regionElemLoc grf_size rd i
          = byteLoc grf_size (if i < idx.length / 2 then vec0 else vec1) := by
  obtain ⟨vec, vec0, vec1, q, hvec, hv0, hv1, hmul, hq, hlen, hpat⟩ :=
    region_accept_loads grf_size allow objVec idx t _ rd hty hacc
  obtain ⟨e0, he0, hk0, ht0⟩ := hvec 0 vec0 hv0
  obtain ⟨e1, he1, hk1, _⟩ := hvec 1 vec1 hv1
  rcases hpat with ⟨_, hxx, hrd⟩ | ⟨hp, _⟩
  · subst hrd
    refine ⟨e0, e1, vec0, vec1, q, he0, hk0, he1, hk1, hq, rfl, ?_⟩
    obtain ⟨_, hpat⟩ := is_xxyy_spec allow idx hxx
    intro i hi
    rw [regionElemLoc_eq grf_size _ i (idx.length / 2) rfl]
    simp only [RegData.setRegion, ht0]
    by_cases hlt : i < idx.length / 2
    · simp only [hlt, if_true]
      refine ⟨(hpat i hlt).1, ?_⟩
      rw [Nat.div_eq_of_lt hlt]
      simp [byteLoc]
    · simp only [hlt, if_false]
      have hj : i - idx.length / 2 < idx.length / 2 := by omega
      have := (hpat (i - idx.length / 2) hj).2
      rw [show i - idx.length / 2 + idx.length / 2 = i by omega] at this
      refine ⟨this, ?_⟩
      have hdiv : i / (idx.length / 2) = 1 := by
        apply Nat.div_eq_of_lt_le <;> omega
      rw [hdiv]
      simp only [Nat.cast_one, mul_zero, zero_add, one_mul, hmul]
      simp only [diff_bytes, byteLoc]
      ring
  · cases hp

/-- C3 witness: two dword loads 16 bytes apart in register 10, shuffled as
(0,0,0,0,1,1,1,1), are bound to r10.0 with region <4; 4, 0>, and element 5
addresses the second load. -/
theorem region_peephole_xxyy_witness :
    try_region_peephole 32 true [loadElem 10 0 DataType.ud, loadElem 10 16 DataType.ud]
        [0, 0, 0, 0, 1, 1, 1, 1]
      = Except.ok (some (RegionPattern.xxyy,
          { base := 10, byteOffset := 0, type := DataType.ud, vs := 4, width := 4, hs := 0 })) ∧
    regionElemLoc 32
        { base := 10, byteOffset := 0, type := DataType.ud, vs := 4, width := 4, hs := 0 } 5
      = byteLoc 32 { base := 10, byteOffset := 16, type := DataType.ud } := by
  have hacc : try_region_peephole 32 true
      [loadElem 10 0 DataType.ud, loadElem 10 16 DataType.ud] [0, 0, 0, 0, 1, 1, 1, 1]
      = Except.ok (some (RegionPattern.xxyy,
          { base := 10, byteOffset := 0, type := DataType.ud, vs := 4, width := 4, hs := 0 })) := by
    rfl
  refine ⟨hacc, ?_⟩
  obtain ⟨e0, e1, vec0, vec1, vs, h0, k0, h1, k1, _, _, h⟩ :=
    region_peephole_xxyy 32 true _ _ DataType.ud _ (by decide) hacc
  simp only [List.getElem?_cons_zero, List.getElem?_cons_succ, Option.some.injEq] at h0 h1
  subst h0; subst h1
  simp only [loadElem, regOp, OperandKind.reg_buf_data.injEq] at k0 k1
  subst k0; subst k1
  exact (h 5 (by decide)).2

theorem is_xyxy_loop_spec (grf_size : Int) (vec : List RegData) (idx : List Nat)
    (stride_bytes : Int) : ∀ (n i0 : Nat),
    is_xyxy_loop grf_size vec idx stride_bytes n i0 = some true →
      ∀ i, i0 ≤ i → i < i0 + n →
        idx.getD i 0 = i ∧ idx.getD (i + idx.length / 2) 0 = i ∧
        (0 < i → ∃ a b : RegData, vec[i - 1]? = some a ∧ vec[i]? = some b ∧
          diff_bytes grf_size a b = stride_bytes) := by
  intro n
  induction n with
  | zero => intro i0 _ i h1 h2; omega
  | succ n ih =>
    intro i0 h i h1 h2
    simp only [is_xyxy_loop] at h
    split at h
    · simp at h
    rename_i hA
    split at h
    · simp at h
    rename_i hB
    simp only [bne_iff_ne, ne_eq, Decidable.not_not] at hA hB
    split at h
    · rename_i hpos
      split at h
      · rename_i a b ha hb
        split at h
        · simp at h
        rename_i hd
        simp only [bne_iff_ne, ne_eq, Decidable.not_not] at hd
        by_cases hi : i = i0
        · subst hi
          exact ⟨hA, by rw [← hB, hA], fun _ => ⟨a, b, ha, hb, hd⟩⟩
        · exact ih (i0 + 1) h i (by omega) (by omega)
      · simp at h
    · rename_i hpos
      by_cases hi : i = i0
      · subst hi
        exact ⟨hA, by rw [← hB, hA], fun hp => absurd hp hpos⟩
      · exact ih (i0 + 1) h i (by omega) (by omega)

/-- C4. When `try_region_peephole` accepts a shuffle of `n` loads of one data
type through the interleave pattern, `idx[i] = i` and `idx[i + n/2] = idx[i]`
for `i < n/2`, the loads `vec[0]`, ..., `vec[n/2 - 1]` lie a constant
`stride_bytes` apart, the region bound is the location of `vec[0]` with region
`<0; n/2, stride_bytes / type_size>`, and for every element position `i < n` it
addresses exactly the byte location of the load `vec[idx[i]]`. -/
theorem region_peephole_xyxy (grf_size : Int) (allow : Bool) (objVec : List ShuffleElem)
    (idx : List Nat) (t : DataType) (rd : RegData)
    (hty : ∀ e ∈ objVec, e.op.type = t)
    (hacc : try_region_peephole grf_size allow objVec idx
      = Except.ok (some (RegionPattern.xyxy, rd))) :
    ∃ (e0 e1 : ShuffleElem) (vec0 vec1 : RegData) (hs : Int),
      objVec[0]? = some e0 ∧ e0.op.kind = OperandKind.reg_buf_data vec0 ∧
      objVec[1]? = some e1 ∧ e1.op.kind = OperandKind.reg_buf_data vec1 ∧
      idiv (diff_bytes grf_size vec0 vec1) (getBytes t) = some hs ∧
      rd = vec0.setRegion 0 (idx.length / 2 : Nat) hs ∧
      ∀ i, i < idx.length →
        ∃ (e : ShuffleElem) (v : RegData),
          idx[i]? = some (i % (idx.length / 2)) ∧
          objVec[i % (idx.length / 2)]? = some e ∧
          e.op.kind = OperandKind.reg_buf_data v ∧
          byteLoc grf_size v = byteLoc grf_size vec0
            + (i % (idx.length / 2) : Nat) * diff_bytes grf_size vec0 vec1 ∧
          regionElemLoc grf_size rd i = byteLoc grf_size v := by
  obtain ⟨vec, vec0, vec1, q, hvec, hv0, hv1, hmul, hq, hlen, hpat⟩ :=
    region_accept_loads grf_size allow objVec idx t _ rd hty hacc
  obtain ⟨e0, he0, hk0, ht0⟩ := hvec 0 vec0 hv0
  obtain ⟨e1, he1, hk1, _⟩ := hvec 1 vec1 hv1
  rcases hpat with ⟨hp, _⟩ | ⟨_, hxy, hrd⟩
  · cases hp
  subst hrd
  refine ⟨e0, e1, vec0, vec1, q, he0, hk0, he1, hk1, hq, rfl, ?_⟩
  have hloop := is_xyxy_loop_spec grf_size vec idx _ (idx.length / 2) 0 hxy
  have hlocs : ∀ k, k < idx.length / 2 → ∃ v : RegData, vec[k]? = some v ∧
      byteLoc grf_size v = byteLoc grf_size vec0
        + (k : Nat) * diff_bytes grf_size vec0 vec1 := by
    intro k
    induction k with
    | zero => intro _; exact ⟨vec0, hv0, by simp⟩
    | succ k ih =>
      intro hk
      obtain ⟨v, hv, hloc⟩ := ih (by omega)
      obtain ⟨_, _, hc⟩ := hloop (k + 1) (by omega) (by omega)
      obtain ⟨a, b, ha, hb, hd⟩ := hc (by omega)
      simp only [Nat.add_sub_cancel] at ha
      rw [hv] at ha
      cases ha
      refine ⟨b, hb, ?_⟩
      have : byteLoc grf_size b = byteLoc grf_size v + diff_bytes grf_size vec0 vec1 := by
        rw [← hd]; simp only [diff_bytes]; ring
      rw [this, hloc]
      push_cast
      ring
  intro i hi
  have hpos : 0 < idx.length / 2 := by omega
  have hk : i % (idx.length / 2) < idx.length / 2 := Nat.mod_lt _ hpos
  obtain ⟨v, hv, hloc⟩ := hlocs _ hk
  obtain ⟨e, he, hke, _⟩ := hvec _ v hv
  refine ⟨e, v, ?_, he, hke, hloc, ?_⟩
  · obtain ⟨h1, h2, _⟩ := hloop (i % (idx.length / 2)) (by omega) (by omega)
    rw [List.getElem?_eq_getElem hi]
    by_cases hlt : i < idx.length / 2
    · rw [Nat.mod_eq_of_lt hlt] at h1 ⊢
      rw [List.getD_eq_getElem _ _ hi] at h1
      rw [h1]
    · have hmod : i % (idx.length / 2) = i - idx.length / 2 := by
        rw [Nat.mod_eq_sub_mod (by omega), Nat.mod_eq_of_lt (by omega)]
      rw [hmod] at h2 ⊢
      rw [Nat.sub_add_cancel (Nat.le_of_not_lt hlt), List.getD_eq_getElem _ _ hi] at h2
      rw [h2]
  · rw [regionElemLoc_eq grf_size _ i (idx.length / 2) rfl, hloc]
    simp only [RegData.setRegion, ht0, mul_zero, add_zero]
    rw [mul_assoc, hmul]
    simp only [byteLoc]
    ring

/-- C4 witness: four dword loads 8 bytes apart in register 10, shuffled as
(0,1,2,3,0,1,2,3), are bound to r10.0 with region <0; 4, 2>, and element 6
addresses the third load. -/
theorem region_peephole_xyxy_witness :
    try_region_peephole 32 true
        [loadElem 10 0 DataType.ud, loadElem 10 8 DataType.ud, loadElem 10 16 DataType.ud,
          loadElem 10 24 DataType.ud]
        [0, 1, 2, 3, 0, 1, 2, 3]
      = Except.ok (some (RegionPattern.xyxy,
          { base := 10, byteOffset := 0, type := DataType.ud, vs := 0, width := 4, hs := 2 })) ∧
    regionElemLoc 32
        { base := 10, byteOffset := 0, type := DataType.ud, vs := 0, width := 4, hs := 2 } 6
      = byteLoc 32 { base := 10, byteOffset := 16, type := DataType.ud } := by
  have hacc : try_region_peephole 32 true
      [loadElem 10 0 DataType.ud, loadElem 10 8 DataType.ud, loadElem 10 16 DataType.ud,
        loadElem 10 24 DataType.ud] [0, 1, 2, 3, 0, 1, 2, 3]
      = Except.ok (some (RegionPattern.xyxy,
          { base := 10, byteOffset := 0, type := DataType.ud, vs := 0, width := 4, hs := 2 })) := by
    rfl
  refine ⟨hacc, ?_⟩
  obtain ⟨e0, e1, vec0, vec1, hs, _, _, _, _, _, _, h⟩ :=
    region_peephole_xyxy 32 true _ _ DataType.ud _ (by decide) hacc
  obtain ⟨e, v, _, he, hk, _, hloc⟩ := h 6 (by decide)
  simp only [List.length_cons, List.length_nil, Nat.reduceAdd, Nat.reduceDiv, Nat.reduceMod,
    List.getElem?_cons_zero, List.getElem?_cons_succ, Option.some.injEq] at he
  subst he
  simp only [loadElem, regOp, OperandKind.reg_buf_data.injEq] at hk
  subst hk
  exact hloc

/-! ## Binding tables that hold only variables -/

/-- A table that binds only variables has no entry for any other node. -/
theorem lookup_of_vars_only (l : List (Expr × Operand))
    (hvars : ∀ p ∈ l, ∃ id t, p.1 = Expr.var id t) (e : Expr)
    (he : ∀ id t, e ≠ Expr.var id t) : l.lookup e = none := by
  induction l with
  | nil => rfl
  | cons p l ih =>
    obtain ⟨k, v⟩ := p
    obtain ⟨id, t, hp⟩ := hvars (k, v) (List.mem_cons_self _ _)
    simp only at hp
    subst hp
    have : (e == Expr.var id t) = false := by
      simpa using he id t
    simp only [List.lookup, this]
    exact ih (fun p hp => hvars p (List.mem_cons_of_mem _ hp))

theorem beq_false_of_ne {a b : Expr} (h : a ≠ b) : (a == b) = false := by
  simpa using h

/-! ## Emission only appends -/

theorem Emits.emits_refl (P : Instr → Prop) (c : List Instr) : Emits P c c :=
  ⟨[], by simp, by intro i hi; cases hi⟩

theorem Emits.emits_trans {P : Instr → Prop} {a b c : List Instr} (h1 : Emits P a b)
    (h2 : Emits P b c) : Emits P a c := by
  obtain ⟨x, hx, px⟩ := h1
  obtain ⟨y, hy, py⟩ := h2
  refine ⟨x ++ y, by rw [hy, hx, List.append_assoc], ?_⟩
  intro i hi
  rcases List.mem_append.1 hi with hi | hi
  · exact px i hi
  · exact py i hi

theorem Emits.one {P : Instr → Prop} {c : List Instr} {i : Instr} (h : P i) :
    Emits P c (c ++ [i]) :=
  ⟨[i], rfl, by intro x hx; rw [List.mem_singleton.1 hx]; exact h⟩

theorem Emits.to_extends {P : Instr → Prop} {c c1 : List Instr} (h : Emits P c c1) :
    Extends c c1 := by
  obtain ⟨B, hB, _⟩ := h
  exact ⟨B, hB⟩

theorem Extends.extends_refl (c : List Instr) : Extends c c := ⟨[], by simp⟩

theorem Extends.extends_trans {a b c : List Instr} (h1 : Extends a b) (h2 : Extends b c) :
    Extends a c := by
  obtain ⟨x, hx⟩ := h1
  obtain ⟨y, hy⟩ := h2
  exact ⟨x ++ y, by rw [hy, hx, List.append_assoc]⟩

theorem Extends.append (c B : List Instr) : Extends c (c ++ B) := ⟨B, rfl⟩

theorem evalBind_emits (P : Instr → Prop) (hP : ∀ i, i.isAlu = true → P i)
    (e : Expr) (op : Operand) (s s1 : EvalState)
    (h : evalBind e op s = Except.ok s1) : Emits P s.code s1.code := by
  unfold evalBind at h
  split at h
  · split at h
    · simp only [Except.ok.injEq] at h
      subst h
      exact Emits.emits_refl P _
    · simp at h
  · split at h
    · simp at h
    · split at h
      · split at h
        · simp only [Except.ok.injEq] at h
          subst h
          exact Emits.emits_refl P _
        · simp at h
      · dsimp only at h
        split at h
        · simp only [Except.ok.injEq] at h
          subst h
          exact Emits.one (hP _ rfl)
        · simp at h

theorem alloc_dst_op_code (host : Host) (e : Expr) (s s1 : EvalState) (op : Operand)
    (h : alloc_dst_op host e s = Except.ok (op, s1)) : s1.code = s.code := by
  unfold alloc_dst_op at h
  split at h
  · simp at h
  split at h
  · split at h
    · simp only [Except.ok.injEq, Prod.mk.injEq] at h
      rw [← h.2]
    · simp at h
  · dsimp only at h
    split at h
    · simp only [Except.ok.injEq, Prod.mk.injEq] at h
      rw [← h.2]
    · simp at h

theorem maybe_alloc_strided_op_code (host : Host) (t : IrType) (e : Expr) (s : EvalState) :
    (maybe_alloc_strided_op host t e s).2.code = s.code := by
  unfold maybe_alloc_strided_op
  split
  · rfl
  split
  · rfl
  split
  · rfl
  · rfl

theorem ebinary_emits (host : Host) (P : Instr → Prop)
    (hP : ∀ i, i.isAlu = true → P i) (halign : AlignEmits host P) (op : OpKind) (mod : Mod) (dst a b : Operand)
    (s s1 : EvalState) (h : ebinary host op mod dst a b s = Except.ok s1) :
    Emits P s.code s1.code := by
  unfold ebinary at h
  dsimp only at h
  have key : ∀ (acode : List Instr) (ra : RegAlloc) (i : Instr),
      (∀ x ∈ acode, P x) → i.isAlu = true →
      Emits P s.code (({ s with code := s.code ++ acode, ra := ra } : EvalState).emit i).code := by
    intro acode ra i ha hi
    refine ⟨acode ++ [i], by simp [EvalState.emit], ?_⟩
    intro x hx
    rcases List.mem_append.1 hx with hx | hx
    · exact ha x hx
    · rw [List.mem_singleton.1 hx]
      exact hP i hi
  cases op <;> simp only at h <;>
    first
      | (simp only [Except.ok.injEq] at h; subst h; exact key _ _ _ (halign _ _ _ _ _) rfl)
      | (split at h
         · simp at h
         · split at h <;>
             (split at h
              · simp at h
              · split at h
                · simp at h
                · simp only [Except.ok.injEq] at h
                  subst h
                  exact key _ _ _ (halign _ _ _ _ _) rfl))

theorem evalCore_emits (P : Instr → Prop) (hP : ∀ i, i.isAlu = true → P i)
    (visitE : EvalState → Except Fatal EvalState)
    (hv : ∀ s s1, visitE s = Except.ok s1 → Emits P s.code s1.code)
    (e : Expr) (dst : Operand) (fill : Bool) (s s1 : EvalState) (op : Operand)
    (h : evalCore visitE e dst fill s = Except.ok (op, s1)) : Emits P s.code s1.code := by
  unfold evalCore at h
  split at h
  · simp at h
  split at h
  · split at h
    · split at h
      · simp at h
      · split at h
        · split at h
          · simp at h
          · split at h
            · simp at h
            · simp only [Except.ok.injEq, Prod.mk.injEq] at h
              rw [← h.2]
              exact Emits.one (hP _ rfl)
        · simp only [Except.ok.injEq, Prod.mk.injEq] at h
          rw [← h.2]
          exact Emits.one (hP _ rfl)
    · split at h
      · simp at h
      · simp only [Except.ok.injEq, Prod.mk.injEq] at h
        rw [← h.2]
        exact Emits.emits_refl P _
  · dsimp only at h
    split at h
    · simp at h
    · rename_i s2 hvis
      split at h
      · simp at h
      · simp only [Except.ok.injEq, Prod.mk.injEq] at h
        rw [← h.2]
        show Emits P s.code s2.code
        split at hvis
        · exact hv _ _ hvis
        · split at hvis
          · split at hvis
            · simp at hvis
            · have := hv _ _ hvis
              exact this
          · split at hvis
            · simp at hvis
            · rename_i s3 hv3
              split at hvis
              · simp at hvis
              · split at hvis
                · simp at hvis
                · split at hvis
                  · simp at hvis
                  · simp only [Except.ok.injEq] at hvis
                    rw [← hvis]
                    exact (hv _ _ hv3).emits_trans (Emits.one (hP _ rfl))

theorem visit_emits (host : Host) (P : Instr → Prop)
    (hP : ∀ i, i.isAlu = true → P i) (halign : AlignEmits host P) (e : Expr) :
    ∀ s s1 : EvalState, visit host e s = Except.ok s1 → Emits P s.code s1.code := by
  induction e with
  | empty =>
    intro s s1 h
    simp only [visit, Except.ok.injEq] at h
    subst h
    exact Emits.emits_refl P _
  | bool_imm id v => intro s s1 h; simp [visit] at h
  | int_imm id v t =>
    intro s s1 h
    simp only [visit] at h
    exact evalBind_emits P hP _ _ _ _ h
  | var id t =>
    intro s s1 h
    simp only [visit] at h
    split at h
    · simp only [Except.ok.injEq] at h
      subst h
      exact Emits.emits_refl P _
    · simp at h
  | load id t buf off stride ih1 ih2 =>
    intro s s1 h
    simp only [visit] at h
    split at h
    · simp at h
    rename_i buf_op sa h1
    split at h
    · simp at h
    rename_i off_op sb h2
    have e1 := evalCore_emits P hP _ ih1 _ _ _ _ _ _ h1
    have e2 := evalCore_emits P hP _ ih2 _ _ _ _ _ _ h2
    split at h
    · simp at h
    · exact (e1.emits_trans e2).emits_trans (evalBind_emits P hP _ _ _ _ h)
    · simp at h
  | ptr id base off ih1 _ =>
    intro s s1 h
    simp only [visit] at h
    split at h
    · simp at h
    rename_i base_op sa h1
    have e1 := evalCore_emits P hP _ ih1 _ _ _ _ _ _ h1
    split at h
    · exact e1.emits_trans (evalBind_emits P hP _ _ _ _ h)
    · split at h
      · simp at h
      · exact e1.emits_trans (evalBind_emits P hP _ _ _ _ h)
    · simp at h
  | unary_op id t a ih =>
    intro s s1 h
    simp only [visit] at h
    split at h
    · simp at h
    rename_i a_op sa h1
    exact (evalCore_emits P hP _ ih _ _ _ _ _ _ h1).emits_trans (evalBind_emits P hP _ _ _ _ h)
  | binary_op id op t a b ih1 ih2 =>
    intro s s1 h
    simp only [visit] at h
    split at h
    · simp at h
    rename_i dst_op sa h0
    have c0 := alloc_dst_op_code _ _ _ _ _ h0
    split at h
    · simp at h
    rename_i src0 sb h1
    split at h
    · simp at h
    rename_i src1 sc h2
    split at h
    · simp at h
    rename_i sd h3
    have e1 := evalCore_emits P hP _ ih1 _ _ _ _ _ _ h1
    have e2 := evalCore_emits P hP _ ih2 _ _ _ _ _ _ h2
    have e3 := ebinary_emits host P hP halign _ _ _ _ _ _ _ h3
    have e4 := evalBind_emits P hP _ _ _ _ h
    have c1 := maybe_alloc_strided_op_code host t a sa
    have c2 := maybe_alloc_strided_op_code host t b (maybe_alloc_strided_op host t a sa).2
    simp only at e1 e4
    rw [c2, c1, c0] at e1
    exact ((e1.emits_trans e2).emits_trans e3).emits_trans e4
  | cast id t sat a ih =>
    intro s s1 h
    simp only [visit] at h
    split at h
    · simp at h
    split at h
    · split at h
      · simp at h
      · exact evalBind_emits P hP _ _ _ _ h
    · split at h
      · simp at h
      rename_i dst_op sa h0
      have c0 := alloc_dst_op_code _ _ _ _ _ h0
      split at h
      · split at h
        · simp at h
        rename_i x sb h1
        have e1 := evalCore_emits P hP _ ih _ _ _ _ _ _ h1
        rw [c0] at e1
        exact e1.emits_trans (evalBind_emits P hP _ _ _ _ h)
      · split at h
        · split at h
          · simp at h
          split at h
          · simp at h
          rename_i x sb h1
          have e1 := evalCore_emits P hP _ ih _ _ _ _ _ _ h1
          rw [c0] at e1
          exact e1.emits_trans (evalBind_emits P hP _ _ _ _ h)
        · split at h
          · simp at h
          rename_i expr_op sb h1
          have e1 := evalCore_emits P hP _ ih _ _ _ _ _ _ h1
          rw [c0] at e1
          have e2 := evalBind_emits P hP _ _ _ _ h
          have emplace_code : ∀ (x : EvalState) (e : Expr) (ty : IrType),
              (x.emplace_int_up_convert e ty).code = x.code := by
            intro x e ty
            unfold EvalState.emplace_int_up_convert
            split <;> rfl
          have e3 : Emits P sb.code (sb.code ++ [Instr.emov
              (if sat = true then { dst_op.mod with sat := true } else dst_op.mod)
              dst_op expr_op]) := Emits.one (hP _ rfl)
          refine (e1.emits_trans e3).emits_trans ?_
          split at e2
          · rw [emplace_code] at e2
            exact e2
          · exact e2

theorem stmtEval_emits (host : Host) (P : Instr → Prop)
    (hP : ∀ i, i.isAlu = true → P i) (halign : AlignEmits host P) (e : Expr) (dst : Operand) (fill : Bool)
    (g g1 : GenState) (op : Operand) (h : stmtEval host e dst fill g = Except.ok (op, g1)) :
    Emits P g.code g1.code := by
  unfold stmtEval at h
  split at h
  · simp at h
  · rename_i op' s hs
    simp only [Except.ok.injEq, Prod.mk.injEq] at h
    rw [← h.2]
    exact evalCore_emits P hP _ (visit_emits host P hP halign e) _ _ _ _ _ _ hs

theorem evalList_emits (host : Host) (P : Instr → Prop)
    (hP : ∀ i, i.isAlu = true → P i) (halign : AlignEmits host P) (es : List Expr) :
    ∀ (s s1 : EvalState) (ops : List Operand),
      evalList host es s = Except.ok (ops, s1) → Emits P s.code s1.code := by
  induction es with
  | nil =>
    intro s s1 ops h
    simp only [evalList, Except.ok.injEq, Prod.mk.injEq] at h
    rw [← h.2]
    exact Emits.emits_refl P _
  | cons e es ih =>
    intro s s1 ops h
    simp only [evalList] at h
    split at h
    · simp at h
    rename_i sa hv
    split at h
    · simp at h
    split at h
    · simp at h
    rename_i ops' sb hl
    simp only [Except.ok.injEq, Prod.mk.injEq] at h
    rw [← h.2]
    have e1 : Emits P s.code sa.code := by
      split at hv
      · exact visit_emits host P hP halign e _ _ hv
      · simp only [Except.ok.injEq] at hv
        rw [← hv]
        exact Emits.emits_refl P _
    exact e1.emits_trans (ih _ _ _ hl)

theorem stmtEvalList_emits (host : Host) (P : Instr → Prop)
    (hP : ∀ i, i.isAlu = true → P i) (halign : AlignEmits host P) (es : List Expr) (g g1 : GenState)
    (ops : List Operand) (h : stmtEvalList host es g = Except.ok (ops, g1)) :
    Emits P g.code g1.code := by
  unfold stmtEvalList at h
  split at h
  · simp at h
  · rename_i ops' s hs
    simp only [Except.ok.injEq, Prod.mk.injEq] at h
    rw [← h.2]
    exact evalList_emits host P hP halign es _ _ _ hs

theorem expr_visit_extends (host : Host) (e : Expr) (s s1 : EvalState)
    (h : visit host e s = Except.ok s1) : Extends s.code s1.code :=
  (visit_emits host (fun _ => True) (fun _ _ => trivial) (fun _ _ _ _ _ _ _ => trivial)
    e s s1 h).to_extends

theorem stmtEval_extends (host : Host) (e : Expr) (dst : Operand) (fill : Bool)
    (g g1 : GenState) (op : Operand) (h : stmtEval host e dst fill g = Except.ok (op, g1)) :
    Extends g.code g1.code :=
  (stmtEval_emits host (fun _ => True) (fun _ _ => trivial) (fun _ _ _ _ _ _ _ => trivial)
    e dst fill g g1 op h).to_extends

theorem stmtEvalList_extends (host : Host) (es : List Expr) (g g1 : GenState)
    (ops : List Operand) (h : stmtEvalList host es g = Except.ok (ops, g1)) :
    Extends g.code g1.code :=
  (stmtEvalList_emits host (fun _ => True) (fun _ _ => trivial) (fun _ _ _ _ _ _ _ => trivial)
    es g g1 ops h).to_extends

theorem visit_store_extends (host : GenHost) (buf off value : Expr) (stride : Option Int)
    (mask : Expr) (fill : Bool) (g g1 : GenState)
    (h : visit_store host buf off value stride mask fill g = Except.ok g1) :
    Extends g.code g1.code := by
  unfold visit_store at h
  split at h
  · simp at h
  rename_i buf_op ga h1
  split at h
  · simp at h
  split at h
  · simp at h
  rename_i mask_op gb h2
  dsimp only at h
  split at h
  · simp at h
  · simp at h
  · simp at h
  · split at h
    · simp at h
    · rename_i x gc h3
      simp only [Except.ok.injEq] at h
      subst h
      exact ((stmtEval_extends _ _ _ _ _ _ _ h1).extends_trans
        (stmtEval_extends _ _ _ _ _ _ _ h2)).extends_trans (stmtEval_extends _ _ _ _ _ _ _ h3)

theorem visit_send_call_extends (host : GenHost) (f : SendFunc) (args : SendArgs)
    (attr : Option Mod) (g g1 : GenState)
    (h : visit_send_call host f args attr g = Except.ok g1) : Extends g.code g1.code := by
  unfold visit_send_call at h
  split at h
  · split at h
    · split at h
      · simp at h
      rename_i op1 ga h1
      split at h
      · simp at h
      rename_i op2 gb h2
      split at h
      · simp at h
      simp only [Except.ok.injEq] at h
      subst h
      exact ((stmtEval_extends _ _ _ _ _ _ _ h1).extends_trans
        (stmtEval_extends _ _ _ _ _ _ _ h2)).extends_trans (Extends.append _ _)
    · simp only [Except.ok.injEq] at h
      subst h
      exact Extends.extends_refl _
  · dsimp only at h
    split at h
    · rename_i ga hl
      split at h
      · simp at h
      · simp only [Except.ok.injEq] at h
        subst h
        exact (stmtEvalList_extends _ _ _ _ _ hl).extends_trans (Extends.append _ _)
    · simp at h
    · simp at h

theorem GenState.bind_code (g g1 : GenState) (e : Expr) (op : Operand)
    (h : g.bind e op = Except.ok g1) : g1.code = g.code := by
  unfold GenState.bind at h
  split at h
  · simp at h
  · simp only [Except.ok.injEq] at h
    subst h
    rfl

theorem GenState.unbind_code (g g1 : GenState) (e : Expr)
    (h : g.unbind e = Except.ok g1) : g1.code = g.code := by
  unfold GenState.unbind at h
  split at h
  · simp at h
  · simp only [Except.ok.injEq] at h
    subst h
    rfl

theorem Extends.emit (g : GenState) (i : Instr) : Extends g.code (g.emit i).code :=
  Extends.append _ _

/-- The statement traversal only appends to the emitted sequence. -/
theorem Stmt.visit_extends (host : GenHost) (s : Stmt) :
    ∀ g g1 : GenState, Stmt.visit host s g = Except.ok g1 → Extends g.code g1.code := by
  induction s with
  | nop =>
    intro g g1 h
    simp only [Stmt.visit, Except.ok.injEq] at h
    subst h
    exact Extends.extends_refl _
  | seq head tail ih1 ih2 =>
    intro g g1 h
    simp only [Stmt.visit] at h
    split at h
    · simp at h
    · rename_i ga ha
      exact (ih1 _ _ ha).extends_trans (ih2 _ _ h)
  | alloc kind buf size bc hdr body ih =>
    intro g g1 h
    simp only [Stmt.visit] at h
    split at h
    · simp at h
    rename_i ga hbound
    split at h
    · simp at h
    split at h
    · simp at h
    rename_i gb hbody
    have e1 : ga.code = g.code := by
      split at hbound
      · split at hbound
        · simp at hbound
        · have := GenState.bind_code _ _ _ _ hbound
          exact this
      · simp only [Except.ok.injEq] at hbound
        rw [← hbound]
    have e2 := ih _ _ hbody
    rw [e1] at e2
    split at h
    · rw [← GenState.unbind_code _ _ _ h] at e2
      exact e2
    · simp only [Except.ok.injEq] at h
      rw [← h]
      exact e2
  | for_ var init bound step body ih =>
    intro g g1 h
    simp only [Stmt.visit] at h
    split at h
    · simp at h
    rename_i init_op ga h1
    split at h
    · simp at h
    rename_i bound_op gb h2
    split at h
    · simp at h
    rename_i step_op gc h3
    split at h
    · simp at h
    rename_i gd hbind
    have e0 : Extends g.code gd.code := by
      have a1 := stmtEval_extends _ _ _ _ _ _ _ h1
      have a2 := stmtEval_extends _ _ _ _ _ _ _ h2
      have a3 := stmtEval_extends _ _ _ _ _ _ _ h3
      rw [GenState.bind_code _ _ _ _ hbind]
      exact (a1.extends_trans a2).extends_trans a3
    split at h
    · split at h
      · simp at h
      · rename_i ge hbody
        have eb := ih _ _ hbody
        rw [GenState.unbind_code _ _ _ h]
        refine e0.extends_trans (Extends.extends_trans ?_ (eb.extends_trans ?_))
        · exact ⟨_, by simp [GenState.emit, GenState.new_label]; rfl⟩
        · exact ⟨_, by simp [GenState.emit]; rfl⟩
    · split at h
      · simp at h
      · rename_i ge hbody
        have eb := ih _ _ hbody
        rw [GenState.unbind_code _ _ _ h]
        refine e0.extends_trans (Extends.extends_trans ?_ (eb.extends_trans ?_))
        · exact ⟨_, by simp [GenState.emit, GenState.new_label]; rfl⟩
        · exact ⟨_, by simp [GenState.emit]; rfl⟩
  | send_call func args attr =>
    intro g g1 h
    simp only [Stmt.visit] at h
    exact visit_send_call_extends _ _ _ _ _ _ h
  | call func args attr =>
    intro g g1 h
    simp only [Stmt.visit] at h
    split at h
    · simp at h
    rename_i ops ga hl
    split at h
    · simp at h
    simp only [Except.ok.injEq] at h
    subst h
    exact (stmtEvalList_extends _ _ _ _ _ hl).extends_trans (Extends.append _ _)
  | if_ cond body else_body ih1 ih2 =>
    intro g g1 h
    simp only [Stmt.visit] at h
    split at h
    · simp at h
    split at h
    · simp at h
    rename_i cond_op ga hc
    split at h
    · simp at h
    split at h
    · simp at h
    rename_i gb hbody
    have e1 := stmtEval_extends _ _ _ _ _ _ _ hc
    have e2 := ih1 _ _ hbody
    have e12 : Extends g.code gb.code :=
      e1.extends_trans (Extends.extends_trans ⟨_, by simp [GenState.emit, GenState.new_label]; rfl⟩ e2)
    split at h
    · split at h
      · simp at h
      · rename_i gc helse
        simp only [Except.ok.injEq] at h
        subst h
        have e3 := ih2 _ _ helse
        exact e12.extends_trans (Extends.extends_trans ⟨_, by simp [GenState.emit]; rfl⟩
          (e3.extends_trans ⟨_, by simp [GenState.emit]; rfl⟩))
    · simp only [Except.ok.injEq] at h
      subst h
      exact e12.extends_trans ⟨_, by simp [GenState.emit]; rfl⟩
  | let_ var value body ih =>
    intro g g1 h
    simp only [Stmt.visit] at h
    split at h
    · split at h
      · simp at h
      · split at h
        · simp at h
        · exact ih _ _ h
    · split at h
      · simp at h
      rename_i ga hbound
      split at h
      · simp at h
      split at h
      · simp at h
      rename_i gb hbody
      have e2 := ih _ _ hbody
      rw [← GenState.unbind_code _ _ _ h] at e2
      have e1 : Extends g.code ga.code := by
        split at hbound
        · split at hbound
          · simp at hbound
          · rename_i x gc hv
            rw [GenState.bind_code _ _ _ _ hbound]
            have := stmtEval_extends _ _ _ _ _ _ _ hv
            exact this
        · split at hbound
          · simp at hbound
          · rename_i value_op gc hv
            rw [GenState.bind_code _ _ _ _ hbound]
            exact stmtEval_extends _ _ _ _ _ _ _ hv
      exact e1.extends_trans e2
  | store buf off value stride mask fill =>
    intro g g1 h
    simp only [Stmt.visit] at h
    exact visit_store_extends _ _ _ _ _ _ _ _ _ h
  | while_ cond body ih =>
    intro g g1 h
    simp only [Stmt.visit] at h
    split at h
    · simp at h
    rename_i cond_op ga hc
    split at h
    · simp at h
    split at h
    · simp at h
    rename_i gb hbody
    simp only [Except.ok.injEq] at h
    subst h
    have e1 := stmtEval_extends _ _ _ _ _ _ _ hc
    have e2 := ih _ _ hbody
    exact (Extends.extends_trans ⟨_, by simp [GenState.emit, GenState.new_label]; rfl⟩ e1).extends_trans
      (Extends.extends_trans ⟨_, by simp [GenState.emit]; rfl⟩
        (e2.extends_trans ⟨_, by simp [GenState.emit]; rfl⟩))

/-! ## C5: the static for-loop -/

/-- A constant evaluates to its immediate without emitting or allocating. -/
theorem stmtEval_int_imm (host : Host) (g : GenState) (id : Nat) (v : Int) (t : IrType)
    (hvars : ∀ p ∈ g.expr_binding.expr2operand, ∃ id t, p.1 = Expr.var id t)
    (hdst : g.expr_binding.expr2dst = []) :
    stmtEval host (Expr.int_imm id v t) {} false g
      = Except.ok (imm v (to_ngen t.kind), g) := by
  have hl := lookup_of_vars_only _ hvars (Expr.int_imm id v t) (by intro _ _ h; cases h)
  simp [stmtEval, eval, evalCore, visit, evalBind, Operand.is_invalid, ExprBinding.is_bound,
    ExprBinding.is_dst_bound, ExprBinding.bind, ExprBinding.get, hl, hdst, Expr.is_empty,
    List.lookup]

theorem GenState.bind_next_label (g g1 : GenState) (e : Expr) (op : Operand)
    (h : g.bind e op = Except.ok g1) : g1.next_label = g.next_label := by
  unfold GenState.bind at h
  split at h
  · simp at h
  · simp only [Except.ok.injEq] at h
    subst h
    rfl

/-- The shape of the sequence emitted for a loop with constant init and bound
(the do-while format, codegen.cpp:139-147). -/
theorem visit_for_static (host : GenHost) (g g1 : GenState) (var : Expr) (i0 ib is : Nat)
    (t0 tb ts : IrType) (init N step : Int) (body : Stmt)
    (hvars : ∀ p ∈ g.expr_binding.expr2operand, ∃ id t, p.1 = Expr.var id t)
    (hdst : g.expr_binding.expr2dst = [])
    (h : Stmt.visit host
          (Stmt.for_ var (Expr.int_imm i0 init t0) (Expr.int_imm ib N tb)
            (Expr.int_imm is step ts) body) g = Except.ok g1) :
    ∃ (gb gb1 : GenState) (B : List Instr),
      gb.code = g.code
        ++ [Instr.emov (execMod 1) (regOp (g.ra.alloc_reg_data host.grf_size var.type).1)
              (imm init (to_ngen t0.kind)),
            Instr.mark g.next_label] ∧
      Stmt.visit host body gb = Except.ok gb1 ∧
      gb1.code = gb.code ++ B ∧
      g1.code = gb1.code
        ++ [Instr.eadd (execMod 1) (regOp (g.ra.alloc_reg_data host.grf_size var.type).1)
              (regOp (g.ra.alloc_reg_data host.grf_size var.type).1)
              (imm step (to_ngen ts.kind)),
            Instr.ecmp { f0Mod with cmod := some CondMod.lt }
              (regOp (g.ra.alloc_reg_data host.grf_size var.type).1)
              (imm N (to_ngen tb.kind)),
            Instr.jmpi f0Mod g.next_label] := by
  simp only [Stmt.visit] at h
  rw [stmtEval_int_imm host.toHost
    ({ g with ra := (g.ra.alloc_reg_data host.grf_size var.type).2 } : GenState)
    i0 init t0 hvars hdst] at h
  simp only at h
  rw [stmtEval_int_imm host.toHost
    ({ g with ra := (g.ra.alloc_reg_data host.grf_size var.type).2 } : GenState)
    ib N tb hvars hdst] at h
  simp only at h
  rw [stmtEval_int_imm host.toHost
    ({ g with ra := (g.ra.alloc_reg_data host.grf_size var.type).2 } : GenState)
    is step ts hvars hdst] at h
  simp only at h
  split at h
  · simp at h
  rename_i gd hbind
  simp only [Expr.is_const, Bool.not_true, Bool.or_self, Bool.false_eq_true, if_false] at h
  split at h
  · simp at h
  rename_i ge hbody
  obtain ⟨B, hB⟩ := Stmt.visit_extends host body _ _ hbody
  refine ⟨_, ge, B, ?_, hbody, hB, ?_⟩
  · have hc := GenState.bind_code _ _ _ _ hbind
    have hn := GenState.bind_next_label _ _ _ _ hbind
    simp only [GenState.emit, GenState.new_label, hc, hn, List.append_assoc,
      List.singleton_append, List.cons_append, List.nil_append]
  · have hn := GenState.bind_next_label _ _ _ _ hbind
    rw [GenState.unbind_code _ _ _ h]
    simp only [GenState.emit, GenState.new_label, hn, List.append_assoc,
      List.singleton_append, List.cons_append, List.nil_append]

theorem runSteps_add (alu : Instr → Machine → Int) (code : List Instr) (a b : Nat)
    (m : Machine) : runSteps alu code (a + b) m = runSteps alu code b (runSteps alu code a m) := by
  induction a generalizing m with
  | zero => simp [runSteps]
  | succ a ih =>
    rw [Nat.succ_add]
    simp only [runSteps]
    exact ih _

theorem step_at (alu : Instr → Machine → Int) (code : List Instr) (m : Machine) (ins : Instr)
    (h : code[m.pc]? = some ins) :
    step alu code m = exec alu code ins
      { m with visits := fun j => if j = m.pc then m.visits j + 1 else m.visits j } := by
  unfold step
  rw [h]

/-- The instructions of a do-while loop around a body `B`, after a prefix `P`. -/
theorem do_while_fetch (P B : List Instr) (a b c d e : Instr) :
    let code := P ++ [a, b] ++ B ++ [c, d, e]
    code[P.length]? = some a ∧ code[P.length + 1]? = some b ∧
    code[P.length + 2 + B.length]? = some c ∧ code[P.length + 2 + B.length + 1]? = some d ∧
    code[P.length + 2 + B.length + 2]? = some e ∧
    code.length = P.length + 2 + B.length + 3 := by
  intro code
  have hcode : code = P ++ (a :: b :: (B ++ [c, d, e])) := by simp [code]
  have h2 : code = (P ++ [a, b] ++ B) ++ [c, d, e] := rfl
  have hl : (P ++ [a, b] ++ B).length = P.length + 2 + B.length := by simp; omega
  refine ⟨?_, ?_, ?_, ?_, ?_, ?_⟩
  · rw [hcode, List.getElem?_append_right (le_refl _)]; simp
  · rw [hcode, List.getElem?_append_right (by omega)]; simp
  · rw [h2, List.getElem?_append_right (by omega), hl]; simp
  · rw [h2, List.getElem?_append_right (by omega), hl]
    rw [show P.length + 2 + B.length + 1 - (P.length + 2 + B.length) = 1 by omega]; rfl
  · rw [h2, List.getElem?_append_right (by omega), hl]
    rw [show P.length + 2 + B.length + 2 - (P.length + 2 + B.length) = 2 by omega]; rfl
  · rw [h2]; simp; omega

theorem labelIndex_do_while (P rest : List Instr) (a : Instr) (L : Label)
    (hP : Instr.mark L ∉ P) (ha : a ≠ Instr.mark L) :
    labelIndex (P ++ (a :: Instr.mark L :: rest)) L = P.length + 1 := by
  unfold labelIndex
  rw [List.indexOf_append_of_not_mem hP]
  rw [List.indexOf_cons_ne _ ha, List.indexOf_cons_self]

/-- One iteration of the do-while loop, from the loop label. -/
theorem do_while_iteration (alu : Instr → Machine → Int) (P B : List Instr) (var : RegData)
    (L : Label) (t1 t2 t3 : DataType) (init N : Int) (m : Machine) (i : Int)
    (hrep : wrapTo var.type (i + 1) = i + 1) (hneg : var.neg = false)
    (hP : Instr.mark L ∉ P)
    (hbody : BodyRuns alu (doWhileCode P B var L (imm init t1) (imm N t2) (imm 1 t3))
      var (P.length + 2) (P.length + 2 + B.length))
    (hpc : m.pc = P.length + 1) (hvar : m.regs var.base var.byteOffset = i) :
    ∃ k,
      (runSteps alu (doWhileCode P B var L (imm init t1) (imm N t2) (imm 1 t3)) k m).regs
          var.base var.byteOffset = i + 1 ∧
      (runSteps alu (doWhileCode P B var L (imm init t1) (imm N t2) (imm 1 t3)) k m).visits
          (P.length + 1) = m.visits (P.length + 1) + 1 ∧
      (runSteps alu (doWhileCode P B var L (imm init t1) (imm N t2) (imm 1 t3)) k m).visits
          (P.length + 2 + B.length) = m.visits (P.length + 2 + B.length) + 1 ∧
      (runSteps alu (doWhileCode P B var L (imm init t1) (imm N t2) (imm 1 t3)) k m).pc
        = if i + 1 < N then P.length + 1 else P.length + 2 + B.length + 3 := by
  obtain ⟨f0, f1, f2, f3, f4, _⟩ := do_while_fetch P B
    (Instr.emov (execMod 1) (regOp var) (imm init t1)) (Instr.mark L)
    (Instr.eadd (execMod 1) (regOp var) (regOp var) (imm 1 t3))
    (Instr.ecmp { f0Mod with cmod := some CondMod.lt } (regOp var) (imm N t2))
    (Instr.jmpi f0Mod L)
  simp only at f0 f1 f2 f3 f4
  have hlab : labelIndex (doWhileCode P B var L (imm init t1) (imm N t2) (imm 1 t3)) L
      = P.length + 1 := by
    have := labelIndex_do_while P (B ++ [Instr.eadd (execMod 1) (regOp var) (regOp var) (imm 1 t3),
          Instr.ecmp { f0Mod with cmod := some CondMod.lt } (regOp var) (imm N t2),
          Instr.jmpi f0Mod L]) (Instr.emov (execMod 1) (regOp var) (imm init t1)) L hP
      (by intro h; cases h)
    simpa [doWhileCode] using this
  change (doWhileCode P B var L (imm init t1) (imm N t2) (imm 1 t3))[P.length]? = _ at f0
  change (doWhileCode P B var L (imm init t1) (imm N t2) (imm 1 t3))[P.length + 1]? = _ at f1
  change (doWhileCode P B var L (imm init t1) (imm N t2) (imm 1 t3))[P.length + 2 + B.length]?
    = _ at f2
  change (doWhileCode P B var L (imm init t1) (imm N t2) (imm 1 t3))[P.length + 2 + B.length + 1]?
    = _ at f3
  change (doWhileCode P B var L (imm init t1) (imm N t2) (imm 1 t3))[P.length + 2 + B.length + 2]?
    = _ at f4
  generalize doWhileCode P B var L (imm init t1) (imm N t2) (imm 1 t3) = code
    at f0 f1 f2 f3 f4 hbody hlab ⊢
  have n1 : ¬ (P.length + 1 = P.length + 2 + B.length) := by omega
  have n2 : ¬ (P.length + 2 + B.length = P.length + 1) := by omega
  have n3 : ¬ (P.length + 1 = P.length + 2 + B.length + 1) := by omega
  have n4 : ¬ (P.length + 2 + B.length = P.length + 2 + B.length + 1) := by omega
  have n5 : ¬ (P.length + 1 = P.length + 2 + B.length + 2) := by omega
  have n6 : ¬ (P.length + 2 + B.length = P.length + 2 + B.length + 2) := by omega
  -- the mark
  have s1 : step alu code m
      = { m with pc := P.length + 2,
                 visits := fun j => if j = P.length + 1 then m.visits j + 1 else m.visits j } := by
    rw [step_at alu code m (Instr.mark L) (by rw [hpc]; exact f1)]
    simp [n1, n2, n3, n4, n5, n6, exec, hpc]
  -- the body
  obtain ⟨kb, b1, b2, b3⟩ := hbody (step alu code m) (by rw [s1])
  generalize hmb : runSteps alu code kb (step alu code m) = mb at b1 b2 b3
  have vb : mb.regs var.base var.byteOffset = i := by rw [b2, s1]; exact hvar
  have c1 : mb.visits (P.length + 1) = m.visits (P.length + 1) + 1 := by
    rw [b3 _ (Or.inl (by omega)), s1]; simp
  have c2 : mb.visits (P.length + 2 + B.length) = m.visits (P.length + 2 + B.length) := by
    rw [b3 _ (Or.inr (le_refl _)), s1]
    simp [n2]
  -- the add
  have s2 := step_at alu code mb _ (by rw [b1]; exact f2)
  generalize hma : step alu code mb = ma at s2
  have a_pc : ma.pc = P.length + 2 + B.length + 1 := by
    rw [s2]; simp [n1, n2, n3, n4, n5, n6, exec, Machine.write, regOp, b1]
  have a_var : ma.regs var.base var.byteOffset = i + 1 := by
    rw [s2]
    simp [n1, n2, n3, n4, n5, n6, exec, Machine.write, Machine.value, regOp, imm, hneg, vb, hrep]
  have a_c1 : ma.visits (P.length + 1) = m.visits (P.length + 1) + 1 := by
    rw [s2]
    simp [n1, n2, n3, n4, n5, n6, exec, Machine.write, regOp, b1, c1]
  have a_c2 : ma.visits (P.length + 2 + B.length) = m.visits (P.length + 2 + B.length) + 1 := by
    rw [s2]
    simp [n1, n2, n3, n4, n5, n6, exec, Machine.write, regOp, b1, c2]
  -- the compare
  have s3 := step_at alu code ma _ (by rw [a_pc]; exact f3)
  generalize hmc : step alu code ma = mc at s3
  have c_pc : mc.pc = P.length + 2 + B.length + 2 := by
    rw [s3]; simp [n1, n2, n3, n4, n5, n6, exec, Machine.setFlag, f0Mod, a_pc]
  have c_var : mc.regs var.base var.byteOffset = i + 1 := by
    rw [s3]; simp [n1, n2, n3, n4, n5, n6, exec, Machine.setFlag, f0Mod, a_var]
  have c_flag : mc.flags 0 = decide (i + 1 < N) := by
    rw [s3]
    simp [n1, n2, n3, n4, n5, n6, exec, Machine.setFlag, f0Mod, Machine.value, regOp, imm, hneg, a_var, CondMod.holds]
  have c_c1 : mc.visits (P.length + 1) = m.visits (P.length + 1) + 1 := by
    rw [s3]; simp [n1, n2, n3, n4, n5, n6, exec, Machine.setFlag, f0Mod, a_pc, a_c1]
  have c_c2 : mc.visits (P.length + 2 + B.length) = m.visits (P.length + 2 + B.length) + 1 := by
    rw [s3]; simp [n1, n2, n3, n4, n5, n6, exec, Machine.setFlag, f0Mod, a_pc, a_c2]
  -- the jump
  have s4 := step_at alu code mc _ (by rw [c_pc]; exact f4)
  generalize hmd : step alu code mc = md at s4
  refine ⟨1 + kb + 1 + 1 + 1, ?_⟩
  have hrun : runSteps alu code (1 + kb + 1 + 1 + 1) m = md := by
    rw [runSteps_add, runSteps_add, runSteps_add, runSteps_add]
    simp only [runSteps]
    rw [hmb, hma, hmc, hmd]
  simp only [hrun]
  rw [s4]
  by_cases hlt : i + 1 < N
  · simp [n1, n2, n3, n4, n5, n6, exec, Machine.enabled, f0Mod, c_flag, hlt, hlab, c_var, c_c1, c_c2, c_pc]
  · simp [n1, n2, n3, n4, n5, n6, exec, Machine.enabled, f0Mod, c_flag, hlt, c_var, c_c1, c_c2, c_pc]

/-- The iterations `i, i + 1, ..., N - 1` of the do-while loop, from the loop
label: `r + 1 = N - i` runs of the body, then the machine leaves the loop. -/
theorem do_while_runs (alu : Instr → Machine → Int) (P B : List Instr) (var : RegData)
    (L : Label) (t1 t2 t3 : DataType) (init N : Int)
    (hrep : ∀ k : Int, 0 ≤ k → k ≤ N → wrapTo var.type k = k) (hneg : var.neg = false)
    (hP : Instr.mark L ∉ P)
    (hbody : BodyRuns alu (doWhileCode P B var L (imm init t1) (imm N t2) (imm 1 t3))
      var (P.length + 2) (P.length + 2 + B.length)) :
    ∀ (r : Nat) (i : Int) (m : Machine), i + (r + 1) = N → 0 ≤ i →
      m.pc = P.length + 1 → m.regs var.base var.byteOffset = i →
      ∃ k,
        (runSteps alu (doWhileCode P B var L (imm init t1) (imm N t2) (imm 1 t3)) k m).pc
          = P.length + 2 + B.length + 3 ∧
        (runSteps alu (doWhileCode P B var L (imm init t1) (imm N t2) (imm 1 t3)) k m).visits
          (P.length + 1) = m.visits (P.length + 1) + (r + 1) ∧
        (runSteps alu (doWhileCode P B var L (imm init t1) (imm N t2) (imm 1 t3)) k m).visits
          (P.length + 2 + B.length) = m.visits (P.length + 2 + B.length) + (r + 1) := by
  intro r
  induction r with
  | zero =>
    intro i m hi h0 hpc hvar
    obtain ⟨k, _, v1, v2, hp⟩ := do_while_iteration alu P B var L t1 t2 t3 init N m i
      (hrep (i + 1) (by omega) (by omega)) hneg hP hbody hpc hvar
    refine ⟨k, ?_, v1, v2⟩
    rw [hp, if_neg (by omega)]
  | succ r ih =>
    intro i m hi h0 hpc hvar
    obtain ⟨k, hv, v1, v2, hp⟩ := do_while_iteration alu P B var L t1 t2 t3 init N m i
      (hrep (i + 1) (by omega) (by omega)) hneg hP hbody hpc hvar
    rw [if_pos (by push_cast at hi; omega)] at hp
    obtain ⟨k2, q, w1, w2⟩ := ih (i + 1) _ (by push_cast at hi ⊢; omega) (by omega) hp hv
    refine ⟨k + k2, ?_, ?_, ?_⟩
    · rw [runSteps_add]; exact q
    · rw [runSteps_add, w1, v1]; omega
    · rw [runSteps_add, w2, v2]; omega

/-- Running the whole do-while sequence of a loop from 0 to `N >= 1` by 1, from
its first instruction (the move of the init value). -/
theorem do_while_from_init (alu : Instr → Machine → Int) (P B : List Instr) (var : RegData)
    (L : Label) (t1 t2 t3 : DataType) (N : Nat) (hN : 1 ≤ N)
    (hrep : ∀ k : Int, 0 ≤ k → k ≤ N → wrapTo var.type k = k) (hneg : var.neg = false)
    (hP : Instr.mark L ∉ P)
    (hbody : BodyRuns alu (doWhileCode P B var L (imm 0 t1) (imm N t2) (imm 1 t3))
      var (P.length + 2) (P.length + 2 + B.length))
    (m : Machine) (hpc : m.pc = P.length) :
    ∃ k,
      (runSteps alu (doWhileCode P B var L (imm 0 t1) (imm N t2) (imm 1 t3)) k m).pc
        = P.length + 2 + B.length + 3 ∧
      (runSteps alu (doWhileCode P B var L (imm 0 t1) (imm N t2) (imm 1 t3)) k m).visits
        (P.length + 1) = m.visits (P.length + 1) + N ∧
      (runSteps alu (doWhileCode P B var L (imm 0 t1) (imm N t2) (imm 1 t3)) k m).visits
        (P.length + 2 + B.length) = m.visits (P.length + 2 + B.length) + N := by
  obtain ⟨f0, _⟩ := do_while_fetch P B
    (Instr.emov (execMod 1) (regOp var) (imm 0 t1)) (Instr.mark L)
    (Instr.eadd (execMod 1) (regOp var) (regOp var) (imm 1 t3))
    (Instr.ecmp { f0Mod with cmod := some CondMod.lt } (regOp var) (imm N t2))
    (Instr.jmpi f0Mod L)
  change (doWhileCode P B var L (imm 0 t1) (imm N t2) (imm 1 t3))[P.length]? = _ at f0
  have hloop := do_while_runs alu P B var L t1 t2 t3 0 N hrep hneg hP hbody (N - 1) 0
  generalize doWhileCode P B var L (imm 0 t1) (imm N t2) (imm 1 t3) = code at f0 hloop ⊢
  have s0 := step_at alu code m _ (by rw [hpc]; exact f0)
  generalize hm0 : step alu code m = m0 at s0
  have n1 : ¬ (P.length + 1 = P.length) := by omega
  have n2 : ¬ (P.length + 2 + B.length = P.length) := by omega
  have p0 : m0.pc = P.length + 1 := by
    rw [s0]; simp [exec, Machine.write, regOp, hpc]
  have r0 : m0.regs var.base var.byteOffset = 0 := by
    rw [s0]
    simp [exec, Machine.write, Machine.value, regOp, imm, hrep 0 (le_refl _) (by omega)]
  have c1 : m0.visits (P.length + 1) = m.visits (P.length + 1) := by
    rw [s0]; simp [exec, Machine.write, regOp, hpc, n1]
  have c2 : m0.visits (P.length + 2 + B.length) = m.visits (P.length + 2 + B.length) := by
    rw [s0]; simp [exec, Machine.write, regOp, hpc, n2]
  obtain ⟨k, q, w1, w2⟩ := hloop m0 (by omega) (le_refl _) p0 r0
  refine ⟨1 + k, ?_, ?_, ?_⟩
  · rw [runSteps_add]; simp only [runSteps]; rw [hm0]; exact q
  · rw [runSteps_add]; simp only [runSteps]; rw [hm0, w1, c1]; omega
  · rw [runSteps_add]; simp only [runSteps]; rw [hm0, w2, c2]; omega

/-- C5. A for-loop with constant init 0, constant bound `N >= 1` and step 1 is
lowered to the do-while format: the move of 0 to the loop variable, the loop
label, the instructions `B` of the body (the body is lowered once, after the
label), the add of 1, the compare `var < N` into `f0[0]` and one `jmpi`
predicated on `f0[0]` whose target is that label, which is marked at the
instruction before the body. A machine that runs the sequence from the move
leaves the loop after it has passed the loop label `N` times and the add that
follows the body `N` times: the body runs exactly `N` times. The hypotheses:
the table binds only variables, the label is not yet marked, the loop variable
holds `0..N` without wrapping, and a run of the body falls through to the add
without changing the loop variable. -/
theorem static_for_runs_body_N_times (host : GenHost) (alu : Instr → Machine → Int)
    (g g1 : GenState) (var : Expr) (i0 ib is : Nat) (t0 tb ts : IrType) (N : Nat) (body : Stmt)
    (hN : 1 ≤ N)
    (hvars : ∀ p ∈ g.expr_binding.expr2operand, ∃ id t, p.1 = Expr.var id t)
    (hdst : g.expr_binding.expr2dst = [])
    (hlabel : Instr.mark g.next_label ∉ g.code)
    (hrep : ∀ k : Int, 0 ≤ k → k ≤ N → wrapTo (to_ngen var.type.kind) k = k)
    (h : Stmt.visit host
          (Stmt.for_ var (Expr.int_imm i0 0 t0) (Expr.int_imm ib N tb)
            (Expr.int_imm is 1 ts) body) g = Except.ok g1)
    (hbody : BodyRuns alu g1.code (g.ra.alloc_reg_data host.grf_size var.type).1
      (g.code.length + 2) (g1.code.length - 3)) :
    (∃ (gb gb1 : GenState) (B : List Instr),
      gb.code = g.code
        ++ [Instr.emov (execMod 1) (regOp (g.ra.alloc_reg_data host.grf_size var.type).1)
              (imm 0 (to_ngen t0.kind)),
            Instr.mark g.next_label] ∧
      Stmt.visit host body gb = Except.ok gb1 ∧
      gb1.code = gb.code ++ B ∧
      g1.code = doWhileCode g.code B (g.ra.alloc_reg_data host.grf_size var.type).1
        g.next_label (imm 0 (to_ngen t0.kind)) (imm N (to_ngen tb.kind))
        (imm 1 (to_ngen ts.kind))) ∧
    labelIndex g1.code g.next_label = g.code.length + 1 ∧
    ∀ m : Machine, m.pc = g.code.length →
      ∃ n, (runSteps alu g1.code n m).pc = g1.code.length ∧
        (runSteps alu g1.code n m).visits (g.code.length + 1)
          = m.visits (g.code.length + 1) + N ∧
        (runSteps alu g1.code n m).visits (g1.code.length - 3)
          = m.visits (g1.code.length - 3) + N := by
  obtain ⟨gb, gb1, B, h1, h2, h3, h4⟩ :=
    visit_for_static host g g1 var i0 ib is t0 tb ts 0 N 1 body hvars hdst h
  have hcode : g1.code = doWhileCode g.code B (g.ra.alloc_reg_data host.grf_size var.type).1
      g.next_label (imm 0 (to_ngen t0.kind)) (imm N (to_ngen tb.kind))
      (imm 1 (to_ngen ts.kind)) := by
    rw [h4, h3, h1]; rfl
  have hlen : g1.code.length = g.code.length + 2 + B.length + 3 := by
    rw [hcode]; simp [doWhileCode]; omega
  have hend : g1.code.length - 3 = g.code.length + 2 + B.length := by omega
  refine ⟨⟨gb, gb1, B, h1, h2, h3, hcode⟩, ?_, ?_⟩
  · rw [hcode]
    have := labelIndex_do_while g.code
      (B ++ [Instr.eadd (execMod 1) (regOp (g.ra.alloc_reg_data host.grf_size var.type).1)
              (regOp (g.ra.alloc_reg_data host.grf_size var.type).1) (imm 1 (to_ngen ts.kind)),
            Instr.ecmp { f0Mod with cmod := some CondMod.lt }
              (regOp (g.ra.alloc_reg_data host.grf_size var.type).1) (imm N (to_ngen tb.kind)),
            Instr.jmpi f0Mod g.next_label])
      (Instr.emov (execMod 1) (regOp (g.ra.alloc_reg_data host.grf_size var.type).1)
        (imm 0 (to_ngen t0.kind))) g.next_label hlabel (by intro h; cases h)
    simpa [doWhileCode] using this
  · intro m hpc
    rw [hend, hlen]
    rw [hend] at hbody
    rw [hcode] at hbody ⊢
    exact do_while_from_init alu g.code B _ g.next_label _ _ _ N hN hrep rfl hlabel hbody m hpc

/-- The body of the example loop, one add into register 10, falls through and
leaves the loop variable in register 40 as it is. -/
theorem exampleFor_body_runs :
    BodyRuns (fun _ _ => 0) exampleForResult.code
      (exampleGenState.ra.alloc_reg_data exampleGenHost.grf_size exampleLoopVar.type).1
      (exampleGenState.code.length + 2) (exampleForResult.code.length - 3) := by
  intro m hpc
  have hpc2 : m.pc = 2 := hpc
  have hfetch : exampleForResult.code[m.pc]?
      = some (Instr.eadd (execMod 1)
          (regOp { base := 10, byteOffset := 0, type := DataType.f, vs := 1, hs := 1 } (execMod 1))
          (regOp { base := 20, byteOffset := 8, type := DataType.f, vs := 1, hs := 1 })
          (regOp { base := 30, byteOffset := 4, type := DataType.f, vs := 1, hs := 1 })) := by
    rw [hpc2]; rfl
  have hs := step_at (fun _ _ => 0) exampleForResult.code m _ hfetch
  refine ⟨1, ?_, ?_, ?_⟩
  · simp only [runSteps]
    rw [hs]
    simp only [exec, Machine.write, regOp, hpc2]
    rfl
  · simp only [runSteps]
    rw [hs]
    simp only [exec, Machine.write, regOp]
    have : (exampleGenState.ra.alloc_reg_data exampleGenHost.grf_size exampleLoopVar.type).1.base
        = 40 := rfl
    simp [this]
  · intro j hj
    simp only [runSteps]
    rw [hs]
    simp only [exec, Machine.write, regOp, hpc2]
    have h3 : exampleForResult.code.length - 3 = 3 := rfl
    have h2 : exampleGenState.code.length + 2 = 2 := rfl
    rw [h3, h2] at hj
    have : ¬ (j = 2) := by omega
    simp [this]

theorem static_for_runs_body_N_times_witness :
    Stmt.visit exampleGenHost exampleFor exampleGenState = Except.ok exampleForResult ∧
    exampleForResult.code.length = 6 ∧
    labelIndex exampleForResult.code 0 = 1 ∧
    ∃ n, (runSteps (fun _ _ => 0) exampleForResult.code n (Machine.init 0)).pc = 6 ∧
      (runSteps (fun _ _ => 0) exampleForResult.code n (Machine.init 0)).visits 1 = 3 ∧
      (runSteps (fun _ _ => 0) exampleForResult.code n (Machine.init 0)).visits 3 = 3 := by
  have hrep : ∀ k : Int, 0 ≤ k → k ≤ ((3 : Nat) : Int) →
      wrapTo (to_ngen exampleLoopVar.type.kind) k = k := by
    intro k h0 h3
    show (k + 2 ^ 31) % 2 ^ 32 - 2 ^ 31 = k
    push_cast at h3
    omega
  have hvars : ∀ p ∈ exampleGenState.expr_binding.expr2operand, ∃ id t, p.1 = Expr.var id t := by
    intro p hp
    simp only [exampleGenState, List.mem_cons, List.mem_singleton, List.not_mem_nil,
      or_false] at hp
    rcases hp with hp | hp | hp <;> subst hp <;> exact ⟨_, _, rfl⟩
  have key := static_for_runs_body_N_times exampleGenHost (fun _ _ => 0) exampleGenState
    exampleForResult exampleLoopVar 200 201 202 { kind := TypeKind.s32 } { kind := TypeKind.s32 }
    { kind := TypeKind.s32 } 3 exampleStoreAdd (by decide) hvars rfl
    (by intro h; cases h) hrep rfl exampleFor_body_runs
  refine ⟨rfl, rfl, key.2.1, ?_⟩
  obtain ⟨n, h1, h2, h3⟩ := key.2.2 (Machine.init 0) rfl
  exact ⟨n, h1, by simpa [Machine.init] using h2, by simpa [Machine.init] using h3⟩

/-! ## C6: an all-false mask on a load fills the destination -/

/-- Element `k` of the region `rd.format(j, st, 1, t)` is element `j + k` of
the buffer that starts at `rd`. -/
theorem format_elem_loc (grf : Int) (rd : RegData) (j st : Int) (t : DataType)
    (ht : t ≠ DataType.invalid) (k : Nat) (hk : (k : Int) < st) :
    regionElemLoc grf (rd.format grf j st 1 t) k
      = rd.base * grf + rd.byteOffset + (j + k) * getBytes t := by
  simp only [regionElemLoc, RegData.format, if_neg ht]
  have h1 : Int.tmod (k : Int) st = k := Int.tmod_eq_of_lt (by omega) hk
  have h2 : Int.tdiv (k : Int) st = 0 := Int.tdiv_eq_zero_of_lt (by omega) hk
  rw [h1, h2]
  have h3 := Int.ediv_add_emod (rd.byteOffset + j * getBytes t) grf
  linear_combination h3

/-- The source `fill_buf` chooses for a pattern that is not a flag register. -/
theorem fill_src_ok (pattern : Operand) (hnf : pattern.is_flag_register = false) :
    (if pattern.is_invalid then Except.ok (imm 0 DataType.d)
      else if pattern.is_immediate then Except.ok { kind := pattern.kind }
      else if pattern.is_reg_data then Except.ok { kind := pattern.kind }
      else (Except.error (Fatal.assertion 604) : Except Fatal Operand))
      = Except.ok (fillSrc pattern) := by
  obtain ⟨kind, mod⟩ := pattern
  cases kind <;>
    simp_all [Operand.is_invalid, Operand.is_immediate, Operand.is_reg_data,
      Operand.is_reg_buf_data, Operand.is_flag_register, fillSrc]

/-- The loop of `fill_buf` from element `i`: with enough fuel it returns moves
of the fill source, and every element from `i` on lies in the region of one of
them. -/
theorem fill_buf_loop_spec (r : Int → Int) (grf : Int) (rd : RegData) (t : DataType)
    (pattern : Operand) (elems : Int)
    (hr : ∀ x, 1 ≤ x → 1 ≤ r x ∧ r x ≤ x)
    (hnf : pattern.is_flag_register = false) :
    ∀ (fuel : Nat) (i step : Int), 0 ≤ i → i ≤ elems → 1 ≤ step →
      (elems - i).toNat < fuel →
      ∃ l, fill_buf_loop r grf rd t pattern elems fuel i step = Except.ok l ∧
        (∀ ins ∈ l, ins.movSrc = some (fillSrc pattern) ∧ ins.isSend = false) ∧
        ∀ e : Int, i ≤ e → e < elems →
          ∃ (j st : Int), 0 ≤ j ∧ j ≤ e ∧ e < j + st ∧
            Instr.emov (execMod st.toNat) (regOp (rd.format grf j st 1 t)) (fillSrc pattern)
              ∈ l := by
  intro fuel
  induction fuel with
  | zero => intro i step _ _ _ hf; omega
  | succ fuel ih =>
    intro i step h0 hle hstep hf
    simp only [fill_buf_loop]
    by_cases hlt : i < elems
    · rw [if_pos hlt, fill_src_ok pattern hnf]
      simp only
      obtain ⟨r1, r2⟩ := hr (min step (elems - i)) (by omega)
      have hst : r (min step (elems - i)) ≤ elems - i := by omega
      obtain ⟨l, hl, hsrc, hcov⟩ := ih (i + r (min step (elems - i))) (r (min step (elems - i)))
        (by omega) (by omega) r1 (by omega)
      rw [hl]
      refine ⟨_, rfl, ?_, ?_⟩
      · intro ins hins
        rcases List.mem_cons.1 hins with h | h
        · subst h; exact ⟨rfl, rfl⟩
        · exact hsrc ins h
      · intro e he1 he2
        by_cases hin : e < i + r (min step (elems - i))
        · exact ⟨i, r (min step (elems - i)), h0, he1, hin, List.mem_cons_self _ _⟩
        · obtain ⟨j, st, hj0, hj1, hj2, hmem⟩ := hcov e (by omega) he2
          exact ⟨j, st, hj0, hj1, hj2, List.mem_cons_of_mem _ hmem⟩
    · rw [if_neg hlt]
      refine ⟨[], rfl, ?_, ?_⟩
      · intro ins hins; cases hins
      · intro e he1 he2; omega

/-- The member `fill_buf` on a register buffer: with enough fuel it returns
moves of the fill source that write every byte of the first `size` bytes of
the buffer, for a size that is a multiple of 4. -/
theorem fill_buf_spec (r : Int → Int) (grf : Int) (buf_op pattern : Operand) (rd : RegData)
    (size : Int) (fuel : Nat)
    (hr : ∀ x, 1 ≤ x → 1 ≤ r x ∧ r x ≤ x)
    (hgrf : 2 ≤ grf) (hsize : 0 ≤ size) (h4 : size % 4 = 0)
    (hfuel : (size / 4).toNat < fuel)
    (hrd : buf_op.reg_data = some rd)
    (hnf : pattern.is_flag_register = false) :
    ∃ l, fill_buf r grf buf_op size pattern fuel = Except.ok l ∧
      (∀ ins ∈ l, ins.movSrc = some (fillSrc pattern) ∧ ins.isSend = false) ∧
      ∀ b : Int, 0 ≤ b → b < size →
        ∃ ins ∈ l, ins.writesByte grf (rd.base * grf + rd.byteOffset + b) := by
  have hty : ∀ t : DataType, t = DataType.f ∨ t = DataType.ud →
      ∃ l, (match idiv (2 * grf) (getBytes t), idiv size (getBytes t) with
          | some step, some elems => fill_buf_loop r grf rd t pattern elems fuel 0 step
          | _, _ => Except.error (Fatal.undefined 591)) = Except.ok l ∧
        (∀ ins ∈ l, ins.movSrc = some (fillSrc pattern) ∧ ins.isSend = false) ∧
        ∀ b : Int, 0 ≤ b → b < size →
          ∃ ins ∈ l, ins.writesByte grf (rd.base * grf + rd.byteOffset + b) := by
    intro t ht
    have hb : getBytes t = 4 := by rcases ht with h | h <;> subst h <;> rfl
    have hinv : t ≠ DataType.invalid := by rcases ht with h | h <;> subst h <;> decide
    have htd : ∀ x : Int, 0 ≤ x → Int.tdiv x 4 = x / 4 := fun x hx =>
      Int.tdiv_eq_ediv hx (by decide)
    simp only [idiv, hb, show (4 : Int) ≠ 0 by decide, if_false, htd (2 * grf) (by omega),
      htd size hsize]
    obtain ⟨l, hl, hsrc, hcov⟩ := fill_buf_loop_spec r grf rd t pattern (size / 4) hr hnf fuel 0
      (2 * grf / 4) (le_refl _) (by omega) (by omega) (by simpa using hfuel)
    refine ⟨l, hl, hsrc, ?_⟩
    intro b hb0 hb1
    obtain ⟨j, st, hj0, hj1, hj2, hmem⟩ := hcov (b / 4) (by omega) (by omega)
    refine ⟨_, hmem, ?_⟩
    show ∃ k : Nat, k < (execMod st.toNat).execSize ∧ _
    refine ⟨(b / 4 - j).toNat, ?_, ?_⟩
    · show (b / 4 - j).toNat < st.toNat
      omega
    · have hk : (((b / 4 - j).toNat : Nat) : Int) = b / 4 - j := Int.toNat_of_nonneg (by omega)
      rw [format_elem_loc grf rd j st t hinv _ (by omega), hk, hb]
      have hfmt : (rd.format grf j st 1 t).type = t := by
        simp [RegData.format, hinv]
      rw [hfmt, hb]
      constructor <;> omega
  unfold fill_buf
  rw [hrd]
  simp only
  by_cases hp : pattern.is_invalid
  · simp only [hp, if_true]
    exact hty _ (Or.inl rfl)
  · simp only [hp]
    exact hty _ (Or.inr rfl)

/-- The instructions of the evaluator are no memory messages. -/
theorem isAlu_not_send (i : Instr) (h : i.isAlu = true) : i.isSend = false := by
  cases i <;> simp_all [Instr.isAlu, Instr.isSend]

/-- C6. A send call for a load (or 2D load) whose mask is statically all-false
is lowered without a call of `send`: after the instructions of evaluating the
destination buffer and the fill pattern, none of them a memory message, the
lowering appends the moves of `fill_buf` and nothing else. Every one of these
moves has the fill pattern as its source, zero when no pattern is given, none
is a memory message, and together they write every byte `0 .. payload_size - 1`
of the destination buffer. The hypotheses: `payload_size` is a non-negative
multiple of 4, registers have at least 2 bytes, `rnd_down_pow2 x` lies in
`1 .. x`, the loop has enough fuel, the two operands evaluate without a fatal
error to a register buffer and to a pattern that is not a flag register, and
`align_src_dst_offset` emits no memory message. -/
theorem all_false_load_fills_destination (host : GenHost) (f : SendFunc) (args : SendArgs)
    (attr : Option Mod) (g g1 g2 : GenState) (reg_buf_op pattern_op : Operand) (rd : RegData)
    (hr : ∀ x, 1 ≤ x → 1 ≤ host.rnd_down_pow2 x ∧ host.rnd_down_pow2 x ≤ x)
    (hgrf : 2 ≤ host.grf_size)
    (hsize : 0 ≤ f.payload_size) (h4 : f.payload_size % 4 = 0)
    (hfuel : (f.payload_size / 4).toNat < host.fuel)
    (halign : AlignEmits host.toHost (fun i => i.isSend = false))
    (hmask : host.all_of args.mask false = true)
    (hload : (f.is_load || f.is_load_2d) = true)
    (hbuf : stmtEval host.toHost args.reg_buf {} false g = Except.ok (reg_buf_op, g1))
    (hrd : reg_buf_op.reg_data = some rd)
    (hpat : stmtEval host.toHost args.fill_pattern {} false g1 = Except.ok (pattern_op, g2))
    (hnf : pattern_op.is_flag_register = false) :
    ∃ E fill : List Instr,
      visit_send_call host f args attr g = Except.ok { g2 with code := g.code ++ E ++ fill } ∧
      g2.code = g.code ++ E ∧
      (∀ ins ∈ E ++ fill, ins.isSend = false) ∧
      (∀ ins ∈ fill, ins.movSrc
        = some (if pattern_op.is_invalid then imm 0 DataType.d else { kind := pattern_op.kind })) ∧
      ∀ b : Int, 0 ≤ b → b < f.payload_size →
        ∃ ins ∈ fill,
          ins.writesByte host.grf_size (rd.base * host.grf_size + rd.byteOffset + b) := by
  obtain ⟨fill, hfill, hsrc, hcov⟩ := fill_buf_spec host.rnd_down_pow2 host.grf_size reg_buf_op
    pattern_op rd f.payload_size host.fuel hr hgrf hsize h4 hfuel hrd hnf
  have e1 := stmtEval_emits host.toHost (fun i => i.isSend = false) isAlu_not_send halign
    _ _ _ _ _ _ hbuf
  have e2 := stmtEval_emits host.toHost (fun i => i.isSend = false) isAlu_not_send halign
    _ _ _ _ _ _ hpat
  obtain ⟨E, hE, hEs⟩ := e1.emits_trans e2
  refine ⟨E, fill, ?_, hE, ?_, ?_, hcov⟩
  · simp only [visit_send_call, hmask, hload, if_true, hbuf, hpat, hfill, hE]
  · intro ins hins
    rcases List.mem_append.1 hins with h | h
    · exact hEs ins h
    · exact (hsrc ins h).2
  · intro ins hins
    exact (hsrc ins hins).1

/-- The helper `rnd_down_pow2` of the example host returns a value in `1 .. x`. -/
theorem rnd_down_pow2_range (x : Int) (hx : 1 ≤ x) :
    1 ≤ rnd_down_pow2 x ∧ rnd_down_pow2 x ≤ x := by
  unfold rnd_down_pow2
  rw [if_neg (by omega)]
  have h1 : 2 ^ Nat.log2 x.toNat ≤ x.toNat := Nat.log2_self_le (by omega)
  have h2 : 0 < 2 ^ Nat.log2 x.toNat := Nat.pow_pos (by decide)
  have h3 : ((2 ^ Nat.log2 x.toNat : Nat) : Int) = (2 : Int) ^ Nat.log2 x.toNat := by
    push_cast; rfl
  rw [← h3]
  omega

theorem all_false_load_fills_destination_witness :
    ∃ E fill : List Instr,
      visit_send_call exampleGenHost exampleLoad (exampleLoadArgs false) none exampleGenState
        = Except.ok { exampleGenState with code := exampleGenState.code ++ E ++ fill } ∧
      exampleGenState.code = exampleGenState.code ++ E ∧
      (∀ ins ∈ E ++ fill, ins.isSend = false) ∧
      (∀ ins ∈ fill, ins.movSrc = some (imm 0 DataType.d)) ∧
      ∀ b : Int, 0 ≤ b → b < 64 →
        ∃ ins ∈ fill, ins.writesByte 32 (10 * 32 + 0 + b) :=
  all_false_load_fills_destination exampleGenHost exampleLoad (exampleLoadArgs false) none
    exampleGenState exampleGenState exampleGenState
    (regOp { base := 10, byteOffset := 0, type := DataType.ud }) {}
    { base := 10, byteOffset := 0, type := DataType.ud }
    rnd_down_pow2_range (by decide) (by decide) (by decide) (by decide)
    (by intro ra mod dst a b i hi; cases hi) rfl rfl rfl rfl rfl rfl

/-! ## C7: an all-true mask is dropped -/

/-- The operands `eval(exprs)` returns: one for each expression, the invalid
operand for an empty expression. -/
theorem evalList_ops (host : Host) (es : List Expr) :
    ∀ (s s1 : EvalState) (ops : List Operand),
      evalList host es s = Except.ok (ops, s1) →
        ops.length = es.length ∧
        ∀ k : Nat, es[k]? = some Expr.empty → ops[k]? = some ({} : Operand) := by
  induction es with
  | nil =>
    intro s s1 ops h
    simp only [evalList, Except.ok.injEq, Prod.mk.injEq] at h
    rw [← h.1]
    exact ⟨rfl, by intro k hk; simp at hk⟩
  | cons e es ih =>
    intro s s1 ops h
    simp only [evalList] at h
    split at h
    · simp at h
    rename_i sa hv
    split at h
    · simp at h
    rename_i op hget
    split at h
    · simp at h
    rename_i ops1 sb hl
    simp only [Except.ok.injEq, Prod.mk.injEq] at h
    obtain ⟨hlen, hk⟩ := ih _ _ _ hl
    rw [← h.1]
    refine ⟨by simp [hlen], ?_⟩
    intro k hke
    cases k with
    | zero =>
      simp only [List.getElem?_cons_zero, Option.some.injEq] at hke
      subst hke
      simp only [ExprBinding.get, Expr.is_empty, if_true, Except.ok.injEq] at hget
      simp [hget]
    | succ k =>
      simp only [List.getElem?_cons_succ] at hke ⊢
      exact hk k hke

/-- The modifier and the fill of `send` when no mask operand is passed: the
modifier is the execution size `nmasks` joined with the attribute, unless a
slot mask adds a flag to it, and without an attribute nothing is filled. -/
theorem send_without_mask (host : GenHost) (f : SendFunc) (mem_off_op reg_buf_op fp : Operand)
    (attr : Option Mod) (ra ra1 : RegAlloc) (lbl lbl1 : Label) (l : SendLowering)
    (h : send host f mem_off_op reg_buf_op {} fp attr ra lbl = Except.ok (l, ra1, lbl1)) :
    (∀ a, attr = some a → f.has_default_slot_mask = true →
      l.mod = (execMod f.nmasks).or a) ∧
    (attr = none → l.fill = []) ∧
    (attr = none → f.has_default_slot_mask = true →
      l.mod = execMod f.nmasks ∧ l.mod.flag = none) := by
  unfold send at h
  cases attr with
  | none =>
    simp only [Operand.is_invalid, Bool.not_true, Bool.false_eq_true, if_false, execMod,
      Option.isSome_none, Bool.and_false] at h
    split at h
    · simp at h
    split at h
    · simp at h
    rename_i rd payload ra2 hpay
    by_cases hslot : f.has_default_slot_mask = true
    · simp only [hslot, Bool.not_true, Bool.false_eq_true, if_false] at h
      split at h
      · split at h
        · simp at h
        · simp only [Except.ok.injEq, Prod.mk.injEq] at h
          obtain ⟨h1, _, _⟩ := h
          subst h1
          exact ⟨(by intro a ha; cases ha), fun _ => rfl, fun _ _ => ⟨rfl, rfl⟩⟩
      · simp only [Except.ok.injEq, Prod.mk.injEq] at h
        obtain ⟨h1, _, _⟩ := h
        subst h1
        exact ⟨(by intro a ha; cases ha), fun _ => rfl, fun _ _ => ⟨rfl, rfl⟩⟩
    · refine ⟨(by intro a ha; cases ha), ?_, fun _ hc => absurd hc hslot⟩
      intro _
      split at h
      · split at h
        · simp at h
        · simp only [Except.ok.injEq, Prod.mk.injEq] at h
          obtain ⟨h1, _, _⟩ := h
          subst h1
          rfl
      · simp only [Except.ok.injEq, Prod.mk.injEq] at h
        obtain ⟨h1, _, _⟩ := h
        subst h1
        rfl
  | some a =>
    refine ⟨?_, (by intro hc; cases hc), (by intro hc; cases hc)⟩
    intro a1 ha hslot
    simp only [Option.some.injEq] at ha
    subst ha
    simp only [Operand.is_invalid, Bool.not_true, Bool.false_eq_true, if_false, hslot] at h
    split at h
    · simp at h
    split at h
    · simp at h
    split at h
    · simp at h
    split at h
    · split at h
      · simp at h
      · simp only [Except.ok.injEq, Prod.mk.injEq] at h
        obtain ⟨h1, _, _⟩ := h
        subst h1
        rfl
    · simp only [Except.ok.injEq, Prod.mk.injEq] at h
      obtain ⟨h1, _, _⟩ := h
      subst h1
      rfl

/-- C7. When the mask argument of a send call is statically all-true (and not
all-false) and the lowering completes, the arguments were evaluated with the
mask replaced by the empty expression, so the mask operand passed to `send` is
the invalid operand and contributes nothing to the instruction modifier: with
the default slot mask the modifier of the message is the execution size
`nmasks` joined with the modifier attribute of the call, if there is one.
Without an attribute no fill of the destination is emitted, and with the
default slot mask as well the modifier is the execution size `nmasks` alone: it
has no flag register (predicate control None). -/
theorem all_true_mask_is_dropped (host : GenHost) (f : SendFunc) (args : SendArgs)
    (attr : Option Mod) (g g1 : GenState)
    (hnf : host.all_of args.mask false = false)
    (ht : host.all_of args.mask true = true)
    (h : visit_send_call host f args attr g = Except.ok g1) :
    ∃ (a mem_off_op reg_buf_op fp : Operand) (ga : GenState) (l : SendLowering)
      (ra : RegAlloc) (lbl : Label),
      stmtEvalList host.toHost
          [args.mem_buf, args.mem_off, args.reg_buf, Expr.empty, args.fill_pattern] g
        = Except.ok ([a, mem_off_op, reg_buf_op, {}, fp], ga) ∧
      send host f mem_off_op reg_buf_op {} fp attr ga.ra ga.next_label
        = Except.ok (l, ra, lbl) ∧
      g1 = { ga with code := ga.code ++ l.code, ra := ra, next_label := lbl } ∧
      (∀ a, attr = some a → f.has_default_slot_mask = true →
        l.mod = (execMod f.nmasks).or a) ∧
      (attr = none → l.fill = []) ∧
      (attr = none → f.has_default_slot_mask = true →
        l.mod = execMod f.nmasks ∧ l.mod.flag = none) := by
  unfold visit_send_call at h
  simp only [hnf, ht, Bool.false_eq_true, if_false, if_true, SendArgs.toList] at h
  split at h
  · rename_i a mem_off_op reg_buf_op mask_op fp ga hargs
    split at h
    · simp at h
    rename_i l ra lbl hsend
    simp only [Except.ok.injEq] at h
    have hmask : mask_op = {} := by
      unfold stmtEvalList at hargs
      split at hargs
      · simp at hargs
      rename_i ops s hs
      simp only [Except.ok.injEq, Prod.mk.injEq] at hargs
      have := (evalList_ops host.toHost _ _ _ _ hs).2 3 rfl
      rw [hargs.1] at this
      simpa using this
    subst hmask
    exact ⟨a, mem_off_op, reg_buf_op, fp, ga, l, ra, lbl, hargs, hsend, h.symm,
      send_without_mask host f mem_off_op reg_buf_op fp attr ga.ra ra ga.next_label lbl l hsend⟩
  · simp at h
  · simp at h

theorem all_true_mask_is_dropped_witness :
    ∃ (l : SendLowering) (ra : RegAlloc) (lbl : Label),
      send exampleGenHost exampleLoad
          (regOp { base := 30, byteOffset := 0, type := DataType.ud })
          (regOp { base := 10, byteOffset := 0, type := DataType.ud }) {} {} none
          exampleGenState.ra exampleGenState.next_label = Except.ok (l, ra, lbl) ∧
      visit_send_call exampleGenHost exampleLoad (exampleLoadArgs true) none exampleGenState
        = Except.ok { exampleGenState with code := exampleGenState.code ++ l.code, ra := ra,
                                           next_label := lbl } ∧
      l.fill = [] ∧ l.mod = execMod 1 ∧ l.mod.flag = none := by
  have hv : visit_send_call exampleGenHost exampleLoad (exampleLoadArgs true) none
      exampleGenState
      = Except.ok { exampleGenState with
          code := [Instr.send (execMod 1) 0
            (regOp { base := 30, byteOffset := 0, type := DataType.ud })
            (regOp { base := 10, byteOffset := 0, type := DataType.ud })] } := rfl
  obtain ⟨a, mem_off_op, reg_buf_op, fp, ga, l, ra, lbl, h1, h2, h3, _, h5, h6⟩ :=
    all_true_mask_is_dropped exampleGenHost exampleLoad (exampleLoadArgs true) none
      exampleGenState _ rfl rfl hv
  have hargs : stmtEvalList exampleGenHost.toHost
      [(exampleLoadArgs true).mem_buf, (exampleLoadArgs true).mem_off,
        (exampleLoadArgs true).reg_buf, Expr.empty, (exampleLoadArgs true).fill_pattern]
      exampleGenState
      = Except.ok ([regOp { base := 20, byteOffset := 0, type := DataType.ud },
          regOp { base := 30, byteOffset := 0, type := DataType.ud },
          regOp { base := 10, byteOffset := 0, type := DataType.ud }, {}, {}],
        exampleGenState) := rfl
  rw [hargs] at h1
  injection h1 with h1
  injection h1 with hops hg
  injection hops with _ hops
  injection hops with hm hops
  injection hops with hr hops
  injection hops with _ hops
  injection hops with hf _
  subst hm hr hf hg
  refine ⟨l, ra, lbl, h2, ?_, h5 rfl, (h6 rfl rfl).1, (h6 rfl rfl).2⟩
  rw [hv, h3]

/-! ## C8: lowering `store(buf, 0, a + b)` -/

/-- C8 (as the code has it). Lowering `store(buf, 0, a + b)`, where `a` and `b`
are scalar loads of one type at constant offsets from bound buffers, succeeds
and emits, after whatever `align_src_dst_offset` emits to align the operands,
exactly one add instruction whose destination is the region of `buf` at offset
0 and whose sources are the regions of the two loads (the offsets folded into
the descriptors). Nothing else is emitted: no separate store instruction and
no instruction that computes an address. -/
theorem store_add_lowering (host : GenHost) (g : GenState) (t : TypeKind)
    (idv ida idb ioa iob io idbuf idA idB : Nat) (tbuf tA tB tyA tyB tyO : IrType)
    (offA offB : Int) (rbd rA rB : RegData)
    (hvars : ∀ p ∈ g.expr_binding.expr2operand, ∃ id t, p.1 = Expr.var id t)
    (hdst : g.expr_binding.expr2dst = [])
    (hbuf : g.expr_binding.expr2operand.lookup (Expr.var idbuf tbuf) = some (regOp rbd))
    (hA : g.expr_binding.expr2operand.lookup (Expr.var idA tA) = some (regOp rA))
    (hB : g.expr_binding.expr2operand.lookup (Expr.var idB tB) = some (regOp rB)) :
    ∃ (acode : List Instr) (src0 src1 : Operand) (ra : RegAlloc),
      host.align_src_dst_offset g.ra (execMod 1)
          (regOp (loadRegion host.grf_size rbd t 0) (execMod 1))
          (regOp (loadRegion host.grf_size rA t offA))
          (regOp (loadRegion host.grf_size rB t offB)) = (acode, src0, src1, ra) ∧
      Stmt.visit host
          (Stmt.store (Expr.var idbuf tbuf) (Expr.int_imm io 0 tyO)
            (Expr.binary_op idv OpKind.add { kind := t }
              (Expr.load ida { kind := t } (Expr.var idA tA) (Expr.int_imm ioa offA tyA) none)
              (Expr.load idb { kind := t } (Expr.var idB tB) (Expr.int_imm iob offB tyB) none))
            none Expr.empty false) g
        = Except.ok { g with
            code := g.code ++ acode
              ++ [Instr.eadd (execMod 1) (regOp (loadRegion host.grf_size rbd t 0) (execMod 1))
                    src0 src1]
            ra := ra } := by
  have hl : ∀ e, (∀ id t, e ≠ Expr.var id t) → g.expr_binding.expr2operand.lookup e = none :=
    lookup_of_vars_only _ hvars
  refine ⟨_, _, _, _, rfl, ?_⟩
  by_cases hne : Expr.int_imm iob offB tyB = Expr.int_imm ioa offA tyA
  · by_cases hneb :
        Expr.load idb { kind := t } (Expr.var idB tB) (Expr.int_imm iob offB tyB) none
          = Expr.load ida { kind := t } (Expr.var idA tA) (Expr.int_imm ioa offA tyA) none
    · injection hneb with h1 _ h3 _
      injection hne with h5 h6 h7
      injection h3 with h8 h9
      subst h1; subst h5; subst h6; subst h7; subst h8; subst h9
      rw [hA] at hB
      have hr : rB = rA := by
        simp only [regOp, Option.some.injEq, Operand.mk.injEq, OperandKind.reg_buf_data.injEq,
          and_true] at hB
        exact hB.symm
      subst hr
      simp [Stmt.visit, visit_store, stmtEval, eval, evalCore, visit, Operand.is_invalid,
        ExprBinding.is_bound, ExprBinding.get, ExprBinding.is_dst_bound, ExprBinding.bind_dst,
        ExprBinding.get_dst, ExprBinding.bind, hbuf, hA, hl, hdst, Expr.is_empty,
        Expr.to_cpp_int, alloc_dst_op, maybe_alloc_strided_op, evalBind, List.lookup, Expr.type,
        IrType.is_scalar, regOp, Operand.reg_data, Operand.immediate, imm, ebinary,
        EvalState.emit, beq_false_of_ne, execMod, loadRegion, IrType.scalar_size]
    · injection hne with h5 h6 h7
      subst h5; subst h6; subst h7
      simp [Stmt.visit, visit_store, stmtEval, eval, evalCore, visit, Operand.is_invalid,
        ExprBinding.is_bound, ExprBinding.get, ExprBinding.is_dst_bound, ExprBinding.bind_dst,
        ExprBinding.get_dst, ExprBinding.bind, hbuf, hA, hB, hl, hdst, Expr.is_empty,
        Expr.to_cpp_int, alloc_dst_op, maybe_alloc_strided_op, evalBind, List.lookup, Expr.type,
        IrType.is_scalar, regOp, Operand.reg_data, Operand.immediate, imm, ebinary, hneb,
        EvalState.emit, beq_false_of_ne, execMod, loadRegion, IrType.scalar_size]
  · have hneb :
        Expr.load idb { kind := t } (Expr.var idB tB) (Expr.int_imm iob offB tyB) none
          ≠ Expr.load ida { kind := t } (Expr.var idA tA) (Expr.int_imm ioa offA tyA) none := by
      intro h
      injection h with _ _ _ h4
      exact hne h4
    simp [Stmt.visit, visit_store, stmtEval, eval, evalCore, visit, Operand.is_invalid,
      ExprBinding.is_bound, ExprBinding.get, ExprBinding.is_dst_bound, ExprBinding.bind_dst,
      ExprBinding.get_dst, ExprBinding.bind, hbuf, hA, hB, hl, hdst, Expr.is_empty,
      Expr.to_cpp_int, alloc_dst_op, maybe_alloc_strided_op, evalBind, List.lookup, Expr.type,
      IrType.is_scalar, regOp, Operand.reg_data, Operand.immediate, imm, ebinary, hne, hneb,
      EvalState.emit, beq_false_of_ne, execMod, loadRegion, IrType.scalar_size]

/-- C8 counterexample: `store(buf0, 0, a + b)` with two scalar `f32` loads, on a
host whose operands are aligned, lowers to a single instruction, the add
writing the region of `buf0`; no second (store) instruction is emitted, so the
sequence is not one add and one store. -/
theorem store_add_is_single_instruction :
    (Stmt.visit exampleGenHost exampleStoreAdd exampleGenState).map (fun g => g.code)
      = Except.ok
          [Instr.eadd (execMod 1)
            (regOp { base := 10, byteOffset := 0, type := DataType.f, vs := 1, width := 1, hs := 1 }
              (execMod 1))
            (regOp { base := 20, byteOffset := 8, type := DataType.f, vs := 1, width := 1, hs := 1 })
            (regOp { base := 30, byteOffset := 4, type := DataType.f, vs := 1, width := 1, hs := 1 })] ∧
    (match Stmt.visit exampleGenHost exampleStoreAdd exampleGenState with
      | Except.ok g => (g.code.filter (fun i => !i.isAdd)).length
      | Except.error _ => 1) = 0 := by
  constructor <;> rfl

/-- C8 witness: the general statement at the example store. -/
theorem store_add_lowering_witness :
    ∃ g : GenState, Stmt.visit exampleGenHost exampleStoreAdd exampleGenState = Except.ok g ∧
      g.code.length = 1 := by
  obtain ⟨acode, src0, src1, ra, halign, h⟩ :=
    store_add_lowering exampleGenHost exampleGenState TypeKind.f32 101 102 104 103 105 100 0 1 2
      { kind := TypeKind.byte_ptr } { kind := TypeKind.byte_ptr } { kind := TypeKind.byte_ptr }
      { kind := TypeKind.s32 } { kind := TypeKind.s32 } { kind := TypeKind.s32 } 8 4
      { base := 10, byteOffset := 0, type := DataType.ud }
      { base := 20, byteOffset := 0, type := DataType.ud }
      { base := 30, byteOffset := 0, type := DataType.ud }
      (by
        intro p hp
        simp only [exampleGenState, bufVar, List.mem_cons, List.mem_singleton,
          List.not_mem_nil, or_false] at hp
        rcases hp with h | h | h <;> subst h <;> exact ⟨_, _, rfl⟩)
      rfl rfl rfl rfl
  have ha : acode = [] := by
    have := congrArg Prod.fst halign
    simpa [exampleGenHost, exampleHost] using this.symm
  refine ⟨_, h, ?_⟩
  simp [ha, exampleGenState]

/-! ## C9: binding balance of the statement traversal -/

theorem SameTable.same_refl (g : GenState) : SameTable g g := ⟨rfl, rfl⟩

theorem SameTable.same_trans {a b c : GenState} (h1 : SameTable a b) (h2 : SameTable b c) :
    SameTable a c := ⟨h2.1.trans h1.1, h2.2.trans h1.2⟩

theorem SameTable.same_after {g g0 g1 : GenState} (h1 : SameTable g0 g1) (h0 : SameTable g g0) :
    SameTable g g1 := h0.same_trans h1

theorem stmtEval_sameTable (host : Host) (e : Expr) (dst : Operand) (fill : Bool)
    (g g1 : GenState) (op : Operand) (h : stmtEval host e dst fill g = Except.ok (op, g1)) :
    SameTable g g1 := by
  unfold stmtEval at h
  split at h
  · simp at h
  · simp only [Except.ok.injEq, Prod.mk.injEq] at h
    obtain ⟨_, h2⟩ := h
    subst h2
    exact ⟨rfl, rfl⟩

theorem stmtEvalList_sameTable (host : Host) (es : List Expr) (g g1 : GenState)
    (ops : List Operand) (h : stmtEvalList host es g = Except.ok (ops, g1)) :
    SameTable g g1 := by
  unfold stmtEvalList at h
  split at h
  · simp at h
  · simp only [Except.ok.injEq, Prod.mk.injEq] at h
    obtain ⟨_, h2⟩ := h
    subst h2
    exact ⟨rfl, rfl⟩

theorem visit_store_sameTable (host : GenHost) (buf off value : Expr) (stride : Option Int)
    (mask : Expr) (fill : Bool) (g g1 : GenState)
    (h : visit_store host buf off value stride mask fill g = Except.ok g1) :
    SameTable g g1 := by
  unfold visit_store at h
  split at h
  · simp at h
  rename_i buf_op ga h1
  split at h
  · simp at h
  split at h
  · simp at h
  rename_i mask_op gb h2
  dsimp only at h
  split at h
  · simp at h
  · simp at h
  · simp at h
  · split at h
    · simp at h
    · rename_i x gc h3
      simp only [Except.ok.injEq] at h
      subst h
      exact ((stmtEval_sameTable _ _ _ _ _ _ _ h1).same_trans
        (stmtEval_sameTable _ _ _ _ _ _ _ h2)).same_trans (stmtEval_sameTable _ _ _ _ _ _ _ h3)

theorem visit_send_call_sameTable (host : GenHost) (f : SendFunc) (args : SendArgs)
    (attr : Option Mod) (g g1 : GenState)
    (h : visit_send_call host f args attr g = Except.ok g1) : SameTable g g1 := by
  unfold visit_send_call at h
  split at h
  · split at h
    · split at h
      · simp at h
      rename_i op1 ga h1
      split at h
      · simp at h
      rename_i op2 gb h2
      split at h
      · simp at h
      simp only [Except.ok.injEq] at h
      subst h
      have := (stmtEval_sameTable _ _ _ _ _ _ _ h1).same_trans (stmtEval_sameTable _ _ _ _ _ _ _ h2)
      exact ⟨this.1, this.2⟩
    · simp only [Except.ok.injEq] at h
      subst h
      exact SameTable.same_refl _
  · dsimp only at h
    split at h
    · rename_i ga hl
      split at h
      · simp at h
      · simp only [Except.ok.injEq] at h
        subst h
        have := stmtEvalList_sameTable _ _ _ _ _ hl
        exact ⟨this.1, this.2⟩
    · simp at h
    · simp at h

theorem filter_of_lookup_none (l : List (Expr × Operand)) (e : Expr)
    (h : l.lookup e = none) : l.filter (fun p => p.1 != e) = l := by
  induction l with
  | nil => rfl
  | cons p l ih =>
    obtain ⟨k, v⟩ := p
    simp only [List.lookup] at h
    split at h
    · simp at h
    · rename_i hk
      have hne : (k != e) = true := by
        have : k ≠ e := by
          intro hh
          rw [hh] at hk
          simp at hk
        simpa using this
      simp only [List.filter, hne]
      rw [ih h]

/-- The effect of a statement-level `bind`: the expression was unbound, the
entry is added at the front and the call is logged. -/
theorem GenState.bind_spec (g g1 : GenState) (e : Expr) (op : Operand)
    (h : g.bind e op = Except.ok g1) :
    g.expr_binding.expr2operand.lookup e = none ∧
    g1.expr_binding.expr2operand = (e, op) :: g.expr_binding.expr2operand ∧
    g1.log = g.log ++ [BindEvent.bind e] := by
  unfold GenState.bind ExprBinding.bind at h
  split at h
  · simp at h
  · rename_i t ht
    split at ht
    · simp at ht
    · rename_i hb
      simp only [Except.ok.injEq] at ht h
      subst ht
      subst h
      refine ⟨?_, rfl, rfl⟩
      simp only [ExprBinding.is_bound, Bool.not_eq_true, Option.not_isSome,
        Option.isNone_iff_eq_none] at hb
      simpa using hb

/-- The effect of a statement-level `unbind`: the entries of the expression are
removed and the call is logged. -/
theorem GenState.unbind_spec (g g1 : GenState) (e : Expr)
    (h : g.unbind e = Except.ok g1) :
    g1.expr_binding.expr2operand = g.expr_binding.expr2operand.filter (fun p => p.1 != e) ∧
    g1.log = g.log ++ [BindEvent.unbind e] := by
  unfold GenState.unbind ExprBinding.unbind at h
  split at h
  · simp at h
  · rename_i t ht
    split at ht
    · simp at ht
    · simp only [Except.ok.injEq] at ht h
      subst ht
      subst h
      exact ⟨rfl, rfl⟩

theorem balancedFrom_append (tr : List BindEvent) :
    ∀ (open_ below : List Expr) (rest : List BindEvent),
      balancedFrom tr open_ = true →
        balancedFrom (tr ++ rest) (open_ ++ below) = balancedFrom rest below := by
  induction tr with
  | nil =>
    intro open_ below rest h
    simp only [balancedFrom, List.isEmpty_eq_true] at h
    subst h
    rfl
  | cons ev tr ih =>
    intro open_ below rest h
    cases ev with
    | bind e =>
      simp only [balancedFrom, List.cons_append] at h ⊢
      exact ih (e :: open_) below rest h
    | unbind e =>
      cases open_ with
      | nil => simp [balancedFrom] at h
      | cons top st =>
        simp only [balancedFrom, Bool.and_eq_true, List.cons_append] at h ⊢
        have := ih st below rest h.2
        simp only [h.1, Bool.true_and]
        exact this

theorem balanced_append (a b : List BindEvent) (ha : balanced a = true)
    (hb : balanced b = true) : balanced (a ++ b) = true := by
  unfold balanced at *
  have := balancedFrom_append a [] [] b ha
  simp only [List.append_nil] at this
  rw [this]
  exact hb

theorem balanced_wrap (e : Expr) (tr : List BindEvent) (h : balanced tr = true) :
    balanced ([BindEvent.bind e] ++ tr ++ [BindEvent.unbind e]) = true := by
  unfold balanced at *
  have := balancedFrom_append tr [] [e] [BindEvent.unbind e] h
  simp only [List.nil_append] at this
  show balancedFrom (BindEvent.bind e :: (tr ++ [BindEvent.unbind e])) [] = true
  simp only [balancedFrom]
  rw [this]
  simp [balancedFrom]

/-- In a well-nested log every expression has as many unbinds as binds. -/
theorem balancedFrom_count (tr : List BindEvent) : ∀ (open_ : List Expr) (e : Expr),
    balancedFrom tr open_ = true →
      tr.count (BindEvent.bind e) + open_.count e = tr.count (BindEvent.unbind e) := by
  induction tr with
  | nil =>
    intro open_ e h
    simp only [balancedFrom, List.isEmpty_eq_true] at h
    subst h
    simp
  | cons ev tr ih =>
    intro open_ e h
    cases ev with
    | bind x =>
      simp only [balancedFrom] at h
      have := ih (x :: open_) e h
      simp only [List.count_cons] at this ⊢
      by_cases hx : x = e
      · subst hx
        simp at this ⊢
        omega
      · have h1 : (BindEvent.bind x == BindEvent.bind e) = false := by
          simpa using hx
        have h2 : (x == e) = false := by simpa using hx
        simp [h1, h2] at this ⊢
        omega
    | unbind x =>
      cases open_ with
      | nil => simp [balancedFrom] at h
      | cons top st =>
        simp only [balancedFrom, Bool.and_eq_true, beq_iff_eq] at h
        obtain ⟨htop, hrest⟩ := h
        subst htop
        have := ih st e hrest
        simp only [List.count_cons]
        by_cases hx : top = e
        · subst hx
          simp at this ⊢
          omega
        · have h1 : (BindEvent.unbind top == BindEvent.unbind e) = false := by
            simpa using hx
          have h2 : (top == e) = false := by simpa using hx
          simp [h1, h2] at this ⊢
          omega

theorem Balances.of_sameTable {g g1 : GenState} (h : SameTable g g1) : Balances g g1 :=
  ⟨by rw [h.1], [], by rw [h.2]; simp, rfl⟩

theorem Balances.bal_trans {a b c : GenState} (h1 : Balances a b) (h2 : Balances b c) :
    Balances a c := by
  obtain ⟨e1, t1, l1, b1⟩ := h1
  obtain ⟨e2, t2, l2, b2⟩ := h2
  exact ⟨e2.trans e1, t1 ++ t2, by rw [l2, l1, List.append_assoc], balanced_append _ _ b1 b2⟩

theorem Balances.bal_after {g g0 g1 : GenState} (h1 : Balances g0 g1) (h0 : SameTable g g0) :
    Balances g g1 := (Balances.of_sameTable h0).bal_trans h1

theorem Balances.bal_before {g g0 g1 : GenState} (h1 : Balances g g0) (h0 : SameTable g0 g1) :
    Balances g g1 := h1.bal_trans (Balances.of_sameTable h0)

/-- A bind, a balanced traversal and the matching unbind are balanced. -/
theorem Balances.wrap {g g0 g1 g2 g3 : GenState} (e : Expr) (op : Operand)
    (h0 : SameTable g g0) (hb : g0.bind e op = Except.ok g1)
    (hu : g2.unbind e = Except.ok g3) (hbody : Balances g1 g2) : Balances g g3 := by
  obtain ⟨hnone, hop, hlog⟩ := GenState.bind_spec g0 g1 e op hb
  obtain ⟨hop3, hlog3⟩ := GenState.unbind_spec g2 g3 e hu
  obtain ⟨hop2, tr, hlog2, htr⟩ := hbody
  constructor
  · rw [hop3, hop2, hop]
    have hk : ((e, op).1 != e) = false := by simp
    simp only [List.filter, hk]
    rw [filter_of_lookup_none _ e hnone, h0.1]
  · refine ⟨[BindEvent.bind e] ++ tr ++ [BindEvent.unbind e], ?_, balanced_wrap e tr htr⟩
    rw [hlog3, hlog2, hlog, h0.2]
    simp

theorem visit_balances (host : GenHost) (s : Stmt) :
    ∀ g g1 : GenState, Stmt.visit host s g = Except.ok g1 → Balances g g1 := by
  induction s with
  | nop =>
    intro g g1 h
    simp only [Stmt.visit, Except.ok.injEq] at h
    subst h
    exact Balances.of_sameTable (SameTable.same_refl _)
  | seq head tail ih1 ih2 =>
    intro g g1 h
    simp only [Stmt.visit] at h
    split at h
    · simp at h
    · rename_i ga ha
      exact (ih1 _ _ ha).bal_trans (ih2 _ _ h)
  | alloc kind buf size bc hdr body ih =>
    intro g g1 h
    simp only [Stmt.visit] at h
    split at h
    · simp at h
    rename_i ga hbound
    split at h
    · simp at h
    split at h
    · simp at h
    rename_i gb hbody
    by_cases hk : (kind == AllocKind.grf) = true
    · simp only [hk, if_true] at hbound h
      split at hbound
      · simp at hbound
      · rename_i rbd ra _
        have h0 : SameTable g ({ g with ra := ra } : GenState) := ⟨rfl, rfl⟩
        exact Balances.wrap buf (regOp rbd) h0 hbound h (ih _ _ hbody)
    · simp only [hk, Bool.false_eq_true, if_false, Except.ok.injEq] at hbound h
      subst hbound
      subst h
      exact ih _ _ hbody
  | for_ var init bound step body ih =>
    intro g g1 h
    simp only [Stmt.visit] at h
    split at h
    · simp at h
    rename_i init_op ga h1
    split at h
    · simp at h
    rename_i bound_op gb h2
    split at h
    · simp at h
    rename_i step_op gc h3
    split at h
    · simp at h
    rename_i gd hbind
    have hframe : SameTable g gc :=
      (SameTable.same_after (stmtEval_sameTable _ _ _ _ _ _ _ h1) ⟨rfl, rfl⟩).same_trans
        ((stmtEval_sameTable _ _ _ _ _ _ _ h2).same_trans (stmtEval_sameTable _ _ _ _ _ _ _ h3))
    split at h
    · split at h
      · simp at h
      · rename_i ge hbody
        exact Balances.wrap var _ hframe hbind h
          (Balances.bal_before (Balances.bal_after (ih _ _ hbody) ⟨rfl, rfl⟩) ⟨rfl, rfl⟩)
    · split at h
      · simp at h
      · rename_i ge hbody
        exact Balances.wrap var _ hframe hbind h
          (Balances.bal_before (Balances.bal_after (ih _ _ hbody) ⟨rfl, rfl⟩) ⟨rfl, rfl⟩)
  | send_call func args attr =>
    intro g g1 h
    simp only [Stmt.visit] at h
    exact Balances.of_sameTable (visit_send_call_sameTable _ _ _ _ _ _ h)
  | call func args attr =>
    intro g g1 h
    simp only [Stmt.visit] at h
    split at h
    · simp at h
    rename_i ops ga hl
    split at h
    · simp at h
    simp only [Except.ok.injEq] at h
    subst h
    have := stmtEvalList_sameTable _ _ _ _ _ hl
    exact Balances.of_sameTable ⟨this.1, this.2⟩
  | if_ cond body else_body ih1 ih2 =>
    intro g g1 h
    simp only [Stmt.visit] at h
    split at h
    · simp at h
    split at h
    · simp at h
    rename_i cond_op ga hc
    split at h
    · simp at h
    split at h
    · simp at h
    rename_i gb hbody
    have hc' : SameTable g ga := stmtEval_sameTable _ _ _ _ _ _ _ hc
    have hb' : Balances ga gb := Balances.bal_after (ih1 _ _ hbody) ⟨rfl, rfl⟩
    have hpre : Balances g gb := (Balances.of_sameTable hc').bal_trans hb'
    split at h
    · split at h
      · simp at h
      · rename_i gc helse
        simp only [Except.ok.injEq] at h
        subst h
        exact Balances.bal_before (hpre.bal_trans (Balances.bal_after (ih2 _ _ helse) ⟨rfl, rfl⟩))
          ⟨rfl, rfl⟩
    · simp only [Except.ok.injEq] at h
      subst h
      exact Balances.bal_before hpre ⟨rfl, rfl⟩
  | let_ var value body ih =>
    intro g g1 h
    simp only [Stmt.visit] at h
    split at h
    · split at h
      · simp at h
      · split at h
        · simp at h
        · exact ih _ _ h
    · split at h
      · simp at h
      rename_i ga hbound
      split at h
      · simp at h
      split at h
      · simp at h
      rename_i gb hbody
      split at hbound
      · split at hbound
        · simp at hbound
        · rename_i x gc hv
          exact Balances.wrap var _
            (SameTable.same_after (stmtEval_sameTable _ _ _ _ _ _ _ hv) ⟨rfl, rfl⟩)
            hbound h (ih _ _ hbody)
      · split at hbound
        · simp at hbound
        · rename_i value_op gc hv
          exact Balances.wrap var _ (stmtEval_sameTable _ _ _ _ _ _ _ hv) hbound h (ih _ _ hbody)
  | store buf off value stride mask fill =>
    intro g g1 h
    simp only [Stmt.visit] at h
    exact Balances.of_sameTable (visit_store_sameTable _ _ _ _ _ _ _ _ _ h)
  | while_ cond body ih =>
    intro g g1 h
    simp only [Stmt.visit] at h
    split at h
    · simp at h
    rename_i cond_op ga hc
    split at h
    · simp at h
    split at h
    · simp at h
    rename_i gb hbody
    simp only [Except.ok.injEq] at h
    subst h
    have hc' : SameTable g ga :=
      SameTable.same_after (stmtEval_sameTable _ _ _ _ _ _ _ hc) ⟨rfl, rfl⟩
    have hb' : Balances ga gb := Balances.bal_after (ih _ _ hbody) ⟨rfl, rfl⟩
    exact Balances.bal_before ((Balances.of_sameTable hc').bal_trans hb') ⟨rfl, rfl⟩

/-- C9. When the lowering of a statement tree completes without a fatal error,
the `bind` and `unbind` calls it made on the statement-level binding table
(for allocs of kind grf, lets with a value and for-loop variables) are well
nested: every bind is closed by exactly one later unbind of the same
expression, so every expression is bound as often as it is unbound; and the
table after the traversal holds the entries it held before, so the same
expressions are bound. -/
theorem binding_balance (host : GenHost) (s : Stmt) (g g1 : GenState)
    (h : Stmt.visit host s g = Except.ok g1) :
    (∃ tr, g1.log = g.log ++ tr ∧ balanced tr = true ∧
      ∀ e, tr.count (BindEvent.bind e) = tr.count (BindEvent.unbind e)) ∧
    g1.expr_binding.expr2operand = g.expr_binding.expr2operand ∧
    ∀ e, g1.expr_binding.is_bound e = g.expr_binding.is_bound e := by
  obtain ⟨htab, tr, hlog, hbal⟩ := visit_balances host s g g1 h
  refine ⟨⟨tr, hlog, hbal, ?_⟩, htab, ?_⟩
  · intro e
    have := balancedFrom_count tr [] e hbal
    simpa using this
  · intro e
    simp only [ExprBinding.is_bound, htab]

theorem binding_balance_witness :
    Stmt.visit exampleGenHost exampleNested exampleGenState = Except.ok exampleNestedResult ∧
    exampleNestedResult.log
      = [BindEvent.bind (bufVar 3), BindEvent.bind (Expr.var 8 { kind := TypeKind.s32 }),
         BindEvent.bind exampleLoopVar, BindEvent.unbind exampleLoopVar,
         BindEvent.unbind (Expr.var 8 { kind := TypeKind.s32 }), BindEvent.unbind (bufVar 3)] ∧
    exampleNestedResult.expr_binding.expr2operand = exampleGenState.expr_binding.expr2operand ∧
    ∀ e, exampleNestedResult.expr_binding.is_bound e = exampleGenState.expr_binding.is_bound e :=
  ⟨rfl, rfl,
   (binding_balance exampleGenHost exampleNested exampleGenState exampleNestedResult rfl).2⟩

/-! ## C10: evaluation is memoized through the binding table -/

theorem bind_is_bound (t t1 : ExprBinding) (e : Expr) (op : Operand)
    (h : t.bind e op = Except.ok t1) : t1.is_bound e = true := by
  unfold ExprBinding.bind at h
  split at h
  · simp at h
  · simp only [Except.ok.injEq] at h
    subst h
    simp [ExprBinding.is_bound, List.lookup]

theorem evalBind_is_bound (e : Expr) (op : Operand) (s s1 : EvalState)
    (h : evalBind e op s = Except.ok s1) : s1.expr_binding.is_bound e = true := by
  unfold evalBind at h
  split at h
  · split at h
    · rename_i t ht
      simp only [Except.ok.injEq] at h
      subst h
      exact bind_is_bound _ _ _ _ ht
    · simp at h
  · split at h
    · simp at h
    · split at h
      · split at h
        · rename_i t ht
          simp only [Except.ok.injEq] at h
          subst h
          exact bind_is_bound _ _ _ _ ht
        · simp at h
      · dsimp only at h
        split at h
        · rename_i t ht
          simp only [Except.ok.injEq] at h
          subst h
          exact bind_is_bound _ _ _ _ ht
        · simp at h

/-- A successful `visit(e)` leaves `e` bound, unless `e` is the empty expression. -/
theorem visit_is_bound (host : Host) (e : Expr) (s s1 : EvalState)
    (h : visit host e s = Except.ok s1) (hne : e.is_empty = false) :
    s1.expr_binding.is_bound e = true := by
  cases e with
  | empty => simp [Expr.is_empty] at hne
  | bool_imm id v => simp [visit] at h
  | int_imm id v t =>
    simp only [visit] at h
    exact evalBind_is_bound _ _ _ _ h
  | var id t =>
    simp only [visit] at h
    split at h
    · rename_i hb
      simp only [Except.ok.injEq] at h
      subst h
      exact hb
    · simp at h
  | load id t buf off stride =>
    simp only [visit] at h
    split at h
    · simp at h
    · split at h
      · simp at h
      · split at h
        · simp at h
        · exact evalBind_is_bound _ _ _ _ h
        · simp at h
  | ptr id base off =>
    simp only [visit] at h
    split at h
    · simp at h
    · split at h
      · exact evalBind_is_bound _ _ _ _ h
      · split at h
        · simp at h
        · exact evalBind_is_bound _ _ _ _ h
      · simp at h
  | unary_op id t a =>
    simp only [visit] at h
    split at h
    · simp at h
    · exact evalBind_is_bound _ _ _ _ h
  | binary_op id op t a b =>
    simp only [visit] at h
    split at h
    · simp at h
    · split at h
      · simp at h
      · split at h
        · simp at h
        · split at h
          · simp at h
          · exact evalBind_is_bound _ _ _ _ h
  | cast id t sat a =>
    simp only [visit] at h
    repeat' (first
      | exact evalBind_is_bound _ _ _ _ h
      | split at h
      | (simp at h))

theorem evalCore_of_bound (visitE : EvalState → Except Fatal EvalState) (e : Expr)
    (s : EvalState) (hb : s.expr_binding.is_bound e = true) :
    evalCore visitE e {} false s
      = match s.expr_binding.get e true with
        | Except.error f => Except.error f
        | Except.ok op => Except.ok (op, s) := by
  unfold evalCore
  simp [Operand.is_invalid, hb]

theorem get_of_bound (t : ExprBinding) (e : Expr) (hb : t.is_bound e = true) :
    ∃ op, t.get e true = Except.ok op ∧
      (e.is_empty = false → t.expr2operand.lookup e = some op) := by
  unfold ExprBinding.get
  unfold ExprBinding.is_bound at hb
  cases hl : t.expr2operand.lookup e with
  | none => simp [hl] at hb
  | some op =>
    by_cases he : e.is_empty = true
    · exact ⟨{}, by simp [he], fun h => by simp [he] at h⟩
    · exact ⟨op, by simp [he], fun _ => rfl⟩

/-- C10. For an expression `e` already bound in the evaluator's binding table,
`eval(e)` without a destination operand emits no instruction, leaves the whole
evaluator state (binding table included) unchanged and returns the operand `e`
is bound to. Hence lowering happens at most once: after any successful
`eval(e)` the node is bound, so evaluating it again (as a second parent does)
returns the same operand and changes nothing. -/
theorem eval_bound_is_memoized (host : Host) (e : Expr) :
    (∀ s : EvalState, s.expr_binding.is_bound e = true →
      ∃ op, s.expr_binding.get e true = Except.ok op ∧
        (e.is_empty = false → s.expr_binding.expr2operand.lookup e = some op) ∧
        eval host e {} false s = Except.ok (op, s)) ∧
    (∀ (s s1 : EvalState) (op : Operand), eval host e {} false s = Except.ok (op, s1) →
      (e.is_empty = false → s1.expr_binding.is_bound e = true) ∧
      eval host e {} false s1 = Except.ok (op, s1)) := by
  have part1 : ∀ s : EvalState, s.expr_binding.is_bound e = true →
      ∃ op, s.expr_binding.get e true = Except.ok op ∧
        (e.is_empty = false → s.expr_binding.expr2operand.lookup e = some op) ∧
        eval host e {} false s = Except.ok (op, s) := by
    intro s hb
    obtain ⟨op, hget, hl⟩ := get_of_bound s.expr_binding e hb
    refine ⟨op, hget, hl, ?_⟩
    unfold eval
    rw [evalCore_of_bound _ e s hb, hget]
  refine ⟨part1, ?_⟩
  intro s s1 op h
  by_cases hb : s.expr_binding.is_bound e = true
  · obtain ⟨op', _, _, hev⟩ := part1 s hb
    rw [hev] at h
    simp only [Except.ok.injEq, Prod.mk.injEq] at h
    obtain ⟨h1, h2⟩ := h
    subst h1; subst h2
    exact ⟨fun _ => hb, hev⟩
  · unfold eval evalCore at h
    simp only [Operand.is_invalid, hb, Bool.not_true, Bool.false_and, Bool.false_eq_true,
      if_false, if_true] at h
    cases hv : visit host e s with
    | error f => simp [hv] at h
    | ok s2 =>
      simp only [hv] at h
      cases hg : s2.expr_binding.get e true with
      | error f => simp [hg] at h
      | ok op2 =>
        simp only [hg, Except.ok.injEq, Prod.mk.injEq] at h
        obtain ⟨h1, h2⟩ := h
        subst h1; subst h2
        by_cases hemp : e.is_empty = true
        · cases e with
          | empty =>
            simp only [visit, Except.ok.injEq] at hv
            subst hv
            refine ⟨fun h => by simp [Expr.is_empty] at h, ?_⟩
            unfold eval evalCore
            simp only [Operand.is_invalid, hb, Bool.not_true, Bool.false_and,
              Bool.false_eq_true, if_false, if_true, visit, hg]
          | _ => simp [Expr.is_empty] at hemp
        · have hne : e.is_empty = false := by simpa using hemp
          have hb2 := visit_is_bound host e s s2 hv hne
          refine ⟨fun _ => hb2, ?_⟩
          obtain ⟨op', hget', _, hev⟩ := part1 s2 hb2
          rw [hget'] at hg
          cases hg
          exact hev


theorem eval_bound_is_memoized_witness :
    ∃ (op : Operand) (s1 : EvalState),
      eval exampleHost exampleSharedLoad {} false exampleEvalState = Except.ok (op, s1) ∧
      s1.expr_binding.is_bound exampleSharedLoad = true ∧
      eval exampleHost exampleSharedLoad {} false s1 = Except.ok (op, s1) := by
  have h0 : ∃ p, eval exampleHost exampleSharedLoad {} false exampleEvalState = Except.ok p :=
    ⟨_, rfl⟩
  obtain ⟨⟨op, s1⟩, h⟩ := h0
  have key := (eval_bound_is_memoized exampleHost exampleSharedLoad).2 exampleEvalState s1 op h
  exact ⟨op, s1, h, key.1 rfl, key.2⟩

/-! ## C11: `bind` moves a value to its reserved destination -/

/-- After the entries of `e` are filtered out, `e` has no entry. -/
theorem lookup_filter_self (l : List (Expr × Operand)) (e : Expr) :
    (l.filter (fun p => p.1 != e)).lookup e = none := by
  induction l with
  | nil => rfl
  | cons p l ih =>
    obtain ⟨k, v⟩ := p
    by_cases hk : k = e
    · subst hk
      simp only [List.filter, bne_self_eq_false]
      exact ih
    · have h1 : (k != e) = true := by simpa using hk
      have h2 : (e == k) = false := by
        simpa using fun h : e = k => hk h.symm
      simp only [List.filter, h1, List.lookup, h2]
      exact ih

/-- C11. For an expression `e` that is not bound yet, `bind(e, op)` of the
evaluator does the following. If `e` has a reserved destination `d` and `op`
differs from `d`, exactly one move `d <- op` (with the modifier of `d`) is
emitted and `e` becomes bound to `d`. If `e` has no reserved destination, or
`op` is `d`, nothing is emitted and `e` becomes bound to `op`. In every case
in which `e` had a reserved destination `d`, it ends bound to `d`, and the
reservation is gone from the destination-bound state only then: it is never
dropped without the move. -/
theorem bind_moves_to_reserved_destination (e : Expr) (op : Operand) (s : EvalState)
    (hnb : s.expr_binding.is_bound e = false) :
    (∀ d, s.expr_binding.expr2dst.lookup e = some d → d ≠ op →
      ∃ s1, evalBind e op s = Except.ok s1 ∧
        s1.code = s.code ++ [Instr.emov d.mod d op] ∧
        s1.expr_binding.expr2operand.lookup e = some d ∧
        s1.expr_binding.is_dst_bound e = false) ∧
    ((s.expr_binding.expr2dst.lookup e = none ∨ s.expr_binding.expr2dst.lookup e = some op) →
      ∃ s1, evalBind e op s = Except.ok s1 ∧
        s1.code = s.code ∧
        s1.expr_binding.expr2operand.lookup e = some op ∧
        s1.expr_binding.is_dst_bound e = false) ∧
    (∀ d s1, s.expr_binding.expr2dst.lookup e = some d → evalBind e op s = Except.ok s1 →
      s1.expr_binding.expr2operand.lookup e = some d) := by
  have hfirst : ∀ d, s.expr_binding.expr2dst.lookup e = some d → d ≠ op →
      ∃ s1, evalBind e op s = Except.ok s1 ∧
        s1.code = s.code ++ [Instr.emov d.mod d op] ∧
        s1.expr_binding.expr2operand.lookup e = some d ∧
        s1.expr_binding.is_dst_bound e = false := by
    intro d hd hne
    refine ⟨{ s with
        code := s.code ++ [Instr.emov d.mod d op]
        expr_binding :=
          { expr2operand := (e, d) :: s.expr_binding.expr2operand
            expr2dst := s.expr_binding.expr2dst.filter (fun p => p.1 != e) } }, ?_, ?_, ?_, ?_⟩
    · simp only [evalBind, ExprBinding.is_dst_bound, hd, Option.isSome_some, Bool.not_true,
        Bool.false_eq_true, if_false, ExprBinding.get_dst, hne, EvalState.emit,
        ExprBinding.bind, hnb]
    · rfl
    · simp [List.lookup]
    · simp [ExprBinding.is_dst_bound, lookup_filter_self]
  have hsecond : (s.expr_binding.expr2dst.lookup e = none ∨
      s.expr_binding.expr2dst.lookup e = some op) →
      ∃ s1, evalBind e op s = Except.ok s1 ∧
        s1.code = s.code ∧
        s1.expr_binding.expr2operand.lookup e = some op ∧
        s1.expr_binding.is_dst_bound e = false := by
    intro hd
    rcases hd with hd | hd
    · refine ⟨{ s with
          expr_binding :=
            { expr2operand := (e, op) :: s.expr_binding.expr2operand
              expr2dst := s.expr_binding.expr2dst.filter (fun p => p.1 != e) } }, ?_, ?_, ?_, ?_⟩
      · simp only [evalBind, ExprBinding.is_dst_bound, hd, Option.isSome_none, Bool.not_false,
          if_true, ExprBinding.bind, hnb, Bool.false_eq_true, if_false]
      · rfl
      · simp [List.lookup]
      · simp [ExprBinding.is_dst_bound, lookup_filter_self]
    · refine ⟨{ s with
          expr_binding :=
            { expr2operand := (e, op) :: s.expr_binding.expr2operand
              expr2dst := s.expr_binding.expr2dst.filter (fun p => p.1 != e) } }, ?_, ?_, ?_, ?_⟩
      · simp only [evalBind, ExprBinding.is_dst_bound, hd, Option.isSome_some, Bool.not_true,
          Bool.false_eq_true, if_false, ExprBinding.get_dst, if_true, ExprBinding.bind, hnb]
      · rfl
      · simp [List.lookup]
      · simp [ExprBinding.is_dst_bound, lookup_filter_self]
  refine ⟨hfirst, hsecond, ?_⟩
  intro d s1 hd hb
  by_cases hne : d = op
  · subst hne
    obtain ⟨s2, h2, _, h3, _⟩ := hsecond (Or.inr hd)
    rw [h2] at hb
    simp only [Except.ok.injEq] at hb
    rw [← hb]
    exact h3
  · obtain ⟨s2, h2, _, h3, _⟩ := hfirst d hd hne
    rw [h2] at hb
    simp only [Except.ok.injEq] at hb
    rw [← hb]
    exact h3

theorem bind_moves_to_reserved_destination_witness :
    ∃ s1, evalBind exampleConst (imm 5 DataType.d) exampleDstState = Except.ok s1 ∧
      s1.code = exampleDstState.code
        ++ [Instr.emov exampleDstOp.mod exampleDstOp (imm 5 DataType.d)] ∧
      s1.expr_binding.expr2operand.lookup exampleConst = some exampleDstOp ∧
      s1.expr_binding.is_dst_bound exampleConst = false :=
  (bind_moves_to_reserved_destination exampleConst (imm 5 DataType.d) exampleDstState rfl).1
    exampleDstOp rfl (by intro h; cases h)


/-! ## Labels of the emitted sequence are fresh -/

theorem LabelsIn.nil (lo hi : Label) : LabelsIn lo hi [] := by
  intro i hi; cases hi

theorem LabelsIn.labels_append {lo hi : Label} {A B : List Instr} (ha : LabelsIn lo hi A)
    (hb : LabelsIn lo hi B) : LabelsIn lo hi (A ++ B) := by
  intro i hi
  rcases List.mem_append.1 hi with h | h
  · exact ha i h
  · exact hb i h

theorem LabelsIn.mono {lo hi lo2 hi2 : Label} {B : List Instr} (h : LabelsIn lo hi B)
    (h1 : lo2 ≤ lo) (h2 : hi ≤ hi2) : LabelsIn lo2 hi2 B := by
  intro i hi l hl
  obtain ⟨a, b⟩ := h i hi l hl
  exact ⟨le_trans h1 a, lt_of_lt_of_le b h2⟩

theorem LabelsIn.of_free {lo hi : Label} {B : List Instr} (h : ∀ i ∈ B, i.labels = []) :
    LabelsIn lo hi B := by
  intro i hi l hl
  rw [h i hi] at hl
  cases hl

theorem isAlu_labels (i : Instr) (h : i.isAlu = true) : i.labels = [] := by
  cases i <;> simp_all [Instr.isAlu, Instr.labels]

theorem Fresh.fresh_refl (g : GenState) : Fresh g g :=
  ⟨le_refl _, [], by simp, LabelsIn.nil _ _⟩

theorem Fresh.fresh_trans {a b c : GenState} (h1 : Fresh a b) (h2 : Fresh b c) : Fresh a c := by
  obtain ⟨n1, B1, c1, l1⟩ := h1
  obtain ⟨n2, B2, c2, l2⟩ := h2
  refine ⟨le_trans n1 n2, B1 ++ B2, by rw [c2, c1, List.append_assoc], ?_⟩
  exact LabelsIn.labels_append (l1.mono (le_refl _) n2) (l2.mono n1 (le_refl _))

/-- A step that creates no label and appends label-free instructions. -/
theorem Fresh.of_emits {g g1 : GenState} (hn : g1.next_label = g.next_label)
    (h : Emits (fun i => i.labels = []) g.code g1.code) : Fresh g g1 := by
  obtain ⟨B, hB, hl⟩ := h
  exact ⟨by rw [hn], B, hB, LabelsIn.of_free hl⟩

/-- A step that changes neither the sequence nor the label counter. -/
theorem Fresh.of_same {g g1 : GenState} (hn : g1.next_label = g.next_label)
    (hc : g1.code = g.code) : Fresh g g1 :=
  ⟨by rw [hn], [], by simp [hc], LabelsIn.nil _ _⟩

theorem stmtEval_next_label (host : Host) (e : Expr) (dst : Operand) (fill : Bool)
    (g g1 : GenState) (op : Operand) (h : stmtEval host e dst fill g = Except.ok (op, g1)) :
    g1.next_label = g.next_label := by
  unfold stmtEval at h
  split at h
  · simp at h
  · simp only [Except.ok.injEq, Prod.mk.injEq] at h
    rw [← h.2]

theorem stmtEvalList_next_label (host : Host) (es : List Expr) (g g1 : GenState)
    (ops : List Operand) (h : stmtEvalList host es g = Except.ok (ops, g1)) :
    g1.next_label = g.next_label := by
  unfold stmtEvalList at h
  split at h
  · simp at h
  · simp only [Except.ok.injEq, Prod.mk.injEq] at h
    rw [← h.2]

theorem stmtEval_fresh (host : Host) (halign : AlignEmits host (fun i => i.labels = []))
    (e : Expr) (dst : Operand) (fill : Bool) (g g1 : GenState) (op : Operand)
    (h : stmtEval host e dst fill g = Except.ok (op, g1)) : Fresh g g1 :=
  Fresh.of_emits (stmtEval_next_label host e dst fill g g1 op h)
    (stmtEval_emits host _ isAlu_labels halign e dst fill g g1 op h)

theorem stmtEvalList_fresh (host : Host) (halign : AlignEmits host (fun i => i.labels = []))
    (es : List Expr) (g g1 : GenState) (ops : List Operand)
    (h : stmtEvalList host es g = Except.ok (ops, g1)) : Fresh g g1 :=
  Fresh.of_emits (stmtEvalList_next_label host es g g1 ops h)
    (stmtEvalList_emits host _ isAlu_labels halign es g g1 ops h)

theorem GenState.unbind_next_label (g g1 : GenState) (e : Expr)
    (h : g.unbind e = Except.ok g1) : g1.next_label = g.next_label := by
  unfold GenState.unbind at h
  split at h
  · simp at h
  · simp only [Except.ok.injEq] at h
    subst h
    rfl

theorem GenState.bind_fresh (g g1 : GenState) (e : Expr) (op : Operand)
    (h : g.bind e op = Except.ok g1) : Fresh g g1 :=
  Fresh.of_same (GenState.bind_next_label g g1 e op h) (GenState.bind_code g g1 e op h)

theorem GenState.unbind_fresh (g g1 : GenState) (e : Expr)
    (h : g.unbind e = Except.ok g1) : Fresh g g1 :=
  Fresh.of_same (GenState.unbind_next_label g g1 e h) (GenState.unbind_code g g1 e h)

theorem fill_buf_loop_alu (r : Int → Int) (grf : Int) (rd : RegData) (t : DataType)
    (pattern : Operand) (elems : Int) :
    ∀ (fuel : Nat) (i step : Int) (l : List Instr),
      fill_buf_loop r grf rd t pattern elems fuel i step = Except.ok l →
      ∀ ins ∈ l, ins.isAlu = true := by
  intro fuel
  induction fuel with
  | zero => intro i step l h; simp [fill_buf_loop] at h
  | succ fuel ih =>
    intro i step l h
    simp only [fill_buf_loop] at h
    split at h
    · split at h
      · simp at h
      · split at h
        · simp at h
        · rename_i rest hrest
          simp only [Except.ok.injEq] at h
          subst h
          intro ins hins
          rcases List.mem_cons.1 hins with hi | hi
          · subst hi; rfl
          · exact ih _ _ _ hrest ins hi
    · simp only [Except.ok.injEq] at h
      subst h
      intro ins hins
      cases hins

theorem fill_buf_alu (r : Int → Int) (grf : Int) (buf_op : Operand) (size : Int)
    (pattern : Operand) (fuel : Nat) (l : List Instr)
    (h : fill_buf r grf buf_op size pattern fuel = Except.ok l) :
    ∀ ins ∈ l, ins.isAlu = true := by
  unfold fill_buf at h
  split at h
  · simp at h
  · dsimp only at h
    split at h
    · exact fill_buf_loop_alu _ _ _ _ _ _ _ _ _ _ h
    · simp at h

theorem dense_payload_loop_alu (host : GenHost) (buf : RegData) (tmp regs : Int) :
    ∀ (fuel : Nat) (i : Int), ∀ ins ∈ dense_payload_loop host buf tmp regs fuel i,
      ins.isAlu = true := by
  intro fuel
  induction fuel with
  | zero => intro i ins h; simp [dense_payload_loop] at h
  | succ fuel ih =>
    intro i ins h
    simp only [dense_payload_loop] at h
    split at h
    · rcases List.mem_cons.1 h with hi | hi
      · subst hi; rfl
      · exact ih _ ins hi
    · cases h

theorem send_payload_alu (host : GenHost) (f : SendFunc) (op_buf : Operand) (ra ra1 : RegAlloc)
    (rd : Operand) (payload : List Instr)
    (h : send_maybe_make_dense_payload host f op_buf ra = Except.ok (rd, payload, ra1)) :
    ∀ ins ∈ payload, ins.isAlu = true := by
  unfold send_maybe_make_dense_payload at h
  split at h
  · simp only [Except.ok.injEq, Prod.mk.injEq] at h
    obtain ⟨_, h2, _⟩ := h
    subst h2
    intro ins hi; cases hi
  · split at h
    · simp at h
    · dsimp only at h
      split at h
      · simp only [Except.ok.injEq, Prod.mk.injEq] at h
        obtain ⟨_, h2, _⟩ := h
        subst h2
        intro ins hi; cases hi
      · split at h
        · simp at h
        · split at h
          · simp at h
          · split at h
            · simp at h
            · simp only [Except.ok.injEq, Prod.mk.injEq] at h
              obtain ⟨_, h2, _⟩ := h
              subst h2
              exact dense_payload_loop_alu _ _ _ _ _ _

theorem send_atomic_add_emu_labels (host : GenHost) (f : SendFunc) (mask_op : Operand)
    (mod : Mod) (mem_off_op rd : Operand) (ra ra1 : RegAlloc) (lbl lbl1 : Label)
    (msg : List Instr)
    (h : send_atomic_add_emu host f mask_op mod mem_off_op rd ra lbl
      = Except.ok (msg, ra1, lbl1)) :
    lbl ≤ lbl1 ∧ LabelsIn lbl lbl1 msg := by
  unfold send_atomic_add_emu at h
  dsimp only at h
  split at h
  · simp at h
  · split at h
    · simp at h
    · simp only [Except.ok.injEq, Prod.mk.injEq] at h
      obtain ⟨h1, _, h3⟩ := h
      subst h1 h3
      refine ⟨Nat.le_succ _, ?_⟩
      intro i hi l hl
      simp only [List.mem_cons, List.mem_singleton, List.not_mem_nil, or_false] at hi
      rcases hi with hi | hi | hi | hi | hi | hi | hi | hi | hi <;> subst hi <;>
        first
          | (simp only [Instr.labels, List.mem_singleton, List.not_mem_nil] at hl; done)
          | (simp only [Instr.labels, List.mem_singleton] at hl
             subst hl
             exact ⟨le_refl _, Nat.lt_succ_self _⟩)
          | (split at hl <;>
              simp only [Instr.labels, List.mem_singleton, List.not_mem_nil] at hl)

theorem send_labels (host : GenHost) (f : SendFunc) (mem_off_op reg_buf_op mask_op fp : Operand)
    (attr : Option Mod) (ra ra1 : RegAlloc) (lbl lbl1 : Label) (l : SendLowering)
    (h : send host f mem_off_op reg_buf_op mask_op fp attr ra lbl = Except.ok (l, ra1, lbl1)) :
    lbl ≤ lbl1 ∧ LabelsIn lbl lbl1 l.code := by
  unfold send at h
  dsimp only at h
  split at h
  · simp at h
  split at h
  · simp at h
  rename_i mod hmod
  split at h
  · simp at h
  rename_i fill hfill
  split at h
  · simp at h
  rename_i rd payload ra2 hpay
  have hfill_alu : ∀ ins ∈ fill, ins.isAlu = true := by
    split at hfill
    · exact fill_buf_alu _ _ _ _ _ _ _ hfill
    · simp only [Except.ok.injEq] at hfill
      subst hfill
      intro ins hi; cases hi
  have hpay_alu := send_payload_alu _ _ _ _ _ _ _ hpay
  have hfree : ∀ lo hi, LabelsIn lo hi (fill ++ payload) := fun lo hi =>
    LabelsIn.labels_append (LabelsIn.of_free (fun i hi => isAlu_labels i (hfill_alu i hi)))
      (LabelsIn.of_free (fun i hi => isAlu_labels i (hpay_alu i hi)))
  have hslot : ∀ lo hi, LabelsIn lo hi
      (if (!f.has_default_slot_mask) = true then
        match mod.flag with
        | some fl =>
          ([Instr.and_ (execMod 1)
              { kind := OperandKind.flag_register (if f.slots > 16 then fl >>> 1 else fl) false }
              { kind := OperandKind.flag_register (if f.slots > 16 then fl >>> 1 else fl) false }
              (imm f.slot_mask DataType.ud)], mod, ra2)
        | none =>
          ([Instr.emov (execMod 1) { kind := OperandKind.flag_register ra2.alloc_flag.1 false }
              (imm f.slot_mask DataType.ud)], mod.withFlag ra2.alloc_flag.1, ra2.alloc_flag.2)
      else (([] : List Instr), mod, ra2)).1 := by
    intro lo hi
    apply LabelsIn.of_free
    intro i hi
    split at hi
    · split at hi
      · simp only [List.mem_singleton] at hi
        subst hi; rfl
      · simp only [List.mem_singleton] at hi
        subst hi; rfl
    · cases hi
  split at h
  · split at h
    · simp at h
    · rename_i msg ra3 lbl3 hemu
      simp only [Except.ok.injEq, Prod.mk.injEq] at h
      obtain ⟨h1, _, h3⟩ := h
      subst h1 h3
      obtain ⟨hle, hmsg⟩ := send_atomic_add_emu_labels _ _ _ _ _ _ _ _ _ _ _ hemu
      refine ⟨hle, ?_⟩
      simp only [SendLowering.code]
      exact LabelsIn.labels_append (LabelsIn.labels_append (hfree _ _) (hslot _ _)) hmsg
  · simp only [Except.ok.injEq, Prod.mk.injEq] at h
    obtain ⟨h1, _, h3⟩ := h
    subst h1 h3
    refine ⟨le_refl _, ?_⟩
    simp only [SendLowering.code]
    refine LabelsIn.labels_append (LabelsIn.labels_append (hfree _ _) (hslot _ _)) ?_
    apply LabelsIn.of_free
    intro i hi
    simp only [List.mem_singleton] at hi
    subst hi; rfl

theorem visit_send_call_fresh (host : GenHost)
    (halign : AlignEmits host.toHost (fun i => i.labels = []))
    (f : SendFunc) (args : SendArgs) (attr : Option Mod) (g g1 : GenState)
    (h : visit_send_call host f args attr g = Except.ok g1) : Fresh g g1 := by
  unfold visit_send_call at h
  split at h
  · split at h
    · split at h
      · simp at h
      rename_i op1 ga h1
      split at h
      · simp at h
      rename_i op2 gb h2
      split at h
      · simp at h
      rename_i fill hfill
      simp only [Except.ok.injEq] at h
      subst h
      have e1 := stmtEval_fresh _ halign _ _ _ _ _ _ h1
      have e2 := stmtEval_fresh _ halign _ _ _ _ _ _ h2
      refine (e1.fresh_trans e2).fresh_trans ⟨le_refl _, fill, rfl, ?_⟩
      exact LabelsIn.of_free (fun i hi => isAlu_labels i (fill_buf_alu _ _ _ _ _ _ _ hfill i hi))
    · simp only [Except.ok.injEq] at h
      subst h
      exact Fresh.fresh_refl _
  · dsimp only at h
    split at h
    · rename_i ga hl
      split at h
      · simp at h
      · rename_i l ra lbl hsend
        simp only [Except.ok.injEq] at h
        subst h
        obtain ⟨hle, hlab⟩ := send_labels _ _ _ _ _ _ _ _ _ _ _ _ hsend
        exact (stmtEvalList_fresh _ halign _ _ _ _ hl).fresh_trans ⟨hle, l.code, rfl, hlab⟩
    · simp at h
    · simp at h

theorem visit_store_fresh (host : GenHost)
    (halign : AlignEmits host.toHost (fun i => i.labels = []))
    (buf off value : Expr) (stride : Option Int)
    (mask : Expr) (fill : Bool) (g g1 : GenState)
    (h : visit_store host buf off value stride mask fill g = Except.ok g1) :
    Fresh g g1 := by
  unfold visit_store at h
  split at h
  · simp at h
  rename_i buf_op ga h1
  split at h
  · simp at h
  split at h
  · simp at h
  rename_i mask_op gb h2
  dsimp only at h
  split at h
  · simp at h
  · simp at h
  · simp at h
  · split at h
    · simp at h
    · rename_i x gc h3
      simp only [Except.ok.injEq] at h
      subst h
      exact ((stmtEval_fresh _ halign _ _ _ _ _ _ h1).fresh_trans
        (stmtEval_fresh _ halign _ _ _ _ _ _ h2)).fresh_trans
        (stmtEval_fresh _ halign _ _ _ _ _ _ h3)

theorem Within.of_fresh (lo : Label) {g g1 : GenState} (h : Fresh g g1)
    (hlo : lo ≤ g.next_label) : Within lo g g1 := by
  obtain ⟨hn, B, hc, hl⟩ := h
  exact ⟨hn, B, hc, hl.mono hlo (le_refl _)⟩

theorem Within.to_fresh {g g1 : GenState} (h : Within g.next_label g g1) : Fresh g g1 := h

theorem Within.within_trans {lo : Label} {a b c : GenState} (h1 : Within lo a b)
    (h2 : Within lo b c) : Within lo a c := by
  obtain ⟨n1, B1, c1, l1⟩ := h1
  obtain ⟨n2, B2, c2, l2⟩ := h2
  refine ⟨le_trans n1 n2, B1 ++ B2, by rw [c2, c1, List.append_assoc], ?_⟩
  exact LabelsIn.labels_append (l1.mono (le_refl _) n2) l2

theorem Within.within_emit {lo : Label} (g : GenState) (i : Instr)
    (h : ∀ l ∈ i.labels, lo ≤ l ∧ l < g.next_label) : Within lo g (g.emit i) := by
  refine ⟨le_refl _, [i], rfl, ?_⟩
  intro j hj l hl
  rw [List.mem_singleton.1 hj] at hl
  exact h l hl

theorem Within.emit_free {lo : Label} (g : GenState) (i : Instr) (h : i.labels = []) :
    Within lo g (g.emit i) :=
  Within.within_emit g i (by intro l hl; rw [h] at hl; cases hl)

theorem Within.new_label {lo : Label} (g : GenState) : Within lo g g.new_label.2 :=
  ⟨Nat.le_succ _, [], by simp [GenState.new_label], LabelsIn.nil _ _⟩

theorem Within.within_of_same {lo : Label} {g g1 : GenState} (hn : g1.next_label = g.next_label)
    (hc : g1.code = g.code) : Within lo g g1 :=
  ⟨by rw [hn], [], by simp [hc], LabelsIn.nil _ _⟩

/-- The statement traversal marks and refers to fresh labels only. -/
theorem Stmt.visit_fresh (host : GenHost)
    (halign : AlignEmits host.toHost (fun i => i.labels = []))
    (hcall : CallsLabelFree host) (s : Stmt) :
    ∀ g g1 : GenState, Stmt.visit host s g = Except.ok g1 → Fresh g g1 := by
  induction s with
  | nop =>
    intro g g1 h
    simp only [Stmt.visit, Except.ok.injEq] at h
    subst h
    exact Fresh.fresh_refl _
  | seq head tail ih1 ih2 =>
    intro g g1 h
    simp only [Stmt.visit] at h
    split at h
    · simp at h
    · rename_i ga ha
      exact (ih1 _ _ ha).fresh_trans (ih2 _ _ h)
  | alloc kind buf size bc hdr body ih =>
    intro g g1 h
    simp only [Stmt.visit] at h
    split at h
    · simp at h
    rename_i ga hbound
    split at h
    · simp at h
    split at h
    · simp at h
    rename_i gb hbody
    have e1 : Fresh g ga := by
      split at hbound
      · split at hbound
        · simp at hbound
        · rename_i rbd ra _
          have f0 : Fresh g ({ g with ra := ra } : GenState) := Fresh.of_same rfl rfl
          exact f0.fresh_trans (GenState.bind_fresh _ _ _ _ hbound)
      · simp only [Except.ok.injEq] at hbound
        rw [← hbound]
        exact Fresh.fresh_refl _
    have e2 := ih _ _ hbody
    split at h
    · exact (e1.fresh_trans e2).fresh_trans (GenState.unbind_fresh _ _ _ h)
    · simp only [Except.ok.injEq] at h
      rw [← h]
      exact e1.fresh_trans e2
  | for_ var init bound step body ih =>
    intro g g1 h
    simp only [Stmt.visit] at h
    split at h
    · simp at h
    rename_i init_op ga h1
    split at h
    · simp at h
    rename_i bound_op gb h2
    split at h
    · simp at h
    rename_i step_op gc h3
    split at h
    · simp at h
    rename_i gd hbind
    have f0 : Fresh g ({ g with ra := (g.ra.alloc_reg_data host.grf_size var.type).2 } : GenState) :=
      Fresh.of_same rfl rfl
    have e0 : Fresh g gd :=
      (((f0.fresh_trans (stmtEval_fresh _ halign _ _ _ _ _ _ h1)).fresh_trans
        (stmtEval_fresh _ halign _ _ _ _ _ _ h2)).fresh_trans
        (stmtEval_fresh _ halign _ _ _ _ _ _ h3)).fresh_trans (GenState.bind_fresh _ _ _ _ hbind)
    have w0 : Within g.next_label g gd := e0
    have n0 : g.next_label ≤ gd.next_label := e0.1
    split at h
    · split at h
      · simp at h
      · rename_i ge hbody
        have eb := ih _ _ hbody
        have nb := eb.1
        simp only [GenState.emit, GenState.new_label] at nb
        have wb := Within.of_fresh g.next_label eb
          (by simp only [GenState.emit, GenState.new_label]; unfold Label at *; omega)
        have wu := Within.of_fresh g.next_label (GenState.unbind_fresh _ _ _ h)
          (by simp only [GenState.emit]; unfold Label at *; omega)
        refine Within.to_fresh (w0.within_trans ((Within.within_emit _ _ ?_).within_trans
          ((Within.new_label _).within_trans ((Within.new_label _).within_trans
          ((Within.within_emit _ _ ?_).within_trans ((Within.within_emit _ _ ?_).within_trans
          ((Within.within_emit _ _ ?_).within_trans (wb.within_trans
          ((Within.within_emit _ _ ?_).within_trans ((Within.within_emit _ _ ?_).within_trans
          ((Within.within_emit _ _ ?_).within_trans wu)))))))))))
        all_goals
          intro l hl
          simp only [Instr.labels, List.mem_singleton, List.not_mem_nil, GenState.emit,
            GenState.new_label] at hl ⊢
          try (unfold Label at *; omega)
    · split at h
      · simp at h
      · rename_i ge hbody
        have eb := ih _ _ hbody
        have nb := eb.1
        simp only [GenState.emit, GenState.new_label] at nb
        have wb := Within.of_fresh g.next_label eb
          (by simp only [GenState.emit, GenState.new_label]; unfold Label at *; omega)
        have wu := Within.of_fresh g.next_label (GenState.unbind_fresh _ _ _ h)
          (by simp only [GenState.emit]; unfold Label at *; omega)
        refine Within.to_fresh (w0.within_trans ((Within.within_emit _ _ ?_).within_trans
          ((Within.new_label _).within_trans ((Within.within_emit _ _ ?_).within_trans
          (wb.within_trans ((Within.within_emit _ _ ?_).within_trans
          ((Within.within_emit _ _ ?_).within_trans ((Within.within_emit _ _ ?_).within_trans wu))))))))
        all_goals
          intro l hl
          simp only [Instr.labels, List.mem_singleton, List.not_mem_nil, GenState.emit,
            GenState.new_label] at hl ⊢
          try (unfold Label at *; omega)
  | send_call func args attr =>
    intro g g1 h
    simp only [Stmt.visit] at h
    exact visit_send_call_fresh _ halign _ _ _ _ _ h
  | call func args attr =>
    intro g g1 h
    simp only [Stmt.visit] at h
    split at h
    · simp at h
    rename_i ops ga hl
    split at h
    · simp at h
    rename_i code hcode
    simp only [Except.ok.injEq] at h
    subst h
    exact (stmtEvalList_fresh _ halign _ _ _ _ hl).fresh_trans
      ⟨le_refl _, code, rfl, LabelsIn.of_free (hcall _ _ _ _ hcode)⟩
  | if_ cond body else_body ih1 ih2 =>
    intro g g1 h
    simp only [Stmt.visit] at h
    split at h
    · simp at h
    split at h
    · simp at h
    rename_i cond_op ga hc
    split at h
    · simp at h
    rename_i flag hflag
    split at h
    · simp at h
    rename_i gb hbody
    have e1 := stmtEval_fresh _ halign _ _ _ _ _ _ hc
    have n1 := e1.1
    have eb := ih1 _ _ hbody
    have nb := eb.1
    simp only [GenState.emit, GenState.new_label] at nb
    have wb := Within.of_fresh g.next_label eb
      (by simp only [GenState.emit, GenState.new_label]; unfold Label at *; omega)
    have w1 : Within g.next_label g gb := by
      refine (Within.of_fresh _ e1 (le_refl _)).within_trans ((Within.new_label _).within_trans
        ((Within.new_label _).within_trans ((Within.within_emit _ _ ?_).within_trans wb)))
      intro l hl
      simp only [GenState.emit, GenState.new_label] at hl ⊢
      split at hl
      · simp only [Instr.labels, List.mem_cons, List.mem_singleton, List.not_mem_nil,
          or_false] at hl
        unfold Label at *
        omega
      · simp only [Instr.labels, List.mem_cons, List.mem_singleton, List.not_mem_nil,
          or_false, or_self] at hl
        unfold Label at *
        omega
    split at h
    · split at h
      · simp at h
      · rename_i gc helse
        simp only [Except.ok.injEq] at h
        subst h
        have ee := ih2 _ _ helse
        have ne := ee.1
        simp only [GenState.emit, GenState.new_label] at ne
        have we := Within.of_fresh g.next_label ee
          (by simp only [GenState.emit, GenState.new_label]; unfold Label at *; omega)
        refine Within.to_fresh (w1.within_trans ((Within.within_emit _ _ ?_).within_trans
          ((Within.within_emit _ _ ?_).within_trans (we.within_trans
          ((Within.within_emit _ _ ?_).within_trans (Within.within_emit _ _ ?_))))))
        all_goals
          intro l hl
          simp only [Instr.labels, List.mem_cons, List.mem_singleton, List.not_mem_nil,
            or_false, or_self, GenState.emit, GenState.new_label] at hl ⊢
          try (unfold Label at *; omega)
    · simp only [Except.ok.injEq] at h
      subst h
      refine Within.to_fresh (w1.within_trans ((Within.within_emit _ _ ?_).within_trans
        (Within.within_emit _ _ ?_)))
      all_goals
        intro l hl
        simp only [Instr.labels, List.mem_singleton, List.not_mem_nil, GenState.emit,
          GenState.new_label] at hl ⊢
        try (unfold Label at *; omega)
  | let_ var value body ih =>
    intro g g1 h
    simp only [Stmt.visit] at h
    split at h
    · split at h
      · simp at h
      · split at h
        · simp at h
        · exact ih _ _ h
    · split at h
      · simp at h
      rename_i ga hbound
      split at h
      · simp at h
      split at h
      · simp at h
      rename_i gb hbody
      have e2 := (ih _ _ hbody).fresh_trans (GenState.unbind_fresh _ _ _ h)
      have e1 : Fresh g ga := by
        split at hbound
        · split at hbound
          · simp at hbound
          · rename_i x gc hv
            have f1 := stmtEval_fresh _ halign _ _ _ _ _ _ hv
            have f0 : Fresh g gc := Fresh.fresh_trans (Fresh.of_same rfl rfl) f1
            exact f0.fresh_trans (GenState.bind_fresh _ _ _ _ hbound)
        · split at hbound
          · simp at hbound
          · rename_i value_op gc hv
            exact (stmtEval_fresh _ halign _ _ _ _ _ _ hv).fresh_trans
              (GenState.bind_fresh _ _ _ _ hbound)
      exact e1.fresh_trans e2
  | store buf off value stride mask fill =>
    intro g g1 h
    simp only [Stmt.visit] at h
    exact visit_store_fresh _ halign _ _ _ _ _ _ _ _ h
  | while_ cond body ih =>
    intro g g1 h
    simp only [Stmt.visit] at h
    split at h
    · simp at h
    rename_i cond_op ga hc
    split at h
    · simp at h
    rename_i m hm
    split at h
    · simp at h
    rename_i gb hbody
    simp only [Except.ok.injEq] at h
    subst h
    have e1 := stmtEval_fresh _ halign _ _ _ _ _ _ hc
    have n1 := e1.1
    simp only [GenState.emit, GenState.new_label] at n1
    have w1 := Within.of_fresh g.next_label e1
      (by simp only [GenState.emit, GenState.new_label]; unfold Label at *; omega)
    have eb := ih _ _ hbody
    have nb := eb.1
    simp only [GenState.emit] at nb
    have wb := Within.of_fresh g.next_label eb
      (by simp only [GenState.emit]; unfold Label at *; omega)
    refine Within.to_fresh ((Within.new_label _).within_trans ((Within.new_label _).within_trans
      ((Within.within_emit _ _ ?_).within_trans (w1.within_trans ((Within.within_emit _ _ ?_).within_trans
      (wb.within_trans ((Within.within_emit _ _ ?_).within_trans (Within.within_emit _ _ ?_))))))))
    all_goals
      intro l hl
      simp only [Instr.labels, List.mem_singleton, List.not_mem_nil, GenState.emit,
        GenState.new_label] at hl ⊢
      try (unfold Label at *; omega)


/-! ## C12, C13: the width check and the shape of a lowered conditional -/

/-- C12 (as the code has it). The first thing `_visit(if_t)` does is its width
assertion: when the element count of the condition's type differs from the SIMD
size of the host, the lowering halts with the fatal error of that assertion
whatever the state, the condition and the branches are, before anything is
evaluated, emitted or allocated. When the two are equal, the statement does not
fail at this assertion, but it still halts with a fatal error when evaluating
the condition fails, when the condition's operand is no flag register, or when
lowering one of its branches fails. -/
theorem if_width_assertion (host : GenHost) (cond : Expr) (body else_body : Stmt)
    (g : GenState) :
    (cond.type.elems ≠ host.simd →
      Stmt.visit host (Stmt.if_ cond body else_body) g
        = Except.error (Fatal.assertion 211)) ∧
    (cond.type.elems = host.simd → ∀ f,
      Stmt.visit host (Stmt.if_ cond body else_body) g = Except.error f →
      stmtEval host.toHost cond {} false g = Except.error f ∨
      ∃ cond_op ga, stmtEval host.toHost cond {} false g = Except.ok (cond_op, ga) ∧
        ((cond_op.flag_register = none ∧ f = Fatal.assertion 220) ∨
          ∃ flag, cond_op.flag_register = some flag ∧
            (Stmt.visit host body
                (ga.new_label.2.new_label.2.emit
                  (Instr.if_ ((execMod host.simd).withFlag flag)
                    (if (!else_body.is_empty) = true then ga.new_label.1
                      else ga.new_label.2.new_label.1)
                    ga.new_label.2.new_label.1)) = Except.error f ∨
              ∃ gb : GenState, else_body.is_empty = false ∧
                Stmt.visit host body
                  (ga.new_label.2.new_label.2.emit
                    (Instr.if_ ((execMod host.simd).withFlag flag)
                      (if (!else_body.is_empty) = true then ga.new_label.1
                        else ga.new_label.2.new_label.1)
                      ga.new_label.2.new_label.1)) = Except.ok gb ∧
                Stmt.visit host else_body
                  ((gb.emit (Instr.else_ (execMod host.simd) ga.new_label.2.new_label.1
                      ga.new_label.2.new_label.1)).emit (Instr.mark ga.new_label.1))
                  = Except.error f))) := by
  constructor
  · intro hne
    have : (cond.type.elems != host.simd) = true := by simpa using hne
    simp only [Stmt.visit, this, if_true]
  · intro heq f h
    have hfalse : (cond.type.elems != host.simd) = false := by simpa using heq
    simp only [Stmt.visit, hfalse, Bool.false_eq_true, if_false] at h
    cases hc : stmtEval host.toHost cond {} false g with
    | error f2 =>
      rw [hc] at h
      simp only [Except.error.injEq] at h
      subst h
      exact Or.inl rfl
    | ok p =>
      obtain ⟨cond_op, ga⟩ := p
      rw [hc] at h
      simp only at h
      refine Or.inr ⟨cond_op, ga, rfl, ?_⟩
      cases hflag : cond_op.flag_register with
      | none =>
        rw [hflag] at h
        simp only [Except.error.injEq] at h
        exact Or.inl ⟨rfl, h.symm⟩
      | some flag =>
        rw [hflag] at h
        simp only at h
        refine Or.inr ⟨flag, rfl, ?_⟩
        cases hb : Stmt.visit host body
            (ga.new_label.2.new_label.2.emit
              (Instr.if_ ((execMod host.simd).withFlag flag)
                (if (!else_body.is_empty) = true then ga.new_label.1
                  else ga.new_label.2.new_label.1)
                ga.new_label.2.new_label.1)) with
        | error f2 =>
          rw [hb] at h
          simp only [Except.error.injEq] at h
          subst h
          exact Or.inl rfl
        | ok gb =>
          rw [hb] at h
          simp only at h
          split at h
          · rename_i helse
            split at h
            · rename_i f2 he
              simp only [Except.error.injEq] at h
              subst h
              exact Or.inr ⟨gb, by simpa using helse, rfl, he⟩
            · simp at h
          · simp at h

/-- C12 counterexample: an if statement whose condition has 16 elements, the
SIMD size of the host, but is an unbound variable: the lowering halts with a
fatal error (of the evaluator, codegen.cpp:1234) although the widths agree. -/
theorem if_fatal_with_equal_width :
    exampleCondVar.type.elems = exampleGenHost.simd ∧
    Stmt.visit exampleGenHost exampleIf exampleGenState
      = Except.error (Fatal.assertion 1234) := by
  constructor <;> rfl

theorem if_width_assertion_witness :
    Stmt.visit exampleGenHost (Stmt.if_ exampleNarrowCondVar exampleStoreAdd Stmt.nop)
      exampleGenState = Except.error (Fatal.assertion 211) :=
  (if_width_assertion exampleGenHost exampleNarrowCondVar exampleStoreAdd Stmt.nop
    exampleGenState).1 (by decide)

/-- C13. The sequence a conditional of valid width lowers to, after the
label-free instructions `E` of evaluating its condition; `flag` is the flag
register of the condition, the else label is the first label the statement
creates, `g.next_label`, and the end-if label the second, `g.next_label + 1`.
Without an else branch: `if_` with both targets the end-if label, the body `B`,
`mark(end-if)`, `endif`; there is no `else_`, and no instruction of the whole
sequence marks or refers to the else label. With an else branch: `if_` with
jump target the else label, the true body `B`, `else_`, `mark(else)`, the else
body `S`, `mark(end-if)`, `endif`; the else label differs from the end-if
label. The labels of both bodies are labels created later. The hypotheses on
the host: neither `align_src_dst_offset` nor the lowerers of calls emit
instructions with labels. -/
theorem if_lowering_shape (host : GenHost)
    (halign : AlignEmits host.toHost (fun i => i.labels = []))
    (hcall : CallsLabelFree host) (cond : Expr) (body else_body : Stmt) (g g1 : GenState)
    (h : Stmt.visit host (Stmt.if_ cond body else_body) g = Except.ok g1) :
    ∃ (E B : List Instr) (flag : Nat),
      (∀ i ∈ E, i.labels = []) ∧
      LabelsIn (g.next_label + 2) g1.next_label B ∧
      (else_body.is_empty = true →
        g1.code = g.code ++ E
          ++ [Instr.if_ ((execMod host.simd).withFlag flag) (g.next_label + 1)
                (g.next_label + 1)]
          ++ B ++ [Instr.mark (g.next_label + 1), Instr.endif (execMod host.simd)] ∧
        ∀ i ∈ E
            ++ [Instr.if_ ((execMod host.simd).withFlag flag) (g.next_label + 1)
                  (g.next_label + 1)]
            ++ B ++ [Instr.mark (g.next_label + 1), Instr.endif (execMod host.simd)],
          g.next_label ∉ i.labels) ∧
      (else_body.is_empty = false →
        ∃ S : List Instr, LabelsIn (g.next_label + 2) g1.next_label S ∧
          g1.code = g.code ++ E
            ++ [Instr.if_ ((execMod host.simd).withFlag flag) g.next_label (g.next_label + 1)]
            ++ B
            ++ [Instr.else_ (execMod host.simd) (g.next_label + 1) (g.next_label + 1),
                Instr.mark g.next_label]
            ++ S ++ [Instr.mark (g.next_label + 1), Instr.endif (execMod host.simd)] ∧
          g.next_label ≠ g.next_label + 1) := by
  simp only [Stmt.visit] at h
  split at h
  · simp at h
  cases hc : stmtEval host.toHost cond {} false g with
  | error f2 => rw [hc] at h; simp at h
  | ok p =>
    obtain ⟨cond_op, ga⟩ := p
    rw [hc] at h
    simp only at h
    cases hflag : cond_op.flag_register with
    | none => rw [hflag] at h; simp at h
    | some flag =>
      rw [hflag] at h
      simp only at h
      obtain ⟨E, hE, hEl⟩ := stmtEval_emits host.toHost _ isAlu_labels halign _ _ _ _ _ _ hc
      have hn : ga.next_label = g.next_label := stmtEval_next_label _ _ _ _ _ _ _ hc
      cases hb : Stmt.visit host body
          (ga.new_label.2.new_label.2.emit
            (Instr.if_ ((execMod host.simd).withFlag flag)
              (if (!else_body.is_empty) = true then ga.new_label.1
                else ga.new_label.2.new_label.1)
              ga.new_label.2.new_label.1)) with
      | error f2 => rw [hb] at h; simp at h
      | ok gb =>
        rw [hb] at h
        simp only at h
        obtain ⟨nb, B, hB, hBl⟩ := Stmt.visit_fresh host halign hcall body _ _ hb
        simp only [GenState.emit, GenState.new_label, hn] at nb hB hBl
        by_cases helse : else_body.is_empty = true
        · simp only [helse, Bool.not_true, Bool.false_eq_true, if_false, Except.ok.injEq] at h hB
          subst h
          refine ⟨E, B, flag, hEl, ?_, ?_, ?_⟩
          · simpa [GenState.emit] using hBl
          · intro _
            refine ⟨by simp [GenState.emit, GenState.new_label, hn, hB, hE], ?_⟩
            intro i hi
            simp only [List.mem_append, List.mem_cons, List.mem_singleton, List.not_mem_nil,
              or_false] at hi
            rcases hi with ((hi | hi) | hi) | hi
            · rw [hEl i hi]; simp
            · subst hi
              simp only [Instr.labels, List.mem_cons, List.mem_singleton, List.not_mem_nil,
                or_false, or_self]
              unfold Label at *
              omega
            · intro hmem
              have := (hBl i hi _ hmem).1
              unfold Label at *
              omega
            · rcases hi with hi | hi
              · subst hi
                simp only [Instr.labels, List.mem_singleton]
                unfold Label at *
                omega
              · subst hi
                simp [Instr.labels]
          · intro hne
            rw [helse] at hne
            cases hne
        · have helse' : else_body.is_empty = false := by simpa using helse
          simp only [helse', Bool.not_false, if_true] at h hB
          cases he : Stmt.visit host else_body
              ((gb.emit (Instr.else_ (execMod host.simd) ga.new_label.2.new_label.1
                ga.new_label.2.new_label.1)).emit (Instr.mark ga.new_label.1)) with
          | error f2 => rw [he] at h; simp at h
          | ok gc =>
            rw [he] at h
            simp only [Except.ok.injEq] at h
            subst h
            obtain ⟨ne, S, hS, hSl⟩ := Stmt.visit_fresh host halign hcall else_body _ _ he
            simp only [GenState.emit, GenState.new_label, hn] at ne hS hSl
            refine ⟨E, B, flag, hEl, ?_, ?_, ?_⟩
            · exact hBl.mono (le_refl _) (by simpa [GenState.emit] using ne)
            · intro hc2
              rw [helse'] at hc2
              cases hc2
            · intro _
              refine ⟨S, ?_, ?_, ?_⟩
              · refine hSl.mono ?_ (by simp [GenState.emit])
                unfold Label at *
                omega
              · simp [GenState.emit, GenState.new_label, hS, hB, hE, hn]
              · exact Nat.ne_of_lt (Nat.lt_succ_self _)

/-- The example host emits no instruction with a label through its helpers. -/
theorem exampleGenHost_label_free :
    AlignEmits exampleGenHost.toHost (fun i => i.labels = []) ∧ CallsLabelFree exampleGenHost := by
  constructor
  · intro ra mod dst a b i hi
    cases hi
  · intro func ops attr code hcode i hi
    have : code = [] := by
      have h2 : Except.ok ([] : List Instr) = (Except.ok code : Except Fatal (List Instr)) := hcode
      injection h2 with h3
      exact h3.symm
    subst this
    cases hi

theorem if_lowering_shape_witness :
    ∃ (g1 : GenState) (E B : List Instr) (flag : Nat),
      Stmt.visit exampleGenHost exampleIf exampleCondState = Except.ok g1 ∧
      g1.code = exampleCondState.code ++ E
        ++ [Instr.if_ ((execMod exampleGenHost.simd).withFlag flag)
              (exampleCondState.next_label + 1) (exampleCondState.next_label + 1)]
        ++ B
        ++ [Instr.mark (exampleCondState.next_label + 1),
            Instr.endif (execMod exampleGenHost.simd)] ∧
      ∀ i ∈ E
          ++ [Instr.if_ ((execMod exampleGenHost.simd).withFlag flag)
                (exampleCondState.next_label + 1) (exampleCondState.next_label + 1)]
          ++ B
          ++ [Instr.mark (exampleCondState.next_label + 1),
              Instr.endif (execMod exampleGenHost.simd)],
        exampleCondState.next_label ∉ i.labels := by
  have h0 : ∃ p, Stmt.visit exampleGenHost exampleIf exampleCondState = Except.ok p :=
    ⟨_, rfl⟩
  obtain ⟨g1, h⟩ := h0
  obtain ⟨E, B, flag, _, _, h1, _⟩ :=
    if_lowering_shape exampleGenHost exampleGenHost_label_free.1 exampleGenHost_label_free.2
      exampleCondVar exampleStoreAdd Stmt.nop exampleCondState g1 h
  exact ⟨g1, E, B, flag, h, (h1 rfl).1, (h1 rfl).2⟩


/-! ## C14: the do-while format with a bound that is not above the init -/

/-- The do-while loop with a bound `N <= init`: from the move of `init`, the
machine reaches the first instruction of the body after two steps, before the
compare has been executed at all. -/
theorem do_while_body_first (alu : Instr → Machine → Int) (P B : List Instr) (var : RegData)
    (L : Label) (init bound stp : Operand) (m : Machine) (hpc : m.pc = P.length) :
    (runSteps alu (doWhileCode P B var L init bound stp) 2 m).pc = P.length + 2 ∧
    (runSteps alu (doWhileCode P B var L init bound stp) 2 m).visits
        (P.length + 2 + B.length + 1) = m.visits (P.length + 2 + B.length + 1) := by
  obtain ⟨f0, f1, _⟩ := do_while_fetch P B
    (Instr.emov (execMod 1) (regOp var) init) (Instr.mark L)
    (Instr.eadd (execMod 1) (regOp var) (regOp var) stp)
    (Instr.ecmp { f0Mod with cmod := some CondMod.lt } (regOp var) bound)
    (Instr.jmpi f0Mod L)
  change (doWhileCode P B var L init bound stp)[P.length]? = _ at f0
  change (doWhileCode P B var L init bound stp)[P.length + 1]? = _ at f1
  generalize doWhileCode P B var L init bound stp = code at f0 f1 ⊢
  have s0 := step_at alu code m _ (by rw [hpc]; exact f0)
  generalize hm0 : step alu code m = m0 at s0
  have p0 : m0.pc = P.length + 1 := by
    rw [s0]; simp [exec, Machine.write, regOp, hpc]
  have n1 : ¬ (P.length + 2 + B.length + 1 = P.length) := by omega
  have n2 : ¬ (P.length + 2 + B.length + 1 = P.length + 1) := by omega
  have c0 : m0.visits (P.length + 2 + B.length + 1) = m.visits (P.length + 2 + B.length + 1) := by
    rw [s0]; simp [exec, Machine.write, regOp, hpc, n1]
  have s1 := step_at alu code m0 _ (by rw [p0]; exact f1)
  have hrun : runSteps alu code 2 m = step alu code m0 := by
    simp only [runSteps]; rw [hm0]
  rw [hrun, s1]
  constructor
  · simp [exec, p0]
  · simp [exec, p0, n2, c0]

/-- The do-while loop with a bound `N <= init`: from the move of `init`, the
machine passes the loop label once and the add after the body once, and then
leaves the loop: the body runs exactly once. -/
theorem do_while_empty_range (alu : Instr → Machine → Int) (P B : List Instr) (var : RegData)
    (L : Label) (t1 t2 t3 : DataType) (init N : Int) (hle : N ≤ init)
    (hrep0 : wrapTo var.type init = init) (hrep1 : wrapTo var.type (init + 1) = init + 1)
    (hneg : var.neg = false) (hP : Instr.mark L ∉ P)
    (hbody : BodyRuns alu (doWhileCode P B var L (imm init t1) (imm N t2) (imm 1 t3))
      var (P.length + 2) (P.length + 2 + B.length))
    (m : Machine) (hpc : m.pc = P.length) :
    ∃ k,
      (runSteps alu (doWhileCode P B var L (imm init t1) (imm N t2) (imm 1 t3)) k m).pc
        = P.length + 2 + B.length + 3 ∧
      (runSteps alu (doWhileCode P B var L (imm init t1) (imm N t2) (imm 1 t3)) k m).visits
        (P.length + 1) = m.visits (P.length + 1) + 1 ∧
      (runSteps alu (doWhileCode P B var L (imm init t1) (imm N t2) (imm 1 t3)) k m).visits
        (P.length + 2 + B.length) = m.visits (P.length + 2 + B.length) + 1 := by
  obtain ⟨f0, _⟩ := do_while_fetch P B
    (Instr.emov (execMod 1) (regOp var) (imm init t1)) (Instr.mark L)
    (Instr.eadd (execMod 1) (regOp var) (regOp var) (imm 1 t3))
    (Instr.ecmp { f0Mod with cmod := some CondMod.lt } (regOp var) (imm N t2))
    (Instr.jmpi f0Mod L)
  change (doWhileCode P B var L (imm init t1) (imm N t2) (imm 1 t3))[P.length]? = _ at f0
  have hiter := fun m0 => do_while_iteration alu P B var L t1 t2 t3 init N m0 init hrep1 hneg hP
    hbody
  generalize doWhileCode P B var L (imm init t1) (imm N t2) (imm 1 t3) = code at f0 hiter ⊢
  have s0 := step_at alu code m _ (by rw [hpc]; exact f0)
  generalize hm0 : step alu code m = m0 at s0
  have n1 : ¬ (P.length + 1 = P.length) := by omega
  have n2 : ¬ (P.length + 2 + B.length = P.length) := by omega
  have p0 : m0.pc = P.length + 1 := by
    rw [s0]; simp [exec, Machine.write, regOp, hpc]
  have r0 : m0.regs var.base var.byteOffset = init := by
    rw [s0]
    simp [exec, Machine.write, Machine.value, regOp, imm, hrep0]
  have c1 : m0.visits (P.length + 1) = m.visits (P.length + 1) := by
    rw [s0]; simp [exec, Machine.write, regOp, hpc, n1]
  have c2 : m0.visits (P.length + 2 + B.length) = m.visits (P.length + 2 + B.length) := by
    rw [s0]; simp [exec, Machine.write, regOp, hpc, n2]
  obtain ⟨k, _, w1, w2, q⟩ := hiter m0 p0 r0
  have hnlt : ¬ (init + 1 < N) := by omega
  rw [if_neg hnlt] at q
  refine ⟨1 + k, ?_, ?_, ?_⟩
  · rw [runSteps_add]; simp only [runSteps]; rw [hm0]; exact q
  · rw [runSteps_add]; simp only [runSteps]; rw [hm0, w1, c1]
  · rw [runSteps_add]; simp only [runSteps]; rw [hm0, w2, c2]

/-- C14 (as the code has it). A for-loop with constant init and constant bound
is lowered to the do-while format whatever the two constants are, also when the
bound is not above the init: nothing in `_visit(for_t)` compares them. With a
bound `N <= init` and step 1 the emitted sequence is the move of `init`, the
loop label, the body `B`, the add, the compare `var < N` and the jump back; a
machine that runs it from the move is at the first instruction of the body after
two steps, when the compare has not been executed, and leaves the loop after it
has passed the loop label once and the add after the body once: the body runs
exactly once, before the loop condition is tested for the first time. The
hypotheses: the table binds only variables, the label is not yet marked, the
loop variable holds `init` and `init + 1` without wrapping, and a run of the
body falls through to the add without changing the loop variable. -/
theorem static_for_is_do_while_for_any_bound (host : GenHost) (alu : Instr → Machine → Int)
    (g g1 : GenState) (var : Expr) (i0 ib is : Nat) (t0 tb ts : IrType) (init N : Int)
    (body : Stmt)
    (hle : N ≤ init)
    (hvars : ∀ p ∈ g.expr_binding.expr2operand, ∃ id t, p.1 = Expr.var id t)
    (hdst : g.expr_binding.expr2dst = [])
    (hlabel : Instr.mark g.next_label ∉ g.code)
    (hrep0 : wrapTo (to_ngen var.type.kind) init = init)
    (hrep1 : wrapTo (to_ngen var.type.kind) (init + 1) = init + 1)
    (h : Stmt.visit host
          (Stmt.for_ var (Expr.int_imm i0 init t0) (Expr.int_imm ib N tb)
            (Expr.int_imm is 1 ts) body) g = Except.ok g1)
    (hbody : BodyRuns alu g1.code (g.ra.alloc_reg_data host.grf_size var.type).1
      (g.code.length + 2) (g1.code.length - 3)) :
    (∃ B : List Instr,
      g1.code = doWhileCode g.code B (g.ra.alloc_reg_data host.grf_size var.type).1
        g.next_label (imm init (to_ngen t0.kind)) (imm N (to_ngen tb.kind))
        (imm 1 (to_ngen ts.kind))) ∧
    ∀ m : Machine, m.pc = g.code.length →
      ((runSteps alu g1.code 2 m).pc = g.code.length + 2 ∧
        (runSteps alu g1.code 2 m).visits (g1.code.length - 2)
          = m.visits (g1.code.length - 2)) ∧
      ∃ n, (runSteps alu g1.code n m).pc = g1.code.length ∧
        (runSteps alu g1.code n m).visits (g.code.length + 1)
          = m.visits (g.code.length + 1) + 1 ∧
        (runSteps alu g1.code n m).visits (g1.code.length - 3)
          = m.visits (g1.code.length - 3) + 1 := by
  obtain ⟨gb, gb1, B, h1, h2, h3, h4⟩ :=
    visit_for_static host g g1 var i0 ib is t0 tb ts init N 1 body hvars hdst h
  have hcode : g1.code = doWhileCode g.code B (g.ra.alloc_reg_data host.grf_size var.type).1
      g.next_label (imm init (to_ngen t0.kind)) (imm N (to_ngen tb.kind))
      (imm 1 (to_ngen ts.kind)) := by
    rw [h4, h3, h1]; rfl
  have hlen : g1.code.length = g.code.length + 2 + B.length + 3 := by
    rw [hcode]; simp [doWhileCode]; omega
  have hend : g1.code.length - 3 = g.code.length + 2 + B.length := by omega
  have hcmp : g1.code.length - 2 = g.code.length + 2 + B.length + 1 := by omega
  refine ⟨⟨B, hcode⟩, ?_⟩
  intro m hpc
  rw [hend, hcmp, hlen]
  rw [hend] at hbody
  rw [hcode] at hbody ⊢
  exact ⟨do_while_body_first alu g.code B _ g.next_label _ _ _ m hpc,
    do_while_empty_range alu g.code B _ g.next_label _ _ _ init N hle hrep0 hrep1 rfl hlabel
      hbody m hpc⟩

/-- C14 counterexample: `for (v = 0; v < 0; v += 1) store(buf0, 0, a + b)`, a
loop with constant init 0 and constant bound 0 <= 0. It is lowered to six
instructions in the do-while format: the move, the label, the add of the body
at index 2, the add of the step, the compare at index 4, the jump back. After
three steps from the move the instruction of the body has been executed once
and the compare not at all. -/
theorem static_for_with_empty_range_runs_body_first :
    Stmt.visit exampleGenHost exampleEmptyFor exampleGenState
      = Except.ok exampleEmptyForResult ∧
    exampleEmptyForResult.code
      = [Instr.emov (execMod 1)
            (regOp { base := 40, byteOffset := 0, type := DataType.d, vs := 1, width := 1, hs := 1 })
            (imm 0 DataType.d),
         Instr.mark 0,
         Instr.eadd (execMod 1)
            (regOp { base := 10, byteOffset := 0, type := DataType.f, vs := 1, hs := 1 } (execMod 1))
            (regOp { base := 20, byteOffset := 8, type := DataType.f, vs := 1, hs := 1 })
            (regOp { base := 30, byteOffset := 4, type := DataType.f, vs := 1, hs := 1 }),
         Instr.eadd (execMod 1)
            (regOp { base := 40, byteOffset := 0, type := DataType.d, vs := 1, width := 1, hs := 1 })
            (regOp { base := 40, byteOffset := 0, type := DataType.d, vs := 1, width := 1, hs := 1 })
            (imm 1 DataType.d),
         Instr.ecmp { f0Mod with cmod := some CondMod.lt }
            (regOp { base := 40, byteOffset := 0, type := DataType.d, vs := 1, width := 1, hs := 1 })
            (imm 0 DataType.d),
         Instr.jmpi f0Mod 0] ∧
    (runSteps (fun _ _ => 0) exampleEmptyForResult.code 3 (Machine.init 0)).visits 2 = 1 ∧
    (runSteps (fun _ _ => 0) exampleEmptyForResult.code 3 (Machine.init 0)).visits 4 = 0 := by
  refine ⟨rfl, rfl, rfl, rfl⟩

/-- The body of the example loop with the empty range, one add into register
10, falls through and leaves the loop variable in register 40 as it is. -/
theorem exampleEmptyFor_body_runs :
    BodyRuns (fun _ _ => 0) exampleEmptyForResult.code
      (exampleGenState.ra.alloc_reg_data exampleGenHost.grf_size exampleLoopVar.type).1
      (exampleGenState.code.length + 2) (exampleEmptyForResult.code.length - 3) := by
  intro m hpc
  have hpc2 : m.pc = 2 := hpc
  have hfetch : exampleEmptyForResult.code[m.pc]?
      = some (Instr.eadd (execMod 1)
          (regOp { base := 10, byteOffset := 0, type := DataType.f, vs := 1, hs := 1 } (execMod 1))
          (regOp { base := 20, byteOffset := 8, type := DataType.f, vs := 1, hs := 1 })
          (regOp { base := 30, byteOffset := 4, type := DataType.f, vs := 1, hs := 1 })) := by
    rw [hpc2]; rfl
  have hs := step_at (fun _ _ => 0) exampleEmptyForResult.code m _ hfetch
  refine ⟨1, ?_, ?_, ?_⟩
  · simp only [runSteps]
    rw [hs]
    simp only [exec, Machine.write, regOp, hpc2]
    rfl
  · simp only [runSteps]
    rw [hs]
    simp only [exec, Machine.write, regOp]
    have : (exampleGenState.ra.alloc_reg_data exampleGenHost.grf_size exampleLoopVar.type).1.base
        = 40 := rfl
    simp [this]
  · intro j hj
    simp only [runSteps]
    rw [hs]
    simp only [exec, Machine.write, regOp, hpc2]
    have h3 : exampleEmptyForResult.code.length - 3 = 3 := rfl
    have h2 : exampleGenState.code.length + 2 = 2 := rfl
    rw [h3, h2] at hj
    have : ¬ (j = 2) := by omega
    simp [this]

theorem static_for_is_do_while_for_any_bound_witness :
    Stmt.visit exampleGenHost exampleEmptyFor exampleGenState
      = Except.ok exampleEmptyForResult ∧
    exampleEmptyForResult.code.length = 6 ∧
    (runSteps (fun _ _ => 0) exampleEmptyForResult.code 2 (Machine.init 0)).pc = 2 ∧
    (runSteps (fun _ _ => 0) exampleEmptyForResult.code 2 (Machine.init 0)).visits 4 = 0 ∧
    ∃ n, (runSteps (fun _ _ => 0) exampleEmptyForResult.code n (Machine.init 0)).pc = 6 ∧
      (runSteps (fun _ _ => 0) exampleEmptyForResult.code n (Machine.init 0)).visits 1 = 1 ∧
      (runSteps (fun _ _ => 0) exampleEmptyForResult.code n (Machine.init 0)).visits 3 = 1 := by
  have hvars : ∀ p ∈ exampleGenState.expr_binding.expr2operand, ∃ id t, p.1 = Expr.var id t := by
    intro p hp
    simp only [exampleGenState, List.mem_cons, List.mem_singleton, List.not_mem_nil,
      or_false] at hp
    rcases hp with hp | hp | hp <;> subst hp <;> exact ⟨_, _, rfl⟩
  have key := static_for_is_do_while_for_any_bound exampleGenHost (fun _ _ => 0) exampleGenState
    exampleEmptyForResult exampleLoopVar 200 201 202 { kind := TypeKind.s32 }
    { kind := TypeKind.s32 } { kind := TypeKind.s32 } 0 0 exampleStoreAdd (le_refl _) hvars rfl
    (by intro h; cases h) (by decide) (by decide) rfl exampleEmptyFor_body_runs
  obtain ⟨hfirst, n, h1, h2, h3⟩ := key.2 (Machine.init 0) rfl
  exact ⟨rfl, rfl, hfirst.1, by simpa [Machine.init] using hfirst.2,
    n, h1, by simpa [Machine.init] using h2, by simpa [Machine.init] using h3⟩


/-! ## C15: the head-tested loop of a dynamic for -/

/-- The instructions of a head-tested loop around a body `B`, after a prefix `P`. -/
theorem head_tested_fetch (P B : List Instr) (var : RegData) (Lb Le : Label)
    (init bound stp : Operand) :
    (headTestedCode P B var Lb Le init bound stp)[P.length + 1]? = some (Instr.mark Lb) ∧
    (headTestedCode P B var Lb Le init bound stp)[P.length + 2]?
      = some (Instr.ecmp { f0Mod with cmod := some CondMod.ge } (regOp var) bound) ∧
    (headTestedCode P B var Lb Le init bound stp)[P.length + 3]?
      = some (Instr.jmpi f0Mod Le) ∧
    (headTestedCode P B var Lb Le init bound stp)[P.length + 4 + B.length + 2]?
      = some (Instr.mark Le) ∧
    (headTestedCode P B var Lb Le init bound stp).length = P.length + 4 + B.length + 3 := by
  have hcode : headTestedCode P B var Lb Le init bound stp
      = P ++ (Instr.emov (execMod 1) (regOp var) init :: Instr.mark Lb
          :: Instr.ecmp { f0Mod with cmod := some CondMod.ge } (regOp var) bound
          :: Instr.jmpi f0Mod Le
          :: (B ++ [Instr.eadd (execMod 1) (regOp var) (regOp var) stp,
                Instr.jmpi (execMod 1) Lb, Instr.mark Le])) := by
    simp [headTestedCode]
  have h2 : headTestedCode P B var Lb Le init bound stp
      = (P ++ [Instr.emov (execMod 1) (regOp var) init, Instr.mark Lb,
            Instr.ecmp { f0Mod with cmod := some CondMod.ge } (regOp var) bound,
            Instr.jmpi f0Mod Le] ++ B)
        ++ [Instr.eadd (execMod 1) (regOp var) (regOp var) stp,
            Instr.jmpi (execMod 1) Lb, Instr.mark Le] := rfl
  have hl : (P ++ [Instr.emov (execMod 1) (regOp var) init, Instr.mark Lb,
            Instr.ecmp { f0Mod with cmod := some CondMod.ge } (regOp var) bound,
            Instr.jmpi f0Mod Le] ++ B).length = P.length + 4 + B.length := by
    simp; omega
  refine ⟨?_, ?_, ?_, ?_, ?_⟩
  · rw [hcode, List.getElem?_append_right (by omega)]; simp
  · rw [hcode, List.getElem?_append_right (by omega)]
    rw [show P.length + 2 - P.length = 2 by omega]; simp
  · rw [hcode, List.getElem?_append_right (by omega)]
    rw [show P.length + 3 - P.length = 3 by omega]; simp
  · rw [h2, List.getElem?_append_right (by omega), hl]
    rw [show P.length + 4 + B.length + 2 - (P.length + 4 + B.length) = 2 by omega]; simp
  · rw [h2]; simp; omega

/-- The end label of a head-tested loop is marked at its last instruction. -/
theorem labelIndex_head_tested (P B : List Instr) (var : RegData) (Lb Le : Label)
    (init bound stp : Operand) (hP : Instr.mark Le ∉ P) (hB : Instr.mark Le ∉ B)
    (hne : Lb ≠ Le) :
    labelIndex (headTestedCode P B var Lb Le init bound stp) Le
      = P.length + 4 + B.length + 2 := by
  have h2 : headTestedCode P B var Lb Le init bound stp
      = (P ++ [Instr.emov (execMod 1) (regOp var) init, Instr.mark Lb,
            Instr.ecmp { f0Mod with cmod := some CondMod.ge } (regOp var) bound,
            Instr.jmpi f0Mod Le] ++ B
          ++ [Instr.eadd (execMod 1) (regOp var) (regOp var) stp,
              Instr.jmpi (execMod 1) Lb])
        ++ [Instr.mark Le] := by
    simp [headTestedCode]
  have hnot : Instr.mark Le ∉ (P ++ [Instr.emov (execMod 1) (regOp var) init, Instr.mark Lb,
            Instr.ecmp { f0Mod with cmod := some CondMod.ge } (regOp var) bound,
            Instr.jmpi f0Mod Le] ++ B
          ++ [Instr.eadd (execMod 1) (regOp var) (regOp var) stp,
              Instr.jmpi (execMod 1) Lb]) := by
    simp only [List.mem_append, List.mem_cons, List.mem_singleton, List.not_mem_nil, or_false,
      not_or]
    refine ⟨⟨⟨hP, ?_⟩, hB⟩, ?_⟩
    · refine ⟨(by intro h; cases h), ?_, (by intro h; cases h), (by intro h; cases h)⟩
      intro h
      injection h with h
      exact hne h.symm
    · exact ⟨(by intro h; cases h), (by intro h; cases h)⟩
  unfold labelIndex
  rw [h2, List.indexOf_append_of_not_mem hnot, List.indexOf_cons_self]
  simp
  omega

/-- A head-tested loop entered at its head with the loop variable not below
the bound leaves through the jump to the end label: four steps, none of them
in the body, the add or the jump back. -/
theorem head_tested_zero_trip (alu : Instr → Machine → Int) (P B : List Instr)
    (var : RegData) (Lb Le : Label) (init bound stp : Operand) (m : Machine)
    (hneg : var.neg = false)
    (hP : Instr.mark Le ∉ P) (hB : Instr.mark Le ∉ B) (hne : Lb ≠ Le)
    (hpc : m.pc = P.length + 1)
    (hge : m.value bound ≤ m.regs var.base var.byteOffset) :
    (runSteps alu (headTestedCode P B var Lb Le init bound stp) 4 m).pc
      = (headTestedCode P B var Lb Le init bound stp).length ∧
    ∀ j, P.length + 4 ≤ j → j < P.length + 4 + B.length + 2 →
      (runSteps alu (headTestedCode P B var Lb Le init bound stp) 4 m).visits j
        = m.visits j := by
  obtain ⟨f1, f2, f3, f4, flen⟩ := head_tested_fetch P B var Lb Le init bound stp
  have hlab := labelIndex_head_tested P B var Lb Le init bound stp hP hB hne
  generalize headTestedCode P B var Lb Le init bound stp = code at f1 f2 f3 f4 flen hlab ⊢
  -- the mark of the loop head
  have s1 : step alu code m
      = { m with pc := P.length + 2,
                 visits := fun j => if j = P.length + 1 then m.visits j + 1 else m.visits j } := by
    rw [step_at alu code m (Instr.mark Lb) (by rw [hpc]; exact f1)]
    simp [exec, hpc]
  -- the compare
  have s2 := step_at alu code (step alu code m) _ (by rw [s1]; exact f2)
  generalize hm2 : step alu code (step alu code m) = m2 at s2
  rw [s1] at s2
  have c_pc : m2.pc = P.length + 3 := by
    rw [s2]; simp [exec, Machine.setFlag, f0Mod]
  have c_flag : m2.flags 0 = true := by
    rw [s2]
    simp [exec, Machine.setFlag, f0Mod, Machine.value, regOp, hneg, CondMod.holds]
    exact hge
  have c_vis : ∀ j, P.length + 4 ≤ j → m2.visits j = m.visits j := by
    intro j hj
    rw [s2]
    have n1 : ¬ (j = P.length + 1) := by omega
    have n2 : ¬ (j = P.length + 2) := by omega
    simp [exec, Machine.setFlag, f0Mod, n1, n2]
  -- the jump to the end label
  have s3 := step_at alu code m2 _ (by rw [c_pc]; exact f3)
  generalize hm3 : step alu code m2 = m3 at s3
  have j_pc : m3.pc = P.length + 4 + B.length + 2 := by
    rw [s3]; simp [exec, Machine.enabled, f0Mod, c_flag, hlab]
  have j_vis : ∀ j, P.length + 4 ≤ j → m3.visits j = m.visits j := by
    intro j hj
    rw [s3]
    have n1 : ¬ (j = P.length + 3) := by omega
    simp [exec, Machine.enabled, f0Mod, c_flag, c_pc, n1, c_vis j hj]
  -- the mark of the end label
  have s4 := step_at alu code m3 _ (by rw [j_pc]; exact f4)
  have hrun : runSteps alu code 4 m = step alu code m3 := by
    simp only [runSteps]
    rw [hm2, hm3]
  rw [hrun, s4]
  constructor
  · simp [exec, j_pc, flen]
  · intro j h1 h2
    have n1 : ¬ (j = P.length + 4 + B.length + 2) := by omega
    simp [exec, j_pc, n1, j_vis j h1]

/-- The same from the move of the init value: when after the move the loop
variable is not below the bound, five steps lead out of the loop and none of
them is in the body, the add or the jump back. -/
theorem head_tested_from_init (alu : Instr → Machine → Int) (P B : List Instr)
    (var : RegData) (Lb Le : Label) (init bound stp : Operand) (m : Machine)
    (hneg : var.neg = false)
    (hP : Instr.mark Le ∉ P) (hB : Instr.mark Le ∉ B) (hne : Lb ≠ Le)
    (hpc : m.pc = P.length)
    (hge : (m.write (regOp var) (m.value init)).value bound
      ≤ (m.write (regOp var) (m.value init)).regs var.base var.byteOffset) :
    (runSteps alu (headTestedCode P B var Lb Le init bound stp) 5 m).pc
      = (headTestedCode P B var Lb Le init bound stp).length ∧
    ∀ j, P.length + 4 ≤ j → j < P.length + 4 + B.length + 2 →
      (runSteps alu (headTestedCode P B var Lb Le init bound stp) 5 m).visits j
        = m.visits j := by
  have f0 : (headTestedCode P B var Lb Le init bound stp)[P.length]?
      = some (Instr.emov (execMod 1) (regOp var) init) := by
    have hcode : headTestedCode P B var Lb Le init bound stp
        = P ++ (Instr.emov (execMod 1) (regOp var) init :: Instr.mark Lb
            :: Instr.ecmp { f0Mod with cmod := some CondMod.ge } (regOp var) bound
            :: Instr.jmpi f0Mod Le
            :: (B ++ [Instr.eadd (execMod 1) (regOp var) (regOp var) stp,
                  Instr.jmpi (execMod 1) Lb, Instr.mark Le])) := by
      simp [headTestedCode]
    rw [hcode, List.getElem?_append_right (le_refl _)]; simp
  have s0 := step_at alu _ m _ (by rw [hpc]; exact f0)
  have hzero := head_tested_zero_trip alu P B var Lb Le init bound stp
    (step alu (headTestedCode P B var Lb Le init bound stp) m) hneg hP hB hne
    (by rw [s0]; simp [exec, Machine.write, regOp, hpc])
    (by
      rw [s0]
      simp only [exec, Machine.write, Machine.value, regOp] at hge ⊢
      exact hge)
  have hrun : runSteps alu (headTestedCode P B var Lb Le init bound stp) 5 m
      = runSteps alu (headTestedCode P B var Lb Le init bound stp) 4
          (step alu (headTestedCode P B var Lb Le init bound stp) m) := rfl
  rw [hrun]
  refine ⟨hzero.1, ?_⟩
  intro j h1 h2
  rw [hzero.2 j h1 h2, s0]
  have n1 : ¬ (j = P.length) := by omega
  simp [exec, Machine.write, regOp, hpc, n1]


/-- C15. A for-loop whose init or bound is no constant lowers to the
head-tested sequence: after the label-free instructions `E` of evaluating init,
bound and step (to `init_op`, `bound_op`, `step_op`), the move of `init_op` to
the loop variable, `mark(begin)`, the compare `var >= bound_op` into `f0[0]`,
the jump to the end label predicated on `f0[0]`, the body `B`, the add of
`step_op`, the unconditional jump to the begin label, and `mark(end)`. The end
label is the first label the statement creates, `g.next_label`, the begin label
the second; the labels of the body are labels created later. Running the
sequence from the move on a machine where, after the move, the loop variable is
not below the bound, leaves the loop after five steps (the move, the mark, the
compare, the jump, the end mark) without executing any instruction of the body,
the add or the jump back: the body runs zero times. The hypotheses: neither
`align_src_dst_offset` nor the lowerers of calls emit instructions with labels,
and the sequence emitted so far does not mark the label that is created next. -/
theorem dynamic_for_is_head_tested (host : GenHost)
    (halign : AlignEmits host.toHost (fun i => i.labels = []))
    (hcall : CallsLabelFree host) (alu : Instr → Machine → Int)
    (var init bound step : Expr) (body : Stmt) (g g1 : GenState)
    (hdyn : (!init.is_const || !bound.is_const) = true)
    (hlabel : Instr.mark g.next_label ∉ g.code)
    (h : Stmt.visit host (Stmt.for_ var init bound step body) g = Except.ok g1) :
    ∃ (E B : List Instr) (init_op bound_op step_op : Operand) (ga gb gc : GenState),
      stmtEval host.toHost init {} false
        { g with ra := (g.ra.alloc_reg_data host.grf_size var.type).2 }
        = Except.ok (init_op, ga) ∧
      stmtEval host.toHost bound {} false ga = Except.ok (bound_op, gb) ∧
      stmtEval host.toHost step {} false gb = Except.ok (step_op, gc) ∧
      gc.code = g.code ++ E ∧
      (∀ i ∈ E, i.labels = []) ∧
      LabelsIn (g.next_label + 2) g1.next_label B ∧
      g1.code = headTestedCode (g.code ++ E) B
        (g.ra.alloc_reg_data host.grf_size var.type).1 (g.next_label + 1) g.next_label
        init_op bound_op step_op ∧
      ∀ m : Machine, m.pc = (g.code ++ E).length →
        (m.write (regOp (g.ra.alloc_reg_data host.grf_size var.type).1)
            (m.value init_op)).value bound_op
          ≤ (m.write (regOp (g.ra.alloc_reg_data host.grf_size var.type).1)
              (m.value init_op)).regs
              (g.ra.alloc_reg_data host.grf_size var.type).1.base
              (g.ra.alloc_reg_data host.grf_size var.type).1.byteOffset →
        (runSteps alu g1.code 5 m).pc = g1.code.length ∧
        ∀ j, (g.code ++ E).length + 4 ≤ j → j < (g.code ++ E).length + 4 + B.length + 2 →
          (runSteps alu g1.code 5 m).visits j = m.visits j := by
  simp only [Stmt.visit] at h
  cases h1 : stmtEval host.toHost init {} false
      { g with ra := (g.ra.alloc_reg_data host.grf_size var.type).2 } with
  | error f2 => rw [h1] at h; simp at h
  | ok p1 =>
    obtain ⟨init_op, ga⟩ := p1
    rw [h1] at h
    simp only at h
    cases h2 : stmtEval host.toHost bound {} false ga with
    | error f2 => rw [h2] at h; simp at h
    | ok p2 =>
      obtain ⟨bound_op, gb⟩ := p2
      rw [h2] at h
      simp only at h
      cases h3 : stmtEval host.toHost step {} false gb with
      | error f2 => rw [h3] at h; simp at h
      | ok p3 =>
        obtain ⟨step_op, gc⟩ := p3
        rw [h3] at h
        simp only at h
        cases h4 : gc.bind var (regOp (g.ra.alloc_reg_data host.grf_size var.type).1) with
        | error f2 => rw [h4] at h; simp at h
        | ok gd =>
          rw [h4] at h
          simp only [hdyn, if_true] at h
          obtain ⟨E1, c1, l1⟩ := stmtEval_emits host.toHost _ isAlu_labels halign _ _ _ _ _ _ h1
          obtain ⟨E2, c2, l2⟩ := stmtEval_emits host.toHost _ isAlu_labels halign _ _ _ _ _ _ h2
          obtain ⟨E3, c3, l3⟩ := stmtEval_emits host.toHost _ isAlu_labels halign _ _ _ _ _ _ h3
          have n1 : ga.next_label = g.next_label := by
            have := stmtEval_next_label _ _ _ _ _ _ _ h1
            exact this
          have n2 : gb.next_label = ga.next_label := stmtEval_next_label _ _ _ _ _ _ _ h2
          have n3 : gc.next_label = gb.next_label := stmtEval_next_label _ _ _ _ _ _ _ h3
          have n4 : gd.next_label = gc.next_label := GenState.bind_next_label _ _ _ _ h4
          have c4 : gd.code = gc.code := GenState.bind_code _ _ _ _ h4
          have nd : gd.next_label = g.next_label := by rw [n4, n3, n2, n1]
          have cd : gd.code = g.code ++ (E1 ++ E2 ++ E3) := by
            rw [c4, c3, c2, c1]; simp
          have hEl : ∀ i ∈ E1 ++ E2 ++ E3, i.labels = [] := by
            intro i hi
            simp only [List.mem_append] at hi
            rcases hi with (hi | hi) | hi
            · exact l1 i hi
            · exact l2 i hi
            · exact l3 i hi
          split at h
          · simp at h
          rename_i ge hbody
          obtain ⟨nb, B, hB, hBl⟩ := Stmt.visit_fresh host halign hcall body _ _ hbody
          simp only [GenState.emit, GenState.new_label, nd] at nb hB hBl
          have hcode := GenState.unbind_code _ _ _ h
          have hnl := GenState.unbind_next_label _ _ _ h
          simp only [GenState.emit, GenState.new_label, nd] at hcode hnl
          have hBl2 : LabelsIn (g.next_label + 2) g1.next_label B := by
            rw [hnl]
            exact hBl
          have hfinal : g1.code = headTestedCode (g.code ++ (E1 ++ E2 ++ E3)) B
              (g.ra.alloc_reg_data host.grf_size var.type).1 (g.next_label + 1) g.next_label
              init_op bound_op step_op := by
            rw [hcode, hB, cd]
            simp [headTestedCode]
          refine ⟨E1 ++ E2 ++ E3, B, init_op, bound_op, step_op, ga, gb, gc, rfl, h2, h3,
            by rw [← c4, cd], hEl, hBl2, hfinal, ?_⟩
          intro m hpc hge
          rw [hfinal]
          refine head_tested_from_init alu _ B _ _ _ init_op bound_op step_op m rfl ?_ ?_ ?_
            hpc hge
          · intro hmem
            rcases List.mem_append.1 hmem with hm | hm
            · exact hlabel hm
            · have := hEl _ hm
              simp [Instr.labels] at this
          · intro hmem
            have := (hBl2 _ hmem g.next_label (by simp [Instr.labels])).1
            unfold Label at *
            omega
          · unfold Label at *
            omega


theorem dynamic_for_is_head_tested_witness :
    ∃ (g1 : GenState) (B : List Instr),
      Stmt.visit exampleGenHost exampleDynFor exampleDynState = Except.ok g1 ∧
      g1.code = headTestedCode [] B
        { base := 40, byteOffset := 0, type := DataType.d, vs := 1, width := 1, hs := 1 }
        1 0 (imm 0 DataType.d)
        (regOp { base := 35, byteOffset := 0, type := DataType.d, vs := 1, width := 1, hs := 1 })
        (imm 1 DataType.d) ∧
      (runSteps (fun _ _ => 0) g1.code 5 (Machine.init 0)).pc = g1.code.length ∧
      ∀ j, 4 ≤ j → j < 4 + B.length + 2 →
        (runSteps (fun _ _ => 0) g1.code 5 (Machine.init 0)).visits j = 0 := by
  have h0 : ∃ p, Stmt.visit exampleGenHost exampleDynFor exampleDynState = Except.ok p :=
    ⟨_, rfl⟩
  obtain ⟨g1, h⟩ := h0
  obtain ⟨E, B, init_op, bound_op, step_op, ga, gb, gc, e1, e2, e3, hc, _, _, hcode, hrun⟩ :=
    dynamic_for_is_head_tested exampleGenHost exampleGenHost_label_free.1
      exampleGenHost_label_free.2 (fun _ _ => 0) exampleLoopVar
      (Expr.int_imm 200 0 { kind := TypeKind.s32 }) exampleBoundVar
      (Expr.int_imm 202 1 { kind := TypeKind.s32 }) exampleStoreAdd exampleDynState g1
      rfl (by intro hm; cases hm) h
  have e1c : stmtEval exampleGenHost.toHost (Expr.int_imm 200 0 { kind := TypeKind.s32 }) {} false
      { exampleDynState with
        ra := (exampleDynState.ra.alloc_reg_data exampleGenHost.grf_size exampleLoopVar.type).2 }
      = Except.ok (imm 0 DataType.d,
          { exampleDynState with
            ra := (exampleDynState.ra.alloc_reg_data exampleGenHost.grf_size
              exampleLoopVar.type).2 }) := rfl
  rw [e1c] at e1
  simp only [Except.ok.injEq, Prod.mk.injEq] at e1
  obtain ⟨i1, i2⟩ := e1
  subst i1 i2
  have e2c : stmtEval exampleGenHost.toHost exampleBoundVar {} false
      { exampleDynState with
        ra := (exampleDynState.ra.alloc_reg_data exampleGenHost.grf_size exampleLoopVar.type).2 }
      = Except.ok
          (regOp { base := 35, byteOffset := 0, type := DataType.d, vs := 1, width := 1, hs := 1 },
          { exampleDynState with
            ra := (exampleDynState.ra.alloc_reg_data exampleGenHost.grf_size
              exampleLoopVar.type).2 }) := rfl
  rw [e2c] at e2
  simp only [Except.ok.injEq, Prod.mk.injEq] at e2
  obtain ⟨i1, i2⟩ := e2
  subst i1 i2
  have e3c : stmtEval exampleGenHost.toHost (Expr.int_imm 202 1 { kind := TypeKind.s32 }) {} false
      { exampleDynState with
        ra := (exampleDynState.ra.alloc_reg_data exampleGenHost.grf_size exampleLoopVar.type).2 }
      = Except.ok (imm 1 DataType.d,
          { exampleDynState with
            ra := (exampleDynState.ra.alloc_reg_data exampleGenHost.grf_size
              exampleLoopVar.type).2 }) := rfl
  rw [e3c] at e3
  simp only [Except.ok.injEq, Prod.mk.injEq] at e3
  obtain ⟨i1, i2⟩ := e3
  subst i1 i2
  have hE : E = [] := by
    have : ([] : List Instr) = [] ++ E := hc
    simpa using this.symm
  subst hE
  have hr := hrun (Machine.init 0) rfl (by decide)
  exact ⟨g1, B, h, hcode, hr.1, hr.2⟩


/-! ## C16: a let that binds its variable to the operand of the value -/

/-- C16 (as the code has it). A let statement with a non-empty value that is
no constant and has the type of the variable binds the variable directly to the
operand the value evaluates to: the value is evaluated without a destination
from the state the statement starts in (nothing has been allocated for the
variable), the binding puts the variable with that operand in front of the
table and neither emits an instruction nor allocates, the body is lowered in
that state and the variable is unbound afterwards. A constant value is
materialised instead (codegen.cpp:247). -/
theorem let_aliases_nonconstant_value (host : GenHost) (var value : Expr) (body : Stmt)
    (g g1 : GenState)
    (hne : value.is_empty = false) (hnc : value.is_const = false)
    (hty : var.type = value.type)
    (h : Stmt.visit host (Stmt.let_ var value body) g = Except.ok g1) :
    ∃ (value_op : Operand) (ga gb gc : GenState),
      stmtEval host.toHost value {} false g = Except.ok (value_op, ga) ∧
      ga.bind var value_op = Except.ok gb ∧
      gb.expr_binding.expr2operand = (var, value_op) :: ga.expr_binding.expr2operand ∧
      gb.code = ga.code ∧ gb.ra = ga.ra ∧
      Stmt.visit host body gb = Except.ok gc ∧
      gc.unbind var = Except.ok g1 := by
  have hty2 : (var.type != value.type) = false := by simp [hty]
  simp only [Stmt.visit, hne, hnc, hty2, Bool.or_self, Bool.false_eq_true, if_false] at h
  cases h1 : stmtEval host.toHost value {} false g with
  | error f => rw [h1] at h; simp at h
  | ok p =>
    obtain ⟨value_op, ga⟩ := p
    rw [h1] at h
    simp only at h
    cases h2 : ga.bind var value_op with
    | error f => rw [h2] at h; simp at h
    | ok gb =>
      rw [h2] at h
      simp only at h
      cases h3 : gb.expr_binding.get var with
      | error f => rw [h3] at h; simp at h
      | ok op =>
        rw [h3] at h
        simp only at h
        cases h4 : Stmt.visit host body gb with
        | error f => rw [h4] at h; simp at h
        | ok gc =>
          rw [h4] at h
          simp only at h
          refine ⟨value_op, ga, gb, gc, rfl, h2, ?_, ?_, ?_, h4, h⟩
          all_goals
            unfold GenState.bind at h2
            cases hb : ga.expr_binding.bind var value_op with
            | error f => rw [hb] at h2; simp at h2
            | ok t =>
              rw [hb] at h2
              simp only [Except.ok.injEq] at h2
              subst h2
              unfold ExprBinding.bind at hb
              split at hb
              · simp at hb
              · simp only [Except.ok.injEq] at hb
                subst hb
                rfl

/-- C16 counterexample: `let x : s32 = 5 { }` from the example state. The
value is not empty, has the type of the variable, is not destination-bound and
evaluates to the immediate 5 without an instruction or an allocation; but the
statement allocates register 40 for `x` and emits the move of 5 to it. -/
theorem let_of_constant_allocates_and_moves :
    (Expr.int_imm 300 5 { kind := TypeKind.s32 }).is_empty = false ∧
    (Expr.var 8 { kind := TypeKind.s32 }).type
      = (Expr.int_imm 300 5 { kind := TypeKind.s32 }).type ∧
    exampleGenState.expr_binding.is_dst_bound (Expr.int_imm 300 5 { kind := TypeKind.s32 })
      = false ∧
    stmtEval exampleGenHost.toHost (Expr.int_imm 300 5 { kind := TypeKind.s32 }) {} false
      exampleGenState = Except.ok (imm 5 DataType.d, exampleGenState) ∧
    ∃ g1, Stmt.visit exampleGenHost exampleConstLet exampleGenState = Except.ok g1 ∧
      g1.code
        = [Instr.emov (execMod 1)
            (regOp { base := 40, byteOffset := 0, type := DataType.d, vs := 1, width := 1, hs := 1 }
              (execMod 1))
            (imm 5 DataType.d)] ∧
      exampleGenState.ra.next_grf = 40 ∧ g1.ra.next_grf = 41 :=
  ⟨rfl, rfl, rfl, rfl, _, rfl, rfl, rfl, rfl⟩

theorem let_aliases_nonconstant_value_witness :
    ∃ (g1 : GenState) (value_op : Operand) (ga gb gc : GenState),
      Stmt.visit exampleGenHost exampleAliasLet exampleDynState = Except.ok g1 ∧
      stmtEval exampleGenHost.toHost exampleBoundVar {} false exampleDynState
        = Except.ok (value_op, ga) ∧
      ga.bind (Expr.var 9 { kind := TypeKind.s32 }) value_op = Except.ok gb ∧
      gb.expr_binding.expr2operand
        = (Expr.var 9 { kind := TypeKind.s32 }, value_op) :: ga.expr_binding.expr2operand ∧
      gb.code = ga.code ∧ gb.ra = ga.ra ∧
      Stmt.visit exampleGenHost Stmt.nop gb = Except.ok gc ∧
      gc.unbind (Expr.var 9 { kind := TypeKind.s32 }) = Except.ok g1 := by
  have h0 : ∃ p, Stmt.visit exampleGenHost exampleAliasLet exampleDynState = Except.ok p :=
    ⟨_, rfl⟩
  obtain ⟨g1, h⟩ := h0
  obtain ⟨value_op, ga, gb, gc, hx⟩ :=
    let_aliases_nonconstant_value exampleGenHost (Expr.var 9 { kind := TypeKind.s32 })
      exampleBoundVar Stmt.nop exampleDynState g1 rfl rfl rfl h
  exact ⟨g1, value_op, ga, gb, gc, h, hx⟩


/-! ## C17: what the fresh scope of a let holds while the body is lowered -/

/-- When the variable of a let is bound to a flag register, nothing is queried
and nothing is claimed: after `scope.clear()` neither scope holds anything. -/
theorem let_reclaim_of_flag (f : Nat) (neg : Bool) (mod : Mod) (scope : RegisterScope) :
    let_reclaim { kind := OperandKind.flag_register f neg, mod := mod } scope = ({}, {}) := rfl

/-- When the variable of a let is bound to a register whose range the scope
holds, the fresh scope claims that range and nothing else. -/
theorem let_reclaim_of_range (rd : RegData) (mod : Mod) (scope : RegisterScope) (r : Int × Int)
    (h : scope.find_grf_range rd.base rd.byteOffset = some r) :
    let_reclaim { kind := OperandKind.reg_buf_data rd, mod := mod } scope
      = ({}, { grf_ranges := [r] }) := by
  simp [let_reclaim, Operand.is_reg_data, Operand.is_reg_buf_data, Operand.reg_data, h,
    RegisterScope.clear, RegisterScope.claim_range]

/-- The scopes of a let are defined whenever the let is lowered. -/
theorem visit_let_scopes_defined (host : GenHost) (var value : Expr) (body : Stmt)
    (g g1 : GenState) (h : Stmt.visit host (Stmt.let_ var value body) g = Except.ok g1) :
    ∃ r, visit_let_scopes host var value g = Except.ok r := by
  simp only [Stmt.visit] at h
  unfold visit_let_scopes
  cases he : value.is_empty
  case true =>
    simp only [he, if_true] at h ⊢
    cases hg : g.expr_binding.get var with
    | error f => rw [hg] at h; simp at h
    | ok op =>
      rw [hg] at h
      simp only at h ⊢
      split at h
      · simp at h
      · rename_i hb
        simp only [hb]
        exact ⟨_, rfl⟩
  case false =>
    simp only [he, Bool.false_eq_true, if_false] at h ⊢
    cases hm : (value.is_const || var.type != value.type)
    case true =>
      simp only [hm, if_true] at h ⊢
      cases hbool : var.type.is_bool
      case true =>
        simp only [hbool, if_true] at h ⊢
        cases h1 : stmtEval host.toHost value
            { kind := OperandKind.flag_register g.ra.alloc_flag.1 false,
              mod := execMod var.type.elems } false
            { g with ra := g.ra.alloc_flag.2 } with
        | error f => rw [h1] at h; simp at h
        | ok p =>
          obtain ⟨op, ga⟩ := p
          rw [h1] at h
          simp only at h ⊢
          cases h2 : ga.bind var { kind := OperandKind.flag_register g.ra.alloc_flag.1 false } with
          | error f => rw [h2] at h; simp at h
          | ok gb =>
            rw [h2] at h
            simp only at h ⊢
            cases h3 : gb.expr_binding.get var with
            | error f => rw [h3] at h; simp at h
            | ok vop => exact ⟨_, rfl⟩
      case false =>
        simp only [hbool, Bool.false_eq_true, if_false] at h ⊢
        cases h1 : stmtEval host.toHost value
            { regOp (g.ra.alloc_reg_data host.grf_size var.type).1 with
              mod := execMod var.type.elems } false
            { g with ra := (g.ra.alloc_reg_data host.grf_size var.type).2 } with
        | error f => rw [h1] at h; simp at h
        | ok p =>
          obtain ⟨op, ga⟩ := p
          rw [h1] at h
          simp only at h ⊢
          cases h2 : ga.bind var (regOp (g.ra.alloc_reg_data host.grf_size var.type).1) with
          | error f => rw [h2] at h; simp at h
          | ok gb =>
            rw [h2] at h
            simp only at h ⊢
            cases h3 : gb.expr_binding.get var with
            | error f => rw [h3] at h; simp at h
            | ok vop => exact ⟨_, rfl⟩
    case false =>
      simp only [hm, Bool.false_eq_true, if_false] at h ⊢
      cases h1 : stmtEval host.toHost value {} false g with
      | error f => rw [h1] at h; simp at h
      | ok p =>
        obtain ⟨op, ga⟩ := p
        rw [h1] at h
        simp only at h ⊢
        cases h2 : ga.bind var op with
        | error f => rw [h2] at h; simp at h
        | ok gb =>
          rw [h2] at h
          simp only at h ⊢
          cases h3 : gb.expr_binding.get var with
          | error f => rw [h3] at h; simp at h
          | ok vop => exact ⟨_, rfl⟩

/-- C17. The let `let m : bool x 16 = 0xFFFF { if (m) store(buf0, 0, a + b) }`
materialises its boolean variable into the newly allocated flag register 0: the
statement emits the move of the constant into flag 0, and the `if_` of the body
is predicated on flag 0. But while the body is lowered no scope holds flag 0:
`var_op.is_reg_data()` is false for a flag, so nothing is queried, `clear()`
releases the flag and the fresh scope claims nothing. The sibling path does
what the comment of the code says: for `let x : s32 = 5` the fresh scope holds
register 40, the storage of `x`, and the cleared scope nothing. -/
theorem bool_let_flag_is_not_reclaimed :
    (∃ g1 : GenState,
      Stmt.visit exampleGenHost exampleBoolLet exampleGenState = Except.ok g1 ∧
      g1.code.take 2
        = [Instr.emov (execMod 16)
            { kind := OperandKind.flag_register 0 false, mod := execMod 16 }
            (imm 65535 DataType.uw),
           Instr.if_ ((execMod 16).withFlag 0) 1 1]) ∧
    (∃ scope var_scope : RegisterScope,
      visit_let_scopes exampleGenHost exampleMaskVar
        (Expr.int_imm 700 65535 { kind := TypeKind.u16 }) exampleGenState
        = Except.ok (scope, var_scope) ∧
      scope.holds_flag 0 = false ∧ var_scope.holds_flag 0 = false) ∧
    (∃ scope var_scope : RegisterScope,
      visit_let_scopes exampleGenHost (Expr.var 8 { kind := TypeKind.s32 })
        (Expr.int_imm 300 5 { kind := TypeKind.s32 }) exampleGenState
        = Except.ok (scope, var_scope) ∧
      scope.holds_grf 40 = false ∧ var_scope.holds_grf 40 = true) :=
  ⟨⟨_, rfl, rfl⟩, ⟨_, _, rfl, rfl, rfl⟩, ⟨_, _, rfl, rfl, rfl⟩⟩


/-! ## C18: comparisons put the register operand first -/

/-- C18. For a comparison operator `ebinary` emits, after the instructions of
`align_src_dst_offset`, exactly one compare. With `a` and `b` the two sources
after alignment: if the left operand `a` is register data, the compare has the
operands `(a, b)` and the condition modifier of the operator itself; otherwise
it has the operands swapped, `(b, a)`, and the condition modifier of the
negated operator `negate_cmp_op(op)`. Either way the flag register of the
compare is the flag register of the destination, and the first operand of the
compare is register data whenever one of the two operands is. The hypotheses:
the destination is a flag register that is not negated, and `negate_cmp_op`
returns a comparison operator. -/
theorem compare_puts_register_first (host : Host) (op : OpKind) (mod : Mod)
    (dst src0 src1 : Operand) (s : EvalState) (flag : Nat)
    (hop : is_cmp_op op = true)
    (hnegop : is_cmp_op (host.negate_cmp_op op) = true)
    (hneg : dst.is_negated = false)
    (hflag : dst.flag_register = some flag) :
    ∃ (acode : List Instr) (a b : Operand) (ra : RegAlloc) (c cn : CondMod) (first second : Operand)
      (cm : CondMod),
      host.align_src_dst_offset s.ra mod dst src0 src1 = (acode, a, b, ra) ∧
      cmp_op_to_ngen op = some c ∧
      cmp_op_to_ngen (host.negate_cmp_op op) = some cn ∧
      ebinary host op mod dst src0 src1 s
        = Except.ok { s with
            code := s.code ++ acode
              ++ [Instr.ecmp { mod with cmod := some cm, flag := some flag } first second]
            ra := ra } ∧
      (a.is_reg_data = true → first = a ∧ second = b ∧ cm = c) ∧
      (a.is_reg_data = false → first = b ∧ second = a ∧ cm = cn) ∧
      (a.is_reg_data = true ∨ b.is_reg_data = true → first.is_reg_data = true) := by
  obtain ⟨c, hc⟩ : ∃ c, cmp_op_to_ngen op = some c := by
    cases op <;> simp_all [is_cmp_op, cmp_op_to_ngen]
  obtain ⟨cn, hcn⟩ : ∃ cn, cmp_op_to_ngen (host.negate_cmp_op op) = some cn := by
    cases h : host.negate_cmp_op op <;> simp_all [is_cmp_op, cmp_op_to_ngen]
  by_cases ha : (host.align_src_dst_offset s.ra mod dst src0 src1).2.1.is_reg_data = true
  · refine ⟨_, _, _, _, c, cn, _, _, c, rfl, hc, hcn, ?_, fun _ => ⟨rfl, rfl, rfl⟩, ?_, fun _ => ha⟩
    · unfold ebinary
      cases op <;> simp_all [is_cmp_op, EvalState.emit]
    · intro h
      rw [ha] at h
      cases h
  · have ha' : (host.align_src_dst_offset s.ra mod dst src0 src1).2.1.is_reg_data = false := by
      simpa using ha
    refine ⟨_, _, _, _, c, cn, _, _, cn, rfl, hc, hcn, ?_, ?_, fun _ => ⟨rfl, rfl, rfl⟩, ?_⟩
    · unfold ebinary
      cases op <;> simp_all [is_cmp_op, EvalState.emit]
    · intro h
      rw [ha'] at h
      cases h
    · intro h
      rcases h with h | h
      · rw [ha'] at h
        cases h
      · exact h

theorem compare_puts_register_first_witness :
    ebinary exampleHost OpKind.lt (execMod 16) exampleFlagOp (imm 3 DataType.d) exampleDstOp {}
      = Except.ok
          { code := [Instr.ecmp { execMod 16 with cmod := some CondMod.gt, flag := some 0 }
              exampleDstOp (imm 3 DataType.d)] } := by
  obtain ⟨acode, a, b, ra, c, cn, first, second, cm, hal, _, hcn, he, _, h2, _⟩ :=
    compare_puts_register_first exampleHost OpKind.lt (execMod 16) exampleFlagOp
      (imm 3 DataType.d) exampleDstOp {} 0 rfl rfl rfl rfl
  have hal2 : (([] : List Instr), imm 3 DataType.d, exampleDstOp, ({} : RegAlloc))
      = (acode, a, b, ra) := hal
  injection hal2 with h_acode hrest
  injection hrest with h_a hrest
  injection hrest with h_b h_ra
  subst h_acode h_a h_b h_ra
  obtain ⟨hf, hs, hcm⟩ := h2 rfl
  have hgt : cn = CondMod.gt := by
    have : some CondMod.gt = some cn := hcn
    injection this with h
    exact h.symm
  subst hf hs hcm hgt
  rw [he]
  rfl


/-! ## C19: a cast of a constant folds, except to a boolean -/

/-- The folding branch of `_visit(cast_t)` for a cast that is neither bound nor
destination-bound: the cast is bound to `op`, nothing else changes. -/
theorem eval_cast_const (host : Host) (id : Nat) (t : IrType) (sat : Bool) (a : Expr)
    (s : EvalState) (op : Operand)
    (hvis : visit host (Expr.cast id t sat a) s = evalBind (Expr.cast id t sat a) op s)
    (hnb : s.expr_binding.is_bound (Expr.cast id t sat a) = false)
    (hnd : s.expr_binding.is_dst_bound (Expr.cast id t sat a) = false) :
    ∃ s1, eval host (Expr.cast id t sat a) {} false s = Except.ok (op, s1) ∧
      s1.code = s.code ∧ s1.ra = s.ra ∧
      s1.expr_binding.expr2operand.lookup (Expr.cast id t sat a) = some op := by
  refine ⟨{ s with
      expr_binding :=
        { expr2operand := (Expr.cast id t sat a, op) :: s.expr_binding.expr2operand
          expr2dst := s.expr_binding.expr2dst.filter (fun p => p.1 != Expr.cast id t sat a) } },
    ?_, rfl, rfl, by simp [List.lookup]⟩
  unfold eval evalCore
  simp only [Operand.is_invalid, Bool.not_true, Bool.false_and, Bool.false_eq_true, if_false,
    hnb, if_true, hvis]
  simp [evalBind, hnd, ExprBinding.bind, hnb, ExprBinding.get, Expr.is_empty, List.lookup]

/-- C19 (as the code has it). A cast whose operand is a constant and whose
target type is not boolean and differs from the type of the operand, evaluated
while the cast is neither bound nor destination-bound, emits no instruction,
allocates nothing and binds the cast to an immediate of the target type that
holds the value of the operand converted to the target type: the value of an
integer constant, 1 or 0 for a boolean constant. -/
theorem cast_of_constant_folds (host : Host) (id : Nat) (t : IrType) (sat : Bool) (a : Expr)
    (s : EvalState)
    (hbool : t.is_bool = false) (hty : a.type ≠ t)
    (hnb : s.expr_binding.is_bound (Expr.cast id t sat a) = false)
    (hnd : s.expr_binding.is_dst_bound (Expr.cast id t sat a) = false) :
    (∀ i v ty, a = Expr.int_imm i v ty → ty.is_bool = false →
      ∃ s1, eval host (Expr.cast id t sat a) {} false s
          = Except.ok (imm (wrapTo (to_ngen t.kind) v) (to_ngen t.kind), s1) ∧
        s1.code = s.code ∧ s1.ra = s.ra ∧
        s1.expr_binding.expr2operand.lookup (Expr.cast id t sat a)
          = some (imm (wrapTo (to_ngen t.kind) v) (to_ngen t.kind))) ∧
    (∀ i b, a = Expr.bool_imm i b →
      ∃ s1, eval host (Expr.cast id t sat a) {} false s
          = Except.ok (imm (wrapTo (to_ngen t.kind) (if b then 1 else 0)) (to_ngen t.kind), s1) ∧
        s1.code = s.code ∧ s1.ra = s.ra ∧
        s1.expr_binding.expr2operand.lookup (Expr.cast id t sat a)
          = some (imm (wrapTo (to_ngen t.kind) (if b then 1 else 0)) (to_ngen t.kind))) := by
  have hne : (a.type == t) = false := by simpa using hty
  constructor
  · intro i v ty ha hb
    subst ha
    apply eval_cast_const host id t sat _ s _ _ hnb hnd
    simp only [Expr.type] at hne
    simp [visit, Expr.type, hne, Expr.is_const, hbool, hb, to_ngen_imm]
  · intro i b ha
    subst ha
    apply eval_cast_const host id t sat _ s _ _ hnb hnd
    simp only [Expr.type] at hne
    have hb : ({ kind := TypeKind.bool } : IrType).is_bool = true := rfl
    simp [visit, Expr.type, hne, Expr.is_const, hbool, hb, Expr.to_cpp_bool, to_ngen_imm]

/-- C19 counterexample: the cast of the constant `1 : s32` to a boolean is not
folded: a flag register is allocated and one move into it is emitted. And the
cast of the constant `5 : s32` to its own type `s32` is fatal: it binds
nothing. -/
theorem cast_of_constant_to_bool_emits_move :
    eval exampleHost exampleCastToBool {} false {}
      = Except.ok (exampleFlagOp,
          { expr_binding :=
              { expr2operand :=
                  [(exampleCastToBool, exampleFlagOp),
                   (Expr.int_imm 601 1 { kind := TypeKind.s32 }, imm 1 DataType.d)] }
            code := [Instr.emov (execMod 16) exampleFlagOp (imm 1 DataType.d)]
            ra := { next_flag := 1 } }) ∧
    eval exampleHost exampleCastSameType {} false {} = Except.error (Fatal.assertion 1023) := by
  constructor <;> rfl

theorem cast_of_constant_folds_witness :
    ∃ s1, eval exampleHost exampleCastConst {} false {}
        = Except.ok (imm 44 DataType.ub, s1) ∧
      s1.code = [] ∧ s1.ra = {} ∧
      s1.expr_binding.expr2operand.lookup exampleCastConst = some (imm 44 DataType.ub) :=
  (cast_of_constant_folds exampleHost 603 { kind := TypeKind.u8 } false
    (Expr.int_imm 604 300 { kind := TypeKind.s32 }) {} rfl (by decide) rfl rfl).1
    604 300 { kind := TypeKind.s32 } rfl rfl


/-! ## C20: integer widening is recorded and moved -/

theorem evalBind_upconv (e : Expr) (op : Operand) (s s1 : EvalState)
    (h : evalBind e op s = Except.ok s1) : s1.int_up_converts = s.int_up_converts := by
  unfold evalBind at h
  split at h
  · split at h
    · simp only [Except.ok.injEq] at h
      subst h
      rfl
    · simp at h
  · split at h
    · simp at h
    · split at h
      · split at h
        · simp only [Except.ok.injEq] at h
          subst h
          rfl
        · simp at h
      · dsimp only at h
        split at h
        · simp only [Except.ok.injEq] at h
          subst h
          rfl
        · simp at h

theorem alloc_dst_op_upconv (host : Host) (e : Expr) (s s1 : EvalState) (op : Operand)
    (h : alloc_dst_op host e s = Except.ok (op, s1)) :
    s1.int_up_converts = s.int_up_converts := by
  unfold alloc_dst_op at h
  split at h
  · simp at h
  split at h
  · split at h
    · simp only [Except.ok.injEq, Prod.mk.injEq] at h
      rw [← h.2]
    · simp at h
  · dsimp only at h
    split at h
    · simp only [Except.ok.injEq, Prod.mk.injEq] at h
      rw [← h.2]
    · simp at h

theorem maybe_alloc_strided_op_upconv (host : Host) (t : IrType) (e : Expr) (s : EvalState) :
    (maybe_alloc_strided_op host t e s).2.int_up_converts = s.int_up_converts := by
  unfold maybe_alloc_strided_op
  split
  · rfl
  split
  · rfl
  split
  · rfl
  · rfl

theorem ebinary_upconv (host : Host) (op : OpKind) (mod : Mod) (dst a b : Operand)
    (s s1 : EvalState) (h : ebinary host op mod dst a b s = Except.ok s1) :
    s1.int_up_converts = s.int_up_converts := by
  unfold ebinary at h
  dsimp only at h
  cases op <;> simp only at h <;>
    first
      | (simp only [Except.ok.injEq] at h; subst h; rfl)
      | (split at h
         · simp at h
         · split at h <;>
             (split at h
              · simp at h
              · split at h
                · simp at h
                · simp only [Except.ok.injEq] at h
                  subst h
                  rfl))

theorem UpConvInv.of_eq {s s1 : EvalState} (h : s1.int_up_converts = s.int_up_converts)
    (hs : UpConvInv s) : UpConvInv s1 := by
  intro p hp
  rw [h] at hp
  exact hs p hp

theorem UpConvInv.emplace {s : EvalState} (hs : UpConvInv s) (id : Nat) (t : IrType)
    (sat : Bool) (a : Expr) :
    UpConvInv (s.emplace_int_up_convert (Expr.cast id t sat a) a.type) := by
  unfold EvalState.emplace_int_up_convert
  split
  · exact hs
  · intro p hp
    rcases List.mem_cons.1 hp with hp | hp
    · subst hp
      exact ⟨id, t, sat, a, rfl, rfl⟩
    · exact hs p hp

/-- A state that satisfies the invariant records, for a cast, only the type of
its operand. -/
theorem UpConvInv.lookup {s : EvalState} (hs : UpConvInv s) (id : Nat) (t : IrType)
    (sat : Bool) (a : Expr) (ty : IrType)
    (h : s.int_up_converts.lookup (Expr.cast id t sat a) = some ty) : ty = a.type := by
  have key : ∀ l : List (Expr × IrType),
      (∀ p ∈ l, ∃ id t sat a, p.1 = Expr.cast id t sat a ∧ p.2 = a.type) →
      l.lookup (Expr.cast id t sat a) = some ty → ty = a.type := by
    intro l
    induction l with
    | nil => intro _ h; simp [List.lookup] at h
    | cons p l ih =>
      intro hl h
      obtain ⟨k, v⟩ := p
      by_cases hk : Expr.cast id t sat a = k
      · subst hk
        simp only [List.lookup, beq_self_eq_true, Option.some.injEq] at h
        obtain ⟨id2, t2, sat2, a2, h1, h2⟩ := hl _ (List.mem_cons_self _ _)
        simp only at h1 h2
        injection h1 with _ _ _ ha
        rw [← h, h2, ha]
      · have hb : (Expr.cast id t sat a == k) = false := by simpa using hk
        simp only [List.lookup, hb] at h
        exact ih (fun p hp => hl p (List.mem_cons_of_mem _ hp)) h
  exact key _ hs h

theorem evalCore_upconv (visitE : EvalState → Except Fatal EvalState)
    (hv : ∀ s s1, visitE s = Except.ok s1 → UpConvInv s → UpConvInv s1)
    (e : Expr) (dst : Operand) (fill : Bool) (s s1 : EvalState) (op : Operand)
    (h : evalCore visitE e dst fill s = Except.ok (op, s1)) (hs : UpConvInv s) :
    UpConvInv s1 := by
  unfold evalCore at h
  split at h
  · simp at h
  split at h
  · split at h
    · split at h
      · simp at h
      · split at h
        · split at h
          · simp at h
          · split at h
            · simp at h
            · simp only [Except.ok.injEq, Prod.mk.injEq] at h
              rw [← h.2]
              exact hs
        · simp only [Except.ok.injEq, Prod.mk.injEq] at h
          rw [← h.2]
          exact hs
    · split at h
      · simp at h
      · simp only [Except.ok.injEq, Prod.mk.injEq] at h
        rw [← h.2]
        exact hs
  · dsimp only at h
    split at h
    · simp at h
    · rename_i s2 hvis
      split at h
      · simp at h
      · simp only [Except.ok.injEq, Prod.mk.injEq] at h
        rw [← h.2]
        show UpConvInv s2
        split at hvis
        · exact hv _ _ hvis hs
        · split at hvis
          · split at hvis
            · simp at hvis
            · exact hv _ _ hvis hs
          · split at hvis
            · simp at hvis
            · rename_i s3 hv3
              split at hvis
              · simp at hvis
              · split at hvis
                · simp at hvis
                · split at hvis
                  · simp at hvis
                  · simp only [Except.ok.injEq] at hvis
                    rw [← hvis]
                    have := hv s s3 hv3 hs
                    exact this

theorem evalBind_inv (e : Expr) (op : Operand) (s s1 : EvalState)
    (h : evalBind e op s = Except.ok s1) (hs : UpConvInv s) : UpConvInv s1 :=
  UpConvInv.of_eq (evalBind_upconv e op s s1 h) hs

/-- The evaluator keeps the invariant of `int_up_converts_`. -/
theorem visit_upconv (host : Host) (e : Expr) :
    ∀ s s1 : EvalState, visit host e s = Except.ok s1 → UpConvInv s → UpConvInv s1 := by
  induction e with
  | empty =>
    intro s s1 h hs
    simp only [visit, Except.ok.injEq] at h
    subst h
    exact hs
  | bool_imm id v => intro s s1 h; simp [visit] at h
  | int_imm id v t =>
    intro s s1 h hs
    simp only [visit] at h
    exact evalBind_inv _ _ _ _ h hs
  | var id t =>
    intro s s1 h hs
    simp only [visit] at h
    split at h
    · simp only [Except.ok.injEq] at h
      subst h
      exact hs
    · simp at h
  | load id t buf off stride ih1 ih2 =>
    intro s s1 h hs
    simp only [visit] at h
    split at h
    · simp at h
    rename_i buf_op sa h1
    split at h
    · simp at h
    rename_i off_op sb h2
    have e1 := evalCore_upconv _ ih1 _ _ _ _ _ _ h1 hs
    have e2 := evalCore_upconv _ ih2 _ _ _ _ _ _ h2 e1
    split at h
    · simp at h
    · exact evalBind_inv _ _ _ _ h e2
    · simp at h
  | ptr id base off ih1 _ =>
    intro s s1 h hs
    simp only [visit] at h
    split at h
    · simp at h
    rename_i base_op sa h1
    have e1 := evalCore_upconv _ ih1 _ _ _ _ _ _ h1 hs
    split at h
    · exact evalBind_inv _ _ _ _ h e1
    · split at h
      · simp at h
      · exact evalBind_inv _ _ _ _ h e1
    · simp at h
  | unary_op id t a ih =>
    intro s s1 h hs
    simp only [visit] at h
    split at h
    · simp at h
    rename_i a_op sa h1
    exact evalBind_inv _ _ _ _ h (evalCore_upconv _ ih _ _ _ _ _ _ h1 hs)
  | binary_op id op t a b ih1 ih2 =>
    intro s s1 h hs
    simp only [visit] at h
    split at h
    · simp at h
    rename_i dst_op sa h0
    have c0 := alloc_dst_op_upconv _ _ _ _ _ h0
    split at h
    · simp at h
    rename_i src0 sb h1
    split at h
    · simp at h
    rename_i src1 sc h2
    split at h
    · simp at h
    rename_i sd h3
    have c1 := maybe_alloc_strided_op_upconv host t a sa
    have c2 := maybe_alloc_strided_op_upconv host t b (maybe_alloc_strided_op host t a sa).2
    have i0 : UpConvInv sa := UpConvInv.of_eq c0 hs
    have i1 := evalCore_upconv _ ih1 _ _ _ _ _ _ h1
      (UpConvInv.of_eq (by simp only [c2, c1]) i0)
    have i2 := evalCore_upconv _ ih2 _ _ _ _ _ _ h2 i1
    have i3 : UpConvInv sd := UpConvInv.of_eq (ebinary_upconv _ _ _ _ _ _ _ _ h3) i2
    exact evalBind_inv _ _ _ _ h (UpConvInv.of_eq rfl i3)
  | cast id t sat a ih =>
    intro s s1 h hs
    simp only [visit] at h
    split at h
    · simp at h
    split at h
    · split at h
      · simp at h
      · exact evalBind_inv _ _ _ _ h hs
    · split at h
      · simp at h
      rename_i dst_op sa h0
      have i0 : UpConvInv sa := UpConvInv.of_eq (alloc_dst_op_upconv _ _ _ _ _ h0) hs
      split at h
      · split at h
        · simp at h
        rename_i x sb h1
        exact evalBind_inv _ _ _ _ h (evalCore_upconv _ ih _ _ _ _ _ _ h1 i0)
      · split at h
        · split at h
          · simp at h
          split at h
          · simp at h
          rename_i x sb h1
          exact evalBind_inv _ _ _ _ h (evalCore_upconv _ ih _ _ _ _ _ _ h1 i0)
        · split at h
          · simp at h
          rename_i expr_op sb h1
          have i1 := evalCore_upconv _ ih _ _ _ _ _ _ h1 i0
          refine evalBind_inv _ _ _ _ h ?_
          split
          · have i2 : UpConvInv (sb.emit (Instr.emov
                (if sat = true then { dst_op.mod with sat := true } else dst_op.mod)
                dst_op expr_op)) := UpConvInv.of_eq rfl i1
            exact UpConvInv.emplace i2 id t sat a
          · exact UpConvInv.of_eq rfl i1

/-- The member `bind` emits nothing or one move into the reserved destination. -/
theorem evalBind_code (e : Expr) (op : Operand) (s s1 : EvalState)
    (h : evalBind e op s = Except.ok s1) :
    s1.code = s.code ∨ ∃ d : Operand, s1.code = s.code ++ [Instr.emov d.mod d op] := by
  unfold evalBind at h
  split at h
  · split at h
    · simp only [Except.ok.injEq] at h
      subst h
      exact Or.inl rfl
    · simp at h
  · split at h
    · simp at h
    · split at h
      · split at h
        · simp only [Except.ok.injEq] at h
          subst h
          exact Or.inl rfl
        · simp at h
      · dsimp only at h
        split at h
        · simp only [Except.ok.injEq] at h
          subst h
          exact Or.inr ⟨_, rfl⟩
        · simp at h

theorem emplace_code (x : EvalState) (e : Expr) (ty : IrType) :
    (x.emplace_int_up_convert e ty).code = x.code := by
  unfold EvalState.emplace_int_up_convert
  split <;> rfl

/-- What `is_int_up_convert` returns after `emplace` in a state that satisfies
the invariant. -/
theorem emplace_is_int_up_convert (s : EvalState) (hs : UpConvInv s) (id : Nat) (t : IrType)
    (sat : Bool) (a : Expr) :
    (s.emplace_int_up_convert (Expr.cast id t sat a) a.type).is_int_up_convert
      (Expr.cast id t sat a) = some a.type := by
  unfold EvalState.emplace_int_up_convert EvalState.is_int_up_convert
  cases hl : s.int_up_converts.lookup (Expr.cast id t sat a) with
  | none => simp [List.lookup]
  | some ty =>
    have := UpConvInv.lookup hs id t sat a ty hl
    subst this
    simp [hl]

/-- C20 (as the code has it). For a cast between scalar integer types whose
source type is narrower than the target type and whose operand is not a
constant, a lowering that completes records the pair (cast, source type), so
that `is_int_up_convert` returns true with the source type, and emits for the
cast itself exactly one move of the evaluated operand into the destination of
the cast (with the saturation flag when the cast saturates), after the
instructions of the operand. The final `bind` emits nothing more, or the one
move into a reserved destination that differs. The hypothesis on
`int_up_converts_` is its invariant: it holds only casts with the type of
their operand. -/
theorem int_widening_is_recorded_and_moved (host : Host) (id : Nat) (t : IrType) (sat : Bool)
    (a : Expr) (s s4 : EvalState)
    (hs1 : a.type.is_scalar = true) (hs2 : t.is_scalar = true)
    (hi1 : a.type.is_int = true) (hi2 : t.is_int = true)
    (hsize : a.type.size < t.size) (hnc : a.is_const = false)
    (hinv : UpConvInv s)
    (h : visit host (Expr.cast id t sat a) s = Except.ok s4) :
    s4.is_int_up_convert (Expr.cast id t sat a) = some a.type ∧
    ∃ (dst_op : Operand) (s1 : EvalState) (expr_op : Operand) (s2 : EvalState)
      (rest : List Instr),
      alloc_dst_op host (Expr.cast id t sat a) s = Except.ok (dst_op, s1) ∧
      evalCore (visit host a) a {} false s1 = Except.ok (expr_op, s2) ∧
      s4.code = s2.code
        ++ [Instr.emov (if sat = true then { dst_op.mod with sat := true } else dst_op.mod)
              dst_op expr_op]
        ++ rest ∧
      (rest = [] ∨ ∃ d : Operand, rest = [Instr.emov d.mod d dst_op]) := by
  have hne : (a.type == t) = false := by
    have : a.type ≠ t := by
      intro heq
      rw [heq] at hsize
      exact lt_irrefl _ hsize
    simpa using this
  have hptr : ((t == { kind := TypeKind.u64 } || t == { kind := TypeKind.byte_ptr })
      && (a.type == { kind := TypeKind.u64 } || a.type == { kind := TypeKind.byte_ptr }))
      = false := by
    by_contra hc
    simp only [Bool.not_eq_false, Bool.and_eq_true, Bool.or_eq_true, beq_iff_eq] at hc
    obtain ⟨h1, h2⟩ := hc
    rcases h1 with h1 | h1 <;> rcases h2 with h2 | h2 <;>
      (rw [h1] at hi2 hsize; rw [h2] at hi1 hsize) <;>
      first
        | (simp [IrType.is_int] at hi1; done)
        | (simp [IrType.is_int] at hi2; done)
        | exact lt_irrefl _ hsize
  have hdown : decide (a.type.size ≥ t.size) = false := by
    simp only [ge_iff_le, decide_eq_false_iff_not, not_le]
    exact hsize
  have hup : decide (a.type.size < t.size) = true := by
    simp only [decide_eq_true_eq]
    exact hsize
  simp only [visit, hne, hnc, Bool.false_eq_true, if_false, Bool.false_and, hptr, hs1, hs2,
    hi1, hi2, Bool.and_self, Bool.true_and, hdown, hup, if_true] at h
  split at h
  · simp at h
  rename_i dst_op s1 h0
  split at h
  · simp at h
  rename_i expr_op s2 h1
  have i1 : UpConvInv s1 := UpConvInv.of_eq (alloc_dst_op_upconv _ _ _ _ _ h0) hinv
  have i2 : UpConvInv s2 := evalCore_upconv _ (visit_upconv host a) _ _ _ _ _ _ h1 i1
  have i3 : UpConvInv (s2.emit (Instr.emov
      (if sat = true then { dst_op.mod with sat := true } else dst_op.mod) dst_op expr_op)) :=
    UpConvInv.of_eq rfl i2
  constructor
  · unfold EvalState.is_int_up_convert
    rw [evalBind_upconv _ _ _ _ h]
    exact emplace_is_int_up_convert _ i3 id t sat a
  · refine ⟨dst_op, s1, expr_op, s2, ?_⟩
    have hcode : ((s2.emit (Instr.emov
        (if sat = true then { dst_op.mod with sat := true } else dst_op.mod) dst_op
        expr_op)).emplace_int_up_convert (Expr.cast id t sat a) a.type).code
        = s2.code ++ [Instr.emov
          (if sat = true then { dst_op.mod with sat := true } else dst_op.mod) dst_op
          expr_op] := by
      rw [emplace_code]
      rfl
    rcases evalBind_code _ _ _ _ h with hc | ⟨d, hc⟩
    · exact ⟨[], h0, h1, by rw [hc, hcode]; simp, Or.inl rfl⟩
    · exact ⟨[Instr.emov d.mod d dst_op], h0, h1, by rw [hc, hcode], Or.inr ⟨d, rfl⟩⟩

/-- C20 counterexample: lowering the widening cast of an `s16` variable (bound
to register 60, so that the operand itself emits nothing) to `s32` emits one
instruction for the cast itself, the move `r61:d <- r60:w`. -/
theorem int_widening_emits_move :
    (visit exampleHost exampleWidening exampleShortState).map (fun s => s.code)
      = Except.ok
          [Instr.emov (execMod 1)
            (regOp { base := 61, byteOffset := 0, type := DataType.d, vs := 1, width := 1, hs := 1 }
              (execMod 1))
            (regOp { base := 60, byteOffset := 0, type := DataType.w, vs := 1, width := 1,
                     hs := 1 })] := by
  rfl

theorem int_widening_is_recorded_and_moved_witness :
    ∃ s4, visit exampleHost exampleWidening exampleShortState = Except.ok s4 ∧
      s4.is_int_up_convert exampleWidening = some { kind := TypeKind.s16 } := by
  have h0 : ∃ p, visit exampleHost exampleWidening exampleShortState = Except.ok p := ⟨_, rfl⟩
  obtain ⟨s4, h⟩ := h0
  exact ⟨s4, h, (int_widening_is_recorded_and_moved exampleHost 605 { kind := TypeKind.s32 } false
    exampleShortVar exampleShortState s4 rfl rfl rfl rfl (by decide) rfl
    (by intro p hp; cases hp) h).1⟩


/-! ## C21: the chunks and sub-writes of the shuffle fallback -/

theorem decode_append (A B : List Chunk) :
    Chunk.decode (A ++ B) = Chunk.decode A ++ Chunk.decode B := by
  simp [Chunk.decode]

theorem decode_length (cs : List Chunk) :
    (Chunk.decode cs).length = (cs.map Chunk.length).sum := by
  induction cs with
  | nil => rfl
  | cons c rest ih =>
    have : Chunk.decode (c :: rest) = List.replicate c.length c.idx ++ Chunk.decode rest := by
      simp [Chunk.decode]
    rw [this, List.length_append, ih]
    simp

/-- The loop keeps its invariant. -/
theorem shuffle_chunks_loop_inv : ∀ (idx : List Nat) (i : Nat) (acc : List Chunk),
    ChunksInv i acc → ChunksInv (i + idx.length) (shuffle_chunks_loop idx i acc) := by
  intro idx
  induction idx with
  | nil => intro i acc h; simpa [shuffle_chunks_loop] using h
  | cons x rest ih =>
    intro i acc h
    have hlen : i + (x :: rest).length = (i + 1) + rest.length := by
      simp only [List.length_cons]; omega
    rw [hlen]
    cases acc with
    | nil =>
      simp only [shuffle_chunks_loop]
      apply ih
      simp only [ChunksInv] at h ⊢
      subst h
      simp
    | cons back below =>
      simp only [shuffle_chunks_loop]
      obtain ⟨h1, h2, h3, h4⟩ := h
      split
      · rename_i hne
        apply ih
        refine ⟨by simp, by simp, ?_, ?_⟩
        · exact ⟨h1, h2, h3, h4⟩
        · intro b hb
          simp only [List.head?_cons, Option.mem_def, Option.some.injEq] at hb
          subst hb
          simpa using hne
      · apply ih
        refine ⟨by simp, by simp; omega, h3, h4⟩

/-- The chunks stand for the elements read so far. -/
theorem shuffle_chunks_loop_decode : ∀ (idx : List Nat) (i : Nat) (acc : List Chunk),
    Chunk.decode (shuffle_chunks_loop idx i acc).reverse = Chunk.decode acc.reverse ++ idx := by
  intro idx
  induction idx with
  | nil => intro i acc; simp [shuffle_chunks_loop]
  | cons x rest ih =>
    intro i acc
    cases acc with
    | nil =>
      simp only [shuffle_chunks_loop]
      rw [ih]
      simp [Chunk.decode]
    | cons back below =>
      simp only [shuffle_chunks_loop]
      split
      · rw [ih]
        simp [Chunk.decode]
      · rename_i heq
        have hx : back.idx = x := by simpa using heq
        rw [ih]
        simp only [List.reverse_cons, decode_append]
        simp [Chunk.decode, List.replicate_succ', hx]

/-- What the invariant says about the chunks, newest first. -/
theorem chunksInv_props : ∀ (acc : List Chunk) (i : Nat), ChunksInv i acc →
    (∀ T c B, acc = T ++ c :: B → 0 < c.length ∧ c.off = (B.map Chunk.length).sum) ∧
    (acc.map Chunk.length).sum = i ∧
    acc.Chain' (fun a b => b.idx ≠ a.idx) := by
  intro acc
  induction acc with
  | nil =>
    intro i h
    refine ⟨?_, ?_, List.chain'_nil⟩
    · intro T c B hT
      simp at hT
    · simpa [ChunksInv] using h.symm
  | cons c below ih =>
    intro i h
    obtain ⟨h1, h2, h3, h4⟩ := h
    obtain ⟨p1, p2, p3⟩ := ih c.off h3
    refine ⟨?_, ?_, ?_⟩
    · intro T d B hT
      cases T with
      | nil =>
        simp only [List.nil_append, List.cons.injEq] at hT
        obtain ⟨e1, e2⟩ := hT
        subst e1 e2
        exact ⟨h1, p2.symm⟩
      | cons t T2 =>
        simp only [List.cons_append, List.cons.injEq] at hT
        exact p1 T2 d B hT.2
    · simp only [List.map_cons, List.sum_cons, p2]
      omega
    · cases below with
      | nil => exact List.chain'_singleton _
      | cons b rest =>
        refine List.Chain'.cons ?_ p3
        exact h4 b (by simp)

theorem exec_size_bounds (n : Nat) :
    1 <<< ilog2q (n + 1) = 2 ^ Nat.log2 (n + 1) ∧ 1 ≤ 2 ^ Nat.log2 (n + 1) ∧
    2 ^ Nat.log2 (n + 1) ≤ n + 1 ∧ n + 1 < 2 * 2 ^ Nat.log2 (n + 1) := by
  refine ⟨by simp [ilog2q, Nat.shiftLeft_eq], Nat.one_le_two_pow,
    Nat.log2_self_le (by omega), ?_⟩
  have := @Nat.lt_log2_self (n + 1)
  rw [Nat.pow_succ] at this
  omega

/-- The loop that splits a chunk ends within as many iterations as the chunk
has elements, and its sub-writes are as `SubWritesOk` says. -/
theorem split_chunk_spec (is_bool : Bool) (idx : Nat) :
    ∀ (fuel off length : Nat), length ≤ fuel →
      ∃ r, split_chunk is_bool idx fuel off length = some r ∧
        (is_bool = false → ∃ ws, r = Except.ok ws) ∧
        ∀ ws, r = Except.ok ws →
          SubWritesOk idx off length ws ∧ (ws.map SubWrite.exec_size).sum = length ∧
          ∀ w ∈ ws, w.exec_size ≤ length := by
  intro fuel
  induction fuel with
  | zero =>
    intro off length h
    have : length = 0 := by omega
    subst this
    refine ⟨Except.ok [], rfl, fun _ => ⟨_, rfl⟩, ?_⟩
    intro ws hws
    simp only [Except.ok.injEq] at hws
    subst hws
    simp [SubWritesOk]
  | succ fuel ih =>
    intro off length h
    cases length with
    | zero =>
      refine ⟨Except.ok [], rfl, fun _ => ⟨_, rfl⟩, ?_⟩
      intro ws hws
      simp only [Except.ok.injEq] at hws
      subst hws
      simp [SubWritesOk]
    | succ n =>
      obtain ⟨e1, e2, e3, e4⟩ := exec_size_bounds n
      simp only [split_chunk, e1]
      by_cases hb : (is_bool && off % 8 != 0) = true
      · simp only [hb, if_true]
        refine ⟨_, rfl, ?_, ?_⟩
        · intro hf
          subst hf
          simp at hb
        · intro ws hws
          cases hws
      · simp only [hb, Bool.false_eq_true, if_false]
        obtain ⟨r, hr, hok, hprops⟩ :=
          ih (off + 2 ^ Nat.log2 (n + 1)) (n + 1 - 2 ^ Nat.log2 (n + 1)) (by omega)
        rw [hr]
        cases r with
        | error f =>
          refine ⟨_, rfl, ?_, ?_⟩
          · intro hf
            obtain ⟨ws, hws⟩ := hok hf
            cases hws
          · intro ws hws
            cases hws
        | ok rest =>
          refine ⟨_, rfl, fun _ => ⟨_, rfl⟩, ?_⟩
          intro ws hws
          simp only [Except.ok.injEq] at hws
          subst hws
          obtain ⟨q1, q2, q3⟩ := hprops rest rfl
          refine ⟨⟨rfl, rfl, ⟨_, rfl⟩, e3, ?_, q1⟩, ?_, ?_⟩
          · intro b hb2
            have hmem : b ∈ rest := List.mem_of_mem_head? hb2
            have := q3 b hmem
            show b.exec_size ≤ 2 ^ Nat.log2 (n + 1)
            omega
          · simp only [List.map_cons, List.sum_cons, q2]
            omega
          · intro w hw
            simp only [List.mem_cons] at hw
            rcases hw with hw | hw
            · subst hw
              exact e3
            · have := q3 w hw
              omega

/-- The sub-writes of a list of chunks are those of its chunks, in order; they
exist for every shuffle that is not boolean. -/
theorem shuffle_fallback_loop_spec (is_bool : Bool) : ∀ (cs : List Chunk),
    ∃ r, shuffle_fallback_loop is_bool cs = some r ∧
      (is_bool = false → ∃ ws, r = Except.ok ws) ∧
      ∀ ws, r = Except.ok ws →
        (ws.map SubWrite.exec_size).sum = (cs.map Chunk.length).sum := by
  intro cs
  induction cs with
  | nil =>
    refine ⟨_, rfl, fun _ => ⟨_, rfl⟩, ?_⟩
    intro ws hws
    simp only [Except.ok.injEq] at hws
    subst hws
    rfl
  | cons c rest ih =>
    obtain ⟨r1, h1, ok1, p1⟩ := split_chunk_spec is_bool c.idx c.length c.off c.length (le_refl _)
    obtain ⟨r2, h2, ok2, p2⟩ := ih
    simp only [shuffle_fallback_loop, h1]
    cases r1 with
    | error f =>
      refine ⟨_, rfl, ?_, ?_⟩
      · intro hf
        obtain ⟨ws, hws⟩ := ok1 hf
        cases hws
      · intro ws hws
        cases hws
    | ok ws1 =>
      simp only [h2]
      cases r2 with
      | error f =>
        refine ⟨_, rfl, ?_, ?_⟩
        · intro hf
          obtain ⟨ws, hws⟩ := ok2 hf
          cases hws
        · intro ws hws
          cases hws
      | ok ws2 =>
        refine ⟨_, rfl, fun _ => ⟨_, rfl⟩, ?_⟩
        intro ws hws
        simp only [Except.ok.injEq] at hws
        subst hws
        simp only [List.map_append, List.sum_append, List.map_cons, List.sum_cons,
          (p1 ws1 rfl).2.1, p2 ws2 rfl]

/-- C21. The fallback path of a shuffle with index vector `idx` of `n` elements.
The chunks stand for `idx` itself: read in order, `length` times `idx` for each
chunk; so their lengths sum to `n`. Every chunk has at least one element and
starts at the sum of the lengths of the chunks before it, the first at 0; every
position of a chunk holds the chunk's source index; neighbouring chunks have
different source indices, so the chunks are the maximal runs. For every chunk
the loop that splits it ends within `length` iterations, and when it takes its
sub-writes (always for a shuffle that is not boolean; a boolean one halts at a
sub-write whose offset is no multiple of 8), they start at the chunk's offset,
follow each other without gap or overlap, have sizes that are powers of two, at
most the length that is left and never larger than the one before, and sum to
the chunk's length. The sub-writes of the whole shuffle exist whenever it is not
boolean, and their sizes sum to `n`. -/
theorem shuffle_fallback_chunks_and_splits (idx : List Nat) :
    Chunk.decode (shuffle_chunks idx) = idx ∧
    ((shuffle_chunks idx).map Chunk.length).sum = idx.length ∧
    (∀ A c B, shuffle_chunks idx = A ++ c :: B →
      0 < c.length ∧ c.off = (A.map Chunk.length).sum ∧
      ∀ j, j < c.length → idx[c.off + j]? = some c.idx) ∧
    (shuffle_chunks idx).Chain' (fun a b => a.idx ≠ b.idx) ∧
    (∀ (is_bool : Bool), ∀ c ∈ shuffle_chunks idx,
      ∃ r, split_chunk is_bool c.idx c.length c.off c.length = some r ∧
        (is_bool = false → ∃ ws, r = Except.ok ws) ∧
        ∀ ws, r = Except.ok ws →
          SubWritesOk c.idx c.off c.length ws ∧
          (ws.map SubWrite.exec_size).sum = c.length) ∧
    (∀ (is_bool : Bool), ∃ r, shuffle_fallback_writes is_bool idx = some r ∧
      (is_bool = false → ∃ ws, r = Except.ok ws) ∧
      ∀ ws, r = Except.ok ws → (ws.map SubWrite.exec_size).sum = idx.length) := by
  have hinv := shuffle_chunks_loop_inv idx 0 [] rfl
  have hdec : Chunk.decode (shuffle_chunks idx) = idx := by
    have := shuffle_chunks_loop_decode idx 0 []
    simpa [shuffle_chunks, Chunk.decode] using this
  obtain ⟨p1, p2, p3⟩ := chunksInv_props _ _ hinv
  have hsum : ((shuffle_chunks idx).map Chunk.length).sum = idx.length := by
    rw [← decode_length, hdec]
  refine ⟨hdec, hsum, ?_, ?_, ?_, ?_⟩
  · intro A c B hsplit
    have hrev : shuffle_chunks_loop idx 0 [] = B.reverse ++ c :: A.reverse := by
      have h2 : (shuffle_chunks_loop idx 0 []).reverse = A ++ c :: B := hsplit
      have h3 := congrArg List.reverse h2
      simpa using h3
    obtain ⟨q1, q2⟩ := p1 _ _ _ hrev
    have hoff : c.off = (A.map Chunk.length).sum := by
      rw [q2]
      simp [List.sum_reverse]
    refine ⟨q1, hoff, ?_⟩
    intro j hj
    have hidx : idx = Chunk.decode A ++ (List.replicate c.length c.idx ++ Chunk.decode B) := by
      rw [← hdec, hsplit, decode_append]
      simp [Chunk.decode]
    have hlenA : (Chunk.decode A).length = c.off := by rw [decode_length, hoff]
    rw [hidx, List.getElem?_append_right (by omega), hlenA]
    rw [show c.off + j - c.off = j by omega]
    rw [List.getElem?_append_left (by simpa using hj)]
    simp [List.getElem?_replicate, hj]
  · have : (shuffle_chunks idx).Chain' (flip (fun a b : Chunk => b.idx ≠ a.idx)) := by
      unfold shuffle_chunks
      exact List.chain'_reverse.2 (by simpa [flip] using p3)
    exact this
  · intro is_bool c _
    obtain ⟨r, h1, h2, h3⟩ := split_chunk_spec is_bool c.idx c.length c.off c.length (le_refl _)
    exact ⟨r, h1, h2, fun ws hws => ⟨(h3 ws hws).1, (h3 ws hws).2.1⟩⟩
  · intro is_bool
    obtain ⟨r, h1, h2, h3⟩ := shuffle_fallback_loop_spec is_bool (shuffle_chunks idx)
    refine ⟨r, h1, h2, ?_⟩
    intro ws hws
    rw [h3 ws hws, hsum]

theorem shuffle_fallback_chunks_and_splits_witness :
    shuffle_chunks [0, 0, 0, 1, 1, 2, 0, 0, 0, 0, 0, 0, 0]
      = [{ off := 0, length := 3, idx := 0 }, { off := 3, length := 2, idx := 1 },
         { off := 5, length := 1, idx := 2 }, { off := 6, length := 7, idx := 0 }] ∧
    split_chunk false 0 7 6 7
      = some (Except.ok [{ off := 6, exec_size := 4, idx := 0 },
          { off := 10, exec_size := 2, idx := 0 }, { off := 12, exec_size := 1, idx := 0 }]) ∧
    SubWritesOk 0 6 7 [{ off := 6, exec_size := 4, idx := 0 },
      { off := 10, exec_size := 2, idx := 0 }, { off := 12, exec_size := 1, idx := 0 }] ∧
    ([0, 0, 0, 1, 1, 2, 0, 0, 0, 0, 0, 0, 0] : List Nat)[6 + 3]? = some 0 := by
  have key := shuffle_fallback_chunks_and_splits [0, 0, 0, 1, 1, 2, 0, 0, 0, 0, 0, 0, 0]
  have hcs : shuffle_chunks [0, 0, 0, 1, 1, 2, 0, 0, 0, 0, 0, 0, 0]
      = [{ off := 0, length := 3, idx := 0 }, { off := 3, length := 2, idx := 1 },
         { off := 5, length := 1, idx := 2 }, { off := 6, length := 7, idx := 0 }] := rfl
  have hsp : split_chunk false 0 7 6 7
      = some (Except.ok [{ off := 6, exec_size := 4, idx := 0 },
          { off := 10, exec_size := 2, idx := 0 }, { off := 12, exec_size := 1, idx := 0 }]) := by
    have l7 : Nat.log2 7 = 2 := by simp [Nat.log2]
    have l3 : Nat.log2 3 = 1 := by simp [Nat.log2]
    have l1 : Nat.log2 1 = 0 := by simp [Nat.log2]
    simp [split_chunk, ilog2q, l7, l3, l1]
  obtain ⟨r, h1, _, h3⟩ := key.2.2.2.2.1 false { off := 6, length := 7, idx := 0 }
    (by rw [hcs]; simp)
  have hr : r = Except.ok [{ off := 6, exec_size := 4, idx := 0 },
      { off := 10, exec_size := 2, idx := 0 }, { off := 12, exec_size := 1, idx := 0 }] := by
    have h4 : split_chunk false 0 7 6 7 = some r := h1
    rw [hsp] at h4
    exact (Option.some.inj h4).symm
  have hpos := (key.2.2.1 [{ off := 0, length := 3, idx := 0 }, { off := 3, length := 2, idx := 1 },
      { off := 5, length := 1, idx := 2 }] { off := 6, length := 7, idx := 0 } [] hcs).2.2 3
    (by decide)
  exact ⟨hcs, hsp, (h3 _ hr).1, hpos⟩


/-! ## C22, C29: the packed-integer peephole without a division by zero -/

/-- A zero gcd of the differences means that every difference is zero. -/
theorem gcdLoop_eq_zero (gcd : Int → Int → Int)
    (hgcd0 : ∀ a b : Int, gcd a b = 0 → a = 0 ∧ b = 0) (m : Int) :
    ∀ (l : List Int) (factor : Int), gcdLoop gcd m l factor = 0 →
      factor = 0 ∧ ∀ v ∈ l, wrap32 (v - m) = 0 := by
  intro l
  induction l with
  | nil => intro factor h; exact ⟨h, by intro v hv; cases hv⟩
  | cons a rest ih =>
    intro factor h
    simp only [gcdLoop] at h
    obtain ⟨h1, h2⟩ := ih _ h
    obtain ⟨h3, h4⟩ := hgcd0 _ _ h1
    refine ⟨h4, ?_⟩
    intro v hv
    rcases List.mem_cons.1 hv with e | e
    · rw [e]; exact h3
    · exact h2 v e

/-- With a divisor that is not zero every division of a range check is
defined. -/
theorem check_range_defined (f m a b : Int) (hf : f ≠ 0) : ∀ (vec : List Int),
    ∃ r, check_range vec f m a b = some r := by
  intro vec
  induction vec with
  | nil => exact ⟨true, rfl⟩
  | cons x rest ih =>
    simp only [check_range, cdiv, hf, if_false]
    split
    · exact ⟨false, rfl⟩
    · exact ih

/-- When all constants are equal the candidate 1 passes the `:uv` range
check. -/
theorem check_range_all_zero (m : Int) : ∀ (vec : List Int),
    (∀ v ∈ vec, wrap32 (v - m) = 0) → check_range vec 1 m 0 15 = some true := by
  intro vec
  induction vec with
  | nil => intro _; rfl
  | cons x rest ih =>
    intro h
    have hx := h x (List.mem_cons_self _ _)
    simp only [check_range, cdiv, hx]
    simp only [one_ne_zero, if_false, Int.tdiv_one]
    have : wrap32 0 = 0 := rfl
    rw [this]
    simp only [lt_self_iff_false, Bool.false_or, decide_False]
    exact ih (fun v hv => h v (List.mem_cons_of_mem _ hv))

/-- The loop over the candidates `1, factor, -factor` never divides by zero:
the candidate `factor` is reached only when the candidate 1 failed, and then
`factor` is not zero. -/
theorem selectFactor_defined (vec : List Int) (m factor : Int)
    (hzero : factor = 0 → check_range vec 1 m 0 15 = some true)
    (hlo : -(2 ^ 15) ≤ factor) (hhi : factor ≤ 2 ^ 15 - 1) :
    ∃ uu vv f, selectFactor vec m factor [1, factor, wrap32 (-factor)] = some (uu, vv, f) := by
  obtain ⟨a1, ha1⟩ := check_range_defined 1 m 0 15 one_ne_zero vec
  obtain ⟨a2, ha2⟩ := check_range_defined 1 m (-8) 7 one_ne_zero vec
  simp only [selectFactor, ha1, ha2]
  by_cases h1 : (a1 || a2) = true
  · simp only [h1, if_true]
    exact ⟨_, _, _, rfl⟩
  · simp only [h1, if_false]
    have hf : factor ≠ 0 := by
      intro h0
      have := hzero h0
      rw [ha1] at this
      simp only [Option.some.injEq] at this
      subst this
      simp at h1
    obtain ⟨b1, hb1⟩ := check_range_defined factor m 0 15 hf vec
    obtain ⟨b2, hb2⟩ := check_range_defined factor m (-8) 7 hf vec
    simp only [hb1, hb2]
    by_cases h2 : (b1 || b2) = true
    · simp only [h2, if_true]
      exact ⟨_, _, _, rfl⟩
    · simp only [h2, if_false]
      have hnf : wrap32 (-factor) ≠ 0 := by
        rw [wrap32_eq _ (by omega) (by omega)]
        omega
      obtain ⟨c1, hc1⟩ := check_range_defined (wrap32 (-factor)) m 0 15 hnf vec
      obtain ⟨c2, hc2⟩ := check_range_defined (wrap32 (-factor)) m (-8) 7 hnf vec
      simp only [hc1, hc2]
      by_cases h3 : (c1 || c2) = true
      · simp only [h3, if_true]
        exact ⟨_, _, _, rfl⟩
      · simp only [h3, if_false]
        exact ⟨_, _, _, rfl⟩

/-- The packing loop is defined when the indices are valid and the factor is
not zero. -/
theorem packLoop_defined (vec : List Int) (idx : List Nat) (m f : Int) (i : Nat) (hf : f ≠ 0)
    (hidx : ∀ k ∈ idx, k < vec.length) :
    ∀ (n j packed : Nat), i + j + n ≤ idx.length →
      ∃ p, packLoop vec idx m f i n j packed = some p := by
  intro n
  induction n with
  | zero => intro j packed _; exact ⟨_, rfl⟩
  | succ n ih =>
    intro j packed h
    have hlt : i + j < idx.length := by omega
    have h1 : idx[i + j]? = some idx[i + j] := List.getElem?_eq_getElem hlt
    have hk : idx[i + j] < vec.length := hidx _ (List.getElem_mem _)
    have h2 : vec[idx[i + j]]? = some vec[idx[i + j]] := List.getElem?_eq_getElem hk
    simp only [packLoop, h1, h2, cdiv, hf, if_false]
    exact ih (j + 1) _ (by omega)

theorem packGroups_defined (vec : List Int) (idx : List Nat) (m f : Int) (hf : f ≠ 0)
    (hidx : ∀ k ∈ idx, k < vec.length) :
    ∀ (n g : Nat), 8 * (g + n) ≤ idx.length →
      ∃ ps, packGroups vec idx m f n g = some ps := by
  intro n
  induction n with
  | zero => intro g _; exact ⟨_, rfl⟩
  | succ n ih =>
    intro g h
    obtain ⟨p, hp⟩ := packLoop_defined vec idx m f (8 * g) hf hidx 8 0 0 (by omega)
    obtain ⟨ps, hps⟩ := ih (g + 1) (by omega)
    simp only [packGroups, packGroup, hp, hps]
    exact ⟨_, rfl⟩

/-- The two outcomes of `try_packed_int_peephole` on a shuffle of constants with
valid indices: it returns false for one of five reasons, or it accepts with a
factor that is not zero and a passed range check for the final `factor` and
`vec_min`. No division by zero is made on the way. -/
theorem packed_int_peephole_cases (gcd : Int → Int → Int)
    (hgcd0 : ∀ a b : Int, gcd a b = 0 → a = 0 ∧ b = 0)
    (grf_size : Int) (dst tmp : RegData) (obj : IntShuffle) (vec : List Int)
    (hvec : constVec obj.vec = some vec) (hidx : ∀ k ∈ obj.idx, k < vec.length) :
    (try_packed_int_peephole gcd grf_size dst tmp obj = Except.ok none ∧
      (obj.x32 = false ∨ ¬ (obj.elems = 8 ∨ obj.elems = 16) ∨
        (half_same obj.idx 0 && half_same obj.idx (8 % obj.elems)) = true ∨
        ∃ m M, vecMin vec = some m ∧ vecMax vec = some M ∧
          ((gcdLoop gcd m vec (wrap32 (M - m)) < -(2 ^ 15) ∨
              gcdLoop gcd m vec (wrap32 (M - m)) > 2 ^ 15 - 1) ∨
            ∃ f, selectFactor vec m (gcdLoop gcd m vec (wrap32 (M - m)))
                [1, gcdLoop gcd m vec (wrap32 (M - m)),
                  wrap32 (-(gcdLoop gcd m vec (wrap32 (M - m))))]
              = some (false, false, f)))) ∨
    ∃ (r : Packed) (V : Bool),
      try_packed_int_peephole gcd grf_size dst tmp obj = Except.ok (some r) ∧
      (obj.elems = 8 ∨ obj.elems = 16) ∧
      r.factor ≠ 0 ∧ (r.use_uv || V) = true ∧
      check_range vec r.factor r.vec_min 0 15 = some r.use_uv ∧
      check_range vec r.factor r.vec_min (-8) 7 = some V ∧
      r.packed.length = obj.elems / 8 ∧
      r.code = packedCode grf_size dst tmp obj.elems r.use_uv r.factor r.vec_min r.packed := by
  unfold try_packed_int_peephole
  cases hx : obj.x32 with
  | false => exact Or.inl ⟨by simp, Or.inl rfl⟩
  | true =>
  simp only [Bool.not_true, Bool.false_eq_true, if_false]
  by_cases hel : (obj.elems == 8 || obj.elems == 16) = true
  swap
  · refine Or.inl ⟨by simp [hel], Or.inr (Or.inl ?_)⟩
    simpa using hel
  have hel2 : obj.elems = 8 ∨ obj.elems = 16 := by simpa using hel
  simp only [hel, Bool.not_true, Bool.false_eq_true, if_false, hvec]
  by_cases hhalf : (half_same obj.idx 0 && half_same obj.idx (8 % obj.elems)) = true
  · exact Or.inl ⟨by simp only [hhalf, if_true], Or.inr (Or.inr (Or.inl hhalf))⟩
  simp only [hhalf, Bool.false_eq_true, if_false]
  have hlen : obj.idx.length = obj.elems := rfl
  have hne : vec ≠ [] := by
    have hpos : 0 < obj.idx.length := by omega
    have hk := hidx obj.idx[0] (List.getElem_mem _)
    intro hnil
    rw [hnil] at hk
    simp at hk
  obtain ⟨x0, xs, hcons⟩ := List.exists_cons_of_ne_nil hne
  have hmin : vecMin vec = some (xs.foldl min x0) := by rw [hcons]; rfl
  have hmax : vecMax vec = some (xs.foldl max x0) := by rw [hcons]; rfl
  simp only [hmin, hmax]
  generalize hm : xs.foldl min x0 = m at hmin ⊢
  generalize hM : xs.foldl max x0 = M at hmax ⊢
  generalize hF : gcdLoop gcd m vec (wrap32 (M - m)) = F
  by_cases hs16 : (decide (F < -(2 ^ 15)) || decide (F > 2 ^ 15 - 1)) = true
  · refine Or.inl ⟨by simp only [hs16, if_true], Or.inr (Or.inr (Or.inr ⟨m, M, rfl, rfl, Or.inl ?_⟩))⟩
    rw [hF]
    simpa using hs16
  simp only [hs16, Bool.false_eq_true, if_false]
  have hrange : -(2 ^ 15) ≤ F ∧ F ≤ 2 ^ 15 - 1 := by
    simp only [Bool.or_eq_true, decide_eq_true_eq, not_or, not_lt] at hs16
    omega
  have hzero : F = 0 → check_range vec 1 m 0 15 = some true := by
    intro h0
    rw [← hF] at h0
    exact check_range_all_zero m vec (gcdLoop_eq_zero gcd hgcd0 m vec _ h0).2
  obtain ⟨uu, vv, f, hsel⟩ := selectFactor_defined vec m F hzero hrange.1 hrange.2
  simp only [hsel]
  by_cases huv : (uu || vv) = true
  swap
  · have huv2 : ∀ a b : Bool, ¬ (a || b) = true → a = false ∧ b = false := by
      intro a b; cases a <;> cases b <;> simp
    obtain ⟨hu, hv⟩ := huv2 uu vv huv
    subst hu hv
    refine Or.inl ⟨by simp only [Bool.not_false, Bool.and_self, if_true], Or.inr (Or.inr (Or.inr ⟨m, M, rfl, rfl, Or.inr ⟨f, ?_⟩⟩))⟩
    rw [hF]
    exact hsel
  have hnn : (!uu && !vv) = false := by
    have : ∀ a b : Bool, (a || b) = true → (!a && !b) = false := by
      intro a b; cases a <;> cases b <;> simp
    exact this uu vv huv
  simp only [hnn, Bool.false_eq_true, if_false]
  obtain ⟨_, hcu, hcv⟩ := selectFactor_spec vec m F _ uu vv f hsel huv
  have hf : f ≠ 0 := by
    rw [hcons] at hcu
    exact check_range_divisor f m 0 15 x0 xs uu hcu
  simp only [cmod, hf, if_false]
  obtain ⟨n1, hn1⟩ := check_range_defined f 0 0 15 hf vec
  obtain ⟨n2, hn2⟩ := check_range_defined f 0 (-8) 7 hf vec
  simp only [hn1, hn2]
  have hgroups : ∀ m2 : Int, ∃ ps, packGroups vec obj.idx m2 f (obj.elems / 8) 0 = some ps ∧
      ps.length = obj.elems / 8 := by
    intro m2
    obtain ⟨ps, hps⟩ := packGroups_defined vec obj.idx m2 f hf hidx (obj.elems / 8) 0
      (by rw [hlen]; omega)
    refine ⟨ps, hps, ?_⟩
    have hl : ∀ (n g : Nat) (qs : List Nat),
        packGroups vec obj.idx m2 f n g = some qs → qs.length = n := by
      intro n
      induction n with
      | zero =>
        intro g qs h
        simp only [packGroups, Option.some.injEq] at h
        subst h
        rfl
      | succ n ih =>
        intro g qs h
        simp only [packGroups] at h
        split at h
        · rename_i p ps2 _ h2
          simp only [Option.some.injEq] at h
          subst h
          simp only [List.length_cons, ih _ _ h2]
        · simp at h
    exact hl _ _ _ hps
  by_cases hr : Int.tmod m f = 0
  · simp only [hr, if_true]
    by_cases hnew : (n1 || n2) = true
    · simp only [hnew, if_true, Option.isSome_some]
      obtain ⟨ps, hps, hpl⟩ := hgroups 0
      simp only [hps]
      exact Or.inr ⟨_, n2, rfl, hel2, hf, hnew, hn1, hn2, hpl, rfl⟩
    · simp only [hnew, Bool.false_eq_true, if_false, Option.isSome_none]
      obtain ⟨ps, hps, hpl⟩ := hgroups m
      simp only [hps]
      exact Or.inr ⟨_, vv, rfl, hel2, hf, huv, hcu, hcv, hpl, rfl⟩
  · simp only [hr, if_false, Option.isSome_none, Bool.false_eq_true]
    obtain ⟨ps, hps, hpl⟩ := hgroups m
    simp only [hps]
    exact Or.inr ⟨_, vv, rfl, hel2, hf, huv, hcu, hcv, hpl, rfl⟩


/-! ## C22: the packed-integer peephole on an arithmetic progression -/

theorem mem_progression (n : Nat) (a s v : Int) :
    v ∈ progression n a s ↔ ∃ i : Nat, i < n ∧ v = a + (i : Int) * s := by
  unfold progression
  simp only [List.mem_map, List.mem_range]
  constructor
  · rintro ⟨i, hi, rfl⟩; exact ⟨i, hi, rfl⟩
  · rintro ⟨i, hi, rfl⟩; exact ⟨i, hi, rfl⟩

theorem constVec_map_some : ∀ (vec : List Int),
    (∀ v ∈ vec, -(2 ^ 31) ≤ v ∧ v ≤ 2 ^ 31 - 1) → constVec (vec.map some) = some vec := by
  intro vec
  induction vec with
  | nil => intro _; rfl
  | cons x rest ih =>
    intro h
    obtain ⟨h1, h2⟩ := h x (List.mem_cons_self _ _)
    have hn : ¬ (x < -(2 ^ 31)) := by omega
    have hn2 : ¬ (x > 2 ^ 31 - 1) := by omega
    simp only [List.map_cons, constVec, hn, hn2, decide_False, Bool.or_self,
      Bool.false_eq_true, if_false, ih (fun v hv => h v (List.mem_cons_of_mem _ hv)),
      Option.map_some']

/-- A range check passes when every quotient is defined and in range. -/
theorem check_range_of_all (f m a b : Int) : ∀ (vec : List Int),
    (∀ v ∈ vec, ∃ d, cdiv (wrap32 (v - m)) f = some d ∧ a ≤ d ∧ d ≤ b) →
    check_range vec f m a b = some true := by
  intro vec
  induction vec with
  | nil => intro _; rfl
  | cons x rest ih =>
    intro h
    obtain ⟨d, hd, h1, h2⟩ := h x (List.mem_cons_self _ _)
    have hn : ¬ (d < a) := by omega
    have hn2 : ¬ (d > b) := by omega
    simp only [check_range, hd, hn, hn2, decide_False, Bool.or_self, Bool.false_eq_true,
      if_false]
    exact ih (fun v hv => h v (List.mem_cons_of_mem _ hv))

/-- When the candidate `factor` passes the `:uv` range check, the loop over the
candidates selects a candidate. -/
theorem selectFactor_accepts (vec : List Int) (m factor : Int) (hf : factor ≠ 0)
    (hpass : check_range vec factor m 0 15 = some true) (uu vv : Bool) (f : Int)
    (hsel : selectFactor vec m factor [1, factor, wrap32 (-factor)] = some (uu, vv, f)) :
    (uu || vv) = true := by
  obtain ⟨a1, ha1⟩ := check_range_defined 1 m 0 15 one_ne_zero vec
  obtain ⟨a2, ha2⟩ := check_range_defined 1 m (-8) 7 one_ne_zero vec
  obtain ⟨b2, hb2⟩ := check_range_defined factor m (-8) 7 hf vec
  simp only [selectFactor, ha1, ha2, hpass, hb2] at hsel
  by_cases h1 : (a1 || a2) = true
  · simp only [h1, if_true, Option.some.injEq, Prod.mk.injEq] at hsel
    rw [← hsel.1, ← hsel.2.1]
    exact h1
  · simp only [h1, Bool.false_eq_true, if_false, Bool.true_or, if_true, Option.some.injEq,
      Prod.mk.injEq] at hsel
    rw [← hsel.1]
    rfl

/-- The gcd of the differences is a multiple of every common divisor. -/
theorem dvd_gcdLoop (gcd : Int → Int → Int)
    (hgcd : ∀ a b : Int, gcd a b = (Int.gcd a b : Int)) (m c : Int) :
    ∀ (l : List Int) (factor : Int), c ∣ factor → (∀ v ∈ l, c ∣ wrap32 (v - m)) →
      c ∣ gcdLoop gcd m l factor := by
  intro l
  induction l with
  | nil => intro factor h _; exact h
  | cons x rest ih =>
    intro factor h hl
    simp only [gcdLoop]
    apply ih
    · rw [hgcd]
      exact Int.dvd_gcd (hl x (List.mem_cons_self _ _)) h
    · exact fun v hv => hl v (List.mem_cons_of_mem _ hv)

/-- The differences to the minimum of a progression are the multiples
`0, |s|, ..., (n - 1) |s|` of the absolute value of its common difference. -/
theorem progression_diffs (n : Nat) (a s m : Int) (hn : 2 ≤ n) (hs0 : s ≠ 0)
    (hmin : vecMin (progression n a s) = some m) :
    (∀ v ∈ progression n a s, ∃ j : Nat, j < n ∧ v - m = (j : Int) * |s|) ∧
    ∃ v ∈ progression n a s, v - m = |s| := by
  obtain ⟨hmem, hle⟩ := vecMin_spec _ _ hmin
  obtain ⟨i0, hi0, hm⟩ := (mem_progression n a s m).1 hmem
  rcases lt_or_gt_of_ne hs0 with hneg | hpos
  · -- negative difference: the minimum is the last element
    have habs : |s| = -s := abs_of_neg hneg
    have hlast : a + ((n - 1 : Nat) : Int) * s ∈ progression n a s :=
      (mem_progression n a s _).2 ⟨n - 1, by omega, rfl⟩
    have h1 := hle _ hlast
    have hi0n : i0 = n - 1 := by
      by_contra hne
      have hlt : (i0 : Int) + 1 ≤ ((n - 1 : Nat) : Int) := by omega
      nlinarith
    subst hi0n
    refine ⟨?_, ?_⟩
    · intro v hv
      obtain ⟨i, hi, rfl⟩ := (mem_progression n a s v).1 hv
      refine ⟨n - 1 - i, by omega, ?_⟩
      rw [hm, habs]
      have hc : ((n - 1 - i : Nat) : Int) = ((n - 1 : Nat) : Int) - (i : Int) := by omega
      rw [hc]
      ring
    · refine ⟨a + ((n - 2 : Nat) : Int) * s, (mem_progression n a s _).2 ⟨n - 2, by omega, rfl⟩, ?_⟩
      rw [hm, habs]
      have hc : ((n - 1 : Nat) : Int) = ((n - 2 : Nat) : Int) + 1 := by omega
      rw [hc]
      ring
  · have habs : |s| = s := abs_of_pos hpos
    have hfirst : a + ((0 : Nat) : Int) * s ∈ progression n a s :=
      (mem_progression n a s _).2 ⟨0, by omega, rfl⟩
    have h1 := hle _ hfirst
    have hi00 : i0 = 0 := by
      by_contra hne
      have hlt : (1 : Int) ≤ (i0 : Int) := by
        have : 1 ≤ i0 := by omega
        exact_mod_cast this
      simp only [Nat.cast_zero, zero_mul, add_zero] at h1
      nlinarith
    subst hi00
    simp only [Nat.cast_zero, zero_mul, add_zero] at hm
    refine ⟨?_, ?_⟩
    · intro v hv
      obtain ⟨i, hi, rfl⟩ := (mem_progression n a s v).1 hv
      exact ⟨i, hi, by rw [hm, habs]; ring⟩
    · refine ⟨a + ((1 : Nat) : Int) * s, (mem_progression n a s _).2 ⟨1, by omega, rfl⟩, ?_⟩
      rw [hm, habs]
      simp

/-- For a progression of at most 16 constants whose common difference `s` has
`1 <= |s| <= 32767`, the gcd of the differences is `|s|`, and the candidate `|s|`
passes the `:uv` range check. -/
theorem progression_factor (gcd : Int → Int → Int)
    (hgcd : ∀ a b : Int, gcd a b = (Int.gcd a b : Int))
    (n : Nat) (a s m M : Int) (hn : 2 ≤ n) (hn16 : n ≤ 16) (hs0 : s ≠ 0)
    (hs : |s| ≤ 32767)
    (hmin : vecMin (progression n a s) = some m)
    (hmax : vecMax (progression n a s) = some M) :
    gcdLoop gcd m (progression n a s) (wrap32 (M - m)) = |s| ∧
    check_range (progression n a s) |s| m 0 15 = some true := by
  obtain ⟨hdiff, v1, hv1, hd1⟩ := progression_diffs n a s m hn hs0 hmin
  have hSpos : 0 < |s| := abs_pos.2 hs0
  have hwrap : ∀ v ∈ progression n a s, ∃ j : Nat, j < n ∧ wrap32 (v - m) = (j : Int) * |s| := by
    intro v hv
    obtain ⟨j, hj, he⟩ := hdiff v hv
    refine ⟨j, hj, ?_⟩
    rw [he]
    have hj16 : (j : Int) ≤ 15 := by
      have : j ≤ 15 := by omega
      exact_mod_cast this
    have hj0 : (0 : Int) ≤ (j : Int) := Int.natCast_nonneg j
    apply wrap32_eq
    · nlinarith
    · nlinarith
  have hMmem := vecMax_mem _ _ hmax
  obtain ⟨jM, _, hM⟩ := hwrap M hMmem
  have hgcd' : ∀ x y : Int, 0 ≤ x → 0 ≤ y → 0 ≤ gcd x y ∧ gcd x y ∣ x ∧ gcd x y ∣ y := by
    intro x y _ _
    rw [hgcd]
    exact ⟨Int.natCast_nonneg _, Int.gcd_dvd_left, Int.gcd_dvd_right⟩
  have hinit : 0 ≤ wrap32 (M - m) := by
    rw [hM]
    exact mul_nonneg (Int.natCast_nonneg _) (le_of_lt hSpos)
  obtain ⟨g0, _, gl⟩ := gcdLoop_spec gcd hgcd' m (progression n a s) (wrap32 (M - m)) hinit
    (by
      intro v hv
      obtain ⟨j, _, he⟩ := hwrap v hv
      rw [he]
      exact mul_nonneg (Int.natCast_nonneg _) (le_of_lt hSpos))
  have hdvd1 : gcdLoop gcd m (progression n a s) (wrap32 (M - m)) ∣ |s| := by
    have := gl v1 hv1
    obtain ⟨j, _, he⟩ := hwrap v1 hv1
    have hw : wrap32 (v1 - m) = |s| := by
      rw [hd1]
      exact wrap32_eq _ (by omega) (by omega)
    rw [hw] at this
    exact this
  have hdvd2 : |s| ∣ gcdLoop gcd m (progression n a s) (wrap32 (M - m)) := by
    apply dvd_gcdLoop gcd hgcd
    · rw [hM]; exact Dvd.intro_left _ rfl
    · intro v hv
      obtain ⟨j, _, he⟩ := hwrap v hv
      rw [he]
      exact Dvd.intro_left _ rfl
  have hF : gcdLoop gcd m (progression n a s) (wrap32 (M - m)) = |s| :=
    Int.dvd_antisymm g0 (le_of_lt hSpos) hdvd1 hdvd2
  refine ⟨hF, ?_⟩
  apply check_range_of_all
  intro v hv
  obtain ⟨j, hj, he⟩ := hwrap v hv
  have hne : |s| ≠ 0 := ne_of_gt hSpos
  have hj16 : (j : Int) ≤ 15 := by
    have : j ≤ 15 := by omega
    exact_mod_cast this
  refine ⟨(j : Int), ?_, Int.natCast_nonneg j, hj16⟩
  simp only [cdiv, hne, if_false, he, Option.some.injEq]
  rw [Int.mul_tdiv_cancel _ hne]
  exact wrap32_eq _ (by omega) (by omega)

/-- The instructions of an accepted packed-integer peephole: one move of a
packed immediate for each group of eight elements, then at most one multiply,
then at most one add. -/
theorem packedCode_shape (grf_size : Int) (dst tmp : RegData) (elems : Nat) (use_uv : Bool)
    (factor vec_min : Int) (packed : List Nat) :
    ∃ movs muls adds : List Instr,
      packedCode grf_size dst tmp elems use_uv factor vec_min packed = movs ++ muls ++ adds ∧
      movs.length = packed.length ∧
      (∀ i ∈ movs, ∃ mod d p, i = Instr.emov mod d
        (imm p (if use_uv then DataType.uv else DataType.v))) ∧
      muls.length ≤ 1 ∧ (∀ i ∈ muls, ∃ mod d a b, i = Instr.emul mod d a b) ∧
      adds.length ≤ 1 ∧ (∀ i ∈ adds, ∃ mod d a b, i = Instr.eadd mod d a b) := by
  unfold packedCode
  refine ⟨_, _, _, rfl, by simp, ?_, ?_, ?_, ?_, ?_⟩
  · intro i hi
    simp only [List.mem_map] at hi
    obtain ⟨⟨g, p⟩, _, rfl⟩ := hi
    exact ⟨_, _, _, rfl⟩
  · split <;> simp
  · intro i hi
    split at hi
    · simp only [List.mem_singleton] at hi
      exact ⟨_, _, _, _, hi⟩
    · cases hi
  · split <;> simp
  · intro i hi
    split at hi
    · simp only [List.mem_singleton] at hi
      exact ⟨_, _, _, _, hi⟩
    · cases hi

/-- C22 (as the code has it). A shuffle of 8 or 16 constant 32-bit integer
elements in identity index order whose values are the arithmetic progression
`a, a + s, a + 2 s, ...` with a common difference `s` that is not zero and has
`|s| <= 32767`, all values fitting `int`, is accepted by
`try_packed_int_peephole`: it returns true and emits one move of a packed
immediate for each group of eight elements (`elems / 8` moves), then at most one
multiply and at most one add. The helper `math::gcd` is a parameter that
computes the greatest common divisor. The common difference -32768 is
representable in 16 bits but is not accepted. -/
theorem packed_int_peephole_accepts_progression (gcd : Int → Int → Int)
    (hgcd : ∀ a b : Int, gcd a b = (Int.gcd a b : Int))
    (grf_size : Int) (dst tmp : RegData) (n : Nat) (a s : Int)
    (hn : n = 8 ∨ n = 16) (hs0 : s ≠ 0) (hs : |s| ≤ 32767)
    (hfit : ∀ v ∈ progression n a s, -(2 ^ 31) ≤ v ∧ v ≤ 2 ^ 31 - 1) :
    ∃ r, try_packed_int_peephole gcd grf_size dst tmp (progressionOf n a s)
        = Except.ok (some r) ∧
      ∃ movs muls adds : List Instr,
        r.code = movs ++ muls ++ adds ∧ movs.length = n / 8 ∧
        (∀ i ∈ movs, ∃ mod d p, i = Instr.emov mod d
          (imm p (if r.use_uv then DataType.uv else DataType.v))) ∧
        muls.length ≤ 1 ∧ (∀ i ∈ muls, ∃ mod d x y, i = Instr.emul mod d x y) ∧
        adds.length ≤ 1 ∧ (∀ i ∈ adds, ∃ mod d x y, i = Instr.eadd mod d x y) := by
  have hgcd0 : ∀ x y : Int, gcd x y = 0 → x = 0 ∧ y = 0 := by
    intro x y h
    rw [hgcd] at h
    have h2 : Int.gcd x y = 0 := by exact_mod_cast h
    exact Int.gcd_eq_zero_iff.1 h2
  have hvec : constVec (progressionOf n a s).vec = some (progression n a s) :=
    constVec_map_some _ hfit
  have hlen : (progression n a s).length = n := by simp [progression]
  have hidx : ∀ k ∈ (progressionOf n a s).idx, k < (progression n a s).length := by
    intro k hk
    rw [hlen]
    exact List.mem_range.1 hk
  have helems : (progressionOf n a s).elems = n := by
    simp [IntShuffle.elems, progressionOf]
  have hn2 : 2 ≤ n ∧ n ≤ 16 := by rcases hn with h | h <;> omega
  rcases packed_int_peephole_cases gcd hgcd0 grf_size dst tmp (progressionOf n a s)
      (progression n a s) hvec hidx with ⟨_, hwhy⟩ | ⟨r, V, hacc, _, _, _, _, _, hpl, hcode⟩
  · exfalso
    rcases hwhy with h | h | h | ⟨m, M, hmin, hmax, h⟩
    · cases h
    · rw [helems] at h
      exact h hn
    · rw [helems] at h
      have hfalse : (half_same (List.range n) 0 && half_same (List.range n) (8 % n)) = false := by
        rcases hn with h8 | h16
        · subst h8; rfl
        · subst h16; rfl
      have h2 : (half_same (List.range n) 0 && half_same (List.range n) (8 % n)) = true := h
      rw [hfalse] at h2
      cases h2
    · obtain ⟨hF, hpass⟩ := progression_factor gcd hgcd n a s m M hn2.1 hn2.2 hs0 hs hmin hmax
      rw [hF] at h
      have hSpos : 0 < |s| := abs_pos.2 hs0
      rcases h with h | ⟨f, hsel⟩
      · omega
      · have := selectFactor_accepts (progression n a s) m |s| (ne_of_gt hSpos) hpass
          false false f hsel
        cases this
  · refine ⟨r, hacc, ?_⟩
    obtain ⟨movs, muls, adds, h1, h2, h3, h4, h5, h6, h7⟩ :=
      packedCode_shape grf_size dst tmp (progressionOf n a s).elems r.use_uv r.factor
        r.vec_min r.packed
    refine ⟨movs, muls, adds, by rw [hcode, h1], ?_, h3, h4, h5, h6, h7⟩
    rw [h2, hpl, helems]

/-- C22 counterexample: the eight constants `0, -32768, ..., -229376`, an
arithmetic progression in identity index order with the common difference
-32768, which is not zero and representable in signed 16 bits; all values fit
`int`. The gcd of the differences is 32768, above the largest `int16_t`, and
`try_packed_int_peephole` returns false. -/
theorem packed_int_peephole_rejects_min_int16_step :
    (-(2 : Int) ^ 15 ≤ -32768 ∧ (-32768 : Int) ≤ 2 ^ 15 - 1 ∧ (-32768 : Int) ≠ 0) ∧
    progression 8 0 (-32768)
      = [0, -32768, -65536, -98304, -131072, -163840, -196608, -229376] ∧
    try_packed_int_peephole math_gcd 32 exampleDst exampleTmp (progressionOf 8 0 (-32768))
      = Except.ok none := by
  refine ⟨by decide, by decide, ?_⟩
  rfl

theorem packed_int_peephole_accepts_progression_witness :
    ∃ r, try_packed_int_peephole math_gcd 32 exampleDst exampleTmp (progressionOf 16 5 32767)
        = Except.ok (some r) ∧
      ∃ movs muls adds : List Instr,
        r.code = movs ++ muls ++ adds ∧ movs.length = 16 / 8 ∧
        muls.length ≤ 1 ∧ adds.length ≤ 1 := by
  obtain ⟨r, h1, movs, muls, adds, h2, h3, _, h4, _, h5, _⟩ :=
    packed_int_peephole_accepts_progression math_gcd (fun _ _ => rfl) 32 exampleDst exampleTmp
      16 5 32767 (Or.inr rfl) (by decide) (by decide) (by decide)
  exact ⟨r, h1, movs, muls, adds, h2, h3, h4, h5⟩


/-! ## C23: the lowering of a fused multiply-add call -/

/-- C23. The lowering `ir_to_ngen_t::mad` of a fused multiply-add call. When
the first source operand is an immediate other than zero, the lowering is
fatal. When it is the immediate zero (and destination and the two other
sources are registers), exactly one instruction is emitted, the plain multiply
`mul(mod, dst, src1, src2)` on the formatted regions, and no `mad`. When it is
a register, the lowering is fatal (assertion at line 570) unless destination
and first source have the same byte offset inside their registers; when they
have, the instructions of `align_src_dst_offset` are followed by one `mad`
whose first source is the formatted first source, and it is the only `mad`
emitted. The hypothesis on the host: `align_src_dst_offset` emits no `mad`. -/
theorem mad_lowering (host : GenHost)
    (halign : AlignEmits host.toHost (fun i => i.isMad = false))
    (mad_func : MadFunc) (dst_op src0_op src1_op src2_op : Operand) (attr : Option Mod)
    (ra : RegAlloc) :
    (∀ v t, src0_op.kind = OperandKind.immediate v t → v ≠ 0 →
      ∃ f, mad host mad_func dst_op src0_op src1_op src2_op attr ra = Except.error f) ∧
    (∀ t dst src1 src2, src0_op.kind = OperandKind.immediate 0 t →
      dst_op.reg_data = some dst → src1_op.reg_data = some src1 →
      src2_op.reg_data = some src2 →
      ∃ i, mad host mad_func dst_op src0_op src1_op src2_op attr ra = Except.ok ([i], ra) ∧
        i.isMul = true ∧ i.isMad = false ∧
        i = Instr.other mnemonic_mul
          (match attr with
            | some a => (execMod mad_func.exec_size).or a
            | none => execMod mad_func.exec_size)
          (regOp (dst.format host.grf_size 0 mad_func.exec_size 1
            (to_ngen mad_func.dst_type.kind)))
          [regOp (src1.format host.grf_size 0
              (if mad_func.src1_stride == 0 then 1 else mad_func.exec_size)
              mad_func.src1_stride (to_ngen mad_func.src1_type.kind)),
           regOp (src2.format host.grf_size 0
              (if mad_func.src2_stride == 0 then 1 else mad_func.exec_size)
              mad_func.src2_stride (to_ngen mad_func.src2_type.kind))]) ∧
    (∀ r dst src1 src2, src0_op.kind = OperandKind.reg_buf_data r →
      dst_op.reg_data = some dst → src1_op.reg_data = some src1 →
      src2_op.reg_data = some src2 →
      (dst.byteOffset % host.grf_size ≠ r.byteOffset % host.grf_size →
        mad host mad_func dst_op src0_op src1_op src2_op attr ra
          = Except.error (Fatal.assertion 570)) ∧
      (dst.byteOffset % host.grf_size = r.byteOffset % host.grf_size →
        ∃ (A : List Instr) (srcs : List Operand) (ra1 : RegAlloc),
          mad host mad_func dst_op src0_op src1_op src2_op attr ra
            = Except.ok (A ++ [Instr.other mnemonic_mad
                (match attr with
                  | some a => (execMod mad_func.exec_size).or a
                  | none => execMod mad_func.exec_size)
                (regOp (dst.format host.grf_size 0 mad_func.exec_size 1
                  (to_ngen mad_func.dst_type.kind)))
                (regOp (r.format host.grf_size 0 mad_func.exec_size 1
                  (to_ngen mad_func.dst_type.kind)) :: srcs)], ra1) ∧
          (∀ i ∈ A, i.isMad = false) ∧
          ((A ++ [Instr.other mnemonic_mad
                (match attr with
                  | some a => (execMod mad_func.exec_size).or a
                  | none => execMod mad_func.exec_size)
                (regOp (dst.format host.grf_size 0 mad_func.exec_size 1
                  (to_ngen mad_func.dst_type.kind)))
                (regOp (r.format host.grf_size 0 mad_func.exec_size 1
                  (to_ngen mad_func.dst_type.kind)) :: srcs)]).filter Instr.isMad).length
            = 1)) := by
  refine ⟨?_, ?_, ?_⟩
  · intro v t hk hv
    unfold mad
    cases hd : dst_op.reg_data with
    | none => exact ⟨_, rfl⟩
    | some dst =>
      cases h1 : src1_op.reg_data with
      | none => exact ⟨_, rfl⟩
      | some src1 =>
        cases h2 : src2_op.reg_data with
        | none => exact ⟨_, rfl⟩
        | some src2 =>
          refine ⟨Fatal.assertion 551, ?_⟩
          simp [Operand.is_immediate, Operand.immediate, hk, hv]
  · intro t dst src1 src2 hk hd h1 h2
    refine ⟨_, ?heq, ?hmul, ?hmad, rfl⟩
    case hmul => rfl
    case hmad => rfl
    case heq =>
      unfold mad
      simp only [hd, h1, h2]
      simp [Operand.is_immediate, Operand.immediate, hk]
  · intro r dst src1 src2 hk hd h1 h2
    have hnotimm : src0_op.is_immediate = false := by simp [Operand.is_immediate, hk]
    have hreg : src0_op.reg_data = some r := by simp [Operand.reg_data, hk]
    constructor
    · intro hne
      unfold mad
      simp only [hd, h1, h2, hnotimm, hreg]
      simp [RegData.format, hne]
    · intro heq
      have hal := halign ra
        (match attr with
          | some a => (execMod mad_func.exec_size).or a
          | none => execMod mad_func.exec_size)
        (regOp (dst.format host.grf_size 0 mad_func.exec_size 1
          (to_ngen mad_func.dst_type.kind)))
        (regOp (src1.format host.grf_size 0
          (if mad_func.src1_stride == 0 then 1 else mad_func.exec_size)
          mad_func.src1_stride (to_ngen mad_func.src1_type.kind)))
        (regOp (src2.format host.grf_size 0
          (if mad_func.src2_stride == 0 then 1 else mad_func.exec_size)
          mad_func.src2_stride (to_ngen mad_func.src2_type.kind)))
      have hcount : ∀ (A : List Instr) (m : Mod) (d : Operand) (srcs : List Operand),
          (∀ i ∈ A, i.isMad = false) →
          ((A ++ [Instr.other mnemonic_mad m d srcs]).filter Instr.isMad).length = 1 := by
        intro A m d srcs hA
        rw [List.filter_append, List.filter_eq_nil_iff.2 (fun i hi => by simp [hA i hi])]
        rfl
      unfold mad
      simp only [hd, h1, h2, hnotimm, hreg]
      have hoff : ((dst.format host.grf_size 0 mad_func.exec_size 1
            (to_ngen mad_func.dst_type.kind)).byteOffset
          != (r.format host.grf_size 0 mad_func.exec_size 1
            (to_ngen mad_func.dst_type.kind)).byteOffset) = false := by
        simp [RegData.format, heq]
      simp only [Bool.not_false, if_true, hoff, Bool.false_eq_true, if_false]
      split_ifs at hal ⊢ <;> exact ⟨_, _, _, rfl, hal, hcount _ _ _ _ hal⟩

/-- The helper `align_src_dst_offset` of the example host emits nothing. -/
theorem exampleGenHost_label_free_mad :
    AlignEmits exampleGenHost.toHost (fun i => i.isMad = false) := by
  intro ra mod dst a b i hi
  cases hi

theorem mad_lowering_witness :
    (∃ i, mad exampleGenHost exampleMad
        (regOp { base := 50, byteOffset := 0, type := DataType.f }) (imm 0 DataType.f)
        (regOp { base := 51, byteOffset := 0, type := DataType.f })
        (regOp { base := 52, byteOffset := 0, type := DataType.f }) none { next_grf := 60 }
        = Except.ok ([i], { next_grf := 60 }) ∧ i.isMul = true ∧ i.isMad = false) ∧
    (∃ f, mad exampleGenHost exampleMad
        (regOp { base := 50, byteOffset := 0, type := DataType.f }) (imm 3 DataType.f)
        (regOp { base := 51, byteOffset := 0, type := DataType.f })
        (regOp { base := 52, byteOffset := 0, type := DataType.f }) none { next_grf := 60 }
        = Except.error f) ∧
    mad exampleGenHost exampleMad
        (regOp { base := 50, byteOffset := 0, type := DataType.f })
        (regOp { base := 53, byteOffset := 16, type := DataType.f })
        (regOp { base := 51, byteOffset := 0, type := DataType.f })
        (regOp { base := 52, byteOffset := 0, type := DataType.f }) none { next_grf := 60 }
      = Except.error (Fatal.assertion 570) := by
  refine ⟨?_, ?_, ?_⟩
  · obtain ⟨i, h1, h2, h3, _⟩ :=
      (mad_lowering exampleGenHost exampleGenHost_label_free_mad exampleMad
        (regOp { base := 50, byteOffset := 0, type := DataType.f }) (imm 0 DataType.f)
        (regOp { base := 51, byteOffset := 0, type := DataType.f })
        (regOp { base := 52, byteOffset := 0, type := DataType.f }) none
        { next_grf := 60 }).2.1 DataType.f _ _ _ rfl rfl rfl rfl
    exact ⟨i, h1, h2, h3⟩
  · exact (mad_lowering exampleGenHost exampleGenHost_label_free_mad exampleMad
        (regOp { base := 50, byteOffset := 0, type := DataType.f }) (imm 3 DataType.f)
        (regOp { base := 51, byteOffset := 0, type := DataType.f })
        (regOp { base := 52, byteOffset := 0, type := DataType.f }) none
        { next_grf := 60 }).1 3 DataType.f rfl (by decide)
  · exact ((mad_lowering exampleGenHost exampleGenHost_label_free_mad exampleMad
        (regOp { base := 50, byteOffset := 0, type := DataType.f })
        (regOp { base := 53, byteOffset := 16, type := DataType.f })
        (regOp { base := 51, byteOffset := 0, type := DataType.f })
        (regOp { base := 52, byteOffset := 0, type := DataType.f }) none
        { next_grf := 60 }).2.2 _ _ _ _ rfl rfl rfl rfl).1 (by decide)


/-! ## C24: the reference-counted bank-conflict allocations -/

theorem bc_update_entry_fst (b : Nat) (f : BcAllocation → BcAllocation)
    (p : Nat × BcAllocation) : (bc_update_entry b f p).1 = p.1 := by
  unfold bc_update_entry
  split <;> rfl

theorem bc_update_entry_snd (b : Nat) (f : BcAllocation → BcAllocation)
    (p : Nat × BcAllocation) :
    (bc_update_entry b f p).2 = if p.1 = b then f p.2 else p.2 := by
  unfold bc_update_entry
  by_cases h : p.1 = b <;> simp [h]

theorem lookup_map_update (L : List (Nat × BcAllocation)) (a b : Nat)
    (f : BcAllocation → BcAllocation) :
    (L.map (bc_update_entry b f)).lookup a
      = if a = b then (L.lookup a).map f else L.lookup a := by
  induction L with
  | nil => simp
  | cons p rest ih =>
    have hp : bc_update_entry b f p = ((bc_update_entry b f p).1, (bc_update_entry b f p).2) := rfl
    rw [List.map_cons, hp, bc_update_entry_fst, bc_update_entry_snd]
    obtain ⟨k, v⟩ := p
    by_cases hak : a = k
    · subst hak
      by_cases hab : a = b
      · simp [List.lookup, hab]
      · simp [List.lookup, hab]
    · have h1 : (a == k) = false := by simpa using hak
      simp only [List.lookup, h1, ih]

theorem lookup_filter_erase (L : List (Nat × BcAllocation)) (a b : Nat) :
    (L.filter (fun p => p.1 != b)).lookup a = if a = b then none else L.lookup a := by
  induction L with
  | nil => simp
  | cons p rest ih =>
    obtain ⟨k, v⟩ := p
    by_cases hkb : k = b
    · subst hkb
      rw [List.filter_cons_of_neg (by simp), ih]
      by_cases hak : a = k
      · simp [hak]
      · have h1 : (a == k) = false := by simpa using hak
        simp [List.lookup, h1, hak]
    · rw [List.filter_cons_of_pos (by simpa using hkb)]
      by_cases hak : a = k
      · subst hak
        simp [List.lookup, hkb]
      · have h1 : (a == k) = false := by simpa using hak
        simp only [List.lookup, h1, ih]

theorem filter_key_map_update (L : List (Nat × BcAllocation)) (a b : Nat)
    (f : BcAllocation → BcAllocation) :
    ((L.map (bc_update_entry b f)).filter (fun p => p.1 == a)).length
      = (L.filter (fun p => p.1 == a)).length := by
  induction L with
  | nil => rfl
  | cons p rest ih =>
    rw [List.map_cons]
    by_cases hka : p.1 = a
    · rw [List.filter_cons_of_pos (by simpa [bc_update_entry_fst] using hka),
        List.filter_cons_of_pos (by simpa using hka)]
      simp only [List.length_cons, ih]
    · rw [List.filter_cons_of_neg (by simpa [bc_update_entry_fst] using hka),
        List.filter_cons_of_neg (by simpa using hka)]
      exact ih

theorem filter_key_erase_le (L : List (Nat × BcAllocation)) (a b : Nat) :
    ((L.filter (fun p => p.1 != b)).filter (fun p => p.1 == a)).length
      ≤ (L.filter (fun p => p.1 == a)).length := by
  rw [List.filter_comm]
  exact List.length_filter_le _ _

theorem filter_key_erase_self (L : List (Nat × BcAllocation)) (a : Nat) :
    ((L.filter (fun p => p.1 != a)).filter (fun p => p.1 == a)).length = 0 := by
  rw [List.length_eq_zero, List.filter_filter]
  apply List.filter_eq_nil_iff.2
  intro p _
  by_cases h : p.1 = a <;> simp [h]

theorem filter_key_of_lookup_none (L : List (Nat × BcAllocation)) (a : Nat)
    (h : L.lookup a = none) : L.filter (fun p => p.1 == a) = [] := by
  induction L with
  | nil => rfl
  | cons p rest ih =>
    obtain ⟨k, v⟩ := p
    by_cases hak : a = k
    · subst hak
      simp [List.lookup] at h
    · have h1 : (a == k) = false := by simpa using hak
      simp only [List.lookup, h1] at h
      have hka : ¬ (k = a) := fun e => hak e.symm
      rw [List.filter_cons_of_neg (by simpa using hka)]
      exact ih h

theorem BcState.find_update (st : BcState) (a b : Nat) (f : BcAllocation → BcAllocation) :
    (st.update b f).find a = if a = b then (st.find a).map f else st.find a :=
  lookup_map_update st.bc_allocations a b f

theorem BcState.find_erase (st : BcState) (a b : Nat) :
    (st.erase b).find a = if a = b then none else st.find a :=
  lookup_filter_erase st.bc_allocations a b

theorem BcState.refs_nonneg (st : BcState) (a : Nat) (h : st.Wf a) :
    0 ≤ st.refs a ∧ ((st.find a).isSome ↔ 0 < st.refs a) := by
  unfold BcState.refs
  cases hf : st.find a with
  | none => simp
  | some e =>
    have := h.2 e hf
    simp only [Option.isSome_some, true_iff]
    omega

/-- What one call does to the entry of `attr`. -/
theorem bc_step_spec (create : Nat → RegAlloc → Option Int × RegAlloc) (c : BcCall)
    (st st1 : BcState) (res : Option (Option BcRegBuf)) (attr : Nat) (hwf : st.Wf attr)
    (h : bc_step create c st = Except.ok (st1, res)) :
    st1.Wf attr ∧ st1.refs attr ≤ st.refs attr + bc_depth attr [c] ∧
    (st1.refs attr = st.refs attr + bc_depth attr [c] →
      ∀ buf, c = BcCall.create attr buf →
        ∃ e, st1.find attr = some e ∧ res = some (some (e.get_reg_buf buf))) ∧
    (∀ e e2, st.find attr = some e → st1.find attr = some e2 → e2.base = e.base) := by
  cases c with
  | create b buf =>
    simp only [bc_step, Except.ok.injEq, Prod.mk.injEq] at h
    obtain ⟨hst, hres⟩ := h
    unfold create_bank_conflict_allocation at hst hres
    cases hfb : st.find b with
    | some eb =>
      simp only [hfb] at hst hres
      subst hst
      by_cases hab : attr = b
      · subst hab
        have hf1 : (st.update attr (fun a => { a with refs := a.refs + 1 })).find attr
            = some { eb with refs := eb.refs + 1 } := by
          rw [BcState.find_update, if_pos rfl, hfb]; rfl
        refine ⟨⟨?_, ?_⟩, ?_, ?_, ?_⟩
        · show ((st.bc_allocations.map _).filter _).length ≤ 1
          rw [filter_key_map_update]
          exact hwf.1
        · intro a ha
          rw [hf1] at ha
          simp only [Option.some.injEq] at ha
          subst ha
          have := hwf.2 eb hfb
          show 1 ≤ eb.refs + 1
          omega
        · simp only [BcState.refs, hf1, hfb, bc_depth, if_true]
          omega
        · intro _ buf2 hc
          simp only [BcCall.create.injEq] at hc
          refine ⟨_, hf1, ?_⟩
          rw [← hres, hf1, hc.2]
        · intro e e2 he he2
          rw [hfb] at he
          rw [hf1] at he2
          simp only [Option.some.injEq] at he he2
          subst he he2
          rfl
      · have hf1 : (st.update b (fun a => { a with refs := a.refs + 1 })).find attr
            = st.find attr := by
          rw [BcState.find_update, if_neg hab]
        have hba : ¬ (b = attr) := fun e => hab e.symm
        refine ⟨⟨?_, ?_⟩, ?_, ?_, ?_⟩
        · show ((st.bc_allocations.map _).filter _).length ≤ 1
          rw [filter_key_map_update]
          exact hwf.1
        · intro a ha
          rw [hf1] at ha
          exact hwf.2 a ha
        · simp [BcState.refs, hf1, bc_depth, hba]
        · intro _ buf2 hc
          simp only [BcCall.create.injEq] at hc
          exact absurd hc.1.symm hab
        · intro e e2 he he2
          rw [hf1, he] at he2
          simp only [Option.some.injEq] at he2
          subst he2
          rfl
    | none =>
      simp only [hfb] at hst hres
      cases hcr : create b st.ra with
      | mk ob ra1 =>
        rw [hcr] at hst hres
        cases ob with
        | none =>
          simp only at hst hres
          subst hst
          have hf1 : ({ st with ra := ra1 } : BcState).find attr = st.find attr := rfl
          refine ⟨⟨hwf.1, hwf.2⟩, ?_, ?_, ?_⟩
          · show st.refs attr ≤ st.refs attr + bc_depth attr [BcCall.create b buf]
            simp only [bc_depth]
            split <;> omega
          · intro hex buf2 hc
            simp only [BcCall.create.injEq] at hc
            have hr : ({ st with ra := ra1 } : BcState).refs attr = st.refs attr := rfl
            rw [hr] at hex
            simp only [bc_depth, hc.1, if_true] at hex
            omega
          · intro e e2 he he2
            rw [hf1, he] at he2
            simp only [Option.some.injEq] at he2
            subst he2
            rfl
        | some base =>
          simp only at hst hres
          subst hst
          by_cases hab : attr = b
          · subst hab
            have hf1 : ({ bc_allocations := (attr, { base := base, refs := 1 })
                :: st.bc_allocations, ra := ra1 } : BcState).find attr
                = some { base := base, refs := 1 } := by
              simp [BcState.find, List.lookup]
            refine ⟨⟨?_, ?_⟩, ?_, ?_, ?_⟩
            · show (((attr, ({ base := base, refs := 1 } : BcAllocation))
                  :: st.bc_allocations).filter (fun p => p.1 == attr)).length ≤ 1
              rw [List.filter_cons_of_pos (by simp),
                filter_key_of_lookup_none _ _ hfb]
              simp
            · intro a ha
              rw [hf1] at ha
              simp only [Option.some.injEq] at ha
              subst ha
              exact le_refl _
            · simp only [BcState.refs, hf1, hfb, bc_depth, if_true]
              omega
            · intro _ buf2 hc
              simp only [BcCall.create.injEq] at hc
              refine ⟨_, hf1, ?_⟩
              rw [← hres, hc.2]
            · intro e e2 he _
              rw [hfb] at he
              cases he
          · have hf1 : ({ bc_allocations := (b, { base := base, refs := 1 })
                :: st.bc_allocations, ra := ra1 } : BcState).find attr = st.find attr := by
              have h1 : (attr == b) = false := by simpa using hab
              simp [BcState.find, List.lookup, h1]
            have hba : ¬ (b = attr) := fun e => hab e.symm
            refine ⟨⟨?_, ?_⟩, ?_, ?_, ?_⟩
            · show (((b, ({ base := base, refs := 1 } : BcAllocation))
                  :: st.bc_allocations).filter (fun p => p.1 == attr)).length ≤ 1
              rw [List.filter_cons_of_neg (by simpa using hba)]
              exact hwf.1
            · intro a ha
              rw [hf1] at ha
              exact hwf.2 a ha
            · simp [BcState.refs, hf1, bc_depth, hba]
            · intro _ buf2 hc
              simp only [BcCall.create.injEq] at hc
              exact absurd hc.1.symm hab
            · intro e e2 he he2
              rw [hf1, he] at he2
              simp only [Option.some.injEq] at he2
              subst he2
              rfl
  | release b buf =>
    simp only [bc_step] at h
    cases hrel : release_bank_conflict_allocation b buf st with
    | error f => rw [hrel] at h; simp at h
    | ok st2 =>
      rw [hrel] at h
      simp only [Except.ok.injEq, Prod.mk.injEq] at h
      obtain ⟨hst, _⟩ := h
      subst hst
      unfold release_bank_conflict_allocation at hrel
      cases hfb : st.find b with
      | none => rw [hfb] at hrel; simp at hrel
      | some eb =>
        rw [hfb] at hrel
        simp only at hrel
        have hfu : (st.update b (fun a => { a with refs := a.refs - 1 })).find b
            = some { eb with refs := eb.refs - 1 } := by
          rw [BcState.find_update, if_pos rfl, hfb]; rfl
        rw [hfu] at hrel
        simp only at hrel
        have hcount : ∀ st3 : BcState,
            (st3 = st.update b (fun a => { a with refs := a.refs - 1 }) ∨
              st3 = (st.update b (fun a => { a with refs := a.refs - 1 })).erase b) →
            (st3.bc_allocations.filter (fun p => p.1 == attr)).length ≤ 1 := by
          intro st3 h3
          rcases h3 with h3 | h3
          · subst h3
            show ((st.bc_allocations.map _).filter _).length ≤ 1
            rw [filter_key_map_update]
            exact hwf.1
          · subst h3
            refine le_trans (filter_key_erase_le _ _ _) ?_
            show ((st.bc_allocations.map _).filter _).length ≤ 1
            rw [filter_key_map_update]
            exact hwf.1
        by_cases hab : attr = b
        · subst hab
          have hge := hwf.2 eb hfb
          by_cases hz : eb.refs - 1 = 0
          · have hz2 : ((eb.refs - 1) == 0) = true := by simpa using hz
            simp only [hz2, if_true, Except.ok.injEq] at hrel
            subst hrel
            have hf1 : ((st.update attr (fun a => { a with refs := a.refs - 1 })).erase attr).find
                attr = none := by
              rw [BcState.find_erase, if_pos rfl]
            refine ⟨⟨hcount _ (Or.inr rfl), ?_⟩, ?_, ?_, ?_⟩
            · intro a ha
              rw [hf1] at ha
              cases ha
            · simp only [BcState.refs, hf1, hfb, bc_depth, if_true]
              omega
            · intro _ buf2 hc
              cases hc
            · intro e e2 _ he2
              rw [hf1] at he2
              cases he2
          · have hz2 : ((eb.refs - 1) == 0) = false := by simpa using hz
            simp only [hz2, Bool.false_eq_true, if_false, Except.ok.injEq] at hrel
            subst hrel
            refine ⟨⟨hcount _ (Or.inl rfl), ?_⟩, ?_, ?_, ?_⟩
            · intro a ha
              rw [hfu] at ha
              simp only [Option.some.injEq] at ha
              subst ha
              show 1 ≤ eb.refs - 1
              omega
            · simp only [BcState.refs, hfu, hfb, bc_depth, if_true]
              omega
            · intro _ buf2 hc
              cases hc
            · intro e e2 he he2
              rw [hfb] at he
              rw [hfu] at he2
              simp only [Option.some.injEq] at he he2
              subst he he2
              rfl
        · have hba : ¬ (b = attr) := fun e => hab e.symm
          have hf1 : st2.find attr = st.find attr := by
            split at hrel
            · simp only [Except.ok.injEq] at hrel
              subst hrel
              rw [BcState.find_erase, if_neg hab, BcState.find_update, if_neg hab]
            · simp only [Except.ok.injEq] at hrel
              subst hrel
              rw [BcState.find_update, if_neg hab]
          have hc1 : (st2.bc_allocations.filter (fun p => p.1 == attr)).length ≤ 1 := by
            split at hrel
            · simp only [Except.ok.injEq] at hrel
              exact hcount _ (Or.inr hrel.symm)
            · simp only [Except.ok.injEq] at hrel
              exact hcount _ (Or.inl hrel.symm)
          refine ⟨⟨hc1, ?_⟩, ?_, ?_, ?_⟩
          · intro a ha
            rw [hf1] at ha
            exact hwf.2 a ha
          · simp [BcState.refs, hf1, bc_depth, hba]
          · intro _ buf2 hc
            cases hc
          · intro e e2 he he2
            rw [hf1, he] at he2
            simp only [Option.some.injEq] at he2
            subst he2
            rfl

theorem bc_depth_append (a : Nat) : ∀ (p q : List BcCall),
    bc_depth a (p ++ q) = bc_depth a p + bc_depth a q := by
  intro p
  induction p with
  | nil => intro q; simp [bc_depth]
  | cons c rest ih =>
    intro q
    have hq := ih q
    cases c with
    | create b buf =>
      show (if b = a then 1 else 0) + bc_depth a (rest ++ q)
        = (if b = a then 1 else 0) + bc_depth a rest + bc_depth a q
      rw [hq]; omega
    | release b buf =>
      show (if b = a then -1 else 0) + bc_depth a (rest ++ q)
        = (if b = a then -1 else 0) + bc_depth a rest + bc_depth a q
      rw [hq]; omega

/-- The calls of a statement are balanced: as many releases as creates for
every attribute. -/
theorem bc_depth_calls (a : Nat) : ∀ s : Stmt, bc_depth a s.bc_calls = 0 := by
  intro s
  induction s with
  | nop => rfl
  | seq head tail ih1 ih2 => simp [Stmt.bc_calls, bc_depth_append, ih1, ih2]
  | alloc kind buf size attr is_header body ih =>
    simp only [Stmt.bc_calls]
    split
    · rename_i b _ _
      simp only [bc_depth, bc_depth_append, ih]
      split <;> simp
    · exact ih
  | for_ var init bound step body ih => exact ih
  | send_call func args attr => rfl
  | call func args attr => rfl
  | if_ cond body else_body ih1 ih2 => simp [Stmt.bc_calls, bc_depth_append, ih1, ih2]
  | let_ var value body ih => exact ih
  | store buf off value stride mask fill => rfl
  | while_ cond body ih => exact ih

theorem run_bc_calls_append (create : Nat → RegAlloc → Option Int × RegAlloc) :
    ∀ (p q : List BcCall) (st st1 : BcState),
      run_bc_calls create (p ++ q) st = Except.ok st1 →
      ∃ stp, run_bc_calls create p st = Except.ok stp ∧
        run_bc_calls create q stp = Except.ok st1 := by
  intro p
  induction p with
  | nil => intro q st st1 h; exact ⟨st, rfl, h⟩
  | cons c rest ih =>
    intro q st st1 h
    simp only [List.cons_append, run_bc_calls] at h ⊢
    cases hs : bc_step create c st with
    | error f => rw [hs] at h; simp at h
    | ok r =>
      rw [hs] at h
      simp only at h ⊢
      exact ih q _ _ h

theorem run_bc_calls_snoc (create : Nat → RegAlloc → Option Int × RegAlloc) (c : BcCall) :
    ∀ (l : List BcCall) (a b d : BcState) (res : Option (Option BcRegBuf)),
      run_bc_calls create l a = Except.ok b → bc_step create c b = Except.ok (d, res) →
      run_bc_calls create (l ++ [c]) a = Except.ok d := by
  intro l
  induction l with
  | nil =>
    intro a b d res hab hs
    simp only [run_bc_calls, Except.ok.injEq] at hab
    subst hab
    simp only [List.nil_append, run_bc_calls, hs]
  | cons e rest ih =>
    intro a b d res hab hs
    simp only [List.cons_append, run_bc_calls] at hab ⊢
    cases hd : bc_step create e a with
    | error f => rw [hd] at hab; simp at hab
    | ok r2 =>
      rw [hd] at hab
      simp only at hab ⊢
      exact ih _ _ _ _ hab hs

/-- A sequence of calls keeps the map well formed and raises the reference
count of `attr` by at most its creates minus its releases. -/
theorem run_bc_calls_bound (create : Nat → RegAlloc → Option Int × RegAlloc) (attr : Nat) :
    ∀ (calls : List BcCall) (st st1 : BcState), st.Wf attr →
      run_bc_calls create calls st = Except.ok st1 →
      st1.Wf attr ∧ st1.refs attr ≤ st.refs attr + bc_depth attr calls := by
  intro calls
  induction calls with
  | nil =>
    intro st st1 hwf h
    simp only [run_bc_calls, Except.ok.injEq] at h
    subst h
    exact ⟨hwf, by simp [bc_depth]⟩
  | cons c rest ih =>
    intro st st1 hwf h
    simp only [run_bc_calls] at h
    cases hs : bc_step create c st with
    | error f => rw [hs] at h; simp at h
    | ok r =>
      obtain ⟨st2, res⟩ := r
      rw [hs] at h
      simp only at h
      obtain ⟨w2, b2, _, _⟩ := bc_step_spec create c st st2 res attr hwf hs
      obtain ⟨w3, b3⟩ := ih st2 st1 w2 h
      refine ⟨w3, ?_⟩
      have hd : bc_depth attr (c :: rest) = bc_depth attr [c] + bc_depth attr rest := by
        have := bc_depth_append attr [c] rest
        simpa using this
      rw [hd]
      omega

/-- C24. The calls of `create_bank_conflict_allocation` and
`release_bank_conflict_allocation` that the traversal of a statement makes,
looked at for one bank-conflict attribute `attr` that has no entry in the map
when the traversal starts, in a traversal that no call halts. When the
traversal is over the map has no entry for `attr` again. After every prefix of
the calls the map has at most one entry for `attr`; it has one exactly when the
prefix holds more creates than releases for `attr`, and the reference count of
the entry is their difference, so the entry is erased by the release that brings
the count to zero. Every create for `attr` returns the register buffer of the
entry that is in the map after it, and a call that finds an entry and leaves one
leaves the same allocation: the buffers between a first create and the release
that erases the entry share one allocation. -/
theorem bank_conflict_allocation_is_reference_counted
    (create : Nat → RegAlloc → Option Int × RegAlloc) (s : Stmt) (attr : Nat)
    (st st1 : BcState) (hnone : st.find attr = none)
    (hrun : run_bc_calls create s.bc_calls st = Except.ok st1) :
    st1.find attr = none ∧
    ∀ p q, s.bc_calls = p ++ q →
      ∃ stp, run_bc_calls create p st = Except.ok stp ∧
        (stp.bc_allocations.filter (fun e => e.1 == attr)).length ≤ 1 ∧
        ((stp.find attr).isSome ↔ 0 < bc_depth attr p) ∧
        stp.refs attr = bc_depth attr p ∧
        ∀ c q2, q = c :: q2 →
          ∃ stc res, bc_step create c stp = Except.ok (stc, res) ∧
            (∀ buf, c = BcCall.create attr buf →
              ∃ e, stc.find attr = some e ∧ res = some (some (e.get_reg_buf buf))) ∧
            (∀ e e2, stp.find attr = some e → stc.find attr = some e2 →
              e2.base = e.base) := by
  have hwf : st.Wf attr := by
    refine ⟨?_, ?_⟩
    · rw [filter_key_of_lookup_none _ _ hnone]
      simp
    · intro a ha
      rw [hnone] at ha
      cases ha
  have hr0 : st.refs attr = 0 := by simp [BcState.refs, hnone]
  have hbal := bc_depth_calls attr s
  have hexact : ∀ p q, s.bc_calls = p ++ q → ∀ stp,
      run_bc_calls create p st = Except.ok stp →
      run_bc_calls create q stp = Except.ok st1 →
      stp.Wf attr ∧ stp.refs attr = bc_depth attr p := by
    intro p q hsplit stp hp hq
    obtain ⟨w1, b1⟩ := run_bc_calls_bound create attr p st stp hwf hp
    obtain ⟨w2, b2⟩ := run_bc_calls_bound create attr q stp st1 w1 hq
    have hn := (BcState.refs_nonneg st1 attr w2).1
    have hd := bc_depth_append attr p q
    rw [← hsplit, hbal] at hd
    refine ⟨w1, ?_⟩
    omega
  constructor
  · obtain ⟨w, e⟩ := hexact s.bc_calls [] (by simp) st1 hrun rfl
    rw [hbal] at e
    have := (BcState.refs_nonneg st1 attr w).2
    cases hf : st1.find attr with
    | none => rfl
    | some a =>
      rw [hf] at this
      have h2 := this.1 rfl
      omega
  · intro p q hsplit
    have hrun2 := hrun
    rw [hsplit] at hrun2
    obtain ⟨stp, hp, hq⟩ := run_bc_calls_append create p q st st1 hrun2
    obtain ⟨w, e⟩ := hexact p q hsplit stp hp hq
    refine ⟨stp, hp, w.1, ?_, e, ?_⟩
    · rw [← e]
      exact (BcState.refs_nonneg stp attr w).2
    · intro c q2 hq2
      subst hq2
      simp only [run_bc_calls] at hq
      cases hs : bc_step create c stp with
      | error f => rw [hs] at hq; simp at hq
      | ok r =>
        obtain ⟨stc, res⟩ := r
        rw [hs] at hq
        simp only at hq
        obtain ⟨_, _, s3, s4⟩ := bc_step_spec create c stp stc res attr w hs
        have hpc := run_bc_calls_snoc create c p st stp stc res hp hs
        obtain ⟨_, e2⟩ := hexact (p ++ [c]) q2 (by simp [hsplit]) stc hpc hq
        have hd := bc_depth_append attr p [c]
        exact ⟨stc, res, rfl, s3 (by rw [e2, hd, e]), s4⟩

theorem bank_conflict_allocation_is_reference_counted_witness :
    run_bc_calls exampleBcCreate exampleBcNest.bc_calls {} = Except.ok {} ∧
    ∃ stp, run_bc_calls exampleBcCreate (exampleBcNest.bc_calls.take 2) {} = Except.ok stp ∧
      stp.refs 5 = 2 ∧ (stp.bc_allocations.filter (fun e => e.1 == 5)).length ≤ 1 := by
  have hrun : run_bc_calls exampleBcCreate exampleBcNest.bc_calls {} = Except.ok {} := rfl
  obtain ⟨stp, h1, h2, _, h4, _⟩ :=
    (bank_conflict_allocation_is_reference_counted exampleBcCreate exampleBcNest 5 {} {} rfl
      hrun).2 (exampleBcNest.bc_calls.take 2) (exampleBcNest.bc_calls.drop 2)
      (List.take_append_drop 2 _).symm
  exact ⟨hrun, stp, h1, h4, h2⟩


/-! ## C25, C27: the allocation of headers -/

/-- What one `try_alloc_range` does to the register file: an invalid range
leaves it as it is; a valid one has the requested length, all its registers
were free, and the free registers afterwards are those outside the range. -/
theorem try_alloc_range_spec (rf : RegFile) (regs : Int) :
    ((rf.try_alloc_range regs).1 = none ∧ (rf.try_alloc_range regs).2 = rf) ∨
    ∃ r, (rf.try_alloc_range regs).1 = some r ∧ r.len = regs ∧
      (∀ i ∈ r.regs, i ∈ rf.free) ∧
      (rf.try_alloc_range regs).2.free = rf.free.filter (fun i => !r.regs.contains i) ∧
      (rf.try_alloc_range regs).2.pick = rf.pick := by
  unfold RegFile.try_alloc_range
  cases hp : rf.pick rf.free regs with
  | none => exact Or.inl ⟨rfl, rfl⟩
  | some base =>
    simp only
    split
    · rename_i hall
      refine Or.inr ⟨_, rfl, rfl, ?_, rfl, rfl⟩
      intro i hi
      have := List.all_eq_true.1 hall i hi
      simpa using this
    · exact Or.inl ⟨rfl, rfl⟩

/-- A range that was used recently has a register, so taking it shrinks the
list of free registers. -/
theorem try_alloc_range_measure (last : List Int) (rf : RegFile) (regs : Int) :
    (rf.try_alloc_range regs).2.free.length ≤ rf.free.length ∧
    (is_used_recently last (rf.try_alloc_range regs).1 = true →
      (rf.try_alloc_range regs).2.free.length < rf.free.length) := by
  rcases try_alloc_range_spec rf regs with ⟨h1, h2⟩ | ⟨r, h1, _, h3, h4, _⟩
  · rw [h1, h2]
    exact ⟨le_refl _, by intro h; simp [is_used_recently] at h⟩
  · rw [h1, h4]
    refine ⟨List.length_filter_le _ _, ?_⟩
    intro hused
    simp only [is_used_recently, List.any_eq_true] at hused
    obtain ⟨i, hi, _⟩ := hused
    apply List.length_filter_lt_length_iff_exists.2
    exact ⟨i, h3 i hi, by simpa using hi⟩

/-- The search loop ends: an iteration either finds a range or takes at least
one free register. -/
theorem alloc_header_loop_terminates (last : List Int) (regs : Int) :
    ∀ (fuel found : Nat) (rf : RegFile) (ranges : List (Option GRFRange)),
      rf.free.length + (2 - found) ≤ fuel →
      ∃ out, alloc_header_loop last regs fuel found rf ranges = some out := by
  intro fuel
  induction fuel with
  | zero =>
    intro found rf ranges h
    have hf : ¬ (found < 2) := by omega
    unfold alloc_header_loop
    simp [hf]
  | succ fuel ih =>
    intro found rf ranges h
    unfold alloc_header_loop
    by_cases hf : found < 2
    · simp only [hf, if_true]
      obtain ⟨m1, m2⟩ := try_alloc_range_measure last rf regs
      apply ih
      cases hu : is_used_recently last (rf.try_alloc_range regs).1 with
      | true =>
        have := m2 hu
        simp only [Bool.not_true, Bool.false_eq_true, if_false]
        omega
      | false =>
        simp only [Bool.not_false, if_true]
        omega
    · simp [hf]

/-- The range the search loop obtained last was not used recently, and every
register that was free before the loop is free after it or in one of the ranges
obtained. -/
theorem alloc_header_loop_spec (last : List Int) (regs : Int) (free0 : List Int) :
    ∀ (fuel found : Nat) (rf : RegFile) (ranges out : List (Option GRFRange)) (rf1 : RegFile),
      alloc_header_loop last regs fuel found rf ranges = some (out, rf1) →
      (∀ x ∈ free0, x ∈ rf.free ∨ ∃ r, some r ∈ ranges ∧ x ∈ r.regs) →
      (found < 2 → ∃ r rest, out = r :: rest ∧ is_used_recently last r = false) ∧
      (∀ x ∈ free0, x ∈ rf1.free ∨ ∃ r, some r ∈ out ∧ x ∈ r.regs) ∧
      rf1.pick = rf.pick := by
  intro fuel
  induction fuel with
  | zero =>
    intro found rf ranges out rf1 h hinv
    unfold alloc_header_loop at h
    by_cases hf : found < 2
    · simp [hf] at h
    · simp only [hf, if_false, Option.some.injEq, Prod.mk.injEq] at h
      obtain ⟨e1, e2⟩ := h
      subst e1 e2
      exact ⟨fun h2 => absurd h2 hf, hinv, rfl⟩
  | succ fuel ih =>
    intro found rf ranges out rf1 h hinv
    unfold alloc_header_loop at h
    by_cases hf : found < 2
    · simp only [hf, if_true] at h
      have hinv2 : ∀ x ∈ free0, x ∈ (rf.try_alloc_range regs).2.free ∨
          ∃ r, some r ∈ (rf.try_alloc_range regs).1 :: ranges ∧ x ∈ r.regs := by
        intro x hx
        rcases try_alloc_range_spec rf regs with ⟨h1, h2⟩ | ⟨r, h1, _, _, h4, _⟩
        · rw [h1, h2]
          rcases hinv x hx with hfree | ⟨r, hr, hxr⟩
          · exact Or.inl hfree
          · exact Or.inr ⟨r, List.mem_cons_of_mem _ hr, hxr⟩
        · rw [h1, h4]
          rcases hinv x hx with hfree | ⟨r2, hr, hxr⟩
          · by_cases hin : x ∈ r.regs
            · exact Or.inr ⟨r, List.mem_cons_self _ _, hin⟩
            · exact Or.inl (List.mem_filter.2 ⟨hfree, by simpa using hin⟩)
          · exact Or.inr ⟨r2, List.mem_cons_of_mem _ hr, hxr⟩
      have hpick : (rf.try_alloc_range regs).2.pick = rf.pick := by
        rcases try_alloc_range_spec rf regs with ⟨_, h2⟩ | ⟨r, _, _, _, _, h5⟩
        · rw [h2]
        · exact h5
      obtain ⟨q1, q2, q3⟩ := ih _ _ _ _ _ h hinv2
      refine ⟨?_, q2, by rw [q3, hpick]⟩
      intro _
      cases hu : is_used_recently last (rf.try_alloc_range regs).1 with
      | true =>
        simp only [hu, Bool.not_true, Bool.false_eq_true, if_false] at q1
        exact q1 hf
      | false =>
        simp only [hu, Bool.not_false, if_true] at q1 h
        by_cases hf2 : found + 1 < 2
        · exact q1 hf2
        · unfold alloc_header_loop at h
          cases fuel with
          | zero =>
            simp only [hf2, if_false, Option.some.injEq, Prod.mk.injEq] at h
            exact ⟨_, _, h.1.symm, hu⟩
          | succ fuel2 =>
            simp only [hf2, if_false, Option.some.injEq, Prod.mk.injEq] at h
            exact ⟨_, _, h.1.symm, hu⟩
    · simp only [hf, if_false, Option.some.injEq, Prod.mk.injEq] at h
      obtain ⟨e1, e2⟩ := h
      subst e1 e2
      exact ⟨fun h2 => absurd h2 hf, hinv, rfl⟩

/-- Releasing ranges keeps the free registers free and frees the registers of
the ranges released. -/
theorem foldl_safeRelease_free : ∀ (ranges : List (Option GRFRange)) (rf : RegFile),
    (∀ x ∈ rf.free, x ∈ (ranges.foldl (fun rf r => rf.safeRelease r) rf).free) ∧
    (∀ r, some r ∈ ranges → ∀ x ∈ r.regs,
      x ∈ (ranges.foldl (fun rf r => rf.safeRelease r) rf).free) ∧
    (ranges.foldl (fun rf r => rf.safeRelease r) rf).pick = rf.pick := by
  intro ranges
  induction ranges with
  | nil => intro rf; exact ⟨fun x hx => hx, (by intro r hr; cases hr), rfl⟩
  | cons a rest ih =>
    intro rf
    obtain ⟨i1, i2, i3⟩ := ih (rf.safeRelease a)
    simp only [List.foldl_cons]
    have hsub : ∀ x ∈ rf.free, x ∈ (rf.safeRelease a).free := by
      intro x hx
      cases a with
      | none => exact hx
      | some r => exact List.mem_append_left _ hx
    refine ⟨fun x hx => i1 x (hsub x hx), ?_, ?_⟩
    · intro r hr x hx
      simp only [List.mem_cons] at hr
      rcases hr with hr | hr
      · subst hr
        exact i1 x (List.mem_append_right _ hx)
      · exact i2 r hr x hx
    · rw [i3]
      cases a <;> rfl

/-- The shape of a call of `alloc_header` that returns. -/
theorem alloc_header_ok (last : List Int) (rf : RegFile) (regs : Int) (fuel : Nat)
    (h : HeaderAlloc) (hres : alloc_header last rf regs fuel = some (Except.ok h)) :
    ∃ top rest rf1,
      alloc_header_loop last regs fuel 0 rf [] = some (top :: rest, rf1) ∧
      h.obtained = top :: rest ∧
      h.last_used_header_regs = record last h.range ∧
      ((top = some h.range ∧ h.fallback = false ∧
          h.rf = rest.foldl (fun rf r => rf.safeRelease r) rf1) ∨
        (top = none ∧ h.fallback = true ∧
          (rest.foldl (fun rf r => rf.safeRelease r) rf1).alloc_range regs
            = Except.ok (h.range, h.rf))) := by
  unfold alloc_header at hres
  cases hl : alloc_header_loop last regs fuel 0 rf [] with
  | none => rw [hl] at hres; simp at hres
  | some p =>
    obtain ⟨out, rf1⟩ := p
    rw [hl] at hres
    cases out with
    | nil => simp at hres
    | cons top rest =>
      simp only at hres
      cases top with
      | some range =>
        simp only [Option.some.injEq, Except.ok.injEq] at hres
        subst hres
        exact ⟨_, _, _, rfl, rfl, rfl, Or.inl ⟨rfl, rfl, rfl⟩⟩
      | none =>
        simp only at hres
        cases ha : (rest.foldl (fun rf r => rf.safeRelease r) rf1).alloc_range regs with
        | error f => rw [ha] at hres; simp at hres
        | ok q =>
          obtain ⟨range, rf2⟩ := q
          rw [ha] at hres
          simp only [Option.some.injEq, Except.ok.injEq] at hres
          subst hres
          exact ⟨_, _, _, rfl, rfl, rfl, Or.inr ⟨rfl, rfl, ha⟩⟩

/-- C25. A call of `alloc_header` that returns without taking the fall-back
allocation returns a range none of whose registers is in the recency list
`last_used_header_regs_` as it was at the call. After every call that returns,
the recency list holds at most 8 register numbers: the last 8 of the list at the
call followed by the registers of the range returned (all of them when these are
8 or fewer). -/
theorem alloc_header_avoids_recent_registers (last : List Int) (rf : RegFile) (regs : Int)
    (fuel : Nat) (h : HeaderAlloc)
    (hres : alloc_header last rf regs fuel = some (Except.ok h)) :
    (h.fallback = false → ∀ i ∈ h.range.regs, i ∉ last) ∧
    h.last_used_header_regs.length ≤ 8 ∧
    h.last_used_header_regs
      = (last ++ h.range.regs).drop ((last ++ h.range.regs).length - 8) := by
  obtain ⟨top, rest, rf1, hl, _, hrec, hcase⟩ := alloc_header_ok last rf regs fuel h hres
  obtain ⟨q1, _, _⟩ := alloc_header_loop_spec last regs rf.free fuel 0 rf [] _ rf1 hl
    (fun x hx => Or.inl hx)
  obtain ⟨r, rest2, hout, hnot⟩ := q1 (by decide)
  have hrecord : record last h.range
      = (last ++ h.range.regs).drop ((last ++ h.range.regs).length - 8) := by
    unfold record max_tracked_header_regs
    simp only
    split
    · rfl
    · rename_i hle
      have : (last ++ h.range.regs).length - 8 = 0 := by omega
      rw [this, List.drop_zero]
  refine ⟨?_, ?_, ?_⟩
  · intro hfb i hi hmem
    rcases hcase with ⟨ht, _, _⟩ | ⟨_, hf, _⟩
    · simp only [List.cons.injEq] at hout
      rw [← hout.1, ht] at hnot
      simp only [is_used_recently, List.any_eq_false] at hnot
      have := hnot i hi
      simp only [List.any_eq_true, not_exists, not_and] at this
      exact this i hmem (by simp)
    · rw [hf] at hfb
      cases hfb
  · rw [hrec, hrecord, List.length_drop]
    omega
  · rw [hrec, hrecord]

theorem alloc_header_avoids_recent_registers_witness :
    ∃ h : HeaderAlloc, alloc_header [40, 41] exampleRegFile 2 10 = some (Except.ok h) ∧
      h.range = { base := 44, len := 2 } ∧ h.fallback = false ∧
      (∀ i ∈ h.range.regs, i ∉ ([40, 41] : List Int)) ∧
      h.last_used_header_regs = [40, 41, 44, 45] := by
  have h0 : ∃ h, alloc_header [40, 41] exampleRegFile 2 10 = some (Except.ok h) ∧
      h.range = { base := 44, len := 2 } ∧ h.fallback = false ∧
      h.last_used_header_regs = [40, 41, 44, 45] := ⟨_, rfl, rfl, rfl, rfl⟩
  obtain ⟨h, h1, h2, h3, h4⟩ := h0
  exact ⟨h, h1, h2, h3,
    (alloc_header_avoids_recent_registers [40, 41] exampleRegFile 2 10 h h1).1 h3, h4⟩

/-- C27. The search loop of `alloc_header` ends: with the allocator of the
model, whose `try_alloc_range` returns a range of free registers or the invalid
range, it takes at most as many iterations as there are free registers plus two,
whatever the request is, and so does the call of `alloc_header`. When the call
returns, every range the loop obtained other than the last, which is the one
returned or invalid, has been released: each of its registers is free again (or
was taken once more by the fall-back allocation), and every register that was
free at the call is free or in the range returned. -/
theorem alloc_header_search_terminates (last : List Int) (rf : RegFile) (regs : Int)
    (fuel : Nat) (hfuel : rf.free.length + 2 ≤ fuel) :
    (∃ out, alloc_header_loop last regs fuel 0 rf [] = some out) ∧
    (∃ res, alloc_header last rf regs fuel = some res) ∧
    ∀ h, alloc_header last rf regs fuel = some (Except.ok h) →
      (∀ r : GRFRange, some r ∈ h.obtained.tail → ∀ x ∈ r.regs,
        x ∈ h.rf.free ∨ (h.fallback = true ∧ x ∈ h.range.regs)) ∧
      (∀ x ∈ rf.free, x ∈ h.rf.free ∨ x ∈ h.range.regs) := by
  have hterm := alloc_header_loop_terminates last regs fuel 0 rf [] (by omega)
  refine ⟨hterm, ?_, ?_⟩
  · obtain ⟨⟨out, rf1⟩, hl⟩ := hterm
    unfold alloc_header
    rw [hl]
    cases out with
    | nil => exact ⟨_, rfl⟩
    | cons top rest =>
      cases top with
      | some range => exact ⟨_, rfl⟩
      | none =>
        simp only
        cases (rest.foldl (fun rf r => rf.safeRelease r) rf1).alloc_range regs with
        | error f => exact ⟨_, rfl⟩
        | ok q => exact ⟨_, rfl⟩
  · intro h hres
    obtain ⟨top, rest, rf1, hl, hobt, _, hcase⟩ := alloc_header_ok last rf regs fuel h hres
    obtain ⟨_, q2, _⟩ := alloc_header_loop_spec last regs rf.free fuel 0 rf [] _ rf1 hl
      (fun x hx => Or.inl hx)
    obtain ⟨f1, f2, _⟩ := foldl_safeRelease_free rest rf1
    have hmid : ∀ x ∈ rf.free,
        x ∈ (rest.foldl (fun rf r => rf.safeRelease r) rf1).free ∨
          ∃ r, top = some r ∧ x ∈ r.regs := by
      intro x hx
      rcases q2 x hx with hfree | ⟨r, hr, hxr⟩
      · exact Or.inl (f1 x hfree)
      · simp only [List.mem_cons] at hr
        rcases hr with hr | hr
        · exact Or.inr ⟨r, hr.symm, hxr⟩
        · exact Or.inl (f2 r hr x hxr)
    rw [hobt]
    simp only [List.tail_cons]
    rcases hcase with ⟨ht, _, hrf⟩ | ⟨ht, hf, ha⟩
    · refine ⟨?_, ?_⟩
      · intro r hr x hx
        rw [hrf]
        exact Or.inl (f2 r hr x hx)
      · intro x hx
        rcases hmid x hx with hfree | ⟨r, hr, hxr⟩
        · rw [hrf]; exact Or.inl hfree
        · rw [ht] at hr
          simp only [Option.some.injEq] at hr
          subst hr
          exact Or.inr hxr
    · have hafter : ∀ x ∈ (rest.foldl (fun rf r => rf.safeRelease r) rf1).free,
          x ∈ h.rf.free ∨ x ∈ h.range.regs := by
        intro x hx
        unfold RegFile.alloc_range at ha
        rcases try_alloc_range_spec (rest.foldl (fun rf r => rf.safeRelease r) rf1) regs
          with ⟨h1, h2⟩ | ⟨r, h1, _, _, h4, _⟩
        · generalize (rest.foldl (fun rf r => rf.safeRelease r) rf1).try_alloc_range regs = p
            at ha h1 h2
          obtain ⟨a, b⟩ := p
          simp only at h1
          subst h1
          simp at ha
        · generalize hp : (rest.foldl (fun rf r => rf.safeRelease r) rf1).try_alloc_range regs
            = p at ha h1 h4
          obtain ⟨a, b⟩ := p
          simp only at h1 h4
          subst h1
          simp only [Except.ok.injEq, Prod.mk.injEq] at ha
          obtain ⟨e1, e2⟩ := ha
          by_cases hin : x ∈ r.regs
          · exact Or.inr (e1 ▸ hin)
          · rw [← e2, h4]
            exact Or.inl (List.mem_filter.2 ⟨hx, by simpa using hin⟩)
      refine ⟨?_, ?_⟩
      · intro r hr x hx
        rcases hafter x (f2 r hr x hx) with h1 | h1
        · exact Or.inl h1
        · exact Or.inr ⟨hf, h1⟩
      · intro x hx
        rcases hmid x hx with hfree | ⟨r, hr, _⟩
        · exact hafter x hfree
        · rw [ht] at hr
          cases hr

theorem alloc_header_search_terminates_witness :
    ∃ h : HeaderAlloc,
      alloc_header [40, 41, 42, 43, 44, 45, 46, 47] exampleRegFile 2 10 = some (Except.ok h) ∧
      h.obtained.length = 6 ∧
      (∀ r : GRFRange, some r ∈ h.obtained.tail → ∀ x ∈ r.regs,
        x ∈ h.rf.free ∨ (h.fallback = true ∧ x ∈ h.range.regs)) ∧
      ∀ x ∈ exampleRegFile.free, x ∈ h.rf.free ∨ x ∈ h.range.regs := by
  have h0 : ∃ h, alloc_header [40, 41, 42, 43, 44, 45, 46, 47] exampleRegFile 2 10
      = some (Except.ok h) ∧ h.obtained.length = 6 := ⟨_, rfl, rfl⟩
  obtain ⟨h, h1, h2⟩ := h0
  have key := (alloc_header_search_terminates [40, 41, 42, 43, 44, 45, 46, 47] exampleRegFile 2 10
    (by decide)).2.2 h h1
  exact ⟨h, h1, h2, key.1, key.2⟩


/-! ## C26: the allocation strategy of an alloc statement -/

/-- C26 (as the code has it). For an alloc statement of kind `grf` the strategy
is chosen by the bank-conflict attribute first and by the size after it. A
buffer that declares a bank-conflict attribute gets the bank-conflict
allocation of that attribute whatever its size is. Without the attribute, a
buffer with `size * 8 <= 64` is bound to a partial-register allocation of the
unsigned type of `size * 8` bits, and a larger one to `ceil(size / GRF bytes)`
registers, from `alloc_header` when the buffer is a header and from
`alloc_reg_buf` otherwise. -/
theorem alloc_strategy_by_attribute_then_size (host : GenHost) (size : Int)
    (attr : Option Nat) (is_header : Bool) (ra : RegAlloc) :
    (∀ a, attr = some a →
      alloc_strategy host.grf_size size attr is_header = Except.ok (AllocStrategy.bank_conflict a) ∧
      ∃ rd ra1, alloc_buf host size attr is_header ra = Except.ok (rd, ra1) ∧
        rd.base = ra.next_grf ∧ rd.type = DataType.ud) ∧
    (attr = none → size * 8 ≤ 64 →
      alloc_strategy host.grf_size size attr is_header
        = Except.ok (AllocStrategy.partial_register (size * 8)) ∧
      alloc_buf host size attr is_header ra
        = Except.ok ({ base := ra.next_grf, byteOffset := 0,
                       type := if size * 8 ≤ 8 then DataType.ub
                               else if size * 8 ≤ 16 then DataType.uw
                               else if size * 8 ≤ 32 then DataType.ud else DataType.uq },
                     { ra with next_grf := ra.next_grf + 1 })) ∧
    (attr = none → 64 < size * 8 → ∀ regs, div_up size host.grf_size = some regs →
      alloc_strategy host.grf_size size attr is_header
        = Except.ok (if is_header then AllocStrategy.header regs else AllocStrategy.range regs) ∧
      alloc_buf host size attr is_header ra
        = Except.ok ({ base := ra.next_grf, byteOffset := 0, type := DataType.ud },
                     { ra with next_grf := ra.next_grf + max regs 0 })) := by
  refine ⟨?_, ?_, ?_⟩
  · intro a ha
    subst ha
    exact ⟨rfl, _, _, rfl, rfl, rfl⟩
  · intro ha hs
    subst ha
    simp [alloc_strategy, alloc_buf, hs, RegAlloc.alloc_range]
  · intro ha hs regs hr
    subst ha
    have hn : ¬ (size * 8 ≤ 64) := by omega
    cases is_header <;> simp [alloc_strategy, alloc_buf, hn, hr, RegAlloc.alloc_range]

/-- C26 counterexample: an alloc of 8 bytes (64 bits) with a bank-conflict
attribute. The size passes `size * 8 <= 64`, but the strategy is the
bank-conflict allocation, not a partial register: the buffer is bound to a
region of type `ud` where the same buffer without the attribute is bound to a
`uq` sub-register. -/
theorem small_alloc_with_attribute_uses_bank_conflict :
    (8 : Int) * 8 ≤ 64 ∧
    alloc_strategy exampleGenHost.grf_size 8 (some 0) false
      = Except.ok (AllocStrategy.bank_conflict 0) ∧
    alloc_strategy exampleGenHost.grf_size 8 none false
      = Except.ok (AllocStrategy.partial_register 64) ∧
    alloc_buf exampleGenHost 8 (some 0) false { next_grf := 40 }
      = Except.ok ({ base := 40, byteOffset := 0, type := DataType.ud }, { next_grf := 41 }) ∧
    alloc_buf exampleGenHost 8 none false { next_grf := 40 }
      = Except.ok ({ base := 40, byteOffset := 0, type := DataType.uq }, { next_grf := 41 }) := by
  refine ⟨by decide, rfl, rfl, rfl, rfl⟩

theorem alloc_strategy_by_attribute_then_size_witness :
    alloc_strategy exampleGenHost.grf_size 8 none false
      = Except.ok (AllocStrategy.partial_register (8 * 8)) ∧
    alloc_strategy exampleGenHost.grf_size 100 none true
      = Except.ok (AllocStrategy.header 4) ∧
    alloc_strategy exampleGenHost.grf_size 100 (some 7) true
      = Except.ok (AllocStrategy.bank_conflict 7) :=
  ⟨((alloc_strategy_by_attribute_then_size exampleGenHost 8 none false { next_grf := 40 }).2.1
      rfl (by decide)).1,
   ((alloc_strategy_by_attribute_then_size exampleGenHost 100 none true { next_grf := 40 }).2.2
      rfl (by decide) 4 rfl).1,
   ((alloc_strategy_by_attribute_then_size exampleGenHost 100 (some 7) true
      { next_grf := 40 }).1 7 rfl).1⟩


/-! ## C28: the registers of the atomic-add emulation -/

/-- C28. The emulation of an atomic add on registers of 32 bytes, from an
allocator whose next free register is 40. For a qword message of 32 bytes the
function allocates `new_val` = registers 40, 41 (`2 * regs` with `regs = 1`)
and `old_save` = register 42, and the candidate region `new_val[2]` that the
add writes is register 42: outside `new_val`, and the register of
`old_save_region`. For a dword message of 64 bytes (`regs = 2`, `new_val` =
40 .. 43) the candidate region `new_val[1]` is register 41, one of the two
registers 40, 41 that the initial load of 64 bytes writes. For the two messages
the assertion names, dword x 8 (32 bytes) and qword x 8 (64 bytes), the
candidate region lies in `new_val` and apart from the registers of the load. -/
theorem atomic_add_emu_candidate_region_leaves_new_val :
    (∃ r, exampleAtomicEmu exampleAtomicQword4 = some ([40, 41], [42], r) ∧
      r.esize = 4 ∧
      region_regs 32 r.region r.esize = [42] ∧
      region_regs 32 r.old_save_region r.esize = [42] ∧
      region_regs 32 r.old_region r.esize = [40]) ∧
    (∃ r, exampleAtomicEmu exampleAtomicDword16 = some ([40, 41, 42, 43], [44, 45], r) ∧
      region_regs 32 r.region r.esize = [41] ∧
      covered_regs 32 r.load_dst exampleAtomicDword16.payload_size = [40, 41]) ∧
    (∃ r, exampleAtomicEmu exampleAtomicDword8 = some ([40, 41], [42], r) ∧
      region_regs 32 r.region r.esize = [41] ∧
      region_regs 32 r.old_save_region r.esize = [42] ∧
      covered_regs 32 r.load_dst exampleAtomicDword8.payload_size = [40]) ∧
    (∃ r, exampleAtomicEmu exampleAtomicQword8 = some ([40, 41, 42, 43], [44, 45], r) ∧
      region_regs 32 r.region r.esize = [42, 43] ∧
      region_regs 32 r.old_save_region r.esize = [44, 45] ∧
      covered_regs 32 r.load_dst exampleAtomicQword8.payload_size = [40, 41]) :=
  ⟨⟨_, rfl, rfl, rfl, rfl, rfl⟩, ⟨_, rfl, rfl, rfl⟩, ⟨_, rfl, rfl, rfl, rfl⟩,
    ⟨_, rfl, rfl, rfl, rfl⟩⟩

/-- The gcd of the model is zero only for two zeros. -/
theorem math_gcd_eq_zero (a b : Int) (h : math_gcd a b = 0) : a = 0 ∧ b = 0 := by
  unfold math_gcd at h
  have h2 : Int.gcd a b = 0 := by exact_mod_cast h
  exact Int.gcd_eq_zero_iff.1 h2

/-- C29. In `try_packed_int_peephole`, for a shuffle whose elements are
constants that fit `int` and whose indices are valid, no division is made by
zero: the function returns (true or false) without undefined behaviour in the
divisions `(vec[i] - m) / f` of `check_range`, in the test `vec_min % factor`
and in the divisions by `factor` that pack the nibbles. In particular, when all
constants are equal and the gcd is 0, the candidate 1 passes and `factor` is 1.
When the function accepts, the final factor is not zero and every quotient
`(vec[idx[i]] - vec_min) / factor` that is packed lies in `[0, 15]` for the
`:uv` form and in `[-8, 7]` for the `:v` form. The helper `math::gcd` is a
parameter that is zero only for two zeros. -/
theorem packed_int_peephole_divisors_nonzero (gcd : Int → Int → Int)
    (hgcd0 : ∀ a b : Int, gcd a b = 0 → a = 0 ∧ b = 0)
    (grf_size : Int) (dst tmp : RegData) (obj : IntShuffle) (vec : List Int)
    (hvec : constVec obj.vec = some vec) (hidx : ∀ k ∈ obj.idx, k < vec.length) :
    (∃ r, try_packed_int_peephole gcd grf_size dst tmp obj = Except.ok r) ∧
    ∀ r, try_packed_int_peephole gcd grf_size dst tmp obj = Except.ok (some r) →
      r.factor ≠ 0 ∧
      ∀ i, i < obj.elems → ∃ k v q, obj.idx[i]? = some k ∧ vec[k]? = some v ∧
        cdiv (wrap32 (v - r.vec_min)) r.factor = some q ∧
        (if r.use_uv then 0 ≤ q ∧ q ≤ 15 else -8 ≤ q ∧ q ≤ 7) := by
  rcases packed_int_peephole_cases gcd hgcd0 grf_size dst tmp obj vec hvec hidx with
    ⟨h, _⟩ | ⟨r0, V, h, _, hf, huv, hcu, hcv, _, _⟩
  · refine ⟨⟨_, h⟩, ?_⟩
    intro r hr
    rw [h] at hr
    simp at hr
  · refine ⟨⟨_, h⟩, ?_⟩
    intro r hr
    rw [h] at hr
    simp only [Except.ok.injEq, Option.some.injEq] at hr
    subst hr
    refine ⟨hf, ?_⟩
    intro i hi
    have hlt : i < obj.idx.length := hi
    have h1 : obj.idx[i]? = some obj.idx[i] := List.getElem?_eq_getElem hlt
    have hk : obj.idx[i] < vec.length := hidx _ (List.getElem_mem _)
    have h2 : vec[obj.idx[i]]? = some vec[obj.idx[i]] := List.getElem?_eq_getElem hk
    have hmem : vec[obj.idx[i]] ∈ vec := List.getElem_mem _
    cases hU : r0.use_uv with
    | true =>
      rw [hU] at hcu
      obtain ⟨q, hq, q1, q2⟩ := check_range_true _ _ _ _ vec hcu _ hmem
      exact ⟨_, _, q, h1, h2, hq, by simp [q1, q2]⟩
    | false =>
      rw [hU] at huv
      simp only [Bool.false_or] at huv
      rw [huv] at hcv
      obtain ⟨q, hq, q1, q2⟩ := check_range_true _ _ _ _ vec hcv _ hmem
      exact ⟨_, _, q, h1, h2, hq, by simp [q1, q2]⟩

theorem packed_int_peephole_divisors_nonzero_witness :
    (∃ r, try_packed_int_peephole math_gcd 32 exampleDst exampleTmp
        ⟨true, List.replicate 8 (some 7), [0, 1, 2, 3, 4, 5, 6, 7]⟩ = Except.ok (some r) ∧
      r.factor = 1) ∧
    ∃ r, try_packed_int_peephole math_gcd 32 exampleDst exampleTmp progressionShuffle
      = Except.ok r := by
  have hidx : ∀ k ∈ ([0, 1, 2, 3, 4, 5, 6, 7] : List Nat), k < 8 := by decide
  refine ⟨⟨_, rfl, rfl⟩, ?_⟩
  exact (packed_int_peephole_divisors_nonzero math_gcd math_gcd_eq_zero 32 exampleDst exampleTmp
    progressionShuffle [100, 103, 106, 109, 112, 115, 118, 121] rfl hidx).1


/-! ## C30: evaluation leaves the statement-level table as it is -/

/-- A statement without an alloc of kind `grf`, a let with a value or a
for-loop leaves the statement-level table and its log as they are. -/
theorem visit_sameTable_of_not_binds (host : GenHost) (s : Stmt) :
    ∀ g g1 : GenState, Stmt.visit host s g = Except.ok g1 → s.binds = false →
      SameTable g g1 := by
  induction s with
  | nop =>
    intro g g1 h _
    simp only [Stmt.visit, Except.ok.injEq] at h
    subst h
    exact SameTable.same_refl _
  | seq head tail ih1 ih2 =>
    intro g g1 h hb
    simp only [Stmt.binds, Bool.or_eq_false_iff] at hb
    simp only [Stmt.visit] at h
    cases h1 : Stmt.visit host head g with
    | error f => rw [h1] at h; simp at h
    | ok ga =>
      rw [h1] at h
      exact SameTable.same_trans (ih1 _ _ h1 hb.1) (ih2 _ _ h hb.2)
  | alloc kind buf size attr is_header body ih =>
    intro g g1 h hb
    simp only [Stmt.binds, Bool.or_eq_false_iff] at hb
    have hk : (kind == AllocKind.grf) = false := hb.1
    simp only [Stmt.visit, hk, Bool.false_eq_true, if_false] at h
    cases h1 : g.expr_binding.get buf with
    | error f => rw [h1] at h; simp at h
    | ok op =>
      rw [h1] at h
      simp only at h
      cases h2 : Stmt.visit host body g with
      | error f => rw [h2] at h; simp at h
      | ok ga =>
        rw [h2] at h
        simp only [Except.ok.injEq] at h
        subst h
        exact ih _ _ h2 hb.2
  | for_ var init bound step body ih =>
    intro g g1 _ hb
    simp [Stmt.binds] at hb
  | send_call func args attr =>
    intro g g1 h _
    simp only [Stmt.visit] at h
    exact visit_send_call_sameTable host func args attr g g1 h
  | call func args attr =>
    intro g g1 h _
    simp only [Stmt.visit] at h
    cases h1 : stmtEvalList host.toHost args g with
    | error f => rw [h1] at h; simp at h
    | ok p =>
      obtain ⟨ops, ga⟩ := p
      rw [h1] at h
      simp only at h
      cases h2 : host.lower_call func ops attr with
      | error f => rw [h2] at h; simp at h
      | ok code =>
        rw [h2] at h
        simp only [Except.ok.injEq] at h
        subst h
        exact SameTable.same_trans (stmtEvalList_sameTable _ _ _ _ _ h1) ⟨rfl, rfl⟩
  | if_ cond body else_body ih1 ih2 =>
    intro g g1 h hb
    simp only [Stmt.binds, Bool.or_eq_false_iff] at hb
    simp only [Stmt.visit] at h
    split at h
    · simp at h
    cases h1 : stmtEval host.toHost cond {} false g with
    | error f => rw [h1] at h; simp at h
    | ok p =>
      obtain ⟨cond_op, ga⟩ := p
      rw [h1] at h
      simp only at h
      have t1 := stmtEval_sameTable _ _ _ _ _ _ _ h1
      cases hflag : cond_op.flag_register with
      | none => rw [hflag] at h; simp at h
      | some flag =>
        rw [hflag] at h
        simp only at h
        split at h
        · simp at h
        rename_i gb hbody
        have t2 := ih1 _ _ hbody hb.1
        have t0 : SameTable g gb :=
          SameTable.same_trans t1 (SameTable.same_trans ⟨rfl, rfl⟩ t2)
        split at h
        · split at h
          · simp at h
          rename_i gc helse
          simp only [Except.ok.injEq] at h
          subst h
          have t3 := ih2 _ _ helse hb.2
          exact SameTable.same_trans t0
            (SameTable.same_trans ⟨rfl, rfl⟩ (SameTable.same_trans t3 ⟨rfl, rfl⟩))
        · simp only [Except.ok.injEq] at h
          subst h
          exact SameTable.same_trans t0 ⟨rfl, rfl⟩
  | let_ var value body ih =>
    intro g g1 h hb
    simp only [Stmt.binds, Bool.or_eq_false_iff, Bool.not_eq_false_eq_eq_true] at hb
    simp only [Stmt.visit, hb.1, if_true] at h
    cases h1 : g.expr_binding.get var with
    | error f => rw [h1] at h; simp at h
    | ok op =>
      rw [h1] at h
      simp only at h
      split at h
      · simp at h
      · exact ih _ _ h hb.2
  | store buf off value stride mask fill =>
    intro g g1 h _
    simp only [Stmt.visit] at h
    exact visit_store_sameTable host buf off value stride mask fill g g1 h
  | while_ cond body ih =>
    intro g g1 h hb
    simp only [Stmt.binds] at hb
    simp only [Stmt.visit] at h
    cases h1 : stmtEval host.toHost cond {} false
        ((g.new_label.2.new_label.2).emit (Instr.mark g.new_label.2.new_label.1)) with
    | error f => rw [h1] at h; simp at h
    | ok p =>
      obtain ⟨cond_op, ga⟩ := p
      rw [h1] at h
      simp only at h
      have t1 := stmtEval_sameTable _ _ _ _ _ _ _ h1
      cases hm : cond_op.flag_register_mod with
      | none => rw [hm] at h; simp at h
      | some m =>
        rw [hm] at h
        simp only at h
        split at h
        · simp at h
        rename_i gb hbody
        simp only [Except.ok.injEq] at h
        subst h
        have t2 := ih _ _ hbody hb
        exact SameTable.same_trans (SameTable.same_trans ⟨rfl, rfl⟩ t1)
          (SameTable.same_trans ⟨rfl, rfl⟩ (SameTable.same_trans t2 ⟨rfl, rfl⟩))

/-- C30. Every call of `ir_to_ngen_t::eval`, on one expression or on a vector
of expressions, leaves the statement-level binding table as it was: the
evaluator is built on a copy of the table and the copy is dropped with it, so
neither bindings nor destination reservations made while evaluating reach the
table of the statements. A statement that has no alloc of kind `grf`, no let
with a value and no for-loop in it leaves the table unchanged as well: only the
`bind` / `unbind` calls of those three modify it. -/
theorem eval_leaves_statement_table_unchanged (host : GenHost) :
    (∀ (e : Expr) (dst : Operand) (fill : Bool) (g g1 : GenState) (op : Operand),
      stmtEval host.toHost e dst fill g = Except.ok (op, g1) →
      g1.expr_binding = g.expr_binding) ∧
    (∀ (es : List Expr) (g g1 : GenState) (ops : List Operand),
      stmtEvalList host.toHost es g = Except.ok (ops, g1) →
      g1.expr_binding = g.expr_binding) ∧
    (∀ (s : Stmt) (g g1 : GenState),
      Stmt.visit host s g = Except.ok g1 → s.binds = false →
      g1.expr_binding = g.expr_binding) :=
  ⟨fun e dst fill g g1 op h => (stmtEval_sameTable host.toHost e dst fill g g1 op h).1,
   fun es g g1 ops h => (stmtEvalList_sameTable host.toHost es g g1 ops h).1,
   fun s g g1 h hb => (visit_sameTable_of_not_binds host s g g1 h hb).1⟩

theorem eval_leaves_statement_table_unchanged_witness :
    ∃ (op : Operand) (g1 : GenState) (s : EvalState),
      stmtEval exampleGenHost.toHost exampleSum {} false exampleGenState = Except.ok (op, g1) ∧
      g1.expr_binding = exampleGenState.expr_binding ∧
      eval exampleGenHost.toHost exampleSum {} false
        { expr_binding := exampleGenState.expr_binding, code := exampleGenState.code,
          ra := exampleGenState.ra } = Except.ok (op, s) ∧
      s.expr_binding.is_bound exampleSum = true ∧
      exampleGenState.expr_binding.is_bound exampleSum = false := by
  have h0 : ∃ p, stmtEval exampleGenHost.toHost exampleSum {} false exampleGenState
      = Except.ok p := ⟨_, rfl⟩
  obtain ⟨⟨op, g1⟩, h⟩ := h0
  have h1 : ∃ s, eval exampleGenHost.toHost exampleSum {} false
        { expr_binding := exampleGenState.expr_binding, code := exampleGenState.code,
          ra := exampleGenState.ra } = Except.ok (op, s) ∧
      s.expr_binding.is_bound exampleSum = true := by
    have h2 : stmtEval exampleGenHost.toHost exampleSum {} false exampleGenState
        = Except.ok (op, g1) := h
    unfold stmtEval at h2
    split at h2
    · simp at h2
    · rename_i op2 s hs
      simp only [Except.ok.injEq, Prod.mk.injEq] at h2
      obtain ⟨e1, _⟩ := h2
      subst e1
      refine ⟨s, hs, ?_⟩
      have hs2 : eval exampleGenHost.toHost exampleSum {} false
          { expr_binding := exampleGenState.expr_binding, code := exampleGenState.code,
            ra := exampleGenState.ra }
          = Except.ok (op2, s) := hs
      have hc : ∃ q, eval exampleGenHost.toHost exampleSum {} false
          { expr_binding := exampleGenState.expr_binding, code := exampleGenState.code,
            ra := exampleGenState.ra } = Except.ok q ∧
          q.2.expr_binding.is_bound exampleSum = true := ⟨_, rfl, rfl⟩
      obtain ⟨q, hq, hbq⟩ := hc
      rw [hq] at hs2
      simp only [Except.ok.injEq] at hs2
      subst hs2
      exact hbq
  obtain ⟨s, hs, hb⟩ := h1
  exact ⟨op, g1, s, h,
    (eval_leaves_statement_table_unchanged exampleGenHost).1 exampleSum {} false
      exampleGenState g1 op h, hs, hb, rfl⟩

end Codegen
